import Mathlib

/-!
# Delhi Metro route planner: a shallow embedding of `DELHI_METRO.cpp`

The development embeds the `MetroGraph` class of `src/DELHI_METRO.cpp`
(`addEdge`, `addStation`, `dijkstra`, `calculateFare`, `getMetroLines`,
`getCommonLines`) and the annotation loop of `main` as Lean functions and
proves properties of the shortest-path planner, the fare table, the load
operations and the line annotation.

Modelling conventions.

* `std::string` is `String`; `int` is `Int` kept inside the 32-bit signed
  range by `wrap32` at the one place where the source adds two `int`s
  (signed overflow, undefined in C++, is read as two's-complement wrap-around).
* `std::unordered_map<string, T>` is an association list with unique keys.
  `m[k]` as an rvalue is `lookupD m k dflt` with `dflt` the value-initialised
  `T` (`0`, `""`, the empty vector); `m[k] = v` is `assign m k v`.  Reading a
  missing key with `operator[]` also inserts the default entry: for the two
  local maps of `dijkstra` (`distance`, `previous`) this insertion cannot be
  observed, as they are only ever accessed through `operator[]`; for the member
  `adjacencyList` it can, and is modelled by `touch`.
* `std::priority_queue<pair<int,string>, ..., greater<>>` is a list used as a
  multiset: `push` conses, `top`/`pop` extract a least pair for the
  lexicographic order on `(int, string)`.
* The two loops of `dijkstra` that are not bounded by a container take a fuel
  argument; `none` means that the fuel ran out before the loop finished.
* Code that can throw or index an empty vector returns `Except Fault`; what
  `main` writes to `cout` is kept as the list of the operands of `<<`.
-/

namespace DelhiMetro

/-! ## Machine integers -/

/-- Value of `numeric_limits<int>::max()`. -/
def INT_MAX : Int := 2147483647

/-- Value of `numeric_limits<int>::min()`. -/
def INT_MIN : Int := -2147483648

/-- Two's-complement reduction of an integer to the 32-bit signed range. -/
def wrap32 (x : Int) : Int := (x + 2147483648) % 4294967296 - 2147483648

/-! ## Association lists standing for `unordered_map` -/

/-- Rvalue `m[k]`: the stored value, or the value-initialised default. -/
def lookupD {β : Type} : List (String × β) → String → β → β
  | [], _, dflt => dflt
  | (k', v) :: t, k, dflt => if k' = k then v else lookupD t k dflt

/-- Membership test on the keys (`m.count(k) > 0`). -/
def hasKey {β : Type} : List (String × β) → String → Bool
  | [], _ => false
  | (k', _) :: t, k => if k' = k then true else hasKey t k

/-- Assignment `m[k] = v`: overwrite the entry of `k` or create it. -/
def assign {β : Type} : List (String × β) → String → β → List (String × β)
  | [], k, v => [(k, v)]
  | (k', v') :: t, k, v => if k' = k then (k', v) :: t else (k', v') :: assign t k v

/-- Side effect of evaluating `m[k]`: a missing key is inserted with the default. -/
def touch {β : Type} (m : List (String × β)) (k : String) (dflt : β) : List (String × β) :=
  if hasKey m k then m else assign m k dflt

/-! ## Data model -/

/-- Record `struct Edge`. -/
structure Edge where
  to_ : String
  distance : Int
  metroLines : List String
  deriving DecidableEq, Repr

/-- Record `struct Station`; the `double` coordinates are kept as rationals. -/
structure Station where
  name : String
  latitude : Rat
  longitude : Rat
  metroLines : List String
  deriving DecidableEq, Repr

/-- Private state of `class MetroGraph`. -/
structure MetroGraph where
  adjacencyList : List (String × List Edge)
  stations : List (String × Station)
  deriving DecidableEq, Repr

/-- A freshly constructed `MetroGraph`. -/
def MetroGraph.empty : MetroGraph := ⟨[], []⟩

/-- Method `MetroGraph::addEdge`: two `emplace_back`s, one per direction. -/
def addEdge (g : MetroGraph) (station1 station2 : String) (distance : Int)
    (lines : List String) : MetroGraph :=
  let a1 := assign g.adjacencyList station1
    (lookupD g.adjacencyList station1 [] ++ [Edge.mk station2 distance lines])
  let a2 := assign a1 station2 (lookupD a1 station2 [] ++ [Edge.mk station1 distance lines])
  { g with adjacencyList := a2 }

/-- Method `MetroGraph::addStation`: the record of `name` is replaced. -/
def addStation (g : MetroGraph) (name : String) (latitude longitude : Rat)
    (metroLines : List String) : MetroGraph :=
  let s1 := assign g.stations name (Station.mk name latitude longitude [])
  let s2 := assign s1 name { lookupD s1 name (Station.mk "" 0 0 []) with metroLines := metroLines }
  { g with stations := s2 }

/-- Method `MetroGraph::calculateFare`; the returned `double`s are whole numbers. -/
def calculateFare (distance : Int) : Int :=
  if distance ≤ 2 then 10
  else if distance > 2 ∧ distance ≤ 5 then 20
  else if distance > 5 ∧ distance ≤ 12 then 30
  else if distance > 12 ∧ distance ≤ 21 then 40
  else if distance > 21 ∧ distance ≤ 32 then 50
  else 60

/-! ## The priority queue -/

/-- Strict order `std::less<pair<int,string>>`. -/
def pairLt (a b : Int × String) : Prop := a.1 < b.1 ∨ (a.1 = b.1 ∧ a.2 < b.2)

instance (a b : Int × String) : Decidable (pairLt a b) := by
  unfold pairLt; exact inferInstance

/-- Least element of a non-empty queue (`pq.top()`), with `x` the candidate so far. -/
def pqMin (x : Int × String) : List (Int × String) → Int × String
  | [] => x
  | y :: t => if pairLt y x then pqMin y t else pqMin x t

/-- Removal of one occurrence of `x`. -/
def pqErase (x : Int × String) : List (Int × String) → List (Int × String)
  | [] => []
  | y :: t => if y = x then t else y :: pqErase x t

/-- Combined `pq.top()` and `pq.pop()`; `none` on the empty queue. -/
def popMin : List (Int × String) → Option ((Int × String) × List (Int × String))
  | [] => none
  | x :: t => some (pqMin x t, pqErase (pqMin x t) (x :: t))

/-! ## `MetroGraph::dijkstra` -/

/-- Local variables `distance`, `previous`, `pq` of `dijkstra`. -/
structure Search where
  distance : List (String × Int)
  previous : List (String × String)
  pq : List (Int × String)
  deriving DecidableEq, Repr

/-- The loop `for (const auto& edge : adjacencyList[u])` (lines 78-89). -/
def relaxEdges (u : String) (dist : Int) : List Edge → Search → Search
  | [], st => st
  | edge :: rest, st =>
    let v := edge.to_
    let weight := edge.distance
    let new_dist := wrap32 (dist + weight)
    if new_dist < lookupD st.distance v 0 then
      relaxEdges u dist rest
        { distance := assign st.distance v new_dist
          previous := assign st.previous v u
          pq := (new_dist, v) :: st.pq }
    else
      relaxEdges u dist rest st

/-- The loop `while (!pq.empty())` (lines 62-90), threading the member
`adjacencyList` that `adjacencyList[u]` may extend. -/
def mainLoop (destination : String) :
    Nat → List (String × List Edge) → Search → Option (List (String × List Edge) × Search)
  | 0, _, _ => none
  | fuel + 1, adjacencyList, st =>
    match popMin st.pq with
    | none => some (adjacencyList, st)
    | some ((dist, u), pq') =>
      if u = destination then some (adjacencyList, { st with pq := pq' })
      else if dist > lookupD st.distance u 0 then
        mainLoop destination fuel adjacencyList { st with pq := pq' }
      else
        mainLoop destination fuel (touch adjacencyList u [])
          (relaxEdges u dist (lookupD adjacencyList u []) { st with pq := pq' })

/-- The loop `for (string at = destination; !at.empty(); at = previous[at])`
(lines 98-101); `path` is the vector built so far. -/
def walkBack (source : String) (previous : List (String × String)) :
    Nat → String → List String → Option (List String)
  | 0, _, _ => none
  | fuel + 1, cur, path =>
    if cur = "" then some path
    else if cur = source then some (path ++ [cur])
    else walkBack source previous fuel (lookupD previous cur "") (path ++ [cur])

/-- The loop `for (auto& pair : adjacencyList) distance[pair.first] = INT_MAX`. -/
def initDistance (adjacencyList : List (String × List Edge)) : List (String × Int) :=
  adjacencyList.foldl (fun distance pair => assign distance pair.1 INT_MAX) []

/-- Method `MetroGraph::dijkstra`.  The result is the graph after the call
together with the returned pair `(path, totalDistance)`. -/
def dijkstra (fuel : Nat) (g : MetroGraph) (source destination : String) :
    Option (MetroGraph × (List String × Int)) :=
  let distance := assign (initDistance g.adjacencyList) source 0
  match mainLoop destination fuel g.adjacencyList ⟨distance, [], [(0, source)]⟩ with
  | none => none
  | some (adjacencyList, st) =>
    let g' := { g with adjacencyList := adjacencyList }
    let totalDistance := lookupD st.distance destination 0
    if totalDistance = INT_MAX then some (g', ([], totalDistance))
    else
      match walkBack source st.previous fuel destination [] with
      | none => none
      | some path => some (g', (path.reverse, totalDistance))

/-! ## Load operations -/

/-- A call made during the load phase. -/
inductive LoadOp where
  | station (name : String) (latitude longitude : Rat) (metroLines : List String)
  | edge (station1 station2 : String) (distance : Int) (lines : List String)
  deriving DecidableEq, Repr

/-- Effect of one load call. -/
def LoadOp.apply (g : MetroGraph) : LoadOp → MetroGraph
  | .station n la lo ls => addStation g n la lo ls
  | .edge a b w ls => addEdge g a b w ls

/-- The graph obtained from the empty graph by a sequence of load calls. -/
def load (ops : List LoadOp) : MetroGraph := ops.foldl LoadOp.apply MetroGraph.empty

/-! ## Walks and path costs (specification vocabulary) -/

/-- Neighbour list of `u`: the vector stored under `u`, empty for an unknown name. -/
def neighbours (al : List (String × List Edge)) (u : String) : List Edge := lookupD al u []

/-- Relation `Walk al s v c`: some walk from `s` to `v` along adjacency entries has
weight `c`. -/
inductive Walk (al : List (String × List Edge)) (s : String) : String → Int → Prop
  | nil : Walk al s s 0
  | snoc {u : String} {c : Int} (e : Edge) :
      Walk al s u c → e ∈ neighbours al u → Walk al s e.to_ (c + e.distance)

/-- Every stored weight is non-negative. -/
def NonNeg (al : List (String × List Edge)) : Prop :=
  ∀ p ∈ al, ∀ e ∈ p.2, 0 ≤ e.distance

/-- Every edge target is itself a key of the adjacency list. -/
def Closed (al : List (String × List Edge)) : Prop :=
  ∀ p ∈ al, ∀ e ∈ p.2, hasKey al e.to_ = true

/-- Sum of the weights of a vector of edges. -/
def sumWeights (es : List Edge) : Int := (es.map Edge.distance).sum

/-- Sum of the weights of all adjacency entries. -/
def totalWeight (al : List (String × List Edge)) : Int := (al.map (fun p => sumWeights p.2)).sum

/-- Adjacency of consecutive stations: some entry under `a` points to `b`. -/
def Adjacent (al : List (String × List Edge)) (a b : String) : Prop :=
  ∃ e ∈ neighbours al a, e.to_ = b

/-- Smallest of a list of weights (`0` for the empty list). -/
def minOf : List Int → Int
  | [] => 0
  | [x] => x
  | x :: y :: t => min x (minOf (y :: t))

/-- Smallest weight among the adjacency entries from `a` to `b`. -/
def minWeight (al : List (String × List Edge)) (a b : String) : Int :=
  minOf (((neighbours al a).filter (fun e => e.to_ = b)).map Edge.distance)

/-- Sum over the consecutive pairs of a path of the smallest connecting weight. -/
def pathCost (al : List (String × List Edge)) : List String → Int
  | [] => 0
  | [_] => 0
  | a :: b :: t => minWeight al a b + pathCost al (b :: t)

/-- Current value of `distance[v]`. -/
def distOf (st : Search) (v : String) : Int := lookupD st.distance v 0

/-- Current value of `previous[v]`. -/
def prevOf (st : Search) (v : String) : String := lookupD st.previous v ""

/-- All edge targets of an adjacency list, with repetitions. -/
def targets : List (String × List Edge) → List String
  | [] => []
  | p :: t => p.2.map Edge.to_ ++ targets t

/-- Termination measure of the main loop: every push lowers a recorded distance. -/
def potential (T : List String) (st : Search) : Int :=
  2 * (T.map (fun v => distOf st v - INT_MIN)).sum + st.pq.length

/-- State after one successful relaxation (lines 85-87). -/
def relaxStep (st : Search) (v u : String) (nd : Int) : Search :=
  { distance := assign st.distance v nd, previous := assign st.previous v u,
    pq := (nd, v) :: st.pq }

/-- Relation between the search state before (`st`) and after (`st'`) relaxing the
edges `es` of a station `u` popped with key `k`. -/
structure RelaxPost (u : String) (k : Int) (es : List Edge) (st st' : Search) : Prop where
  le : ∀ v, distOf st' v ≤ distOf st v
  change : ∀ v, (distOf st' v = distOf st v ∧ prevOf st' v = prevOf st v) ∨
    (distOf st' v < distOf st v ∧ prevOf st' v = u ∧ (distOf st' v, v) ∈ st'.pq ∧
      ∃ e ∈ es, e.to_ = v ∧ distOf st' v = k + e.distance)
  relaxed : ∀ e ∈ es, distOf st' e.to_ ≤ k + e.distance
  keep : ∀ p ∈ st.pq, p ∈ st'.pq
  pushed : ∀ p ∈ st'.pq, p ∈ st.pq ∨
    (∃ e ∈ es, p.2 = e.to_ ∧ p.1 = k + e.distance ∧ distOf st' p.2 ≤ p.1)

/-- Weight stored under the keys that belong to `S`. -/
def weightOf (al : List (String × List Edge)) (S : List String) : Int :=
  (al.map (fun p => if p.1 ∈ S then sumWeights p.2 else 0)).sum

/-- Relation `PrevPath prev s v p`: following `prev` from `v` reaches `s`, and `p` lists
the stations met, from `s` to `v`. -/
inductive PrevPath (prev : String → String) (s : String) : String → List String → Prop
  | base : PrevPath prev s s [s]
  | step {v : String} {p : List String} :
      v ≠ s → PrevPath prev s (prev v) p → PrevPath prev s v (p ++ [v])

/-- Loop invariant of `while (!pq.empty())`, for the search from `s` to `d`; the
ghost list `S` holds the stations whose edges have been relaxed. -/
structure Inv (al : List (String × List Edge)) (s d : String) (st : Search)
    (S : List String) : Prop where
  src : distOf st s = 0
  notDest : d ∉ S
  pqKey : ∀ p ∈ st.pq, hasKey al p.2 = true
  pqLow : ∀ p ∈ st.pq, distOf st p.2 ≤ p.1 ∧ p.1 < INT_MAX
  mono : ∀ x ∈ S, ∀ p ∈ st.pq, distOf st x ≤ p.1
  bnd : ∀ v, distOf st v = INT_MAX ∨ (0 ≤ distOf st v ∧ distOf st v ≤ weightOf al S)
  front : ∀ v, v ∉ S → hasKey al v = true → distOf st v ≠ INT_MAX →
    (distOf st v, v) ∈ st.pq
  relaxed : ∀ x ∈ S, ∀ e ∈ neighbours al x, distOf st e.to_ ≤ distOf st x + e.distance
  safe : ∀ x ∈ S, ∀ e ∈ neighbours al x, distOf st x + e.distance ≤ totalWeight al
  tree : ∀ v, hasKey al v = true → distOf st v ≠ INT_MAX → v ≠ s →
    prevOf st v ∈ S ∧ ∃ e ∈ neighbours al (prevOf st v), e.to_ = v ∧
      distOf st v = distOf st (prevOf st v) + e.distance
  chain : ∀ x ∈ S, ∃ p, PrevPath (prevOf st) s x p ∧ ∀ y ∈ p, y ∈ S
  settled : ∀ x ∈ S, hasKey al x = true ∧ distOf st x ≠ INT_MAX

/-- State of the search when the main loop is left: the maps are those of a state
`stb` satisfying the invariant, whose queue is empty or has `d` with a least key. -/
def Final (al : List (String × List Edge)) (s d : String) (st : Search) : Prop :=
  ∃ stb S, Inv al s d stb S ∧ st.distance = stb.distance ∧ st.previous = stb.previous ∧
    (stb.pq = [] ∨ ∃ k, (k, d) ∈ stb.pq ∧ ∀ p ∈ stb.pq, k ≤ p.1)

/-- Facts about a station list `p` leading from `s` to `x` with recorded distance `c`. -/
structure GoodPath (al : List (String × List Edge)) (s x : String) (c : Int)
    (p : List String) : Prop where
  head : p.head? = some s
  last : p.getLast? = some x
  chain : List.Chain' (Adjacent al) p
  cost : pathCost al p = c
  walk : Walk al s x c
  split : ∀ y ∈ p, ∃ a b, Walk al s y a ∧ Walk al y x b ∧ a + b = c

/-- Weights passed to the `addEdge` calls of a load sequence. -/
def opWeights : List LoadOp → List Int
  | [] => []
  | .station _ _ _ _ :: t => opWeights t
  | .edge _ _ w _ :: t => w :: opWeights t

/-- Every entry has a reverse entry of the same weight. -/
def Symmetric (al : List (String × List Edge)) : Prop :=
  ∀ u, ∀ e ∈ neighbours al u, ∃ e' ∈ neighbours al e.to_, e'.to_ = u ∧ e'.distance = e.distance

/-! ## Concrete load sequences used as examples -/

/-- Two `addEdge` calls whose weights total `2^30 + 1`. -/
def overflowOps : List LoadOp :=
  [.edge "s" "a" 1073741824 [], .edge "a" "d" 1 []]

/-- Two `addEdge` calls forming a walk of weight `2^31 - 1`. -/
def sentinelOps : List LoadOp :=
  [.edge "a" "b" 1073741823 [], .edge "b" "c" 1073741824 []]

/-- Two `addEdge` calls through a station whose name is the empty string. -/
def emptyNameOps : List LoadOp :=
  [.edge "a" "" 1 [], .edge "" "b" 1 []]

/-- Two `addEdge` calls through the empty name, with weights 2 and 3. -/
def emptyHubOps : List LoadOp :=
  [.edge "x" "" 2 [], .edge "" "y" 3 []]

/-- A small three-station line. -/
def lineOps : List LoadOp :=
  [.edge "Samaypur Badli" "Rohini Sector 18, 19" 1 ["Yellow Line"],
   .edge "Rohini Sector 18, 19" "Haiderpur Badli Mor" 3 ["Yellow Line"]]

/-- Three registered stations of which "Jhilmil" has no edge. -/
def isolatedOps : List LoadOp :=
  [.station "Dilshad Garden" 28.682053 77.327570 ["Red Line"],
   .station "Jhilmil" 28.675620 77.314731 ["Red Line"],
   .station "Mansarovar Park" 28.672283 77.305071 ["Red Line"],
   .edge "Dilshad Garden" "Mansarovar Park" 2 ["Red Line"]]

/-- Two `addEdge` calls with weights `0` and `2^30`. -/
def asymOps : List LoadOp :=
  [.edge "a" "b" 0 [], .edge "b" "c" 1073741824 []]

/-- One `addEdge` call of weight `INT_MAX`. -/
def maxEdgeOps : List LoadOp :=
  [.edge "p" "q" 2147483647 []]

/-- Two `addEdge` calls through the empty name, between "m" and "n". -/
def emptyMidOps : List LoadOp :=
  [.edge "m" "" 1 [], .edge "" "n" 1 []]

/-- Two `addEdge` calls with weights `2^30` and `1`, between "u", "v" and "w". -/
def wrapOps : List LoadOp :=
  [.edge "u" "v" 1073741824 [], .edge "v" "w" 1 []]

/-! ## Station queries and the annotation loop of `main` -/

/-- Order `operator<` of `std::string`: lexicographic on the characters. -/
def strLt (a b : String) : Prop := a.data < b.data

instance (a b : String) : Decidable (strLt a b) := by
  unfold strLt; exact inferInstance

/-- Inner part of `std::set_intersection` while `first1` points at `a`: `rest` continues
with `first1` advanced past `a`, the argument list is what `first2` still has to read. -/
def intersectWith (a : String) (rest : List String → List String) :
    List String → List String
  | [] => []
  | b :: bs =>
    if strLt a b then rest (b :: bs)
    else if strLt b a then intersectWith a rest bs
    else a :: rest bs

/-- Library algorithm `std::set_intersection(first1, last1, first2, last2, out)` as the
standard library implements it: `while (first1 != last1 && first2 != last2)`, advance
`first1` if `*first1 < *first2`, advance `first2` if `*first2 < *first1`, otherwise copy
`*first1` and advance both.  The ranges are read as given, sorted or not. -/
def set_intersection : List String → List String → List String
  | [] => fun _ => []
  | a :: as => intersectWith a (set_intersection as)

/-- Ascending order of a line list for `operator<` (repetitions allowed): the
precondition of `std::set_intersection`. -/
def Ascending (l : List String) : Prop := l.Pairwise (fun a b => ¬ strLt b a)

/-- Lookup `m.find(k)`: the stored value if `k` is a key. -/
def findKey {β : Type} : List (String × β) → String → Option β
  | [], _ => none
  | (k', v) :: t, k => if k' = k then some v else findKey t k

/-- Default-constructed `Station()`. -/
def Station.blank : Station := ⟨"", 0, 0, []⟩

/-- Ways in which a query or the annotation loop can fail: `std::out_of_range` thrown by
`unordered_map::at`, and `v[0]` evaluated on an empty vector. -/
inductive Fault where
  | out_of_range
  | bad_index
  deriving DecidableEq, Repr

deriving instance DecidableEq for Except

/-- Method `MetroGraph::getMetroLines`: `stations.at(station).metroLines`. -/
def getMetroLines (g : MetroGraph) (station : String) : Except Fault (List String) :=
  match findKey g.stations station with
  | some st => .ok st.metroLines
  | none => .error .out_of_range

/-- Method `MetroGraph::getCommonLines`.  Both lookups are `stations[...]`, which insert a
default record for a missing name; the result carries the graph after the call. -/
def getCommonLines (g : MetroGraph) (station1 station2 : String) :
    MetroGraph × List String :=
  let s1 := touch g.stations station1 Station.blank
  let lines1 := (lookupD s1 station1 Station.blank).metroLines
  let s2 := touch s1 station2 Station.blank
  let lines2 := (lookupD s2 station2 Station.blank).metroLines
  ({ g with stations := s2 }, set_intersection lines1 lines2)

/-- The loop `for (const auto& line : currentLines)` of `main` (lines 1311-1316): the
operands written to `cout`. -/
def changeScan (nextLines : List String) : List String → Except Fault (List String)
  | [] => .ok []
  | line :: rest =>
    if line ∉ nextLines then
      match nextLines with
      | [] => .error .bad_index
      | first :: _ => .ok [" [Change to ", first, " Line]"]
    else changeScan nextLines rest

/-- Body of the annotation loop of `main` for index `i` (lines 1300-1323): the graph after
the iteration and the operands written to `cout`, in order. -/
def annotateAt (g : MetroGraph) (path : List String) (i : Nat) :
    Except Fault (MetroGraph × List String) :=
  let here := path.getD i ""
  if i < path.length - 1 then
    match getMetroLines g here with
    | .error f => .error f
    | .ok currentLines =>
      match getMetroLines g (path.getD (i + 1) "") with
      | .error f => .error f
      | .ok nextLines =>
        let r := getCommonLines g here (path.getD (i + 1) "")
        match r.2 with
        | first :: _ => .ok (r.1, [here, " (", first, ")", " -> "])
        | [] =>
          match changeScan nextLines currentLines with
          | .error f => .error f
          | .ok marker => .ok (r.1, [here] ++ marker ++ [" -> "])
  else
    match getMetroLines g here with
    | .error f => .error f
    | .ok [] => .error .bad_index
    | .ok (first :: _) => .ok (g, [here, " (", first, ")"])

/-- The loop `for (size_t i = 0; i < path.size(); ++i)` of `main`, from index `i` with `n`
iterations left. -/
def annotateLoop (path : List String) :
    Nat → Nat → MetroGraph → Except Fault (MetroGraph × List String)
  | 0, _, g => .ok (g, [])
  | n + 1, i, g =>
    match annotateAt g path i with
    | .error f => .error f
    | .ok (g1, out1) =>
      match annotateLoop path n (i + 1) g1 with
      | .error f => .error f
      | .ok (g2, out2) => .ok (g2, out1 ++ out2)

/-- The annotation loop of `main` on the whole path. -/
def annotate (g : MetroGraph) (path : List String) : Except Fault (MetroGraph × List String) :=
  annotateLoop path path.length 0 g

/-- Lines 198 of `main`: the first registration of an interchange station. -/
def kashmereOps : List LoadOp :=
  [.station "Kashmere Gate" 28.667856 77.228885 ["Yellow Line"]]

/-- Two registered stations, one with a line list that is not in ascending order. -/
def interchangeOps : List LoadOp :=
  [.station "Rajiv Chowk" 28.6286 77.2161 ["Yellow Line", "Blue Line"],
   .station "Mandi House" 28.6215 77.2321 ["Blue Line"]]

/-- Two registered stations on the same line. -/
def yellowOps : List LoadOp :=
  [.station "Samaypur Badli" 28.748035 77.134733 ["Yellow Line"],
   .station "Rohini Sector 18, 19" 28.736278 77.124249 ["Yellow Line"]]

/-- Two registered stations on different lines. -/
def transferOps : List LoadOp :=
  [.station "Shastri Park" 28.668951 77.250956 ["Red Line"],
   .station "Chandni Chowk" 28.657420 77.231109 ["Yellow Line"]]

/-- A station registered with an empty line list, next to one on the Blue Line. -/
def noLineOps : List LoadOp :=
  [.station "Yamuna Bank" 28.6133 77.2928 [],
   .station "Indraprastha" 28.6128 77.2908 ["Blue Line"]]

/-- Load call that is an `addStation`, or an `addEdge` between `a` and `b` in either
order. -/
def LoadOp.joins (a b : String) : LoadOp → Prop
  | .station _ _ _ _ => True
  | .edge x y _ _ => (x = a ∧ y = b) ∨ (x = b ∧ y = a)

/-- One `addEdge` call from the empty name. -/
def emptySourceOps : List LoadOp :=
  [.edge "" "b" 1 []]

instance (a b : String) (op : LoadOp) : Decidable (LoadOp.joins a b op) := by
  cases op <;> unfold LoadOp.joins <;> exact inferInstance

/-- Three `addEdge` calls between "a" and "b", in both orders, with weights 5, 3 and 7. -/
def parallelOps : List LoadOp :=
  [.edge "a" "b" 5 [], .edge "b" "a" 3 [], .edge "a" "b" 7 []]

/-- Annotation that the loop of `main` prints after a station name: the line shared with
the next station (or the line of the last station), or a change marker. -/
inductive Label where
  | line (name : String)
  | change (name : String)
  deriving DecidableEq, Repr

/-- Operands printed for a label. -/
def Label.text : Label → List String
  | .line name => [" (", name, ")"]
  | .change name => [" [Change to ", name, " Line]"]

/-- Operands printed for a list of stations with one label each: the arrow " -> "
separates consecutive stations. -/
def render : List (String × Label) → List String
  | [] => []
  | [(x, l)] => x :: l.text
  | (x, l) :: y :: rest => x :: l.text ++ " -> " :: render (y :: rest)

/-! ## The data of `main` and its query part -/

/-- State effect of `calculateDistance` (lines 112-138): both names are read with
`stations[...]`, which inserts a blank record for a name without one. The `double` it returns
is not modelled; the weights derived from it are a parameter of `mainEdges`. -/
def calculateDistance (g : MetroGraph) (station1 station2 : String) : MetroGraph :=
  { g with stations := touch (touch g.stations station1 Station.blank) station2 Station.blank }

/-- The `addStation` calls of `main` (lines 187-415), in source order. -/
def mainStations : List LoadOp :=
  [LoadOp.station "Samaypur Badli" 28.748035 77.134733 ["Yellow Line"],
   LoadOp.station "Rohini Sector 18, 19" 28.736278 77.124249 ["Yellow Line"],
   LoadOp.station "Haiderpur Badli Mor" 28.721776 77.154535 ["Yellow Line"],
   LoadOp.station "Jahangirpuri" 28.716939 77.170724 ["Yellow Line"],
   LoadOp.station "Adarsh Nagar" 28.714401 77.167288 ["Yellow Line"],
   LoadOp.station "Azadpur" 28.704235 77.170330 ["Yellow Line"],
   LoadOp.station "Model Town" 28.704746 77.185037 ["Yellow Line"],
   LoadOp.station "GTB Nagar" 28.699882 77.189732 ["Yellow Line"],
   LoadOp.station "Vishwavidyalaya" 28.697151 77.210441 ["Yellow Line"],
   LoadOp.station "Vidhan Sabha" 28.684715 77.217919 ["Yellow Line"],
   LoadOp.station "Civil Lines" 28.675192 77.225668 ["Yellow Line"],
   LoadOp.station "Kashmere Gate" 28.667856 77.228885 ["Yellow Line"],
   LoadOp.station "Chandni Chowk" 28.657420 77.231109 ["Yellow Line"],
   LoadOp.station "Chawri Bazar" 28.650121 77.229249 ["Yellow Line"],
   LoadOp.station "New Delhi" 28.640382 77.224842 ["Yellow Line"],
   LoadOp.station "Rajiv Chowk" 28.632782 77.219675 ["Yellow Line"],
   LoadOp.station "Patel Chowk" 28.627567 77.212830 ["Yellow Line"],
   LoadOp.station "Central Secretariat" 28.618566 77.208220 ["Yellow Line"],
   LoadOp.station "Udyog Bhawan" 28.609851 77.205502 ["Yellow Line"],
   LoadOp.station "Lok Kalyan Marg" 28.599467 77.204842 ["Yellow Line"],
   LoadOp.station "Jor Bagh" 28.589578 77.206206 ["Yellow Line"],
   LoadOp.station "INA" 28.578802 77.206432 ["Yellow Line"],
   LoadOp.station "AIIMS" 28.567786 77.209062 ["Yellow Line"],
   LoadOp.station "Green Park" 28.558330 77.207450 ["Yellow Line"],
   LoadOp.station "Hauz Khas" 28.545656 77.206173 ["Yellow Line"],
   LoadOp.station "Malviya Nagar" 28.528545 77.204276 ["Yellow Line"],
   LoadOp.station "Saket" 28.518198 77.206028 ["Yellow Line"],
   LoadOp.station "Qutab Minar" 28.508559 77.201447 ["Yellow Line"],
   LoadOp.station "Chhatarpur" 28.500326 77.175646 ["Yellow Line"],
   LoadOp.station "Sultanpur" 28.485960 77.156209 ["Yellow Line"],
   LoadOp.station "Ghitorni" 28.474529 77.146862 ["Yellow Line"],
   LoadOp.station "Arjan Garh" 28.461856 77.137522 ["Yellow Line"],
   LoadOp.station "Guru Dronacharya" 28.456780 77.121756 ["Yellow Line"],
   LoadOp.station "Sikanderpur" 28.481986 77.083438 ["Yellow Line"],
   LoadOp.station "MG Road" 28.470822 77.072855 ["Yellow Line"],
   LoadOp.station "IFFCO Chowk" 28.467601 77.064324 ["Yellow Line"],
   LoadOp.station "HUDA City Centre" 28.459940 77.050694 ["Yellow Line"],
   LoadOp.station "Shaheed Sthal (New Bus Adda)" 28.682328 77.453100 ["Red Line"],
   LoadOp.station "Hindon River" 28.676695 77.434548 ["Red Line"],
   LoadOp.station "Arthala" 28.674124 77.420869 ["Red Line"],
   LoadOp.station "Mohan Nagar" 28.668681 77.402053 ["Red Line"],
   LoadOp.station "Shyam Park" 28.671632 77.386873 ["Red Line"],
   LoadOp.station "Major Mohit Sharma Rajendra Nagar" 28.674178 77.374406 ["Red Line"],
   LoadOp.station "Raj Bagh" 28.676860 77.361217 ["Red Line"],
   LoadOp.station "Shaheed Nagar" 28.678568 77.347793 ["Red Line"],
   LoadOp.station "Dilshad Garden" 28.682053 77.327570 ["Red Line"],
   LoadOp.station "Jhilmil" 28.675620 77.314731 ["Red Line"],
   LoadOp.station "Mansarovar Park" 28.672283 77.305071 ["Red Line"],
   LoadOp.station "Shahdara" 28.670072 77.291874 ["Red Line"],
   LoadOp.station "Welcome" 28.672592 77.279591 ["Red Line"],
   LoadOp.station "Seelampur" 28.671353 77.266329 ["Red Line"],
   LoadOp.station "Shastri Park" 28.668951 77.250956 ["Red Line"],
   LoadOp.station "Kashmere Gate" 28.667856 77.228885 ["Red Line"],
   LoadOp.station "Tis Hazari" 28.664364 77.216701 ["Red Line"],
   LoadOp.station "Pulbangash" 28.664255 77.206060 ["Red Line"],
   LoadOp.station "Pratap Nagar" 28.664196 77.193961 ["Red Line"],
   LoadOp.station "Shastri Nagar" 28.666105 77.179902 ["Red Line"],
   LoadOp.station "Inderlok" 28.667297 77.168057 ["Red Line"],
   LoadOp.station "Kanhaiya Nagar" 28.682240 77.157448 ["Red Line"],
   LoadOp.station "Keshav Puram" 28.696642 77.153415 ["Red Line"],
   LoadOp.station "Netaji Subhash Place" 28.698713 77.149625 ["Red Line"],
   LoadOp.station "Shakurpur" 28.701120 77.141533 ["Red Line"],
   LoadOp.station "Punjabi Bagh West" 28.705022 77.131308 ["Red Line"],
   LoadOp.station "Ashok Park Main" 28.698374 77.125218 ["Red Line"],
   LoadOp.station "Satguru Ram Singh Marg" 28.685384 77.117357 ["Red Line"],
   LoadOp.station "Kirti Nagar" 28.678474 77.120043 ["Red Line"],
   LoadOp.station "Kashmere Gate" 28.6672231 77.2307327 ["Violet Line"],
   LoadOp.station "Lal Qila" 28.6564738 77.2410157 ["Violet Line"],
   LoadOp.station "Jama Masjid" 28.6505282 77.2360851 ["Violet Line"],
   LoadOp.station "Delhi Gate" 28.6429863 77.2433636 ["Violet Line"],
   LoadOp.station "ITO" 28.6285392 77.2447288 ["Violet Line"],
   LoadOp.station "Mandi House" 28.625755 77.241033 ["Violet Line"],
   LoadOp.station "Janpath" 28.625802 77.218707 ["Violet Line"],
   LoadOp.station "Central Secretariat" 28.614707 77.209045 ["Violet Line"],
   LoadOp.station "Khan Market" 28.6007813 77.2272815 ["Violet Line"],
   LoadOp.station "Jawaharlal Nehru Stadium" 28.5855817 77.2402333 ["Violet Line"],
   LoadOp.station "Jangpura" 28.5744807 77.2440081 ["Violet Line"],
   LoadOp.station "Lajpat Nagar" 28.5686478 77.2439311 ["Violet Line"],
   LoadOp.station "Moolchand" 28.5583036 77.237691 ["Violet Line"],
   LoadOp.station "Kailash Colony" 28.5487422 77.240526 ["Violet Line"],
   LoadOp.station "Nehru Place" 28.5411366 77.2463884 ["Violet Line"],
   LoadOp.station "Kalkaji Mandir" 28.5316742 77.2588722 ["Violet Line"],
   LoadOp.station "Govind Puri" 28.5219614 77.2670347 ["Violet Line"],
   LoadOp.station "Okhla NSIC" 28.512188 77.269095 ["Violet Line"],
   LoadOp.station "Harkesh Nagar Okhla" 28.502588 77.269853 ["Violet Line"],
   LoadOp.station "Jasola Apollo" 28.484569 77.269929 ["Violet Line"],
   LoadOp.station "Sarita Vihar" 28.474222 77.275438 ["Violet Line"],
   LoadOp.station "Mohan Estate" 28.459574 77.282737 ["Violet Line"],
   LoadOp.station "Tughlakabad" 28.441823 77.284299 ["Violet Line"],
   LoadOp.station "Badarpur Border" 28.424145 77.286287 ["Violet Line"],
   LoadOp.station "Sarai" 28.408067 77.291271 ["Violet Line"],
   LoadOp.station "NHPC Chowk" 28.393115 77.301728 ["Violet Line"],
   LoadOp.station "Mewala Maharajpur" 28.380705 77.308161 ["Violet Line"],
   LoadOp.station "Sector 28" 28.368541 77.314703 ["Violet Line"],
   LoadOp.station "Badkhal Mor" 28.353668 77.323024 ["Violet Line"],
   LoadOp.station "Old Faridabad" 28.340175 77.327356 ["Violet Line"],
   LoadOp.station "Neelam Chowk Ajronda" 28.319508 77.326519 ["Violet Line"],
   LoadOp.station "Bata Chowk" 28.306912 77.321365 ["Violet Line"],
   LoadOp.station "Escorts Mujesar" 28.289001 77.313548 ["Violet Line"],
   LoadOp.station "Majlis Park" 28.7106 77.1386 ["Pink Line"],
   LoadOp.station "Keshav Puram" 28.7091 77.1357 ["Pink Line"],
   LoadOp.station "Kanhaiya Nagar" 28.7069 77.1321 ["Pink Line"],
   LoadOp.station "Shastri Nagar" 28.7055 77.1305 ["Pink Line"],
   LoadOp.station "Tis Hazari" 28.7023 77.1328 ["Pink Line"],
   LoadOp.station "Karam Pura" 28.6921 77.1334 ["Pink Line"],
   LoadOp.station "Maya Puri" 28.6863 77.1294 ["Pink Line"],
   LoadOp.station "Patel Nagar" 28.6920 77.1370 ["Pink Line"],
   LoadOp.station "Kirti Nagar" 28.6903 77.1513 ["Pink Line"],
   LoadOp.station "Rajouri Garden" 28.6614 77.1398 ["Pink Line"],
   LoadOp.station "Maharani Bagh" 28.5858 77.2501 ["Pink Line"],
   LoadOp.station "Hazrat Nizamuddin" 28.5863 77.2453 ["Pink Line"],
   LoadOp.station "Jangpura" 28.5948 77.2498 ["Pink Line"],
   LoadOp.station "Sarai Kale Khan" 28.5806 77.2596 ["Pink Line"],
   LoadOp.station "New Ashok Nagar" 28.6102 77.2728 ["Pink Line"],
   LoadOp.station "Noida City Centre" 28.5866 77.3265 ["Pink Line"],
   LoadOp.station "Sector 15" 28.5966 77.3318 ["Pink Line"],
   LoadOp.station "Sector 18" 28.5883 77.3298 ["Pink Line"],
   LoadOp.station "Botanical Garden" 28.5852 77.3364 ["Pink Line"],
   LoadOp.station "Sector 52" 28.5834 77.3425 ["Pink Line"],
   LoadOp.station "Sector 61" 28.5795 77.3401 ["Pink Line"],
   LoadOp.station "Sector 62" 28.5722 77.3355 ["Pink Line"],
   LoadOp.station "Sector 63" 28.5726 77.3349 ["Pink Line"],
   LoadOp.station "IIT Delhi" 28.5531 77.1915 ["Pink Line"],
   LoadOp.station "Hauz Khas" 28.5505 77.2075 ["Pink Line"],
   LoadOp.station "Green Park" 28.5476 77.2046 ["Pink Line"],
   LoadOp.station "Aurobindo Place" 28.5396 77.2201 ["Pink Line"],
   LoadOp.station "Sarai Jullena" 28.5616 77.2514 ["Pink Line"],
   LoadOp.station "Ashram" 28.5664 77.2610 ["Pink Line"],
   LoadOp.station "Bhikaji Cama Place" 28.5843 77.1990 ["Pink Line"],
   LoadOp.station "Durgabai Deshmukh South Campus" 28.5783 77.2073 ["Pink Line"],
   LoadOp.station "East Azad Nagar" 28.6422 77.2810 ["Pink Line"],
   LoadOp.station "East Vinod Nagar – Mayur Vihar-II" 28.6347 77.2886 ["Pink Line"],
   LoadOp.station "ESI Hospital" 28.6152 77.2748 ["Pink Line"],
   LoadOp.station "Gokulpuri" 28.6952 77.2653 ["Pink Line"],
   LoadOp.station "IP Extension" 28.6368 77.2971 ["Pink Line"],
   LoadOp.station "Jaffrabad" 28.6945 77.2610 ["Pink Line"],
   LoadOp.station "Kalindi Kunj" 28.5324 77.2826 ["Pink Line"],
   LoadOp.station "Janakpuri West" 28.586826 77.057601 ["Magenta Line"],
   LoadOp.station "Dabri Mor" 28.581026 77.075396 ["Magenta Line"],
   LoadOp.station "Dashrathpuri" 28.580927 77.084861 ["Magenta Line"],
   LoadOp.station "Palam" 28.573446 77.099407 ["Magenta Line"],
   LoadOp.station "Sadar Bazar Cantonment" 28.568754 77.108571 ["Magenta Line"],
   LoadOp.station "Terminal 1 IGI Airport" 28.558262 77.095366 ["Magenta Line"],
   LoadOp.station "Shankar Vihar" 28.552682 77.093794 ["Magenta Line"],
   LoadOp.station "Vasant Vihar" 28.558855 77.112676 ["Magenta Line"],
   LoadOp.station "Munirka" 28.561509 77.104609 ["Magenta Line"],
   LoadOp.station "RK Puram" 28.565783 77.112351 ["Magenta Line"],
   LoadOp.station "IIT" 28.553322 77.164053 ["Magenta Line"],
   LoadOp.station "Hauz Khas" 28.549788 77.203232 ["Magenta Line"],
   LoadOp.station "Panchsheel Park" 28.543213 77.213477 ["Magenta Line"],
   LoadOp.station "Chirag Delhi" 28.543213 77.213477 ["Magenta Line"],
   LoadOp.station "Greater Kailash" 28.533080 77.240260 ["Magenta Line"],
   LoadOp.station "Nehru Enclave" 28.533124 77.251130 ["Magenta Line"],
   LoadOp.station "Kalkaji Mandir" 28.531680 77.259387 ["Magenta Line"],
   LoadOp.station "Okhla NSIC" 28.531077 77.279527 ["Magenta Line"],
   LoadOp.station "Sukhdev Vihar" 28.529560 77.291082 ["Magenta Line"],
   LoadOp.station "Jamia Milia Islamiya" 28.530743 77.306484 ["Magenta Line"],
   LoadOp.station "Okhla Vihar" 28.529877 77.319420 ["Magenta Line"],
   LoadOp.station "Jasola Vihar Shaheen Bagh" 28.523699 77.332795 ["Magenta Line"],
   LoadOp.station "Kalindi Kunj" 28.510310 77.336334 ["Magenta Line"],
   LoadOp.station "Okhla Bird Sanctuary" 28.502383 77.332879 ["Magenta Line"],
   LoadOp.station "Botanical Garden" 28.506285 77.334550 ["Magenta Line"],
   LoadOp.station "New Delhi" 28.640196 77.219638 ["Airport Express Line"],
   LoadOp.station "Shivaji Stadium" 28.631508 77.216059 ["Airport Express Line"],
   LoadOp.station "Dhaula Kuan" 28.603580 77.189060 ["Airport Express Line"],
   LoadOp.station "Delhi Aerocity" 28.572211 77.195070 ["Airport Express Line"],
   LoadOp.station "Airport T3" 28.570166 77.109497 ["Airport Express Line"],
   LoadOp.station "Dwarka Sector 21" 28.561731 77.023850 ["Airport Express Line"],
   LoadOp.station "Yashobhoomi Dwarka Sector 25" 28.559616 77.016670 ["Airport Express Line"],
   LoadOp.station "Noida Electronic City" 28.5602 77.3192 ["Blue Line"],
   LoadOp.station "Noida Sector 62" 28.5933 77.3324 ["Blue Line"],
   LoadOp.station "Noida Sector 59" 28.5956 77.3383 ["Blue Line"],
   LoadOp.station "Noida Sector 61" 28.5976 77.3398 ["Blue Line"],
   LoadOp.station "Noida Sector 52" 28.5927 77.3378 ["Blue Line"],
   LoadOp.station "Noida Sector 34" 28.5941 77.3284 ["Blue Line"],
   LoadOp.station "Noida City Centre" 28.5964 77.3265 ["Blue Line"],
   LoadOp.station "Golf Course" 28.5940 77.3585 ["Blue Line"],
   LoadOp.station "Botanical Garden" 28.5727 77.3290 ["Blue Line"],
   LoadOp.station "Noida Sector 18" 28.5855 77.3378 ["Blue Line"],
   LoadOp.station "Noida Sector 16" 28.5960 77.3307 ["Blue Line"],
   LoadOp.station "Noida Sector 15" 28.5965 77.3302 ["Blue Line"],
   LoadOp.station "New Ashok Nagar" 28.5914 77.3166 ["Blue Line"],
   LoadOp.station "Mayur Vihar Extension" 28.5933 77.3042 ["Blue Line"],
   LoadOp.station "Mayur Vihar I" 28.5941 77.3064 ["Blue Line"],
   LoadOp.station "Akshardham" 28.6139 77.2757 ["Blue Line"],
   LoadOp.station "Yamuna Bank" 28.6133 77.2928 ["Blue Line"],
   LoadOp.station "Indraprastha" 28.6128 77.2908 ["Blue Line"],
   LoadOp.station "Supreme Court (Pragati Maidan)" 28.6115 77.2616 ["Blue Line"],
   LoadOp.station "Mandi House" 28.6215 77.2321 ["Blue Line"],
   LoadOp.station "Barakhambha Road" 28.6288 77.2248 ["Blue Line"],
   LoadOp.station "Rajiv Chowk" 28.6286 77.2161 ["Blue Line"],
   LoadOp.station "RK Ashram Marg" 28.6297 77.2094 ["Blue Line"],
   LoadOp.station "Jhandewalan" 28.6307 77.2070 ["Blue Line"],
   LoadOp.station "Karol Bagh" 28.6312 77.1984 ["Blue Line"],
   LoadOp.station "Rajendra Place" 28.6324 77.1837 ["Blue Line"],
   LoadOp.station "Patel Nagar" 28.6342 77.1698 ["Blue Line"],
   LoadOp.station "Shadipur" 28.6353 77.1591 ["Blue Line"],
   LoadOp.station "Kirti Nagar" 28.6358 77.1466 ["Blue Line"],
   LoadOp.station "Moti Nagar" 28.6356 77.1366 ["Blue Line"],
   LoadOp.station "Ramesh Nagar" 28.6352 77.1252 ["Blue Line"],
   LoadOp.station "Rajouri Garden" 28.6357 77.1137 ["Blue Line"],
   LoadOp.station "Tagore Garden" 28.6356 77.1015 ["Blue Line"],
   LoadOp.station "Subhash Nagar" 28.6341 77.0890 ["Blue Line"],
   LoadOp.station "Tilak Nagar" 28.6340 77.0768 ["Blue Line"],
   LoadOp.station "Janakpuri East" 28.6168 77.0841 ["Blue Line"],
   LoadOp.station "Janakpuri West" 28.5868 77.0576 ["Blue Line"],
   LoadOp.station "Uttam Nagar East" 28.5938 77.0598 ["Blue Line"],
   LoadOp.station "Uttam Nagar West" 28.5824 77.0464 ["Blue Line"],
   LoadOp.station "Nawada" 28.5702 77.0347 ["Blue Line"],
   LoadOp.station "Dwarka Mor" 28.5584 77.0277 ["Blue Line"],
   LoadOp.station "Dwarka" 28.5555 77.0236 ["Blue Line"],
   LoadOp.station "Dwarka Sector 14" 28.5583 77.0166 ["Blue Line"],
   LoadOp.station "Dwarka Sector 13" 28.5624 77.0113 ["Blue Line"],
   LoadOp.station "Dwarka Sector 12" 28.5664 77.0072 ["Blue Line"],
   LoadOp.station "Dwarka Sector 11" 28.5705 77.0032 ["Blue Line"],
   LoadOp.station "Dwarka Sector 10" 28.5755 76.9986 ["Blue Line"],
   LoadOp.station "Dwarka Sector 9" 28.5790 76.9927 ["Blue Line"],
   LoadOp.station "Dwarka Sector 8" 28.5831 76.9869 ["Blue Line"],
   LoadOp.station "Dwarka Sector 21" 28.5606 77.0217 ["Blue Line"]]

/-- The `calculateDistance` calls of `main` (lines 418-642), in source order: the variable
that receives the result and the two station names. -/
def mainDistances : List (String × String × String) :=
  [("a1", "Samaypur Badli", "Rohini Sector 18, 19"),
   ("a2", "Rohini Sector 18, 19", "Haiderpur Badli Mor"),
   ("a3", "Haiderpur Badli Mor", "Jahangirpuri"),
   ("a4", "Jahangirpuri", "Adarsh Nagar"),
   ("a5", "Adarsh Nagar", "Azadpur"),
   ("a6", "Azadpur", "Model Town"),
   ("a7", "Model Town", "GTB Nagar"),
   ("a8", "GTB Nagar", "Vishwavidyalaya"),
   ("a9", "Vishwavidyalaya", "Vidhan Sabha"),
   ("a10", "Vidhan Sabha", "Civil Lines"),
   ("a11", "Civil Lines", "Kashmere Gate"),
   ("a12", "Kashmere Gate", "Chandni Chowk"),
   ("a13", "Chandni Chowk", "Chawri Bazar"),
   ("a14", "Chawri Bazar", "New Delhi"),
   ("a15", "New Delhi", "Rajiv Chowk"),
   ("a16", "Rajiv Chowk", "Patel Chowk"),
   ("a17", "Patel Chowk", "Central Secretariat"),
   ("a18", "Central Secretariat", "Udyog Bhawan"),
   ("a19", "Udyog Bhawan", "Lok Kalyan Marg"),
   ("a20", "Lok Kalyan Marg", "Jor Bagh"),
   ("a21", "Jor Bagh", "INA"),
   ("a22", "INA", "AIIMS"),
   ("a23", "AIIMS", "Green Park"),
   ("a24", "Green Park", "Hauz Khas"),
   ("a25", "Hauz Khas", "Malviya Nagar"),
   ("a26", "Malviya Nagar", "Saket"),
   ("a27", "Saket", "Qutab Minar"),
   ("a28", "Qutab Minar", "Chhatarpur"),
   ("a29", "Chhatarpur", "Sultanpur"),
   ("a30", "Sultanpur", "Ghitorni"),
   ("a31", "Ghitorni", "Arjan Garh"),
   ("a32", "Arjan Garh", "Guru Dronacharya"),
   ("a33", "Guru Dronacharya", "Sikanderpur"),
   ("a34", "Sikanderpur", "MG Road"),
   ("a35", "MG Road", "IFFCO Chowk"),
   ("a36", "IFFCO Chowk", "HUDA City Centre"),
   ("b1", "Shaheed Sthal (New Bus Adda)", "Hindon River"),
   ("b2", "Hindon River", "Arthala"),
   ("b3", "Arthala", "Mohan Nagar"),
   ("b4", "Mohan Nagar", "Shyam Park"),
   ("b5", "Shyam Park", "Major Mohit Sharma Rajendra Nagar"),
   ("b6", "Major Mohit Sharma Rajendra Nagar", "Raj Bagh"),
   ("b7", "Raj Bagh", "Shaheed Nagar"),
   ("b8", "Shaheed Nagar", "Dilshad Garden"),
   ("b9", "Dilshad Garden", "Jhilmil"),
   ("b10", "Jhilmil", "Mansarovar Park"),
   ("b11", "Mansarovar Park", "Shahdara"),
   ("b12", "Shahdara", "Welcome"),
   ("b13", "Welcome", "Seelampur"),
   ("b14", "Seelampur", "Shastri Park"),
   ("b15", "Shastri Park", "Kashmere Gate"),
   ("b16", "Kashmere Gate", "Tis Hazari"),
   ("b17", "Tis Hazari", "Pulbangash"),
   ("b18", "Pulbangash", "Pratap Nagar"),
   ("b19", "Pratap Nagar", "Shastri Nagar"),
   ("b20", "Shastri Nagar", "Inderlok"),
   ("b21", "Inderlok", "Kanhaiya Nagar"),
   ("b22", "Kanhaiya Nagar", "Keshav Puram"),
   ("b23", "Keshav Puram", "Netaji Subhash Place"),
   ("b24", "Netaji Subhash Place", "Shakurpur"),
   ("b25", "Shakurpur", "Punjabi Bagh West"),
   ("b26", "Punjabi Bagh West", "Ashok Park Main"),
   ("b27", "Ashok Park Main", "Satguru Ram Singh Marg"),
   ("b28", "Satguru Ram Singh Marg", "Kirti Nagar"),
   ("d1", "Kashmere Gate", "Lal Qila"),
   ("d2", "Lal Qila", "Jama Masjid"),
   ("d3", "Jama Masjid", "Delhi Gate"),
   ("d4", "Delhi Gate", "ITO"),
   ("d5", "ITO", "Mandi House"),
   ("d6", "Mandi House", "Janpath"),
   ("d7", "Janpath", "Central Secretariat"),
   ("d8", "Central Secretariat", "Khan Market"),
   ("d9", "Khan Market", "Jawaharlal Nehru Stadium"),
   ("d10", "Jawaharlal Nehru Stadium", "Jangpura"),
   ("d11", "Jangpura", "Lajpat Nagar"),
   ("d12", "Lajpat Nagar", "Moolchand"),
   ("d13", "Moolchand", "Kailash Colony"),
   ("d14", "Kailash Colony", "Nehru Place"),
   ("d15", "Nehru Place", "Kalkaji Mandir"),
   ("d16", "Kalkaji Mandir", "Govind Puri"),
   ("d17", "Govind Puri", "Okhla NSIC"),
   ("d18", "Okhla NSIC", "Harkesh Nagar Okhla"),
   ("d19", "Harkesh Nagar Okhla", "Jasola Apollo"),
   ("d20", "Jasola Apollo", "Sarita Vihar"),
   ("d21", "Sarita Vihar", "Mohan Estate"),
   ("d22", "Mohan Estate", "Tughlakabad"),
   ("d23", "Tughlakabad", "Badarpur Border"),
   ("d24", "Badarpur Border", "Sarai"),
   ("d25", "Sarai", "NHPC Chowk"),
   ("d26", "NHPC Chowk", "Mewala Maharajpur"),
   ("d27", "Mewala Maharajpur", "Sector 28"),
   ("d28", "Sector 28", "Badkhal Mor"),
   ("d29", "Badkhal Mor", "Old Faridabad"),
   ("d30", "Old Faridabad", "Neelam Chowk Ajronda"),
   ("d31", "Neelam Chowk Ajronda", "Bata Chowk"),
   ("d32", "Bata Chowk", "Escorts Mujesar"),
   ("e1", "Majlis Park", "Keshav Puram"),
   ("e2", "Keshav Puram", "Kanhaiya Nagar"),
   ("e3", "Kanhaiya Nagar", "Shastri Nagar"),
   ("e4", "Shastri Nagar", "Tis Hazari"),
   ("e5", "Tis Hazari", "Karam Pura"),
   ("e6", "Karam Pura", "Maya Puri"),
   ("e7", "Maya Puri", "Patel Nagar"),
   ("e8", "Patel Nagar", "Kirti Nagar"),
   ("e9", "Kirti Nagar", "Rajouri Garden"),
   ("e10", "Rajouri Garden", "Maharani Bagh"),
   ("e11", "Maharani Bagh", "Hazrat Nizamuddin"),
   ("e12", "Hazrat Nizamuddin", "Jangpura"),
   ("e13", "Jangpura", "Sarai Kale Khan"),
   ("e14", "Sarai Kale Khan", "New Ashok Nagar"),
   ("e15", "New Ashok Nagar", "Noida City Centre"),
   ("e16", "Noida City Centre", "Sector 15"),
   ("e17", "Sector 15", "Sector 18"),
   ("e18", "Sector 18", "Botanical Garden"),
   ("e19", "Botanical Garden", "Sector 52"),
   ("e20", "Sector 52", "Sector 61"),
   ("e21", "Sector 61", "Sector 62"),
   ("e22", "Sector 62", "Sector 63"),
   ("e23", "Sector 63", "IIT Delhi"),
   ("e24", "IIT Delhi", "Hauz Khas"),
   ("e25", "Hauz Khas", "Green Park"),
   ("e26", "Green Park", "Aurobindo Place"),
   ("e27", "Aurobindo Place", "Sarai Jullena"),
   ("e28", "Sarai Jullena", "Ashram"),
   ("e29", "Ashram", "Bhikaji Cama Place"),
   ("e30", "Bhikaji Cama Place", "Durgabai Deshmukh South Campus"),
   ("e31", "Durgabai Deshmukh South Campus", "East Azad Nagar"),
   ("e32", "East Azad Nagar", "East Vinod Nagar – Mayur Vihar-II"),
   ("e33", "East Vinod Nagar – Mayur Vihar-II", "ESI Hospital"),
   ("e34", "ESI Hospital", "Gokulpuri"),
   ("e35", "Gokulpuri", "IP Extension"),
   ("e36", "IP Extension", "Jaffrabad"),
   ("e37", "Jaffrabad", "Kalindi Kunj"),
   ("f1", "Janakpuri West", "Dabri Mor"),
   ("f2", "Dabri Mor", "Dashrathpuri"),
   ("f3", "Dashrathpuri", "Palam"),
   ("f4", "Palam", "Sadar Bazar Cantonment"),
   ("f5", "Sadar Bazar Cantonment", "Terminal 1 IGI Airport"),
   ("f6", "Terminal 1 IGI Airport", "Shankar Vihar"),
   ("f7", "Shankar Vihar", "Vasant Vihar"),
   ("f8", "Vasant Vihar", "Munirka"),
   ("f9", "Munirka", "RK Puram"),
   ("f10", "RK Puram", "IIT"),
   ("f11", "IIT", "Hauz Khas"),
   ("f12", "Hauz Khas", "Panchsheel Park"),
   ("f13", "Panchsheel Park", "Chirag Delhi"),
   ("f14", "Chirag Delhi", "Greater Kailash"),
   ("f15", "Greater Kailash", "Nehru Enclave"),
   ("f16", "Nehru Enclave", "Kalkaji Mandir"),
   ("f17", "Kalkaji Mandir", "Okhla NSIC"),
   ("f18", "Okhla NSIC", "Sukhdev Vihar"),
   ("f19", "Sukhdev Vihar", "Jamia Milia Islamiya"),
   ("f20", "Jamia Milia Islamiya", "Okhla Vihar"),
   ("f21", "Okhla Vihar", "Jasola Vihar Shaheen Bagh"),
   ("f22", "Jasola Vihar Shaheen Bagh", "Kalindi Kunj"),
   ("f23", "Kalindi Kunj", "Okhla Bird Sanctuary"),
   ("f24", "Okhla Bird Sanctuary", "Botanical Garden"),
   ("g1", "New Delhi", "Shivaji Stadium"),
   ("g2", "Shivaji Stadium", "Dhaula Kuan"),
   ("g3", "Dhaula Kuan", "Delhi Aerocity"),
   ("g4", "Delhi Aerocity", "Airport T3"),
   ("g5", "Airport T3", "Dwarka Sector 21"),
   ("g6", "Dwarka Sector 21", "Yashobhoomi Dwarka Sector 25"),
   ("i1", "Noida Electronic City", "Noida Sector 62"),
   ("i2", "Noida Sector 62", "Noida Sector 59"),
   ("i3", "Noida Sector 59", "Noida Sector 61"),
   ("i4", "Noida Sector 61", "Noida Sector 52"),
   ("i5", "Noida Sector 52", "Noida Sector 34"),
   ("i6", "Noida Sector 34", "Noida City Centre"),
   ("i7", "Noida City Centre", "Golf Course"),
   ("i8", "Golf Course", "Botanical Garden"),
   ("i9", "Botanical Garden", "Noida Sector 18"),
   ("i10", "Noida Sector 18", "Noida Sector 16"),
   ("i11", "Noida Sector 16", "Noida Sector 15"),
   ("i12", "Noida Sector 15", "New Ashok Nagar"),
   ("i13", "New Ashok Nagar", "Mayur Vihar Extension"),
   ("i14", "Mayur Vihar Extension", "Mayur Vihar I"),
   ("i15", "Mayur Vihar I", "Akshardham"),
   ("i16", "Akshardham", "Yamuna Bank"),
   ("i17", "Yamuna Bank", "Indraprastha"),
   ("i18", "Indraprastha", "Supreme Court (Pragati Maidan)"),
   ("i19", "Supreme Court (Pragati Maidan)", "Mandi House"),
   ("i20", "Mandi House", "Barakhambha Road"),
   ("i21", "Barakhambha Road", "Rajiv Chowk"),
   ("i22", "Rajiv Chowk", "RK Ashram Marg"),
   ("i23", "RK Ashram Marg", "Jhandewalan"),
   ("i24", "Jhandewalan", "Karol Bagh"),
   ("i25", "Karol Bagh", "Rajendra Place"),
   ("i26", "Rajendra Place", "Patel Nagar"),
   ("i27", "Patel Nagar", "Shadipur"),
   ("i28", "Shadipur", "Kirti Nagar"),
   ("i29", "Kirti Nagar", "Moti Nagar"),
   ("i30", "Moti Nagar", "Ramesh Nagar"),
   ("i31", "Ramesh Nagar", "Rajouri Garden"),
   ("i32", "Rajouri Garden", "Tagore Garden"),
   ("i33", "Tagore Garden", "Subhash Nagar"),
   ("i34", "Subhash Nagar", "Tilak Nagar"),
   ("i35", "Tilak Nagar", "Janakpuri East"),
   ("i36", "Janakpuri East", "Janakpuri West"),
   ("i37", "Janakpuri West", "Uttam Nagar East"),
   ("i38", "Uttam Nagar East", "Uttam Nagar West"),
   ("i39", "Uttam Nagar West", "Nawada"),
   ("i40", "Nawada", "Dwarka Mor"),
   ("i41", "Dwarka Mor", "Dwarka"),
   ("i42", "Dwarka", "Dwarka Sector 14"),
   ("i43", "Dwarka Sector 14", "Dwarka Sector 13"),
   ("i44", "Dwarka Sector 13", "Dwarka Sector 12"),
   ("i45", "Dwarka Sector 12", "Dwarka Sector 11"),
   ("i46", "Dwarka Sector 11", "Dwarka Sector 10"),
   ("i47", "Dwarka Sector 10", "Dwarka Sector 9"),
   ("i48", "Dwarka Sector 9", "Dwarka Sector 8"),
   ("i49", "Dwarka Sector 8", "Dwarka Sector 21")]

/-- The `addEdge` calls of `main` (lines 644-1286), in source order: the two
station names, the distance variable `v` of `static_cast<int>(v)`, and the line list. -/
def mainEdgeCalls : List (String × String × String × List String) :=
  [("Samaypur Badli", "Rohini Sector 18, 19", "a1", ["Yellow Line"]),
   ("Rohini Sector 18, 19", "Samaypur Badli", "a1", ["Yellow Line"]),
   ("Rohini Sector 18, 19", "Haiderpur Badli Mor", "a2", ["Yellow Line"]),
   ("Haiderpur Badli Mor", "Rohini Sector 18, 19", "a2", ["Yellow Line"]),
   ("Haiderpur Badli Mor", "Jahangirpuri", "a3", ["Yellow Line"]),
   ("Jahangirpuri", "Haiderpur Badli Mor", "a3", ["Yellow Line"]),
   ("Jahangirpuri", "Adarsh Nagar", "a4", ["Yellow Line"]),
   ("Adarsh Nagar", "Jahangirpuri", "a4", ["Yellow Line"]),
   ("Adarsh Nagar", "Azadpur", "a5", ["Yellow Line"]),
   ("Azadpur", "Adarsh Nagar", "a5", ["Yellow Line"]),
   ("Azadpur", "Model Town", "a6", ["Yellow Line"]),
   ("Model Town", "Azadpur", "a6", ["Yellow Line"]),
   ("Model Town", "GTB Nagar", "a7", ["Yellow Line"]),
   ("GTB Nagar", "Model Town", "a7", ["Yellow Line"]),
   ("GTB Nagar", "Vishwavidyalaya", "a8", ["Yellow Line"]),
   ("Vishwavidyalaya", "GTB Nagar", "a8", ["Yellow Line"]),
   ("Vishwavidyalaya", "Vidhan Sabha", "a9", ["Yellow Line"]),
   ("Vidhan Sabha", "Vishwavidyalaya", "a9", ["Yellow Line"]),
   ("Vidhan Sabha", "Civil Lines", "a10", ["Yellow Line"]),
   ("Civil Lines", "Vidhan Sabha", "a10", ["Yellow Line"]),
   ("Civil Lines", "Kashmere Gate", "a11", ["Yellow Line"]),
   ("Kashmere Gate", "Civil Lines", "a11", ["Yellow Line"]),
   ("Kashmere Gate", "Chandni Chowk", "a12", ["Yellow Line"]),
   ("Chandni Chowk", "Kashmere Gate", "a12", ["Yellow Line"]),
   ("Chandni Chowk", "Chawri Bazar", "a13", ["Yellow Line"]),
   ("Chawri Bazar", "Chandni Chowk", "a13", ["Yellow Line"]),
   ("Chawri Bazar", "New Delhi", "a14", ["Yellow Line"]),
   ("New Delhi", "Chawri Bazar", "a14", ["Yellow Line"]),
   ("New Delhi", "Rajiv Chowk", "a15", ["Yellow Line"]),
   ("Rajiv Chowk", "New Delhi", "a15", ["Yellow Line"]),
   ("Rajiv Chowk", "Patel Chowk", "a16", ["Yellow Line"]),
   ("Patel Chowk", "Rajiv Chowk", "a16", ["Yellow Line"]),
   ("Patel Chowk", "Central Secretariat", "a17", ["Yellow Line"]),
   ("Central Secretariat", "Patel Chowk", "a17", ["Yellow Line"]),
   ("Central Secretariat", "Udyog Bhawan", "a18", ["Yellow Line"]),
   ("Udyog Bhawan", "Central Secretariat", "a18", ["Yellow Line"]),
   ("Udyog Bhawan", "Lok Kalyan Marg", "a19", ["Yellow Line"]),
   ("Lok Kalyan Marg", "Udyog Bhawan", "a19", ["Yellow Line"]),
   ("Lok Kalyan Marg", "Jor Bagh", "a20", ["Yellow Line"]),
   ("Jor Bagh", "Lok Kalyan Marg", "a20", ["Yellow Line"]),
   ("Jor Bagh", "INA", "a21", ["Yellow Line"]),
   ("INA", "Jor Bagh", "a21", ["Yellow Line"]),
   ("INA", "AIIMS", "a22", ["Yellow Line"]),
   ("AIIMS", "INA", "a22", ["Yellow Line"]),
   ("AIIMS", "Green Park", "a23", ["Yellow Line"]),
   ("Green Park", "AIIMS", "a23", ["Yellow Line"]),
   ("Green Park", "Hauz Khas", "a24", ["Yellow Line"]),
   ("Hauz Khas", "Green Park", "a24", ["Yellow Line"]),
   ("Hauz Khas", "Malviya Nagar", "a25", ["Yellow Line"]),
   ("Malviya Nagar", "Hauz Khas", "a25", ["Yellow Line"]),
   ("Malviya Nagar", "Saket", "a26", ["Yellow Line"]),
   ("Saket", "Malviya Nagar", "a26", ["Yellow Line"]),
   ("Saket", "Qutab Minar", "a27", ["Yellow Line"]),
   ("Qutab Minar", "Saket", "a27", ["Yellow Line"]),
   ("Qutab Minar", "Chhatarpur", "a28", ["Yellow Line"]),
   ("Chhatarpur", "Qutab Minar", "a28", ["Yellow Line"]),
   ("Chhatarpur", "Sultanpur", "a29", ["Yellow Line"]),
   ("Sultanpur", "Chhatarpur", "a29", ["Yellow Line"]),
   ("Sultanpur", "Ghitorni", "a30", ["Yellow Line"]),
   ("Ghitorni", "Sultanpur", "a30", ["Yellow Line"]),
   ("Ghitorni", "Arjan Garh", "a31", ["Yellow Line"]),
   ("Arjan Garh", "Ghitorni", "a31", ["Yellow Line"]),
   ("Arjan Garh", "Guru Dronacharya", "a32", ["Yellow Line"]),
   ("Guru Dronacharya", "Arjan Garh", "a32", ["Yellow Line"]),
   ("Guru Dronacharya", "Sikanderpur", "a33", ["Yellow Line"]),
   ("Sikanderpur", "Guru Dronacharya", "a33", ["Yellow Line"]),
   ("Sikanderpur", "MG Road", "a34", ["Yellow Line"]),
   ("MG Road", "Sikanderpur", "a34", ["Yellow Line"]),
   ("MG Road", "IFFCO Chowk", "a35", ["Yellow Line"]),
   ("IFFCO Chowk", "MG Road", "a35", ["Yellow Line"]),
   ("IFFCO Chowk", "HUDA City Centre", "a36", ["Yellow Line"]),
   ("HUDA City Centre", "IFFCO Chowk", "a36", ["Yellow Line"]),
   ("Shaheed Sthal (New Bus Adda)", "Hindon River", "b1", ["Red Line"]),
   ("Hindon River", "Shaheed Sthal (New Bus Adda)", "b1", ["Red Line"]),
   ("Hindon River", "Arthala", "b2", ["Red Line"]),
   ("Arthala", "Hindon River", "b2", ["Red Line"]),
   ("Arthala", "Mohan Nagar", "b3", ["Red Line"]),
   ("Mohan Nagar", "Arthala", "b3", ["Red Line"]),
   ("Mohan Nagar", "Shyam Park", "b4", ["Red Line"]),
   ("Shyam Park", "Mohan Nagar", "b4", ["Red Line"]),
   ("Shyam Park", "Major Mohit Sharma Rajendra Nagar", "b5", ["Red Line"]),
   ("Major Mohit Sharma Rajendra Nagar", "Shyam Park", "b5", ["Red Line"]),
   ("Major Mohit Sharma Rajendra Nagar", "Raj Bagh", "b6", ["Red Line"]),
   ("Raj Bagh", "Major Mohit Sharma Rajendra Nagar", "b6", ["Red Line"]),
   ("Raj Bagh", "Shaheed Nagar", "b7", ["Red Line"]),
   ("Shaheed Nagar", "Raj Bagh", "b7", ["Red Line"]),
   ("Shaheed Nagar", "Dilshad Garden", "b8", ["Red Line"]),
   ("Dilshad Garden", "Shaheed Nagar", "b8", ["Red Line"]),
   ("Dilshad Garden", "Jhilmil", "b9", ["Red Line"]),
   ("Jhilmil", "Dilshad Garden", "b9", ["Red Line"]),
   ("Jhilmil", "Mansarovar Park", "b10", ["Red Line"]),
   ("Mansarovar Park", "Jhilmil", "b10", ["Red Line"]),
   ("Mansarovar Park", "Shahdara", "b11", ["Red Line"]),
   ("Shahdara", "Mansarovar Park", "b11", ["Red Line"]),
   ("Shahdara", "Welcome", "b12", ["Red Line"]),
   ("Welcome", "Shahdara", "b12", ["Red Line"]),
   ("Welcome", "Seelampur", "b13", ["Red Line"]),
   ("Seelampur", "Welcome", "b13", ["Red Line"]),
   ("Seelampur", "Shastri Park", "b14", ["Red Line"]),
   ("Shastri Park", "Seelampur", "b14", ["Red Line"]),
   ("Shastri Park", "Kashmere Gate", "b15", ["Red Line"]),
   ("Kashmere Gate", "Shastri Park", "b15", ["Red Line"]),
   ("Kashmere Gate", "Tis Hazari", "b16", ["Red Line"]),
   ("Tis Hazari", "Kashmere Gate", "b16", ["Red Line"]),
   ("Tis Hazari", "Pulbangash", "b17", ["Red Line"]),
   ("Pulbangash", "Tis Hazari", "b17", ["Red Line"]),
   ("Pulbangash", "Pratap Nagar", "b18", ["Red Line"]),
   ("Pratap Nagar", "Pulbangash", "b18", ["Red Line"]),
   ("Pratap Nagar", "Shastri Nagar", "b19", ["Red Line"]),
   ("Shastri Nagar", "Pratap Nagar", "b19", ["Red Line"]),
   ("Shastri Nagar", "Inderlok", "b20", ["Red Line"]),
   ("Inderlok", "Shastri Nagar", "b20", ["Red Line"]),
   ("Inderlok", "Kanhaiya Nagar", "b21", ["Red Line"]),
   ("Kanhaiya Nagar", "Inderlok", "b21", ["Red Line"]),
   ("Kanhaiya Nagar", "Keshav Puram", "b22", ["Red Line"]),
   ("Keshav Puram", "Kanhaiya Nagar", "b22", ["Red Line"]),
   ("Keshav Puram", "Netaji Subhash Place", "b23", ["Red Line"]),
   ("Netaji Subhash Place", "Keshav Puram", "b23", ["Red Line"]),
   ("Netaji Subhash Place", "Shakurpur", "b24", ["Red Line"]),
   ("Shakurpur", "Netaji Subhash Place", "b24", ["Red Line"]),
   ("Shakurpur", "Punjabi Bagh West", "b25", ["Red Line"]),
   ("Punjabi Bagh West", "Shakurpur", "b25", ["Red Line"]),
   ("Punjabi Bagh West", "Ashok Park Main", "b26", ["Red Line"]),
   ("Ashok Park Main", "Punjabi Bagh West", "b26", ["Red Line"]),
   ("Ashok Park Main", "Satguru Ram Singh Marg", "b27", ["Red Line"]),
   ("Satguru Ram Singh Marg", "Ashok Park Main", "b27", ["Red Line"]),
   ("Satguru Ram Singh Marg", "Kirti Nagar", "b28", ["Red Line"]),
   ("Kirti Nagar", "Satguru Ram Singh Marg", "b28", ["Red Line"]),
   ("Kashmere Gate", "Lal Qila", "d1", ["Violet Line"]),
   ("Lal Qila", "Kashmere Gate", "d1", ["Violet Line"]),
   ("Lal Qila", "Jama Masjid", "d2", ["Violet Line"]),
   ("Jama Masjid", "Lal Qila", "d2", ["Violet Line"]),
   ("Jama Masjid", "Delhi Gate", "d3", ["Violet Line"]),
   ("Delhi Gate", "Jama Masjid", "d3", ["Violet Line"]),
   ("Delhi Gate", "ITO", "d4", ["Violet Line"]),
   ("ITO", "Delhi Gate", "d4", ["Violet Line"]),
   ("ITO", "Mandi House", "d5", ["Violet Line"]),
   ("Mandi House", "ITO", "d5", ["Violet Line"]),
   ("Mandi House", "Janpath", "d6", ["Violet Line"]),
   ("Janpath", "Mandi House", "d6", ["Violet Line"]),
   ("Janpath", "Central Secretariat", "d7", ["Violet Line"]),
   ("Central Secretariat", "Janpath", "d7", ["Violet Line"]),
   ("Central Secretariat", "Khan Market", "d8", ["Violet Line"]),
   ("Khan Market", "Central Secretariat", "d8", ["Violet Line"]),
   ("Khan Market", "Jawaharlal Nehru Stadium", "d9", ["Violet Line"]),
   ("Jawaharlal Nehru Stadium", "Khan Market", "d9", ["Violet Line"]),
   ("Jawaharlal Nehru Stadium", "Jangpura", "d10", ["Violet Line"]),
   ("Jangpura", "Jawaharlal Nehru Stadium", "d10", ["Violet Line"]),
   ("Jangpura", "Lajpat Nagar", "d11", ["Violet Line"]),
   ("Lajpat Nagar", "Jangpura", "d11", ["Violet Line"]),
   ("Lajpat Nagar", "Moolchand", "d12", ["Violet Line"]),
   ("Moolchand", "Lajpat Nagar", "d12", ["Violet Line"]),
   ("Moolchand", "Kailash Colony", "d13", ["Violet Line"]),
   ("Kailash Colony", "Moolchand", "d13", ["Violet Line"]),
   ("Kailash Colony", "Nehru Place", "d14", ["Violet Line"]),
   ("Nehru Place", "Kailash Colony", "d14", ["Violet Line"]),
   ("Nehru Place", "Kalkaji Mandir", "d15", ["Violet Line"]),
   ("Kalkaji Mandir", "Nehru Place", "d15", ["Violet Line"]),
   ("Kalkaji Mandir", "Govind Puri", "d16", ["Violet Line"]),
   ("Govind Puri", "Kalkaji Mandir", "d16", ["Violet Line"]),
   ("Govind Puri", "Okhla NSIC", "d17", ["Violet Line"]),
   ("Okhla NSIC", "Govind Puri", "d17", ["Violet Line"]),
   ("Okhla NSIC", "Harkesh Nagar Okhla", "d18", ["Violet Line"]),
   ("Harkesh Nagar Okhla", "Okhla NSIC", "d18", ["Violet Line"]),
   ("Harkesh Nagar Okhla", "Jasola Apollo", "d19", ["Violet Line"]),
   ("Jasola Apollo", "Harkesh Nagar Okhla", "d19", ["Violet Line"]),
   ("Jasola Apollo", "Sarita Vihar", "d20", ["Violet Line"]),
   ("Sarita Vihar", "Jasola Apollo", "d20", ["Violet Line"]),
   ("Sarita Vihar", "Mohan Estate", "d21", ["Violet Line"]),
   ("Mohan Estate", "Sarita Vihar", "d21", ["Violet Line"]),
   ("Mohan Estate", "Tughlakabad", "d22", ["Violet Line"]),
   ("Tughlakabad", "Mohan Estate", "d22", ["Violet Line"]),
   ("Tughlakabad", "Badarpur Border", "d23", ["Violet Line"]),
   ("Badarpur Border", "Tughlakabad", "d23", ["Violet Line"]),
   ("Badarpur Border", "Sarai", "d24", ["Violet Line"]),
   ("Sarai", "Badarpur Border", "d24", ["Violet Line"]),
   ("Sarai", "NHPC Chowk", "d25", ["Violet Line"]),
   ("NHPC Chowk", "Sarai", "d25", ["Violet Line"]),
   ("NHPC Chowk", "Mewala Maharajpur", "d26", ["Violet Line"]),
   ("Mewala Maharajpur", "NHPC Chowk", "d26", ["Violet Line"]),
   ("Mewala Maharajpur", "Sector 28", "d27", ["Violet Line"]),
   ("Sector 28", "Mewala Maharajpur", "d27", ["Violet Line"]),
   ("Sector 28", "Badkhal Mor", "d28", ["Violet Line"]),
   ("Badkhal Mor", "Sector 28", "d28", ["Violet Line"]),
   ("Badkhal Mor", "Old Faridabad", "d29", ["Violet Line"]),
   ("Old Faridabad", "Badkhal Mor", "d29", ["Violet Line"]),
   ("Old Faridabad", "Neelam Chowk Ajronda", "d30", ["Violet Line"]),
   ("Neelam Chowk Ajronda", "Old Faridabad", "d30", ["Violet Line"]),
   ("Neelam Chowk Ajronda", "Bata Chowk", "d31", ["Violet Line"]),
   ("Bata Chowk", "Neelam Chowk Ajronda", "d31", ["Violet Line"]),
   ("Bata Chowk", "Escorts Mujesar", "d32", ["Violet Line"]),
   ("Escorts Mujesar", "Bata Chowk", "d32", ["Violet Line"]),
   ("Majlis Park", "Keshav Puram", "e1", ["Pink Line"]),
   ("Keshav Puram", "Majlis Park", "e1", ["Pink Line"]),
   ("Keshav Puram", "Kanhaiya Nagar", "e2", ["Pink Line"]),
   ("Kanhaiya Nagar", "Keshav Puram", "e2", ["Pink Line"]),
   ("Kanhaiya Nagar", "Shastri Nagar", "e3", ["Pink Line"]),
   ("Shastri Nagar", "Kanhaiya Nagar", "e3", ["Pink Line"]),
   ("Shastri Nagar", "Tis Hazari", "e4", ["Pink Line"]),
   ("Tis Hazari", "Shastri Nagar", "e4", ["Pink Line"]),
   ("Tis Hazari", "Karam Pura", "e5", ["Pink Line"]),
   ("Karam Pura", "Tis Hazari", "e5", ["Pink Line"]),
   ("Karam Pura", "Maya Puri", "e6", ["Pink Line"]),
   ("Maya Puri", "Karam Pura", "e6", ["Pink Line"]),
   ("Maya Puri", "Patel Nagar", "e7", ["Pink Line"]),
   ("Patel Nagar", "Maya Puri", "e7", ["Pink Line"]),
   ("Patel Nagar", "Kirti Nagar", "e8", ["Pink Line"]),
   ("Kirti Nagar", "Patel Nagar", "e8", ["Pink Line"]),
   ("Kirti Nagar", "Rajouri Garden", "e9", ["Pink Line"]),
   ("Rajouri Garden", "Kirti Nagar", "e9", ["Pink Line"]),
   ("Rajouri Garden", "Maharani Bagh", "e10", ["Pink Line"]),
   ("Maharani Bagh", "Rajouri Garden", "e10", ["Pink Line"]),
   ("Maharani Bagh", "Hazrat Nizamuddin", "e11", ["Pink Line"]),
   ("Hazrat Nizamuddin", "Maharani Bagh", "e11", ["Pink Line"]),
   ("Hazrat Nizamuddin", "Jangpura", "e12", ["Pink Line"]),
   ("Jangpura", "Hazrat Nizamuddin", "e12", ["Pink Line"]),
   ("Jangpura", "Sarai Kale Khan", "e13", ["Pink Line"]),
   ("Sarai Kale Khan", "Jangpura", "e13", ["Pink Line"]),
   ("Sarai Kale Khan", "Sarai Kale Khan Metro Station", "e14", ["Pink Line"]),
   ("Sarai Kale Khan Metro Station", "Sarai Kale Khan", "e14", ["Pink Line"]),
   ("Sarai Kale Khan Metro Station", "IIT Delhi", "e15", ["Pink Line"]),
   ("IIT Delhi", "Sarai Kale Khan Metro Station", "e15", ["Pink Line"]),
   ("IIT Delhi", "Hauz Khas", "e16", ["Pink Line"]),
   ("Hauz Khas", "IIT Delhi", "e16", ["Pink Line"]),
   ("Hauz Khas", "Green Park", "e17", ["Pink Line"]),
   ("Green Park", "Hauz Khas", "e17", ["Pink Line"]),
   ("Green Park", "Safdarjung", "e18", ["Pink Line"]),
   ("Safdarjung", "Green Park", "e18", ["Pink Line"]),
   ("Safdarjung", "Lajpat Nagar", "e19", ["Pink Line"]),
   ("Lajpat Nagar", "Safdarjung", "e19", ["Pink Line"]),
   ("Lajpat Nagar", "Moolchand", "e20", ["Pink Line"]),
   ("Moolchand", "Lajpat Nagar", "e20", ["Pink Line"]),
   ("Moolchand", "Hazarat Nizamuddin Metro Station", "e21", ["Pink Line"]),
   ("Hazarat Nizamuddin Metro Station", "Moolchand", "e21", ["Pink Line"]),
   ("Hazarat Nizamuddin Metro Station", "Sarai Kale Khan", "e22", ["Pink Line"]),
   ("Sarai Kale Khan", "Hazarat Nizamuddin Metro Station", "e22", ["Pink Line"]),
   ("Sarai Kale Khan", "Sarai Kale Khan Metro Station", "e23", ["Pink Line"]),
   ("Sarai Kale Khan Metro Station", "Sarai Kale Khan", "e23", ["Pink Line"]),
   ("Sarai Kale Khan Metro Station", "Jangpura", "e24", ["Pink Line"]),
   ("Jangpura", "Sarai Kale Khan Metro Station", "e24", ["Pink Line"]),
   ("Jangpura", "Hazrat Nizamuddin", "e25", ["Pink Line"]),
   ("Hazrat Nizamuddin", "Jangpura", "e25", ["Pink Line"]),
   ("Hazrat Nizamuddin", "Maharani Bagh", "e26", ["Pink Line"]),
   ("Maharani Bagh", "Hazrat Nizamuddin", "e26", ["Pink Line"]),
   ("Maharani Bagh", "Rajouri Garden", "e27", ["Pink Line"]),
   ("Rajouri Garden", "Maharani Bagh", "e27", ["Pink Line"]),
   ("Rajouri Garden", "Kirti Nagar", "e28", ["Pink Line"]),
   ("Kirti Nagar", "Rajouri Garden", "e28", ["Pink Line"]),
   ("Kirti Nagar", "Patel Nagar", "e29", ["Pink Line"]),
   ("Patel Nagar", "Kirti Nagar", "e29", ["Pink Line"]),
   ("Patel Nagar", "Maya Puri", "e30", ["Pink Line"]),
   ("Maya Puri", "Patel Nagar", "e30", ["Pink Line"]),
   ("Maya Puri", "Karam Pura", "e31", ["Pink Line"]),
   ("Karam Pura", "Maya Puri", "e31", ["Pink Line"]),
   ("Karam Pura", "Tis Hazari", "e32", ["Pink Line"]),
   ("Tis Hazari", "Karam Pura", "e32", ["Pink Line"]),
   ("Tis Hazari", "Shastri Nagar", "e33", ["Pink Line"]),
   ("Shastri Nagar", "Tis Hazari", "e33", ["Pink Line"]),
   ("Shastri Nagar", "Kanhaiya Nagar", "e34", ["Pink Line"]),
   ("Kanhaiya Nagar", "Shastri Nagar", "e34", ["Pink Line"]),
   ("Kanhaiya Nagar", "Keshav Puram", "e35", ["Pink Line"]),
   ("Keshav Puram", "Kanhaiya Nagar", "e35", ["Pink Line"]),
   ("Keshav Puram", "Majlis Park", "e36", ["Pink Line"]),
   ("Majlis Park", "Keshav Puram", "e36", ["Pink Line"]),
   ("Majlis Park", "Keshav Puram", "e37", ["Pink Line"]),
   ("Keshav Puram", "Majlis Park", "e37", ["Pink Line"]),
   ("Janakpuri West", "Dabri Mor", "f1", ["Magenta Line"]),
   ("Dabri Mor", "Janakpuri West", "f1", ["Magenta Line"]),
   ("Dabri Mor", "Dashrathpuri", "f2", ["Magenta Line"]),
   ("Dashrathpuri", "Dabri Mor", "f2", ["Magenta Line"]),
   ("Dashrathpuri", "Palam", "f3", ["Magenta Line"]),
   ("Palam", "Dashrathpuri", "f3", ["Magenta Line"]),
   ("Palam", "Sadar Bazar Cantonment", "f4", ["Magenta Line"]),
   ("Sadar Bazar Cantonment", "Palam", "f4", ["Magenta Line"]),
   ("Sadar Bazar Cantonment", "Terminal 1 IGI Airport", "f5", ["Magenta Line"]),
   ("Terminal 1 IGI Airport", "Sadar Bazar Cantonment", "f5", ["Magenta Line"]),
   ("Terminal 1 IGI Airport", "Shankar Vihar", "f6", ["Magenta Line"]),
   ("Shankar Vihar", "Terminal 1 IGI Airport", "f6", ["Magenta Line"]),
   ("Shankar Vihar", "Vasant Vihar", "f7", ["Magenta Line"]),
   ("Vasant Vihar", "Shankar Vihar", "f7", ["Magenta Line"]),
   ("Vasant Vihar", "Munirka", "f8", ["Magenta Line"]),
   ("Munirka", "Vasant Vihar", "f8", ["Magenta Line"]),
   ("Munirka", "RK Puram", "f9", ["Magenta Line"]),
   ("RK Puram", "Munirka", "f9", ["Magenta Line"]),
   ("RK Puram", "IIT", "f10", ["Magenta Line"]),
   ("IIT", "RK Puram", "f10", ["Magenta Line"]),
   ("IIT", "Hauz Khas", "f11", ["Magenta Line"]),
   ("Hauz Khas", "IIT", "f11", ["Magenta Line"]),
   ("Hauz Khas", "Panchsheel Park", "f12", ["Magenta Line"]),
   ("Panchsheel Park", "Hauz Khas", "f12", ["Magenta Line"]),
   ("Panchsheel Park", "Chirag Delhi", "f13", ["Magenta Line"]),
   ("Chirag Delhi", "Panchsheel Park", "f13", ["Magenta Line"]),
   ("Chirag Delhi", "Greater Kailash", "f14", ["Magenta Line"]),
   ("Greater Kailash", "Chirag Delhi", "f14", ["Magenta Line"]),
   ("Greater Kailash", "Nehru Enclave", "f15", ["Magenta Line"]),
   ("Nehru Enclave", "Greater Kailash", "f15", ["Magenta Line"]),
   ("Nehru Enclave", "Kalkaji Mandir", "f16", ["Magenta Line"]),
   ("Kalkaji Mandir", "Nehru Enclave", "f16", ["Magenta Line"]),
   ("Kalkaji Mandir", "Okhla NSIC", "f17", ["Magenta Line"]),
   ("Okhla NSIC", "Kalkaji Mandir", "f17", ["Magenta Line"]),
   ("Okhla NSIC", "Sukhdev Vihar", "f18", ["Magenta Line"]),
   ("Sukhdev Vihar", "Okhla NSIC", "f18", ["Magenta Line"]),
   ("Sukhdev Vihar", "Jamia Milia Islamiya", "f19", ["Magenta Line"]),
   ("Jamia Milia Islamiya", "Sukhdev Vihar", "f19", ["Magenta Line"]),
   ("Jamia Milia Islamiya", "Okhla Vihar", "f20", ["Magenta Line"]),
   ("Okhla Vihar", "Jamia Milia Islamiya", "f20", ["Magenta Line"]),
   ("Okhla Vihar", "Jasola Vihar Shaheen Bagh", "f21", ["Magenta Line"]),
   ("Jasola Vihar Shaheen Bagh", "Okhla Vihar", "f21", ["Magenta Line"]),
   ("Jasola Vihar Shaheen Bagh", "Kalindi Kunj", "f22", ["Magenta Line"]),
   ("Kalindi Kunj", "Jasola Vihar Shaheen Bagh", "f22", ["Magenta Line"]),
   ("Kalindi Kunj", "Okhla Bird Sanctuary", "f23", ["Magenta Line"]),
   ("Okhla Bird Sanctuary", "Kalindi Kunj", "f23", ["Magenta Line"]),
   ("Okhla Bird Sanctuary", "Botanical Garden", "f24", ["Magenta Line"]),
   ("Botanical Garden", "Okhla Bird Sanctuary", "f24", ["Magenta Line"]),
   ("New Delhi", "Shivaji Stadium", "g1", ["Airport Express Line"]),
   ("Shivaji Stadium", "New Delhi", "g1", ["Airport Express Line"]),
   ("Shivaji Stadium", "Dhaula Kuan", "g2", ["Airport Express Line"]),
   ("Dhaula Kuan", "Shivaji Stadium", "g2", ["Airport Express Line"]),
   ("Dhaula Kuan", "Delhi Aerocity", "g3", ["Airport Express Line"]),
   ("Delhi Aerocity", "Dhaula Kuan", "g3", ["Airport Express Line"]),
   ("Delhi Aerocity", "Airport T3", "g4", ["Airport Express Line"]),
   ("Airport T3", "Delhi Aerocity", "g4", ["Airport Express Line"]),
   ("Airport T3", "Dwarka Sector 21", "g5", ["Airport Express Line"]),
   ("Dwarka Sector 21", "Airport T3", "g5", ["Airport Express Line"]),
   ("Dwarka Sector 21", "Yashobhoomi Dwarka Sector 25", "g6", ["Airport Express Line"]),
   ("Yashobhoomi Dwarka Sector 25", "Dwarka Sector 21", "g6", ["Airport Express Line"]),
   ("Noida Electronic City", "Noida Sector 62", "i1", ["Blue Line"]),
   ("Noida Sector 62", "Noida Electronic City", "i1", ["Blue Line"]),
   ("Noida Sector 62", "Noida Sector 59", "i2", ["Blue Line"]),
   ("Noida Sector 59", "Noida Sector 62", "i2", ["Blue Line"]),
   ("Noida Sector 59", "Noida Sector 61", "i3", ["Blue Line"]),
   ("Noida Sector 61", "Noida Sector 59", "i3", ["Blue Line"]),
   ("Noida Sector 61", "Noida Sector 52", "i4", ["Blue Line"]),
   ("Noida Sector 52", "Noida Sector 61", "i4", ["Blue Line"]),
   ("Noida Sector 52", "Noida Sector 34", "i5", ["Blue Line"]),
   ("Noida Sector 34", "Noida Sector 52", "i5", ["Blue Line"]),
   ("Noida Sector 34", "Noida City Centre", "i6", ["Blue Line"]),
   ("Noida City Centre", "Noida Sector 34", "i6", ["Blue Line"]),
   ("Noida City Centre", "Golf Course", "i7", ["Blue Line"]),
   ("Golf Course", "Noida City Centre", "i7", ["Blue Line"]),
   ("Golf Course", "Botanical Garden", "i8", ["Blue Line"]),
   ("Botanical Garden", "Golf Course", "i8", ["Blue Line"]),
   ("Botanical Garden", "Noida Sector 18", "i9", ["Blue Line"]),
   ("Noida Sector 18", "Botanical Garden", "i9", ["Blue Line"]),
   ("Noida Sector 18", "Noida Sector 16", "i10", ["Blue Line"]),
   ("Noida Sector 16", "Noida Sector 18", "i10", ["Blue Line"]),
   ("Noida Sector 16", "Noida Sector 15", "i11", ["Blue Line"]),
   ("Noida Sector 15", "Noida Sector 16", "i11", ["Blue Line"]),
   ("Noida Sector 15", "New Ashok Nagar", "i12", ["Blue Line"]),
   ("New Ashok Nagar", "Noida Sector 15", "i12", ["Blue Line"]),
   ("New Ashok Nagar", "Mayur Vihar Extension", "i13", ["Blue Line"]),
   ("Mayur Vihar Extension", "New Ashok Nagar", "i13", ["Blue Line"]),
   ("Mayur Vihar Extension", "Mayur Vihar I", "i14", ["Blue Line"]),
   ("Mayur Vihar I", "Mayur Vihar Extension", "i14", ["Blue Line"]),
   ("Mayur Vihar I", "Akshardham", "i15", ["Blue Line"]),
   ("Akshardham", "Mayur Vihar I", "i15", ["Blue Line"]),
   ("Akshardham", "Yamuna Bank", "i16", ["Blue Line"]),
   ("Yamuna Bank", "Akshardham", "i16", ["Blue Line"]),
   ("Yamuna Bank", "Indraprastha", "i17", ["Blue Line"]),
   ("Indraprastha", "Yamuna Bank", "i17", ["Blue Line"]),
   ("Indraprastha", "Supreme Court (Pragati Maidan)", "i18", ["Blue Line"]),
   ("Supreme Court (Pragati Maidan)", "Indraprastha", "i18", ["Blue Line"]),
   ("Supreme Court (Pragati Maidan)", "Mandi House", "i19", ["Blue Line"]),
   ("Mandi House", "Supreme Court (Pragati Maidan)", "i19", ["Blue Line"]),
   ("Mandi House", "Barakhambha Road", "i20", ["Blue Line"]),
   ("Barakhambha Road", "Mandi House", "i20", ["Blue Line"]),
   ("Barakhambha Road", "Rajiv Chowk", "i21", ["Blue Line"]),
   ("Rajiv Chowk", "Barakhambha Road", "i21", ["Blue Line"]),
   ("Rajiv Chowk", "RK Ashram Marg", "i22", ["Blue Line"]),
   ("RK Ashram Marg", "Rajiv Chowk", "i22", ["Blue Line"]),
   ("RK Ashram Marg", "Jhandewalan", "i23", ["Blue Line"]),
   ("Jhandewalan", "RK Ashram Marg", "i23", ["Blue Line"]),
   ("Jhandewalan", "Karol Bagh", "i24", ["Blue Line"]),
   ("Karol Bagh", "Jhandewalan", "i24", ["Blue Line"]),
   ("Karol Bagh", "Rajendra Place", "i25", ["Blue Line"]),
   ("Rajendra Place", "Karol Bagh", "i25", ["Blue Line"]),
   ("Rajendra Place", "Patel Nagar", "i26", ["Blue Line"]),
   ("Patel Nagar", "Rajendra Place", "i26", ["Blue Line"]),
   ("Patel Nagar", "Shadipur", "i27", ["Blue Line"]),
   ("Shadipur", "Patel Nagar", "i27", ["Blue Line"]),
   ("Shadipur", "Kirti Nagar", "i28", ["Blue Line"]),
   ("Kirti Nagar", "Shadipur", "i28", ["Blue Line"]),
   ("Kirti Nagar", "Moti Nagar", "i29", ["Blue Line"]),
   ("Moti Nagar", "Kirti Nagar", "i29", ["Blue Line"]),
   ("Moti Nagar", "Ramesh Nagar", "i30", ["Blue Line"]),
   ("Ramesh Nagar", "Moti Nagar", "i30", ["Blue Line"]),
   ("Ramesh Nagar", "Rajouri Garden", "i31", ["Blue Line"]),
   ("Rajouri Garden", "Ramesh Nagar", "i31", ["Blue Line"]),
   ("Rajouri Garden", "Tagore Garden", "i32", ["Blue Line"]),
   ("Tagore Garden", "Rajouri Garden", "i32", ["Blue Line"]),
   ("Tagore Garden", "Subhash Nagar", "i33", ["Blue Line"]),
   ("Subhash Nagar", "Tagore Garden", "i33", ["Blue Line"]),
   ("Subhash Nagar", "Tilak Nagar", "i34", ["Blue Line"]),
   ("Tilak Nagar", "Subhash Nagar", "i34", ["Blue Line"]),
   ("Tilak Nagar", "Janakpuri East", "i35", ["Blue Line"]),
   ("Janakpuri East", "Tilak Nagar", "i35", ["Blue Line"]),
   ("Janakpuri East", "Janakpuri West", "i36", ["Blue Line"]),
   ("Janakpuri West", "Janakpuri East", "i36", ["Blue Line"]),
   ("Janakpuri West", "Uttam Nagar East", "i37", ["Blue Line"]),
   ("Uttam Nagar East", "Janakpuri West", "i37", ["Blue Line"]),
   ("Uttam Nagar East", "Uttam Nagar West", "i38", ["Blue Line"]),
   ("Uttam Nagar West", "Uttam Nagar East", "i38", ["Blue Line"]),
   ("Uttam Nagar West", "Nawada", "i39", ["Blue Line"]),
   ("Nawada", "Uttam Nagar West", "i39", ["Blue Line"]),
   ("Nawada", "Dwarka Mor", "i40", ["Blue Line"]),
   ("Dwarka Mor", "Nawada", "i40", ["Blue Line"]),
   ("Dwarka Mor", "Dwarka", "i41", ["Blue Line"]),
   ("Dwarka", "Dwarka Mor", "i41", ["Blue Line"]),
   ("Dwarka", "Dwarka Sector 14", "i42", ["Blue Line"]),
   ("Dwarka Sector 14", "Dwarka", "i42", ["Blue Line"]),
   ("Dwarka Sector 14", "Dwarka Sector 13", "i43", ["Blue Line"]),
   ("Dwarka Sector 13", "Dwarka Sector 14", "i43", ["Blue Line"]),
   ("Dwarka Sector 13", "Dwarka Sector 12", "i44", ["Blue Line"]),
   ("Dwarka Sector 12", "Dwarka Sector 13", "i44", ["Blue Line"]),
   ("Dwarka Sector 12", "Dwarka Sector 11", "i45", ["Blue Line"]),
   ("Dwarka Sector 11", "Dwarka Sector 12", "i45", ["Blue Line"]),
   ("Dwarka Sector 11", "Dwarka Sector 10", "i46", ["Blue Line"]),
   ("Dwarka Sector 10", "Dwarka Sector 11", "i46", ["Blue Line"]),
   ("Dwarka Sector 10", "Dwarka Sector 9", "i47", ["Blue Line"]),
   ("Dwarka Sector 9", "Dwarka Sector 10", "i47", ["Blue Line"]),
   ("Dwarka Sector 9", "Dwarka Sector 8", "i48", ["Blue Line"]),
   ("Dwarka Sector 8", "Dwarka Sector 9", "i48", ["Blue Line"]),
   ("Dwarka Sector 8", "Dwarka Sector 21", "i49", ["Blue Line"]),
   ("Dwarka Sector 21", "Dwarka Sector 8", "i49", ["Blue Line"])]

/-- One `addEdge` call of `main` with the weight `w v` of its distance variable `v`. -/
def edgeCall (w : String → Int) (c : String × String × String × List String) : LoadOp :=
  LoadOp.edge c.1 c.2.1 (w c.2.2.1) c.2.2.2

/-- The load operations of the `addEdge` calls of `main` under the weights `w`. -/
def mainEdges (w : String → Int) : List LoadOp := mainEdgeCalls.map (edgeCall w)

/-- The graph `delhiMetro` when `main` reaches its query part (line 1288). -/
def mainGraph (w : String → Int) : MetroGraph :=
  (mainEdges w).foldl LoadOp.apply
    (mainDistances.foldl (fun g c => calculateDistance g c.2.1 c.2.2) (load mainStations))


/-- How the program ends: `return` from `main` with a status, or termination by an
exception that nothing catches. -/
inductive Exit where
  | code (status : Int)
  | terminated (fault : Fault)
  deriving DecidableEq, Repr

/-- The query part of `main` (lines 1288-1330) as a function of the two input lines: the
planner is called, its path is annotated, distance and fare are printed, and `main`
returns 0. -/
def main (w : String → Int) (fuel : Nat) (source destination : String) : Option Exit :=
  match dijkstra fuel (mainGraph w) source destination with
  | none => none
  | some (g, (path, _)) =>
    match annotate g path with
    | .error fault => some (.terminated fault)
    | .ok _ => some (.code 0)

/-- Record that a load call gives the name `x`: that of an `addStation` call for `x`. -/
def LoadOp.record (x : String) : LoadOp → Option Station
  | .station n la lo ls => if n = x then some ⟨n, la, lo, ls⟩ else none
  | .edge _ _ _ _ => none

/-- Record of the last `addStation` call for `x` in a load sequence. -/
def lastStation : List LoadOp → String → Option Station
  | [], _ => none
  | op :: t, x =>
    match lastStation t x with
    | some st => some st
    | none => LoadOp.record x op

/-- Load call that is not an `addStation` with a line list of another length than one. -/
def LoadOp.oneLine : LoadOp → Bool
  | .station _ _ _ [_] => true
  | .station _ _ _ _ => false
  | .edge _ _ _ _ => true

/-- Entries that a list of `addEdge` calls puts under `u`, in order: target, distance
variable and line list. -/
def callsAt : List (String × String × String × List String) → String →
    List (String × String × List String)
  | [], _ => []
  | (a, b, v, ls) :: t, u =>
    (if a = u then [(b, v, ls)] else []) ++ (if b = u then [(a, v, ls)] else [])
      ++ callsAt t u

/-- Adjacency entry for a target, distance variable and line list under the weights `w`. -/
def entry (w : String → Int) (c : String × String × List String) : Edge :=
  ⟨c.1, w c.2.1, c.2.2⟩

/-- Whether a list of `addEdge` calls names `u`. -/
def callKeys : List (String × String × String × List String) → String → Bool
  | [], _ => false
  | (a, b, _, _) :: t, u => decide (b = u) || (decide (a = u) || callKeys t u)

/-- Names reached from `u` by one entry of the `addEdge` calls of `main`. -/
def mainNext (u : String) : List String := (callsAt mainEdgeCalls u).map Prod.fst

/-- Weight 1 for every distance variable. -/
def unitWeights : String → Int := fun _ => 1

/-- Stations after "Kashmere Gate" on a route to "Central Secretariat" in the data of
`main`. -/
def routeToSecretariat : List String :=
  ["Chandni Chowk", "Chawri Bazar", "New Delhi", "Rajiv Chowk", "Patel Chowk",
   "Central Secretariat"]

/-- Stations after "Dilshad Garden" on a route to "HUDA City Centre" in the data of
`main`. -/
def routeToHuda : List String :=
  ["Jhilmil", "Mansarovar Park", "Shahdara", "Welcome", "Seelampur", "Shastri Park",
   "Kashmere Gate", "Chandni Chowk", "Chawri Bazar", "New Delhi", "Rajiv Chowk",
   "Patel Chowk", "Central Secretariat", "Udyog Bhawan", "Lok Kalyan Marg", "Jor Bagh",
   "INA", "AIIMS", "Green Park", "Hauz Khas", "Malviya Nagar", "Saket", "Qutab Minar",
   "Chhatarpur", "Sultanpur", "Ghitorni", "Arjan Garh", "Guru Dronacharya", "Sikanderpur",
   "MG Road", "IFFCO Chowk", "HUDA City Centre"]

/-- Whether every station of `p`, starting from `a`, is reached from the one before it by
an entry of the `addEdge` calls of `main`. -/
def routeOk : String → List String → Bool
  | _, [] => true
  | a, b :: t => decide (b ∈ mainNext a) && routeOk b t

/-- Three `addEdge` calls with weights `2^30`, `0` and `0`, which total `2^30`. -/
def cycleOps : List LoadOp :=
  [.edge "a" "b" 1073741824 [], .edge "a" "c" 0 [], .edge "b" "d" 0 []]

/-- Three `addEdge` calls of weight `0`, the first a self-loop. -/
def zeroLoopOps : List LoadOp :=
  [.edge "a" "a" 0 [], .edge "a" "b" 0 [], .edge "b" "c" 0 []]

/-- The exact sums `dist + weight` that the main loop of `dijkstra` forms at line 81
(before they are stored in the `int` `new_dist`), in the order in which it forms them; the
recursion is that of `mainLoop`. -/
def mainLoopSums (destination : String) :
    Nat → List (String × List Edge) → Search → Option (List Int)
  | 0, _, _ => none
  | fuel + 1, adjacencyList, st =>
    match popMin st.pq with
    | none => some []
    | some ((dist, u), pq') =>
      if u = destination then some []
      else if dist > lookupD st.distance u 0 then
        mainLoopSums destination fuel adjacencyList { st with pq := pq' }
      else
        (mainLoopSums destination fuel (touch adjacencyList u [])
          (relaxEdges u dist (lookupD adjacencyList u []) { st with pq := pq' })).map
          (fun rest => (lookupD adjacencyList u []).map (fun e => dist + e.distance) ++ rest)

/-- The exact sums `dist + weight` formed during `dijkstra(source, destination)`. -/
def dijkstraSums (fuel : Nat) (g : MetroGraph) (source destination : String) :
    Option (List Int) :=
  mainLoopSums destination fuel g.adjacencyList
    ⟨assign (initDistance g.adjacencyList) source 0, [], [(0, source)]⟩

/-- Method `toRadians` (lines 108-110), read over the reals. -/
noncomputable def toRadians (degree : ℝ) : ℝ := degree * Real.pi / 180

/-- The quantity `a` of `calculateDistance` (lines 124-126), read over the reals. -/
noncomputable def haversineA (lat1 lon1 lat2 lon2 : ℝ) : ℝ :=
  Real.sin ((toRadians lat2 - toRadians lat1) / 2)
      * Real.sin ((toRadians lat2 - toRadians lat1) / 2)
    + Real.cos (toRadians lat1) * Real.cos (toRadians lat2)
      * Real.sin ((toRadians lon2 - toRadians lon1) / 2)
      * Real.sin ((toRadians lon2 - toRadians lon1) / 2)

/-- The value computed by `calculateDistance` (lines 118-138) from the four coordinates,
read over the reals: `atan2(y, x)` is the argument of the complex number `x + y i`. This
is a function on real numbers and cannot be evaluated. -/
noncomputable def haversine (lat1 lon1 lat2 lon2 : ℝ) : ℝ :=
  6371.0 * (2 * Complex.arg
    ⟨Real.sqrt (1 - haversineA lat1 lon1 lat2 lon2), Real.sqrt (haversineA lat1 lon1 lat2 lon2)⟩)

/-- The value returned by `calculateDistance(station1, station2)`, read over the reals, on
the coordinates that `stations[...]` yields (those of a blank record for a name without
one). The state effect of the call is `calculateDistance`. -/
noncomputable def calculateDistanceKm (g : MetroGraph) (station1 station2 : String) : ℝ :=
  let lat1 : ℝ := ((lookupD g.stations station1 Station.blank).latitude : ℝ)
  let lon1 : ℝ := ((lookupD g.stations station1 Station.blank).longitude : ℝ)
  let m := touch g.stations station1 Station.blank
  let lat2 : ℝ := ((lookupD m station2 Station.blank).latitude : ℝ)
  let lon2 : ℝ := ((lookupD m station2 Station.blank).longitude : ℝ)
  haversine lat1 lon1 lat2 lon2

/-- Variant of the main loop that keeps extracting until the queue is empty: the loop of
lines 62-90 without the statement `if (u == destination) break;` of lines 67-70. -/
def mainLoopFull :
    Nat → List (String × List Edge) → Search → Option (List (String × List Edge) × Search)
  | 0, _, _ => none
  | fuel + 1, adjacencyList, st =>
    match popMin st.pq with
    | none => some (adjacencyList, st)
    | some ((dist, u), pq') =>
      if dist > lookupD st.distance u 0 then
        mainLoopFull fuel adjacencyList { st with pq := pq' }
      else
        mainLoopFull fuel (touch adjacencyList u [])
          (relaxEdges u dist (lookupD adjacencyList u []) { st with pq := pq' })

/-- Variant of `dijkstra` whose main loop is `mainLoopFull`; everything else is as in
`dijkstra`. -/
def dijkstraFull (fuel : Nat) (g : MetroGraph) (source destination : String) :
    Option (MetroGraph × (List String × Int)) :=
  let distance := assign (initDistance g.adjacencyList) source 0
  match mainLoopFull fuel g.adjacencyList ⟨distance, [], [(0, source)]⟩ with
  | none => none
  | some (adjacencyList, st) =>
    let g' := { g with adjacencyList := adjacencyList }
    let totalDistance := lookupD st.distance destination 0
    if totalDistance = INT_MAX then some (g', ([], totalDistance))
    else
      match walkBack source st.previous fuel destination [] with
      | none => none
      | some path => some (g', (path.reverse, totalDistance))

/-- One `addEdge` call of weight `2^30`. -/
def halfOps : List LoadOp :=
  [.edge "a" "b" 1073741824 []]

/-- Guard on a load sequence: every `addEdge` call names two stations that have a station
record when the call is made; `g` is the graph before the first call. -/
def edgesRegistered : MetroGraph → List LoadOp → Bool
  | _, [] => true
  | g, .station n la lo ls :: t => edgesRegistered (addStation g n la lo ls) t
  | g, .edge a b w ls :: t =>
    hasKey g.stations a && hasKey g.stations b && edgesRegistered (addEdge g a b w ls) t

/-! ## Association-list lemmas -/

theorem lookupD_assign {β : Type} (m : List (String × β)) (k k' : String) (v dflt : β) :
    lookupD (assign m k v) k' dflt = if k = k' then v else lookupD m k' dflt := by
  induction m with
  | nil =>
    by_cases h : k = k' <;> simp [assign, lookupD, h]
  | cons hd t ih =>
    obtain ⟨a, b⟩ := hd
    by_cases h1 : a = k
    · subst h1
      by_cases h2 : a = k' <;> simp [assign, lookupD, h2]
    · by_cases h2 : a = k'
      · subst h2
        have h3 : ¬ k = a := fun h => h1 h.symm
        simp [assign, lookupD, h1, h3]
      · simp [assign, lookupD, h1, h2, ih]

theorem lookupD_assign_same {β : Type} (m : List (String × β)) (k : String) (v dflt : β) :
    lookupD (assign m k v) k dflt = v := by
  simp [lookupD_assign]

theorem lookupD_assign_ne {β : Type} (m : List (String × β)) {k k' : String} (v dflt : β)
    (h : k ≠ k') : lookupD (assign m k v) k' dflt = lookupD m k' dflt := by
  simp [lookupD_assign, h]

theorem hasKey_assign {β : Type} (m : List (String × β)) (k k' : String) (v : β) :
    hasKey (assign m k v) k' = (decide (k = k') || hasKey m k') := by
  induction m with
  | nil =>
    by_cases h : k = k' <;> simp [assign, hasKey, h]
  | cons hd t ih =>
    obtain ⟨a, b⟩ := hd
    by_cases h1 : a = k
    · subst h1
      by_cases h2 : a = k' <;> simp [assign, hasKey, h2]
    · by_cases h2 : a = k'
      · subst h2
        simp [assign, hasKey, h1]
      · simp [assign, hasKey, h1, h2, ih]

theorem lookupD_of_not_hasKey {β : Type} (m : List (String × β)) (k : String) (dflt : β)
    (h : hasKey m k = false) : lookupD m k dflt = dflt := by
  induction m with
  | nil => rfl
  | cons hd t ih =>
    obtain ⟨a, b⟩ := hd
    by_cases h1 : a = k
    · simp [hasKey, h1] at h
    · simp [hasKey, h1] at h
      simp [lookupD, h1, ih h]

theorem assign_of_hasKey_lookupD {β : Type} (m : List (String × β)) (k : String) (dflt : β)
    (h : hasKey m k = true) : assign m k (lookupD m k dflt) = m := by
  induction m with
  | nil => simp [hasKey] at h
  | cons hd t ih =>
    obtain ⟨a, b⟩ := hd
    by_cases h1 : a = k
    · simp [assign, lookupD, h1]
    · simp [hasKey, h1] at h
      simp [assign, lookupD, h1, ih h]

theorem lookupD_touch {β : Type} (m : List (String × β)) (k k' : String) (dflt : β) :
    lookupD (touch m k dflt) k' dflt = lookupD m k' dflt := by
  unfold touch
  by_cases h : hasKey m k = true
  · simp [h]
  · have h0 : hasKey m k = false := by simpa using h
    simp only [h0, Bool.false_eq_true, if_false, lookupD_assign]
    by_cases hk : k = k'
    · subst hk
      simp [lookupD_of_not_hasKey m k dflt h0]
    · simp [hk]

theorem touch_of_hasKey {β : Type} (m : List (String × β)) (k : String) (dflt : β)
    (h : hasKey m k = true) : touch m k dflt = m := by
  simp [touch, h]

theorem mem_of_mem_lookupD {β : Type} (m : List (String × List β)) (k : String) (x : β)
    (h : x ∈ lookupD m k []) : ∃ p ∈ m, p.1 = k ∧ x ∈ p.2 := by
  induction m with
  | nil => simp [lookupD] at h
  | cons hd t ih =>
    obtain ⟨a, b⟩ := hd
    by_cases h1 : a = k
    · simp [lookupD, h1] at h
      exact ⟨(a, b), by simp, h1, h⟩
    · simp [lookupD, h1] at h
      obtain ⟨p, hp, hk, hx⟩ := ih h
      exact ⟨p, by simp [hp], hk, hx⟩

theorem hasKey_of_mem_lookupD {β : Type} (m : List (String × List β)) (k : String) (x : β)
    (h : x ∈ lookupD m k []) : hasKey m k = true := by
  by_contra hc
  have h0 : hasKey m k = false := by simpa using hc
  rw [lookupD_of_not_hasKey m k [] h0] at h
  simp at h

theorem initDistance_aux (al : List (String × List Edge)) (acc : List (String × Int)) (k : String) :
    lookupD (al.foldl (fun distance pair => assign distance pair.1 INT_MAX) acc) k 0
      = if hasKey al k then INT_MAX else lookupD acc k 0 := by
  induction al generalizing acc with
  | nil => simp [hasKey]
  | cons hd t ih =>
    obtain ⟨a, b⟩ := hd
    simp only [List.foldl_cons, ih, hasKey, lookupD_assign]
    by_cases h1 : a = k
    · simp [h1]
    · simp [h1]

theorem lookupD_initDistance (al : List (String × List Edge)) (k : String) :
    lookupD (initDistance al) k 0 = if hasKey al k then INT_MAX else 0 := by
  unfold initDistance
  rw [initDistance_aux]
  simp [lookupD]

/-! ## Machine-integer lemmas -/

theorem wrap32_ge (x : Int) : INT_MIN ≤ wrap32 x := by
  unfold wrap32 INT_MIN; omega

theorem wrap32_le (x : Int) : wrap32 x ≤ INT_MAX := by
  unfold wrap32 INT_MAX; omega

theorem wrap32_eq (x : Int) (h1 : INT_MIN ≤ x) (h2 : x ≤ INT_MAX) : wrap32 x = x := by
  unfold wrap32; unfold INT_MIN at h1; unfold INT_MAX at h2; omega

/-! ## Priority-queue lemmas -/

theorem pqMin_mem (x : Int × String) (t : List (Int × String)) : pqMin x t ∈ x :: t := by
  induction t generalizing x with
  | nil => simp [pqMin]
  | cons y t ih =>
    unfold pqMin
    split
    · have := ih y
      simp only [List.mem_cons] at this ⊢
      tauto
    · have := ih x
      simp only [List.mem_cons] at this ⊢
      tauto

theorem pqMin_le (x : Int × String) (t : List (Int × String)) :
    ∀ y ∈ x :: t, (pqMin x t).1 ≤ y.1 := by
  induction t generalizing x with
  | nil => simp [pqMin]
  | cons y t ih =>
    intro z hz
    unfold pqMin
    split
    · rename_i hlt
      have hyx : y.1 ≤ x.1 := by
        unfold pairLt at hlt
        rcases hlt with h | h
        · exact le_of_lt h
        · exact le_of_eq h.1
      simp only [List.mem_cons] at hz
      rcases hz with rfl | rfl | hz
      · exact le_trans (ih y y (by simp)) hyx
      · exact ih z z (by simp)
      · exact ih y z (by simp [hz])
    · rename_i hlt
      have hxy : x.1 ≤ y.1 := by
        unfold pairLt at hlt
        push_neg at hlt
        exact hlt.1
      simp only [List.mem_cons] at hz
      rcases hz with rfl | rfl | hz
      · exact ih z z (by simp)
      · exact le_trans (ih x x (by simp)) hxy
      · exact ih x z (by simp [hz])

theorem pqErase_subset (x : Int × String) (l : List (Int × String)) :
    ∀ y ∈ pqErase x l, y ∈ l := by
  induction l with
  | nil => simp [pqErase]
  | cons a t ih =>
    intro y hy
    unfold pqErase at hy
    split at hy
    · simp [hy]
    · simp only [List.mem_cons] at hy ⊢
      rcases hy with h | h
      · exact Or.inl h
      · exact Or.inr (ih y h)

theorem mem_pqErase_of_ne (x : Int × String) (l : List (Int × String)) :
    ∀ y ∈ l, y ≠ x → y ∈ pqErase x l := by
  induction l with
  | nil => simp
  | cons a t ih =>
    intro y hy hne
    unfold pqErase
    simp only [List.mem_cons] at hy
    split
    · rename_i hax
      rcases hy with h | h
      · exact absurd (h.trans hax) hne
      · exact h
    · rcases hy with h | h
      · simp [h]
      · simp [ih y h hne]

theorem pqErase_length (x : Int × String) (l : List (Int × String)) (h : x ∈ l) :
    (pqErase x l).length + 1 = l.length := by
  induction l with
  | nil => simp at h
  | cons a t ih =>
    unfold pqErase
    split
    · simp
    · rename_i hax
      simp only [List.mem_cons] at h
      rcases h with h | h
      · exact absurd h.symm hax
      · simp [ih h]

/-- Specification of `top`/`pop`: the popped pair is in the queue, carries a least key,
and the rest of the queue is kept. -/
theorem popMin_spec (pq pq' : List (Int × String)) (x : Int × String)
    (h : popMin pq = some (x, pq')) :
    x ∈ pq ∧ (∀ y ∈ pq, x.1 ≤ y.1) ∧ (∀ y ∈ pq', y ∈ pq) ∧
      (∀ y ∈ pq, y ≠ x → y ∈ pq') ∧ pq'.length + 1 = pq.length := by
  cases pq with
  | nil => simp [popMin] at h
  | cons a t =>
    simp only [popMin, Option.some.injEq, Prod.mk.injEq] at h
    obtain ⟨hx, hq⟩ := h
    subst hx
    subst hq
    exact ⟨pqMin_mem a t, pqMin_le a t, pqErase_subset _ _, mem_pqErase_of_ne _ _,
      pqErase_length _ _ (pqMin_mem a t)⟩

theorem popMin_none (pq : List (Int × String)) (h : popMin pq = none) : pq = [] := by
  cases pq with
  | nil => rfl
  | cons a t => simp [popMin] at h

/-! ## Fuel monotonicity -/

theorem mainLoop_succ (destination : String) (n : Nat) (al : List (String × List Edge))
    (st : Search) (r : List (String × List Edge) × Search)
    (h : mainLoop destination n al st = some r) :
    mainLoop destination (n + 1) al st = some r := by
  induction n generalizing al st with
  | zero => simp [mainLoop] at h
  | succ n ih =>
    rw [mainLoop] at h
    rw [mainLoop]
    split
    · rename_i hp
      rw [hp] at h
      simpa using h
    · rename_i dist u pq' hp
      rw [hp] at h
      simp only at h
      split
      · rename_i hu
        simpa [hu] using h
      · rename_i hu
        simp only [hu, if_false] at h
        split
        · rename_i hs
          simp only [hs, if_true] at h
          exact ih _ _ h
        · rename_i hs
          simp only [hs, if_false] at h
          exact ih _ _ h

theorem mainLoop_mono (destination : String) (n m : Nat) (al : List (String × List Edge))
    (st : Search) (r : List (String × List Edge) × Search) (hnm : n ≤ m)
    (h : mainLoop destination n al st = some r) :
    mainLoop destination m al st = some r := by
  induction hnm with
  | refl => exact h
  | step _ ih => exact mainLoop_succ _ _ _ _ _ ih

theorem walkBack_succ (source : String) (previous : List (String × String)) (n : Nat)
    (cur : String) (path r : List String)
    (h : walkBack source previous n cur path = some r) :
    walkBack source previous (n + 1) cur path = some r := by
  induction n generalizing cur path with
  | zero => simp [walkBack] at h
  | succ n ih =>
    rw [walkBack] at h
    rw [walkBack]
    by_cases h1 : cur = ""
    · simpa [h1] using h
    · by_cases h2 : cur = source
      · simpa [h1, h2] using h
      · simp only [h1, h2, if_false] at h ⊢
        exact ih _ _ h

theorem walkBack_mono (source : String) (previous : List (String × String)) (n m : Nat)
    (cur : String) (path r : List String) (hnm : n ≤ m)
    (h : walkBack source previous n cur path = some r) :
    walkBack source previous m cur path = some r := by
  induction hnm with
  | refl => exact h
  | step _ ih => exact walkBack_succ _ _ _ _ _ _ ih

/-! ## Termination of the main loop -/

theorem mem_targets (al : List (String × List Edge)) (u : String) (e : Edge)
    (h : e ∈ lookupD al u []) : e.to_ ∈ targets al := by
  induction al with
  | nil => simp [lookupD] at h
  | cons hd t ih =>
    obtain ⟨a, b⟩ := hd
    by_cases h1 : a = u
    · simp only [lookupD, h1, if_true] at h
      simp only [targets, List.mem_append, List.mem_map]
      exact Or.inl ⟨e, h, rfl⟩
    · simp only [lookupD, h1, if_false] at h
      simp only [targets, List.mem_append]
      exact Or.inr (ih h)

theorem targets_assign_nil (al : List (String × List Edge)) (u : String)
    (h : hasKey al u = false) : targets (assign al u []) = targets al := by
  induction al with
  | nil => simp [assign, targets]
  | cons hd t ih =>
    obtain ⟨a, b⟩ := hd
    by_cases h1 : a = u
    · simp [hasKey, h1] at h
    · simp [hasKey, h1] at h
      simp [assign, h1, targets, ih h]

theorem targets_touch (al : List (String × List Edge)) (u : String) :
    targets (touch al u []) = targets al := by
  unfold touch
  by_cases h : hasKey al u = true
  · simp [h]
  · have h0 : hasKey al u = false := by simpa using h
    simp [h0, targets_assign_nil al u h0]

theorem sum_map_le (T : List String) (f g : String → Int) (h : ∀ v, g v ≤ f v) :
    (T.map g).sum ≤ (T.map f).sum := by
  induction T with
  | nil => simp
  | cons a t ih =>
    simp only [List.map_cons, List.sum_cons]
    have := h a
    omega

theorem sum_map_lt (T : List String) (f g : String → Int) (h : ∀ v, g v ≤ f v)
    (v0 : String) (hv : v0 ∈ T) (h0 : g v0 + 1 ≤ f v0) :
    (T.map g).sum + 1 ≤ (T.map f).sum := by
  induction T with
  | nil => simp at hv
  | cons a t ih =>
    simp only [List.map_cons, List.sum_cons]
    simp only [List.mem_cons] at hv
    rcases hv with rfl | hv
    · have := sum_map_le t f g h
      omega
    · have := ih hv
      have := h a
      omega

theorem sum_map_nonneg (T : List String) (f : String → Int) (h : ∀ v, 0 ≤ f v) :
    0 ≤ (T.map f).sum := by
  induction T with
  | nil => simp
  | cons a t ih =>
    simp only [List.map_cons, List.sum_cons]
    have := h a
    omega

theorem relaxEdges_cons (u : String) (k : Int) (e : Edge) (rest : List Edge) (st : Search) :
    relaxEdges u k (e :: rest) st =
      if wrap32 (k + e.distance) < distOf st e.to_ then
        relaxEdges u k rest (relaxStep st e.to_ u (wrap32 (k + e.distance)))
      else relaxEdges u k rest st := rfl

theorem distOf_relaxStep (st : Search) (v u : String) (nd : Int) (x : String) :
    distOf (relaxStep st v u nd) x = if v = x then nd else distOf st x := by
  simp [distOf, relaxStep, lookupD_assign]

theorem prevOf_relaxStep (st : Search) (v u : String) (nd : Int) (x : String) :
    prevOf (relaxStep st v u nd) x = if v = x then u else prevOf st x := by
  simp [prevOf, relaxStep, lookupD_assign]

theorem pq_relaxStep (st : Search) (v u : String) (nd : Int) :
    (relaxStep st v u nd).pq = (nd, v) :: st.pq := rfl

theorem relaxEdges_potential (T : List String) (u : String) (k : Int) (es : List Edge)
    (st : Search) (hT : ∀ e ∈ es, e.to_ ∈ T) (hr : ∀ v, INT_MIN ≤ distOf st v) :
    (∀ v, INT_MIN ≤ distOf (relaxEdges u k es st) v) ∧
      potential T (relaxEdges u k es st) ≤ potential T st := by
  induction es generalizing st with
  | nil => exact ⟨hr, le_refl _⟩
  | cons e rest ih =>
    have hT' : ∀ e' ∈ rest, e'.to_ ∈ T := fun e' he' => hT e' (by simp [he'])
    rw [relaxEdges_cons]
    split
    · rename_i hlt
      have hr1 : ∀ v, INT_MIN ≤ distOf (relaxStep st e.to_ u (wrap32 (k + e.distance))) v := by
        intro v
        rw [distOf_relaxStep]
        split
        · exact wrap32_ge _
        · exact hr v
      obtain ⟨h1, h2⟩ := ih _ hT' hr1
      refine ⟨h1, le_trans h2 ?_⟩
      unfold potential
      have hsum := sum_map_lt T (fun v => distOf st v - INT_MIN)
        (fun v => distOf (relaxStep st e.to_ u (wrap32 (k + e.distance))) v - INT_MIN)
        (by
          intro v
          simp only [distOf_relaxStep]
          split
          · rename_i hv
            subst hv
            omega
          · exact le_refl _)
        e.to_ (hT e (by simp))
        (by
          simp only [distOf_relaxStep, if_true]
          omega)
      simp only [pq_relaxStep, List.length_cons, Nat.cast_add, Nat.cast_one]
      omega
    · exact ih st hT' hr

theorem mainLoop_terminates (destination : String) (n : Nat) (al : List (String × List Edge))
    (st : Search) (hr : ∀ v, INT_MIN ≤ distOf st v)
    (hp : potential (targets al) st ≤ n) :
    ∃ r, mainLoop destination (n + 1) al st = some r := by
  induction n generalizing al st with
  | zero =>
    have hs := sum_map_nonneg (targets al) (fun v => distOf st v - INT_MIN)
      (fun v => by have := hr v; show 0 ≤ distOf st v - INT_MIN; omega)
    have hl : st.pq = [] := by
      unfold potential at hp
      cases hq : st.pq with
      | nil => rfl
      | cons a t =>
        rw [hq] at hp
        simp only [List.length_cons, Nat.cast_add, Nat.cast_one] at hp
        simp only [CharP.cast_eq_zero] at hp
        omega
    exact ⟨(al, st), by rw [mainLoop, hl]; rfl⟩
  | succ n ih =>
    rw [mainLoop]
    split
    · exact ⟨_, rfl⟩
    · rename_i dist u pq' hpop
      obtain ⟨_, _, _, _, hlen⟩ := popMin_spec _ _ _ hpop
      split
      · exact ⟨_, rfl⟩
      · split
        · apply ih
          · exact hr
          · unfold potential at hp ⊢
            simp only [distOf] at hp ⊢
            push_cast at hp ⊢
            have : (pq'.length : Int) + 1 = st.pq.length := by exact_mod_cast hlen
            omega
        · have hbase : ∀ v, INT_MIN ≤ distOf { st with pq := pq' } v := hr
          obtain ⟨h1, h2⟩ := relaxEdges_potential (targets al) u dist (lookupD al u [])
            { st with pq := pq' } (fun e he => mem_targets al u e he) hbase
          apply ih
          · exact h1
          · rw [targets_touch]
            refine le_trans h2 ?_
            unfold potential at hp ⊢
            simp only [distOf] at hp ⊢
            push_cast at hp ⊢
            have : (pq'.length : Int) + 1 = st.pq.length := by exact_mod_cast hlen
            omega

/-! ## The relaxation loop without overflow -/

theorem relaxEdges_spec (u : String) (k : Int) (es : List Edge) (st : Search)
    (hsafe : ∀ e ∈ es, INT_MIN ≤ k + e.distance ∧ k + e.distance ≤ INT_MAX) :
    RelaxPost u k es st (relaxEdges u k es st) := by
  induction es generalizing st with
  | nil =>
    exact ⟨fun _ => le_refl _, fun _ => Or.inl ⟨rfl, rfl⟩, by simp, fun _ h => h,
      fun _ h => Or.inl h⟩
  | cons e rest ih =>
    have hsafe' : ∀ e' ∈ rest, INT_MIN ≤ k + e'.distance ∧ k + e'.distance ≤ INT_MAX :=
      fun e' he' => hsafe e' (by simp [he'])
    have hw : wrap32 (k + e.distance) = k + e.distance :=
      wrap32_eq _ (hsafe e (by simp)).1 (hsafe e (by simp)).2
    rw [relaxEdges_cons, hw]
    split
    · rename_i hlt
      have h1 := ih (relaxStep st e.to_ u (k + e.distance)) hsafe'
      have hd1 : ∀ x, distOf (relaxStep st e.to_ u (k + e.distance)) x
          = if e.to_ = x then k + e.distance else distOf st x := fun x => distOf_relaxStep _ _ _ _ x
      have hp1 : ∀ x, prevOf (relaxStep st e.to_ u (k + e.distance)) x
          = if e.to_ = x then u else prevOf st x := fun x => prevOf_relaxStep _ _ _ _ x
      have hle1 : ∀ x, distOf (relaxStep st e.to_ u (k + e.distance)) x ≤ distOf st x := by
        intro x
        rw [hd1]
        split
        · rename_i hx
          subst hx
          exact le_of_lt hlt
        · exact le_refl _
      refine ⟨fun v => le_trans (h1.le v) (hle1 v), ?_, ?_, ?_, ?_⟩
      · intro v
        rcases h1.change v with ⟨hd, hp⟩ | ⟨hd, hp, hq, e', he', hto, hval⟩
        · by_cases hv : e.to_ = v
          · right
            subst hv
            rw [hd1] at hd
            rw [hp1] at hp
            simp only [if_true] at hd hp
            refine ⟨by rw [hd]; exact hlt, hp, ?_, e, by simp, rfl, hd⟩
            rw [hd]
            exact h1.keep _ (by simp [pq_relaxStep])
          · left
            rw [hd1] at hd
            rw [hp1] at hp
            simp only [hv, if_false] at hd hp
            exact ⟨hd, hp⟩
        · right
          exact ⟨lt_of_lt_of_le hd (hle1 v), hp, hq, e', by simp [he'], hto, hval⟩
      · intro e' he'
        simp only [List.mem_cons] at he'
        rcases he' with rfl | he'
        · have := h1.le e'.to_
          rw [hd1] at this
          simpa using this
        · exact h1.relaxed e' he'
      · intro p hp
        exact h1.keep p (by simp [pq_relaxStep, hp])
      · intro p hp
        rcases h1.pushed p hp with hin | ⟨e', he', h2, h3, h4⟩
        · simp only [pq_relaxStep, List.mem_cons] at hin
          rcases hin with rfl | hin
          · right
            refine ⟨e, by simp, rfl, rfl, ?_⟩
            have := h1.le e.to_
            rw [hd1] at this
            simpa using this
          · exact Or.inl hin
        · exact Or.inr ⟨e', by simp [he'], h2, h3, h4⟩
    · rename_i hlt
      have h1 := ih st hsafe'
      refine ⟨h1.le, ?_, ?_, h1.keep, ?_⟩
      · intro v
        rcases h1.change v with h | ⟨hd, hp, hq, e', he', hto, hval⟩
        · exact Or.inl h
        · exact Or.inr ⟨hd, hp, hq, e', by simp [he'], hto, hval⟩
      · intro e' he'
        simp only [List.mem_cons] at he'
        rcases he' with rfl | he'
        · have := h1.le e'.to_
          omega
        · exact h1.relaxed e' he'
      · intro p hp
        rcases h1.pushed p hp with hin | ⟨e', he', h2, h3, h4⟩
        · exact Or.inl hin
        · exact Or.inr ⟨e', by simp [he'], h2, h3, h4⟩

/-! ## Weight bookkeeping -/

theorem sumWeights_nonneg (es : List Edge) (h : ∀ e ∈ es, 0 ≤ e.distance) :
    0 ≤ sumWeights es := by
  induction es with
  | nil => simp [sumWeights]
  | cons a t ih =>
    have h1 := h a (by simp)
    have h2 := ih (fun e he => h e (by simp [he]))
    simp only [sumWeights, List.map_cons, List.sum_cons] at h2 ⊢
    omega

theorem le_sumWeights (es : List Edge) (h : ∀ e ∈ es, 0 ≤ e.distance) (e : Edge)
    (he : e ∈ es) : e.distance ≤ sumWeights es := by
  induction es with
  | nil => simp at he
  | cons a t ih =>
    have h1 := h a (by simp)
    have h2 := sumWeights_nonneg t (fun e he => h e (by simp [he]))
    simp only [List.mem_cons] at he
    simp only [sumWeights, List.map_cons, List.sum_cons] at h2 ⊢
    rcases he with rfl | he
    · omega
    · have h3 := ih (fun e he => h e (by simp [he])) he
      simp only [sumWeights] at h3
      omega

theorem nonNeg_tail (hd : String × List Edge) (t : List (String × List Edge))
    (h : NonNeg (hd :: t)) : NonNeg t :=
  fun p hp e he => h p (by simp [hp]) e he

theorem nonNeg_neighbours (al : List (String × List Edge)) (h : NonNeg al) (u : String)
    (e : Edge) (he : e ∈ neighbours al u) : 0 ≤ e.distance := by
  obtain ⟨p, hp, _, hx⟩ := mem_of_mem_lookupD al u e he
  exact h p hp e hx

theorem closed_neighbours (al : List (String × List Edge)) (h : Closed al) (u : String)
    (e : Edge) (he : e ∈ neighbours al u) : hasKey al e.to_ = true := by
  obtain ⟨p, hp, _, hx⟩ := mem_of_mem_lookupD al u e he
  exact h p hp e hx

theorem weightOf_nonneg (al : List (String × List Edge)) (h : NonNeg al) (S : List String) :
    0 ≤ weightOf al S := by
  induction al with
  | nil => simp [weightOf]
  | cons hd t ih =>
    have h1 := sumWeights_nonneg hd.2 (h hd (by simp))
    have h2 := ih (nonNeg_tail hd t h)
    simp only [weightOf, List.map_cons, List.sum_cons] at h2 ⊢
    split <;> omega

theorem weightOf_le_total (al : List (String × List Edge)) (h : NonNeg al) (S : List String) :
    weightOf al S ≤ totalWeight al := by
  induction al with
  | nil => simp [weightOf, totalWeight]
  | cons hd t ih =>
    have h1 := sumWeights_nonneg hd.2 (h hd (by simp))
    have h2 := ih (nonNeg_tail hd t h)
    simp only [weightOf, totalWeight, List.map_cons, List.sum_cons] at h2 ⊢
    split <;> omega

theorem weightOf_mono (al : List (String × List Edge)) (h : NonNeg al) (S : List String)
    (u : String) : weightOf al S ≤ weightOf al (u :: S) := by
  induction al with
  | nil => simp [weightOf]
  | cons hd t ih =>
    have h1 := sumWeights_nonneg hd.2 (h hd (by simp))
    have h2 := ih (nonNeg_tail hd t h)
    simp only [weightOf, List.map_cons, List.sum_cons, List.mem_cons] at h2 ⊢
    by_cases ha : hd.1 ∈ S
    · simp only [ha, or_true, if_true]
      omega
    · by_cases hb : hd.1 = u
      · simp only [ha, hb, true_or, if_true, if_false]
        omega
      · simp only [ha, hb, or_self, if_false]
        omega

theorem weightOf_cons (al : List (String × List Edge)) (h : NonNeg al) (S : List String)
    (u : String) (hu : u ∉ S) :
    weightOf al S + sumWeights (neighbours al u) ≤ weightOf al (u :: S) := by
  induction al with
  | nil => simp [weightOf, neighbours, lookupD, sumWeights]
  | cons hd t ih =>
    obtain ⟨a, b⟩ := hd
    have h1 := sumWeights_nonneg b (h (a, b) (by simp))
    have h2 := ih (nonNeg_tail (a, b) t h)
    have h3 := weightOf_mono t (nonNeg_tail (a, b) t h) S u
    simp only [weightOf, List.map_cons, List.sum_cons, List.mem_cons, neighbours] at h2 h3 ⊢
    by_cases hb : a = u
    · subst hb
      simp only [hu, true_or, if_true, if_false, lookupD]
      omega
    · by_cases ha : a ∈ S
      · simp only [ha, or_true, if_true, lookupD, hb, if_false]
        omega
      · simp only [ha, hb, or_self, if_false, lookupD]
        omega

theorem relaxEdges_noop (u : String) (k : Int) (es : List Edge) (st : Search)
    (h : ∀ e ∈ es, ¬ wrap32 (k + e.distance) < distOf st e.to_) :
    relaxEdges u k es st = st := by
  induction es with
  | nil => rfl
  | cons e rest ih =>
    rw [relaxEdges_cons]
    simp only [h e (by simp), if_false]
    exact ih (fun e' he' => h e' (by simp [he']))

theorem prevPath_congr (f g : String → String) (s x : String) (p : List String)
    (h : PrevPath f s x p) (hfg : ∀ y ∈ p, g y = f y) : PrevPath g s x p := by
  induction h with
  | base => exact PrevPath.base
  | @step v p' hv _ ih =>
    have h1 : g v = f v := hfg v (by simp)
    have h2 := ih (fun y hy => hfg y (by simp [hy]))
    rw [← h1] at h2
    exact PrevPath.step hv h2

theorem prevPath_mem_self (f : String → String) (s x : String) (p : List String)
    (h : PrevPath f s x p) : x ∈ p := by
  cases h <;> simp

/-! ## Preservation of the loop invariant -/

/-- Discarding a popped entry that is stale, or whose station is already settled. -/
theorem inv_drop (al : List (String × List Edge)) (s d : String) (st : Search)
    (S : List String) (k : Int) (u : String) (pq' : List (Int × String))
    (hinv : Inv al s d st S) (hpop : popMin st.pq = some ((k, u), pq'))
    (hcase : k > distOf st u ∨ u ∈ S) :
    Inv al s d { st with pq := pq' } S := by
  obtain ⟨_, _, hsub, hne, _⟩ := popMin_spec _ _ _ hpop
  refine ⟨hinv.src, hinv.notDest, fun p hp => hinv.pqKey p (hsub p hp),
    fun p hp => hinv.pqLow p (hsub p hp), fun x hx p hp => hinv.mono x hx p (hsub p hp),
    hinv.bnd, ?_, hinv.relaxed, hinv.safe, hinv.tree, hinv.chain, hinv.settled⟩
  intro v hv hkey hfin
  have hmem := hinv.front v hv hkey hfin
  apply hne _ hmem
  intro heq
  have h1 : distOf st v = k := congrArg Prod.fst heq
  have h2 : v = u := congrArg Prod.snd heq
  subst h2
  rcases hcase with h | h
  · omega
  · exact hv h

/-- Relaxing the edges of a station popped with its current distance. -/
theorem inv_expand (al : List (String × List Edge)) (s d : String) (st : Search)
    (S : List String) (k : Int) (u : String) (pq' : List (Int × String))
    (hnn : NonNeg al) (hcl : Closed al) (htot : totalWeight al < INT_MAX)
    (hinv : Inv al s d st S) (hpop : popMin st.pq = some ((k, u), pq'))
    (hfresh : ¬ k > distOf st u) (huS : u ∉ S) (hud : u ≠ d) :
    Inv al s d (relaxEdges u k (neighbours al u) { st with pq := pq' }) (u :: S) := by
  obtain ⟨hmem, hmin, hsub, hne, _⟩ := popMin_spec _ _ _ hpop
  have hku : distOf st u = k := by
    have := (hinv.pqLow _ hmem).1
    simp only at this
    omega
  have hkfin : k < INT_MAX := (hinv.pqLow _ hmem).2
  have hk0 : 0 ≤ k ∧ k ≤ weightOf al S := by
    rcases hinv.bnd u with h | h
    · omega
    · rw [hku] at h
      exact h
  have hW : ∀ e ∈ neighbours al u, 0 ≤ e.distance ∧
      k + e.distance ≤ weightOf al (u :: S) := by
    intro e he
    have h1 := nonNeg_neighbours al hnn u e he
    have h2 := le_sumWeights (neighbours al u) (fun e' he' => nonNeg_neighbours al hnn u e' he')
      e he
    have h3 := weightOf_cons al hnn S u huS
    exact ⟨h1, by omega⟩
  have hWt := weightOf_le_total al hnn (u :: S)
  have hWm := weightOf_mono al hnn S u
  have hsafe : ∀ e ∈ neighbours al u, INT_MIN ≤ k + e.distance ∧ k + e.distance ≤ INT_MAX := by
    intro e he
    have := hW e he
    unfold INT_MIN
    omega
  have R := relaxEdges_spec u k (neighbours al u) { st with pq := pq' } hsafe
  have hbaseD : ∀ v, distOf { st with pq := pq' } v = distOf st v := fun _ => rfl
  have hbaseP : ∀ v, prevOf { st with pq := pq' } v = prevOf st v := fun _ => rfl
  -- stations of `u :: S` keep their distance and predecessor
  have hfix : ∀ v, v ∈ u :: S →
      distOf (relaxEdges u k (neighbours al u) { st with pq := pq' }) v = distOf st v ∧
      prevOf (relaxEdges u k (neighbours al u) { st with pq := pq' }) v = prevOf st v := by
    intro v hv
    rcases R.change v with h | ⟨hlt, _, _, e, he, _, hval⟩
    · exact h
    · exfalso
      have hw := (hW e he).1
      rw [hbaseD] at hlt
      simp only [List.mem_cons] at hv
      rcases hv with rfl | hv
      · omega
      · have := hinv.mono v hv _ hmem
        simp only at this
        omega
  have hsrc : distOf (relaxEdges u k (neighbours al u) { st with pq := pq' }) s = 0 := by
    rcases R.change s with h | ⟨hlt, _, _, e, he, _, hval⟩
    · rw [h.1, hbaseD]
      exact hinv.src
    · exfalso
      have hw := (hW e he).1
      rw [hbaseD, hinv.src] at hlt
      omega
  refine ⟨hsrc, ?_, ?_, ?_, ?_, ?_, ?_, ?_, ?_, ?_, ?_, ?_⟩
  · -- notDest
    simp only [List.mem_cons, not_or]
    exact ⟨fun h => hud h.symm, hinv.notDest⟩
  · -- pqKey
    intro p hp
    rcases R.pushed p hp with hin | ⟨e, he, h2, _, _⟩
    · exact hinv.pqKey p (hsub p hin)
    · rw [h2]
      exact closed_neighbours al hcl u e he
  · -- pqLow
    intro p hp
    rcases R.pushed p hp with hin | ⟨e, he, h2, h3, h4⟩
    · have h1 := hinv.pqLow p (hsub p hin)
      have h5 := R.le p.2
      rw [hbaseD] at h5
      exact ⟨by omega, h1.2⟩
    · have := hW e he
      exact ⟨h4, by omega⟩
  · -- mono
    intro x hx p hp
    rw [(hfix x hx).1]
    have hxk : distOf st x ≤ k := by
      simp only [List.mem_cons] at hx
      rcases hx with rfl | hx
      · omega
      · exact hinv.mono x hx _ hmem
    rcases R.pushed p hp with hin | ⟨e, he, h2, h3, h4⟩
    · have := hmin p (hsub p hin)
      simp only at this
      omega
    · have := (hW e he).1
      omega
  · -- bnd
    intro v
    rcases R.change v with h | ⟨_, _, _, e, he, _, hval⟩
    · rw [h.1, hbaseD]
      rcases hinv.bnd v with hb | hb
      · exact Or.inl hb
      · exact Or.inr ⟨hb.1, by omega⟩
    · right
      have := hW e he
      omega
  · -- front
    intro v hv hkey hfin
    simp only [List.mem_cons, not_or] at hv
    rcases R.change v with h | ⟨_, _, hq, _⟩
    · rw [h.1, hbaseD] at hfin ⊢
      have hmem' := hinv.front v hv.2 hkey hfin
      apply R.keep
      apply hne _ hmem'
      intro heq
      exact hv.1 (congrArg Prod.snd heq)
    · exact hq
  · -- relaxed
    intro x hx e he
    rw [(hfix x hx).1]
    simp only [List.mem_cons] at hx
    rcases hx with rfl | hx
    · have := R.relaxed e he
      omega
    · have h1 := R.le e.to_
      rw [hbaseD] at h1
      have h2 := hinv.relaxed x hx e he
      omega
  · -- safe
    intro x hx e he
    rw [(hfix x hx).1]
    simp only [List.mem_cons] at hx
    rcases hx with rfl | hx
    · have := hW e he
      omega
    · exact hinv.safe x hx e he
  · -- tree
    intro v hkey hfin hvs
    rcases R.change v with h | ⟨_, hp, _, e, he, hto, hval⟩
    · rw [h.1, hbaseD] at hfin
      obtain ⟨h1, e, he, hto, hval⟩ := hinv.tree v hkey hfin hvs
      rw [h.2, hbaseP, h.1, hbaseD]
      refine ⟨by simp [h1], e, he, hto, ?_⟩
      rw [(hfix (prevOf st v) (by simp [h1])).1]
      exact hval
    · rw [hp]
      refine ⟨by simp, e, he, hto, ?_⟩
      rw [(hfix u (by simp)).1, hku]
      exact hval
  · -- chain
    intro x hx
    have hchainU : ∃ p, PrevPath (prevOf st) s x p ∧ ∀ y ∈ p, y ∈ u :: S := by
      simp only [List.mem_cons] at hx
      rcases hx with rfl | hx
      · by_cases hxs : x = s
        · subst hxs
          exact ⟨[x], PrevPath.base, by simp⟩
        · have hxkey := hinv.pqKey _ hmem
          have hxfin : distOf st x ≠ INT_MAX := by omega
          obtain ⟨h1, _⟩ := hinv.tree x hxkey hxfin hxs
          obtain ⟨p, hp, hpS⟩ := hinv.chain _ h1
          refine ⟨p ++ [x], PrevPath.step hxs hp, ?_⟩
          intro y hy
          simp only [List.mem_append, List.mem_singleton] at hy
          rcases hy with hy | hy
          · simp [hpS y hy]
          · simp [hy]
      · obtain ⟨p, hp, hpS⟩ := hinv.chain x hx
        exact ⟨p, hp, fun y hy => by simp [hpS y hy]⟩
    obtain ⟨p, hp, hpS⟩ := hchainU
    exact ⟨p, prevPath_congr _ _ s x p hp (fun y hy => (hfix y (hpS y hy)).2), hpS⟩
  · -- settled
    intro x hx
    rw [(hfix x hx).1]
    simp only [List.mem_cons] at hx
    rcases hx with rfl | hx
    · exact ⟨hinv.pqKey _ hmem, by omega⟩
    · exact hinv.settled x hx

/-! ## Running the main loop under the invariant -/

theorem inv_init (al : List (String × List Edge)) (s d : String) (hnn : NonNeg al)
    (hs : hasKey al s = true) :
    Inv al s d ⟨assign (initDistance al) s 0, [], [(0, s)]⟩ [] := by
  have hD : ∀ v, distOf ⟨assign (initDistance al) s 0, [], [(0, s)]⟩ v
      = if s = v then 0 else if hasKey al v then INT_MAX else 0 := by
    intro v
    simp [distOf, lookupD_assign, lookupD_initDistance]
  refine ⟨by rw [hD]; simp, by simp, ?_, ?_, by simp, ?_, ?_, by simp, by simp, ?_, by simp,
    by simp⟩
  · intro p hp
    simp only [List.mem_singleton] at hp
    subst hp
    exact hs
  · intro p hp
    simp only [List.mem_singleton] at hp
    subst hp
    rw [hD]
    simp [INT_MAX]
  · intro v
    rw [hD]
    have hw := weightOf_nonneg al hnn []
    by_cases h1 : s = v
    · simp [h1, hw]
    · by_cases h2 : hasKey al v = true
      · simp [h1, h2]
      · simp [h1, h2, hw]
  · intro v _ hkey hfin
    rw [hD] at hfin ⊢
    by_cases h1 : s = v
    · simp [h1]
    · simp [h1, hkey] at hfin
  · intro v hkey hfin hvs
    rw [hD] at hfin
    have h1 : ¬ s = v := fun h => hvs h.symm
    simp [h1, hkey] at hfin

theorem mainLoop_inv (al : List (String × List Edge)) (s d : String)
    (hnn : NonNeg al) (hcl : Closed al) (htot : totalWeight al < INT_MAX)
    (n : Nat) (st : Search) (S : List String) (hinv : Inv al s d st S)
    (r : List (String × List Edge) × Search) (h : mainLoop d n al st = some r) :
    r.1 = al ∧ Final al s d r.2 := by
  induction n generalizing st S with
  | zero => simp [mainLoop] at h
  | succ n ih =>
    rw [mainLoop] at h
    split at h
    · rename_i hp
      simp only [Option.some.injEq] at h
      subst h
      exact ⟨rfl, st, S, hinv, rfl, rfl, Or.inl (popMin_none _ hp)⟩
    · rename_i k u pq' hpop
      obtain ⟨hmem, hmin, _, _, _⟩ := popMin_spec _ _ _ hpop
      split at h
      · rename_i hud
        simp only [Option.some.injEq] at h
        subst h
        subst hud
        exact ⟨rfl, st, S, hinv, rfl, rfl, Or.inr ⟨k, hmem, fun p hp => hmin p hp⟩⟩
      · rename_i hud
        split at h
        · rename_i hstale
          exact ih _ S (inv_drop al s d st S k u pq' hinv hpop (Or.inl hstale)) h
        · rename_i hfresh
          have hkey : hasKey al u = true := hinv.pqKey _ hmem
          rw [touch_of_hasKey al u [] hkey] at h
          by_cases huS : u ∈ S
          · have hku : distOf st u = k := by
              have := (hinv.pqLow _ hmem).1
              have hf : ¬ k > distOf st u := hfresh
              simp only at this
              omega
            have hkfin : k < INT_MAX := (hinv.pqLow _ hmem).2
            have hnoop : relaxEdges u k (lookupD al u []) { st with pq := pq' }
                = { st with pq := pq' } := by
              apply relaxEdges_noop
              intro e he
              have h1 := hinv.safe u huS e he
              have h2 := hinv.relaxed u huS e he
              have h3 := nonNeg_neighbours al hnn u e he
              have h4 : 0 ≤ distOf st u := by
                rcases hinv.bnd u with hb | hb
                · omega
                · exact hb.1
              have hw : wrap32 (k + e.distance) = k + e.distance := by
                apply wrap32_eq
                · unfold INT_MIN; omega
                · omega
              rw [hw]
              have h5 : distOf { st with pq := pq' } e.to_ = distOf st e.to_ := rfl
              rw [h5]
              omega
            rw [hnoop] at h
            exact ih _ S (inv_drop al s d st S k u pq' hinv hpop (Or.inr huS)) h
          · exact ih _ (u :: S)
              (inv_expand al s d st S k u pq' hnn hcl htot hinv hpop hfresh huS hud) h

/-! ## Consequences of the invariant at loop exit -/

theorem frontier (al : List (String × List Edge)) (s d : String) (st : Search)
    (S : List String) (hnn : NonNeg al) (hcl : Closed al) (htot : totalWeight al < INT_MAX)
    (hs : hasKey al s = true) (hinv : Inv al s d st S) (v : String) (c : Int)
    (hw : Walk al s v c) :
    (∃ x, x ∉ S ∧ (distOf st x, x) ∈ st.pq ∧ distOf st x ≤ c) ∨
      (v ∈ S ∧ distOf st v ≤ c) := by
  induction hw with
  | nil =>
    by_cases hsS : s ∈ S
    · right
      exact ⟨hsS, by rw [hinv.src]⟩
    · left
      have hfin : distOf st s ≠ INT_MAX := by rw [hinv.src]; simp [INT_MAX]
      exact ⟨s, hsS, hinv.front s hsS hs hfin, by rw [hinv.src]⟩
  | @snoc u c e _ he ih =>
    have hw0 := nonNeg_neighbours al hnn u e he
    rcases ih with ⟨x, hx, hq, hle⟩ | ⟨huS, hle⟩
    · left
      exact ⟨x, hx, hq, by omega⟩
    · have h1 := hinv.relaxed u huS e he
      have h2 := hinv.safe u huS e he
      by_cases hvS : e.to_ ∈ S
      · right
        exact ⟨hvS, by omega⟩
      · left
        have hfin : distOf st e.to_ ≠ INT_MAX := by omega
        exact ⟨e.to_, hvS, hinv.front _ hvS (closed_neighbours al hcl u e he) hfin, by omega⟩

theorem final_opt (al : List (String × List Edge)) (s d : String) (st : Search)
    (hnn : NonNeg al) (hcl : Closed al) (htot : totalWeight al < INT_MAX)
    (hs : hasKey al s = true) (hfin : Final al s d st) (c : Int) (hw : Walk al s d c) :
    distOf st d ≤ c ∧ distOf st d < INT_MAX := by
  obtain ⟨stb, S, hinv, hd, _, hq⟩ := hfin
  have hD : distOf st d = distOf stb d := by simp [distOf, hd]
  rw [hD]
  rcases frontier al s d stb S hnn hcl htot hs hinv d c hw with ⟨x, _, hmem, hle⟩ | ⟨hdS, _⟩
  · rcases hq with hq | ⟨k, hk, hmin⟩
    · rw [hq] at hmem
      simp at hmem
    · have h1 := hinv.pqLow _ hk
      have h2 := hmin _ hmem
      simp only at h1 h2
      omega
  · exact absurd hdS hinv.notDest

/-! ## Walks, path costs and the predecessor chain -/

theorem walk_cast (al : List (String × List Edge)) (s v : String) (c c' : Int)
    (h : Walk al s v c) (hc : c = c') : Walk al s v c' := hc ▸ h

theorem walk_trans (al : List (String × List Edge)) (s u v : String) (c1 c2 : Int)
    (h1 : Walk al s u c1) (h2 : Walk al u v c2) : Walk al s v (c1 + c2) := by
  induction h2 with
  | nil => exact walk_cast al s u c1 _ h1 (by omega)
  | @snoc w c e _ he ih =>
    exact walk_cast al s e.to_ _ _ (Walk.snoc e ih he) (by omega)

theorem walk_nonneg (al : List (String × List Edge)) (hnn : NonNeg al) (s v : String) (c : Int)
    (h : Walk al s v c) : 0 ≤ c := by
  induction h with
  | nil => exact le_refl _
  | @snoc w c e _ he ih =>
    have := nonNeg_neighbours al hnn w e he
    omega

theorem walk_hasKey_source (al : List (String × List Edge)) (s v : String) (c : Int)
    (h : Walk al s v c) (hne : s ≠ v) : hasKey al s = true := by
  induction h with
  | nil => exact absurd rfl hne
  | @snoc w c e _ he ih =>
    by_cases hsw : s = w
    · subst hsw
      exact hasKey_of_mem_lookupD al s e he
    · exact ih hsw

theorem minOf_eq (l : List Int) (m : Int) (hm : m ∈ l) (hle : ∀ x ∈ l, m ≤ x) :
    minOf l = m := by
  induction l with
  | nil => simp at hm
  | cons a t ih =>
    cases t with
    | nil =>
      simp only [List.mem_singleton] at hm
      simp [minOf, hm]
    | cons b t' =>
      rw [minOf]
      simp only [List.mem_cons] at hm
      have ha := hle a (by simp)
      rcases hm with rfl | hm
      · have hrest : ∀ x ∈ b :: t', m ≤ x := fun x hx => hle x (by simp [List.mem_cons.mp hx])
        have : m ≤ minOf (b :: t') := by
          have key : ∀ (l : List Int), l ≠ [] → (∀ x ∈ l, m ≤ x) → m ≤ minOf l := by
            intro l
            induction l with
            | nil => intro h; exact absurd rfl h
            | cons c t2 ih2 =>
              intro _ hl
              cases t2 with
              | nil => simpa [minOf] using hl c (by simp)
              | cons c2 t3 =>
                rw [minOf]
                exact le_min (hl c (by simp))
                  (ih2 (by simp) (fun x hx => hl x (by simp [List.mem_cons.mp hx])))
          exact key _ (by simp) hrest
        exact min_eq_left this
      · have h1 := ih (by simpa using hm) (fun x hx => hle x (by simp [List.mem_cons.mp hx]))
        rw [h1]
        exact min_eq_right ha

theorem minWeight_eq (al : List (String × List Edge)) (a b : String) (e : Edge)
    (he : e ∈ neighbours al a) (hto : e.to_ = b)
    (hmin : ∀ e' ∈ neighbours al a, e'.to_ = b → e.distance ≤ e'.distance) :
    minWeight al a b = e.distance := by
  unfold minWeight
  apply minOf_eq
  · simp only [List.mem_map, List.mem_filter, decide_eq_true_eq]
    exact ⟨e, ⟨he, hto⟩, rfl⟩
  · intro x hx
    simp only [List.mem_map, List.mem_filter, decide_eq_true_eq] at hx
    obtain ⟨e', ⟨he', hto'⟩, rfl⟩ := hx
    exact hmin e' he' hto'

theorem pathCost_snoc (al : List (String × List Edge)) (p : List String) (a v : String)
    (hlast : p.getLast? = some a) :
    pathCost al (p ++ [v]) = pathCost al p + minWeight al a v := by
  induction p with
  | nil => simp at hlast
  | cons x t ih =>
    cases t with
    | nil =>
      simp only [List.getLast?_singleton, Option.some.injEq] at hlast
      subst hlast
      simp [pathCost]
    | cons y t' =>
      have h1 : (y :: t').getLast? = some a := by
        rw [List.getLast?_cons_cons] at hlast
        exact hlast
      have h2 := ih h1
      simp only [List.cons_append] at h2 ⊢
      rw [pathCost, pathCost, h2]
      omega

theorem goodPath_of_prevPath (al : List (String × List Edge)) (s : String)
    (D : String → Int) (f : String → String) (hD0 : D s = 0) (x : String) (p : List String)
    (hp : PrevPath f s x p)
    (hedge : ∀ y ∈ p, y ≠ s → ∃ e ∈ neighbours al (f y), e.to_ = y ∧
      D y = D (f y) + e.distance ∧
      ∀ e' ∈ neighbours al (f y), e'.to_ = y → D y ≤ D (f y) + e'.distance) :
    GoodPath al s x (D x) p := by
  induction hp with
  | base =>
    refine ⟨rfl, rfl, by simp, by simp [pathCost, hD0], ?_, ?_⟩
    · exact walk_cast al s s 0 _ Walk.nil hD0.symm
    · intro y hy
      simp only [List.mem_singleton] at hy
      subst hy
      exact ⟨0, 0, Walk.nil, Walk.nil, by omega⟩
  | @step v p' hv hp' ih =>
    have ih' := ih (fun y hy => hedge y (by simp [hy]))
    obtain ⟨e, he, hto, hval, hmin⟩ := hedge v (by simp) hv
    have hne : p' ≠ [] := by
      intro h0
      have := ih'.head
      rw [h0] at this
      simp at this
    have hwalk : Walk al s v (D v) := by
      have := Walk.snoc e ih'.walk he
      rw [hto] at this
      exact walk_cast al s v _ _ this hval.symm
    refine ⟨?_, by simp, ?_, ?_, hwalk, ?_⟩
    · rw [List.head?_append_of_ne_nil _ hne]
      exact ih'.head
    · rw [List.chain'_append]
      refine ⟨ih'.chain, by simp, ?_⟩
      intro a ha b hb
      rw [ih'.last] at ha
      simp only [Option.mem_def, Option.some.injEq, List.head?_cons] at ha hb
      subst ha
      subst hb
      exact ⟨e, he, hto⟩
    · rw [pathCost_snoc al p' (f v) v ih'.last, ih'.cost]
      rw [minWeight_eq al (f v) v e he hto]
      · omega
      · intro e' he' hto'
        have := hmin e' he' hto'
        omega
    · intro y hy
      simp only [List.mem_append, List.mem_singleton] at hy
      rcases hy with hy | hy
      · obtain ⟨a, b, hwa, hwb, hab⟩ := ih'.split y hy
        have := Walk.snoc e hwb he
        rw [hto] at this
        exact ⟨a, b + e.distance, hwa, this, by omega⟩
      · subst hy
        exact ⟨D y, 0, hwalk, Walk.nil, by omega⟩

theorem final_path (al : List (String × List Edge)) (s d : String) (st : Search)
    (hs : hasKey al s = true) (hd : hasKey al d = true) (hfin : Final al s d st)
    (hne : distOf st d ≠ INT_MAX) :
    ∃ p, PrevPath (prevOf st) s d p ∧ GoodPath al s d (distOf st d) p ∧
      ∀ y ∈ p, hasKey al y = true := by
  obtain ⟨stb, S, hinv, hdist, hprev, _⟩ := hfin
  have hD : distOf st = distOf stb := by
    funext v
    simp [distOf, hdist]
  have hP : prevOf st = prevOf stb := by
    funext v
    simp [prevOf, hprev]
  rw [hD] at hne ⊢
  rw [hP]
  have hpath : ∃ p, PrevPath (prevOf stb) s d p ∧ ∀ y ∈ p, y ∈ S ∨ y = d := by
    by_cases hds : d = s
    · subst hds
      exact ⟨[d], PrevPath.base, by simp⟩
    · obtain ⟨h1, _⟩ := hinv.tree d hd hne hds
      obtain ⟨p, hp, hpS⟩ := hinv.chain _ h1
      refine ⟨p ++ [d], PrevPath.step hds hp, ?_⟩
      intro y hy
      simp only [List.mem_append, List.mem_singleton] at hy
      rcases hy with hy | hy
      · exact Or.inl (hpS y hy)
      · exact Or.inr hy
  obtain ⟨p, hp, hmem⟩ := hpath
  have hgood : ∀ y ∈ p, hasKey al y = true ∧ distOf stb y ≠ INT_MAX := by
    intro y hy
    rcases hmem y hy with h | h
    · exact hinv.settled y h
    · subst h
      exact ⟨hd, hne⟩
  refine ⟨p, hp, ?_, fun y hy => (hgood y hy).1⟩
  apply goodPath_of_prevPath al s (distOf stb) (prevOf stb) hinv.src d p hp
  intro y hy hys
  obtain ⟨hk, hf⟩ := hgood y hy
  obtain ⟨h1, e, he, hto, hval⟩ := hinv.tree y hk hf hys
  refine ⟨e, he, hto, hval, ?_⟩
  intro e' he' hto'
  have := hinv.relaxed _ h1 e' he'
  rw [hto'] at this
  exact this

theorem final_unreachable (al : List (String × List Edge)) (s d : String) (st : Search)
    (hs : hasKey al s = true) (hd : hasKey al d = true) (hfin : Final al s d st)
    (hno : ∀ c, ¬ Walk al s d c) : distOf st d = INT_MAX := by
  by_contra hne
  obtain ⟨p, _, hg, _⟩ := final_path al s d st hs hd hfin hne
  exact hno _ hg.walk

theorem final_bound (al : List (String × List Edge)) (s d : String) (st : Search)
    (hnn : NonNeg al) (htot : totalWeight al < INT_MAX) (hfin : Final al s d st)
    (hne : distOf st d ≠ INT_MAX) : 0 ≤ distOf st d ∧ distOf st d < INT_MAX := by
  obtain ⟨stb, S, hinv, hdist, _, _⟩ := hfin
  have hD : distOf st d = distOf stb d := by simp [distOf, hdist]
  rw [hD] at hne ⊢
  have := weightOf_le_total al hnn S
  rcases hinv.bnd d with h | h
  · exact absurd h hne
  · exact ⟨h.1, by omega⟩

/-! ## The backward walk over `previous` -/

theorem walkBack_spec (prev : List (String × String)) (s x : String) (p : List String)
    (hp : PrevPath (fun v => lookupD prev v "") s x p) :
    ∀ (acc : List String) (n : Nat), p.length ≤ n →
      ∃ q t, t ++ q = p ∧ walkBack s prev n x acc = some (acc ++ q.reverse) ∧
        ("" ∉ p → q = p) := by
  induction hp with
  | base =>
    intro acc n hn
    cases n with
    | zero => simp at hn
    | succ m =>
      by_cases h1 : s = ""
      · exact ⟨[], [s], by simp, by simp [walkBack, h1], by simp [h1]⟩
      · exact ⟨[s], [], by simp, by simp [walkBack, h1], by simp⟩
  | @step v p' hv _ ih =>
    intro acc n hn
    cases n with
    | zero => simp at hn
    | succ m =>
      have hm : p'.length ≤ m := by
        simp only [List.length_append, List.length_singleton] at hn
        omega
      by_cases h1 : v = ""
      · refine ⟨[], p' ++ [v], by simp, by simp [walkBack, h1], ?_⟩
        intro hno
        exact absurd (by simp [h1]) hno
      · obtain ⟨q, t, htq, hwb, hfull⟩ := ih (acc ++ [v]) m hm
        refine ⟨q ++ [v], t, by rw [← List.append_assoc, htq], ?_, ?_⟩
        · rw [walkBack]
          simp only [h1, hv, if_false]
          rw [hwb]
          simp
        · intro hno
          have : "" ∉ p' := fun h => hno (by simp [h])
          rw [hfull this]

/-! ## Total correctness of `dijkstra` -/

theorem dijkstra_self (fuel : Nat) (g : MetroGraph) (s : String) :
    dijkstra (fuel + 1) g s s = some (g, (if s = "" then [] else [s], 0)) := by
  have h0 : lookupD (assign (initDistance g.adjacencyList) s 0) s 0 = 0 :=
    lookupD_assign_same _ _ _ _
  by_cases h1 : s = ""
  · subst h1
    simp [dijkstra, mainLoop, popMin, pqMin, pqErase, h0, INT_MAX, walkBack]
  · simp [dijkstra, mainLoop, popMin, pqMin, pqErase, h0, INT_MAX, walkBack, h1]

/-- Outcome of a search from a station that has an adjacency entry to another such
station, on a closed graph with non-negative weights whose sum is below `INT_MAX`. -/
theorem dijkstra_core (g : MetroGraph) (s d : String)
    (hnn : NonNeg g.adjacencyList) (hcl : Closed g.adjacencyList)
    (htot : totalWeight g.adjacencyList < INT_MAX)
    (hs : hasKey g.adjacencyList s = true) (hd : hasKey g.adjacencyList d = true) :
    ∃ N path dist, (∀ fuel, N ≤ fuel → dijkstra fuel g s d = some (g, (path, dist))) ∧
      ((dist = INT_MAX ∧ path = [] ∧ ∀ c, ¬ Walk g.adjacencyList s d c) ∨
       (0 ≤ dist ∧ dist < INT_MAX ∧ (∀ c, Walk g.adjacencyList s d c → dist ≤ c) ∧
        ∃ p t, t ++ path = p ∧ GoodPath g.adjacencyList s d dist p ∧
          ("" ∉ p → path = p) ∧ ∀ y ∈ p, hasKey g.adjacencyList y = true)) := by
  obtain ⟨al, stations⟩ := g
  simp only at hnn hcl htot hs hd ⊢
  have hinit := inv_init al s d hnn hs
  have hrange : ∀ v, INT_MIN ≤ distOf ⟨assign (initDistance al) s 0, [], [(0, s)]⟩ v := by
    intro v
    simp only [distOf, lookupD_assign, lookupD_initDistance]
    unfold INT_MIN INT_MAX
    split
    · omega
    · split <;> omega
  obtain ⟨r, hr⟩ := mainLoop_terminates d
    (potential (targets al) ⟨assign (initDistance al) s 0, [], [(0, s)]⟩).toNat al
    ⟨assign (initDistance al) s 0, [], [(0, s)]⟩ hrange (Int.self_le_toNat _)
  obtain ⟨hal, hfin⟩ := mainLoop_inv al s d hnn hcl htot _ _ [] hinit r hr
  obtain ⟨al', st⟩ := r
  simp only at hal hfin
  subst hal
  by_cases hmax : distOf st d = INT_MAX
  · refine ⟨(potential (targets al') ⟨assign (initDistance al') s 0, [], [(0, s)]⟩).toNat + 1,
      [], INT_MAX, ?_, Or.inl ⟨rfl, rfl, ?_⟩⟩
    · intro fuel hfuel
      have := mainLoop_mono d _ fuel _ _ _ hfuel hr
      have hmax' : lookupD st.distance d 0 = INT_MAX := hmax
      simp [dijkstra, this, hmax']
    · intro c hw
      have := (final_opt al' s d st hnn hcl htot hs hfin c hw).2
      omega
  · obtain ⟨p, hp, hgood, hkeys⟩ := final_path al' s d st hs hd hfin hmax
    obtain ⟨q, t, htq, hwb, hfull⟩ := walkBack_spec st.previous s d p hp [] p.length (le_refl _)
    have hb := final_bound al' s d st hnn htot hfin hmax
    refine ⟨max ((potential (targets al') ⟨assign (initDistance al') s 0, [], [(0, s)]⟩).toNat
      + 1) p.length, q, distOf st d, ?_, Or.inr ⟨hb.1, hb.2, ?_, p, t, htq, hgood, hfull, hkeys⟩⟩
    · intro fuel hfuel
      have h1 := mainLoop_mono d _ fuel _ _ _ (le_trans (le_max_left _ _) hfuel) hr
      have h2 := walkBack_mono s st.previous _ fuel d [] _ (le_trans (le_max_right _ _) hfuel) hwb
      have hmax' : ¬ lookupD st.distance d 0 = INT_MAX := hmax
      simp [dijkstra, h1, hmax', h2, distOf]
    · intro c hw
      exact (final_opt al' s d st hnn hcl htot hs hfin c hw).1

/-! ## Graphs produced by the load phase -/

theorem mem_assign {β : Type} (m : List (String × β)) (k : String) (v : β) (p : String × β)
    (h : p ∈ assign m k v) : p ∈ m ∨ p = (k, v) := by
  induction m with
  | nil =>
    simp only [assign, List.mem_singleton] at h
    exact Or.inr h
  | cons hd t ih =>
    obtain ⟨a, b⟩ := hd
    by_cases h1 : a = k
    · simp only [assign, h1, if_true, List.mem_cons] at h
      rcases h with h | h
      · exact Or.inr h
      · exact Or.inl (by simp [h])
    · simp only [assign, h1, if_false, List.mem_cons] at h
      rcases h with h | h
      · exact Or.inl (by simp [h])
      · rcases ih h with h2 | h2
        · exact Or.inl (by simp [h2])
        · exact Or.inr h2

theorem allEdges_assign_append (P : Edge → Prop) (m : List (String × List Edge)) (k : String)
    (e0 : Edge) (hm : ∀ p ∈ m, ∀ e ∈ p.2, P e) (h0 : P e0) :
    ∀ p ∈ assign m k (lookupD m k [] ++ [e0]), ∀ e ∈ p.2, P e := by
  intro p hp e he
  rcases mem_assign m k _ p hp with h | h
  · exact hm p h e he
  · subst h
    simp only [List.mem_append, List.mem_singleton] at he
    rcases he with he | he
    · obtain ⟨p', hp', _, hx⟩ := mem_of_mem_lookupD m k e he
      exact hm p' hp' e hx
    · subst he
      exact h0

theorem allEdges_addEdge (P : Edge → Prop) (g : MetroGraph) (a b : String) (w : Int)
    (L : List String) (hg : ∀ p ∈ g.adjacencyList, ∀ e ∈ p.2, P e)
    (h1 : P (Edge.mk b w L)) (h2 : P (Edge.mk a w L)) :
    ∀ p ∈ (addEdge g a b w L).adjacencyList, ∀ e ∈ p.2, P e := by
  unfold addEdge
  simp only
  exact allEdges_assign_append P _ b _ (allEdges_assign_append P _ a _ hg h1) h2

theorem hasKey_addEdge (g : MetroGraph) (a b : String) (w : Int) (L : List String)
    (x : String) :
    hasKey (addEdge g a b w L).adjacencyList x
      = (decide (b = x) || (decide (a = x) || hasKey g.adjacencyList x)) := by
  simp [addEdge, hasKey_assign]

theorem neighbours_addEdge (g : MetroGraph) (a b : String) (w : Int) (L : List String)
    (x : String) :
    neighbours (addEdge g a b w L).adjacencyList x
      = neighbours g.adjacencyList x ++ (if a = x then [Edge.mk b w L] else [])
          ++ (if b = x then [Edge.mk a w L] else []) := by
  simp only [addEdge, neighbours, lookupD_assign]
  by_cases h1 : a = x <;> by_cases h2 : b = x <;> simp [h1, h2]

theorem nonNeg_addEdge (g : MetroGraph) (a b : String) (w : Int) (L : List String)
    (hg : NonNeg g.adjacencyList) (hw : 0 ≤ w) : NonNeg (addEdge g a b w L).adjacencyList :=
  allEdges_addEdge (fun e => 0 ≤ e.distance) g a b w L hg hw hw

theorem closed_addEdge (g : MetroGraph) (a b : String) (w : Int) (L : List String)
    (hg : Closed g.adjacencyList) : Closed (addEdge g a b w L).adjacencyList := by
  apply allEdges_addEdge (fun e => hasKey (addEdge g a b w L).adjacencyList e.to_ = true)
  · intro p hp e he
    simp only [hasKey_addEdge, Bool.or_eq_true, decide_eq_true_eq]
    exact Or.inr (Or.inr (hg p hp e he))
  · simp [hasKey_addEdge]
  · simp [hasKey_addEdge]

theorem symmetric_addEdge (g : MetroGraph) (a b : String) (w : Int) (L : List String)
    (hg : Symmetric g.adjacencyList) : Symmetric (addEdge g a b w L).adjacencyList := by
  intro u e he
  rw [neighbours_addEdge] at he
  simp only [List.mem_append] at he
  rcases he with (he | he) | he
  · obtain ⟨e', he', h1, h2⟩ := hg u e he
    refine ⟨e', ?_, h1, h2⟩
    rw [neighbours_addEdge]
    simp [he']
  · by_cases hau : a = u
    · simp only [hau, if_true, List.mem_singleton] at he
      subst he
      refine ⟨Edge.mk a w L, ?_, hau, rfl⟩
      rw [neighbours_addEdge]
      simp
    · simp [hau] at he
  · by_cases hbu : b = u
    · simp only [hbu, if_true, List.mem_singleton] at he
      subst he
      refine ⟨Edge.mk b w L, ?_, hbu, rfl⟩
      rw [neighbours_addEdge]
      simp
    · simp [hbu] at he

theorem totalWeight_assign_append (m : List (String × List Edge)) (k : String) (e0 : Edge) :
    totalWeight (assign m k (lookupD m k [] ++ [e0])) = totalWeight m + e0.distance := by
  induction m with
  | nil => simp [assign, lookupD, totalWeight, sumWeights]
  | cons hd t ih =>
    obtain ⟨a, b⟩ := hd
    by_cases h1 : a = k
    · simp only [assign, lookupD, h1, if_true, totalWeight, List.map_cons, List.sum_cons,
        sumWeights, List.map_append, List.sum_append, List.map_nil, List.sum_nil]
      omega
    · simp only [assign, lookupD, h1, if_false, totalWeight, List.map_cons, List.sum_cons]
      simp only [totalWeight] at ih
      rw [ih]
      omega

theorem totalWeight_addEdge (g : MetroGraph) (a b : String) (w : Int) (L : List String) :
    totalWeight (addEdge g a b w L).adjacencyList = totalWeight g.adjacencyList + 2 * w := by
  unfold addEdge
  simp only
  rw [totalWeight_assign_append, totalWeight_assign_append]
  simp only
  omega

theorem addStation_adjacencyList (g : MetroGraph) (n : String) (la lo : Rat)
    (L : List String) : (addStation g n la lo L).adjacencyList = g.adjacencyList := rfl

theorem foldl_closed (ops : List LoadOp) (g : MetroGraph) (hg : Closed g.adjacencyList) :
    Closed (ops.foldl LoadOp.apply g).adjacencyList := by
  induction ops generalizing g with
  | nil => exact hg
  | cons op t ih =>
    simp only [List.foldl_cons]
    apply ih
    cases op with
    | station n la lo L => exact hg
    | edge a b w L => exact closed_addEdge g a b w L hg

theorem foldl_symmetric (ops : List LoadOp) (g : MetroGraph)
    (hg : Symmetric g.adjacencyList) :
    Symmetric (ops.foldl LoadOp.apply g).adjacencyList := by
  induction ops generalizing g with
  | nil => exact hg
  | cons op t ih =>
    simp only [List.foldl_cons]
    apply ih
    cases op with
    | station n la lo L => exact hg
    | edge a b w L => exact symmetric_addEdge g a b w L hg

theorem foldl_nonNeg (ops : List LoadOp) (g : MetroGraph) (hg : NonNeg g.adjacencyList)
    (hw : ∀ w ∈ opWeights ops, 0 ≤ w) :
    NonNeg (ops.foldl LoadOp.apply g).adjacencyList := by
  induction ops generalizing g with
  | nil => exact hg
  | cons op t ih =>
    simp only [List.foldl_cons]
    cases op with
    | station n la lo L => exact ih _ hg hw
    | edge a b w L =>
      apply ih
      · exact nonNeg_addEdge g a b w L hg (hw w (by simp [opWeights]))
      · intro w' hw'
        exact hw w' (by simp [opWeights, hw'])

theorem foldl_totalWeight (ops : List LoadOp) (g : MetroGraph) :
    totalWeight (ops.foldl LoadOp.apply g).adjacencyList
      = totalWeight g.adjacencyList + 2 * (opWeights ops).sum := by
  induction ops generalizing g with
  | nil => simp [opWeights]
  | cons op t ih =>
    simp only [List.foldl_cons]
    rw [ih]
    cases op with
    | station n la lo L => simp [opWeights, LoadOp.apply, addStation_adjacencyList]
    | edge a b w L =>
      simp only [opWeights, LoadOp.apply, totalWeight_addEdge, List.sum_cons]
      omega

theorem load_closed (ops : List LoadOp) : Closed (load ops).adjacencyList :=
  foldl_closed ops MetroGraph.empty (by intro p hp; simp [MetroGraph.empty] at hp)

theorem load_symmetric (ops : List LoadOp) : Symmetric (load ops).adjacencyList :=
  foldl_symmetric ops MetroGraph.empty
    (by intro u e he; simp [MetroGraph.empty, neighbours, lookupD] at he)

theorem load_nonNeg (ops : List LoadOp) (hw : ∀ w ∈ opWeights ops, 0 ≤ w) :
    NonNeg (load ops).adjacencyList :=
  foldl_nonNeg ops MetroGraph.empty (by intro p hp; simp [MetroGraph.empty] at hp) hw

/-- The stored weights total twice the weights passed to `addEdge`. -/
theorem load_totalWeight (ops : List LoadOp) :
    totalWeight (load ops).adjacencyList = 2 * (opWeights ops).sum := by
  unfold load
  rw [foldl_totalWeight]
  simp [MetroGraph.empty, totalWeight]

theorem load_total_lt (ops : List LoadOp)
    (h : totalWeight (load ops).adjacencyList < 2147483648) :
    totalWeight (load ops).adjacencyList < INT_MAX := by
  rw [load_totalWeight] at h ⊢
  unfold INT_MAX
  omega

/-! ## The planner on loaded graphs -/

theorem dijkstra_mono (n m : Nat) (g : MetroGraph) (s d : String)
    (r : MetroGraph × (List String × Int)) (hnm : n ≤ m) (h : dijkstra n g s d = some r) :
    dijkstra m g s d = some r := by
  unfold dijkstra at h ⊢
  simp only at h ⊢
  cases hml : mainLoop d n g.adjacencyList
      ⟨assign (initDistance g.adjacencyList) s 0, [], [(0, s)]⟩ with
  | none => simp [hml] at h
  | some res =>
    obtain ⟨al, st⟩ := res
    rw [hml] at h
    rw [mainLoop_mono d n m _ _ _ hnm hml]
    simp only at h ⊢
    by_cases hmax : lookupD st.distance d 0 = INT_MAX
    · simpa [hmax] using h
    · simp only [hmax, if_false] at h ⊢
      cases hwb : walkBack s st.previous n d [] with
      | none => simp [hwb] at h
      | some path =>
        rw [hwb] at h
        rw [walkBack_mono s st.previous n m d [] path hnm hwb]
        exact h

theorem walk_hasKey_target (al : List (String × List Edge)) (hcl : Closed al) (s v : String)
    (c : Int) (h : Walk al s v c) (hne : s ≠ v) : hasKey al v = true := by
  cases h with
  | nil => exact absurd rfl hne
  | @snoc w c e _ he => exact closed_neighbours al hcl w e he

theorem walk_symm (al : List (String × List Edge)) (hsym : Symmetric al) (s v : String)
    (c : Int) (h : Walk al s v c) : Walk al v s c := by
  induction h with
  | nil => exact Walk.nil
  | @snoc w c e _ he ih =>
    obtain ⟨e', he', hto, hd⟩ := hsym w e he
    have h1 : Walk al e.to_ w e.distance := by
      have := Walk.snoc (s := e.to_) e' Walk.nil he'
      rw [hto] at this
      exact walk_cast al _ _ _ _ this (by omega)
    exact walk_cast al _ _ _ _ (walk_trans al _ _ _ _ _ h1 ih) (by omega)

theorem goodPath_single (al : List (String × List Edge)) (s : String) :
    GoodPath al s s 0 [s] := by
  refine ⟨rfl, rfl, by simp, by simp [pathCost], Walk.nil, ?_⟩
  intro y hy
  simp only [List.mem_singleton] at hy
  subst hy
  exact ⟨0, 0, Walk.nil, Walk.nil, by omega⟩

/-- Outcome of the planner for a destination joined to the source by a walk, on a loaded
graph with non-negative weights whose stored weights total below `2^31`. -/
theorem planner_reachable (ops : List LoadOp) (s d : String) (c0 : Int)
    (hnn : NonNeg (load ops).adjacencyList)
    (htot : totalWeight (load ops).adjacencyList < 2147483648)
    (hw : Walk (load ops).adjacencyList s d c0) :
    ∃ N path dist,
      (∀ fuel, N ≤ fuel → dijkstra fuel (load ops) s d = some (load ops, (path, dist))) ∧
      0 ≤ dist ∧ dist < INT_MAX ∧
      Walk (load ops).adjacencyList s d dist ∧
      (∀ c, Walk (load ops).adjacencyList s d c → dist ≤ c) ∧
      (∀ x ∈ path, ∃ a b, Walk (load ops).adjacencyList s x a ∧
        Walk (load ops).adjacencyList x d b ∧ a + b = dist) ∧
      (s ≠ "" → hasKey (load ops).adjacencyList "" = false →
        GoodPath (load ops).adjacencyList s d dist path) := by
  by_cases hsd : s = d
  · subst hsd
    refine ⟨1, if s = "" then [] else [s], 0, ?_, le_refl _, by simp [INT_MAX], Walk.nil,
      fun c hc => walk_nonneg _ hnn s s c hc, ?_, ?_⟩
    · intro fuel hfuel
      obtain ⟨k, rfl⟩ : ∃ k, fuel = k + 1 := ⟨fuel - 1, by omega⟩
      exact dijkstra_self k (load ops) s
    · intro x hx
      by_cases h1 : s = ""
      · simp [h1] at hx
      · simp only [h1, if_false, List.mem_singleton] at hx
        subst hx
        exact ⟨0, 0, Walk.nil, Walk.nil, by omega⟩
    · intro h1 _
      simp only [h1, if_false]
      exact goodPath_single _ s
  · have hcl := load_closed ops
    have hs := walk_hasKey_source _ s d c0 hw hsd
    have hd := walk_hasKey_target _ hcl s d c0 hw hsd
    obtain ⟨N, path, dist, hrun, hres⟩ :=
      dijkstra_core (load ops) s d hnn hcl (load_total_lt ops htot) hs hd
    rcases hres with ⟨_, _, hno⟩ | ⟨h0, hlt, hmin, p, t, htp, hgood, hfull, hkeys⟩
    · exact absurd hw (hno c0)
    · refine ⟨N, path, dist, hrun, h0, hlt, hgood.walk, hmin, ?_, ?_⟩
      · intro x hx
        exact hgood.split x (by rw [← htp]; simp [hx])
      · intro _ hempty
        have hnot : "" ∉ p := by
          intro hin
          have := hkeys "" hin
          rw [hempty] at this
          simp at this
        rw [hfull hnot]
        exact hgood

/-- Outcome of the planner between two stations with adjacency entries, whether or not
a walk joins them. -/
theorem planner_keys (ops : List LoadOp) (s d : String)
    (hnn : NonNeg (load ops).adjacencyList)
    (htot : totalWeight (load ops).adjacencyList < 2147483648)
    (hs : hasKey (load ops).adjacencyList s = true)
    (hd : hasKey (load ops).adjacencyList d = true) :
    ∃ N path dist,
      (∀ fuel, N ≤ fuel → dijkstra fuel (load ops) s d = some (load ops, (path, dist))) ∧
      ((dist = INT_MAX ∧ path = [] ∧ ∀ c, ¬ Walk (load ops).adjacencyList s d c) ∨
       (dist < INT_MAX ∧ Walk (load ops).adjacencyList s d dist ∧
        ∀ c, Walk (load ops).adjacencyList s d c → dist ≤ c)) := by
  obtain ⟨N, path, dist, hrun, hres⟩ :=
    dijkstra_core (load ops) s d hnn (load_closed ops) (load_total_lt ops htot) hs hd
  refine ⟨N, path, dist, hrun, ?_⟩
  rcases hres with h | ⟨_, hlt, hmin, p, t, _, hgood, _, _⟩
  · exact Or.inl h
  · exact Or.inr ⟨hlt, hgood.walk, hmin⟩

/-! ## Stations that no edge points to -/

theorem relaxEdges_frame (u : String) (k : Int) (es : List Edge) (st : Search) (v : String)
    (h : ∀ e ∈ es, e.to_ ≠ v) :
    distOf (relaxEdges u k es st) v = distOf st v ∧
      prevOf (relaxEdges u k es st) v = prevOf st v := by
  induction es generalizing st with
  | nil => exact ⟨rfl, rfl⟩
  | cons e rest ih =>
    have hrest : ∀ e' ∈ rest, e'.to_ ≠ v := fun e' he' => h e' (by simp [he'])
    have he : e.to_ ≠ v := h e (by simp)
    rw [relaxEdges_cons]
    split
    · obtain ⟨h1, h2⟩ := ih (relaxStep st e.to_ u (wrap32 (k + e.distance))) hrest
      rw [h1, h2, distOf_relaxStep, prevOf_relaxStep]
      simp [he]
    · exact ih st hrest

theorem mainLoop_frame (d : String) (n : Nat) (al : List (String × List Edge)) (st : Search)
    (v : String) (hv : v ∉ targets al) (r : List (String × List Edge) × Search)
    (h : mainLoop d n al st = some r) :
    distOf r.2 v = distOf st v ∧ prevOf r.2 v = prevOf st v := by
  induction n generalizing al st with
  | zero => simp [mainLoop] at h
  | succ n ih =>
    rw [mainLoop] at h
    split at h
    · simp only [Option.some.injEq] at h
      subst h
      exact ⟨rfl, rfl⟩
    · rename_i k u pq' hpop
      split at h
      · simp only [Option.some.injEq] at h
        subst h
        exact ⟨rfl, rfl⟩
      · split at h
        · exact ih al { st with pq := pq' } hv h
        · have h1 := ih (touch al u []) _ (by rw [targets_touch]; exact hv) h
          have h2 := relaxEdges_frame u k (lookupD al u []) { st with pq := pq' } v
            (fun e he heq => hv (heq ▸ mem_targets al u e he))
          exact ⟨h1.1.trans h2.1, h1.2.trans h2.2⟩

theorem exists_of_mem_targets (al : List (String × List Edge)) (v : String)
    (h : v ∈ targets al) : ∃ p ∈ al, ∃ e ∈ p.2, e.to_ = v := by
  induction al with
  | nil => simp [targets] at h
  | cons hd t ih =>
    simp only [targets, List.mem_append, List.mem_map] at h
    rcases h with ⟨e, he, hto⟩ | h
    · exact ⟨hd, by simp, e, he, hto⟩
    · obtain ⟨p, hp, e, he, hto⟩ := ih h
      exact ⟨p, by simp [hp], e, he, hto⟩

theorem not_mem_targets (al : List (String × List Edge)) (hcl : Closed al) (v : String)
    (hv : hasKey al v = false) : v ∉ targets al := by
  intro h
  obtain ⟨p, hp, e, he, hto⟩ := exists_of_mem_targets al v h
  have := hcl p hp e he
  rw [hto, hv] at this
  simp at this

/-- A destination without adjacency entry: `distance[destination]` is value-initialised
to 0 by `operator[]`, so the search reports the one-station path at distance 0. -/
theorem dijkstra_absent_destination (g : MetroGraph) (s d : String)
    (hcl : Closed g.adjacencyList) (hd : hasKey g.adjacencyList d = false)
    (hsd : s ≠ d) (hne : d ≠ "") :
    ∃ N g', ∀ fuel, N ≤ fuel → dijkstra fuel g s d = some (g', ([d], 0)) := by
  have hrange : ∀ v, INT_MIN ≤
      distOf ⟨assign (initDistance g.adjacencyList) s 0, [], [(0, s)]⟩ v := by
    intro v
    simp only [distOf, lookupD_assign, lookupD_initDistance]
    unfold INT_MIN INT_MAX
    split
    · omega
    · split <;> omega
  obtain ⟨r, hr⟩ := mainLoop_terminates d
    (potential (targets g.adjacencyList)
      ⟨assign (initDistance g.adjacencyList) s 0, [], [(0, s)]⟩).toNat g.adjacencyList
    ⟨assign (initDistance g.adjacencyList) s 0, [], [(0, s)]⟩ hrange (Int.self_le_toNat _)
  obtain ⟨hD, hP⟩ := mainLoop_frame d _ _ _ d (not_mem_targets _ hcl d hd) r hr
  have hD0 : lookupD r.2.distance d 0 = 0 := by
    have : distOf ⟨assign (initDistance g.adjacencyList) s 0, [], [(0, s)]⟩ d = 0 := by
      simp [distOf, lookupD_assign, lookupD_initDistance, hsd, hd]
    rw [this] at hD
    exact hD
  have hP0 : lookupD r.2.previous d "" = "" := by
    have : prevOf ⟨assign (initDistance g.adjacencyList) s 0, [], [(0, s)]⟩ d = "" := by
      simp [prevOf, lookupD]
    rw [this] at hP
    exact hP
  refine ⟨max ((potential (targets g.adjacencyList)
      ⟨assign (initDistance g.adjacencyList) s 0, [], [(0, s)]⟩).toNat + 1) 2,
    { g with adjacencyList := r.1 }, ?_⟩
  intro fuel hfuel
  have h1 := mainLoop_mono d _ fuel _ _ _ (le_trans (le_max_left _ _) hfuel) hr
  obtain ⟨k, rfl⟩ : ∃ k, fuel = k + 2 :=
    ⟨fuel - 2, by have := le_trans (le_max_right _ _) hfuel; omega⟩
  have hds : ¬ d = s := fun h => hsd h.symm
  have hwb : walkBack s r.2.previous (k + 2) d [] = some [d] := by
    rw [walkBack]
    simp only [hne, hds, if_false, hP0, List.nil_append]
    rw [walkBack]
    simp
  simp [dijkstra, h1, hD0, INT_MAX, hwb]

theorem walk_absent_target (al : List (String × List Edge)) (hcl : Closed al) (s d : String)
    (hsd : s ≠ d) (hd : hasKey al d = false) (c : Int) : ¬ Walk al s d c := by
  intro hw
  have := walk_hasKey_target al hcl s d c hw hsd
  rw [hd] at this
  simp at this

/-- A source without adjacency entry: its neighbour list is empty, so the loop ends after
one relaxation round and the destination keeps the sentinel. -/
theorem dijkstra_absent_source (g : MetroGraph) (s d : String) (fuel : Nat)
    (hs : hasKey g.adjacencyList s = false) (hd : hasKey g.adjacencyList d = true)
    (hsd : s ≠ d) (hfuel : 2 ≤ fuel) :
    dijkstra fuel g s d
      = some ({ g with adjacencyList := assign g.adjacencyList s [] }, ([], 2147483647)) := by
  obtain ⟨k, rfl⟩ : ∃ k, fuel = k + 2 := ⟨fuel - 2, by omega⟩
  have h0 : lookupD (assign (initDistance g.adjacencyList) s 0) s 0 = 0 :=
    lookupD_assign_same _ _ _ _
  have h1 : lookupD g.adjacencyList s [] = [] := lookupD_of_not_hasKey _ _ _ hs
  have h2 : lookupD (assign (initDistance g.adjacencyList) s 0) d 0 = INT_MAX := by
    rw [lookupD_assign_ne _ _ _ hsd, lookupD_initDistance]
    simp [hd]
  have h3 : touch g.adjacencyList s [] = assign g.adjacencyList s [] := by
    simp [touch, hs]
  have hml : mainLoop d (k + 2) g.adjacencyList
      ⟨assign (initDistance g.adjacencyList) s 0, [], [(0, s)]⟩
      = some (assign g.adjacencyList s [],
          ⟨assign (initDistance g.adjacencyList) s 0, [], []⟩) := by
    rw [mainLoop]
    simp only [popMin, pqMin, pqErase, if_true, hsd, if_false, h0, gt_iff_lt, lt_self_iff_false,
      h1, relaxEdges, h3]
    rw [mainLoop]
    simp [popMin]
  simp only [dijkstra, hml, h2, if_true]
  rfl

/-- Relaxing the edges of a station reached from `s` only queues stations reached from
`s`, and leaves a destination that no walk reaches at the sentinel. -/
theorem relaxEdges_unreached (al : List (String × List Edge)) (s d u : String) (k : Int)
    (es : List Edge) (st : Search) (hes : ∀ e ∈ es, e ∈ neighbours al u)
    (hu : ∃ c, Walk al s u c) (hno : ∀ c, ¬ Walk al s d c)
    (hq : ∀ p ∈ st.pq, ∃ c, Walk al s p.2 c) (hd : distOf st d = INT_MAX) :
    (∀ p ∈ (relaxEdges u k es st).pq, ∃ c, Walk al s p.2 c) ∧
      distOf (relaxEdges u k es st) d = INT_MAX := by
  induction es generalizing st with
  | nil => exact ⟨hq, hd⟩
  | cons e rest ih =>
    have hrest : ∀ e' ∈ rest, e' ∈ neighbours al u := fun e' he' => hes e' (by simp [he'])
    obtain ⟨c, hc⟩ := hu
    have hv : Walk al s e.to_ (c + e.distance) := Walk.snoc e hc (hes e (by simp))
    rw [relaxEdges_cons]
    split
    · apply ih _ hrest
      · intro p hp
        simp only [pq_relaxStep, List.mem_cons] at hp
        rcases hp with rfl | hp
        · exact ⟨_, hv⟩
        · exact hq p hp
      · rw [distOf_relaxStep]
        have hne : ¬ e.to_ = d := fun h => hno _ (h ▸ hv)
        simp [hne, hd]
    · exact ih st hrest hq hd

theorem mainLoop_unreached (al0 : List (String × List Edge)) (s d : String) (n : Nat)
    (al : List (String × List Edge)) (st : Search)
    (hal : ∀ x, lookupD al x [] = lookupD al0 x [])
    (hno : ∀ c, ¬ Walk al0 s d c)
    (hq : ∀ p ∈ st.pq, ∃ c, Walk al0 s p.2 c) (hd : distOf st d = INT_MAX)
    (r : List (String × List Edge) × Search) (h : mainLoop d n al st = some r) :
    distOf r.2 d = INT_MAX := by
  induction n generalizing al st with
  | zero => simp [mainLoop] at h
  | succ n ih =>
    rw [mainLoop] at h
    split at h
    · simp only [Option.some.injEq] at h
      subst h
      exact hd
    · rename_i k u pq' hpop
      obtain ⟨hmem, _, hsub, _, _⟩ := popMin_spec _ _ _ hpop
      split at h
      · simp only [Option.some.injEq] at h
        subst h
        exact hd
      · split at h
        · exact ih al { st with pq := pq' } hal (fun p hp => hq p (hsub p hp)) hd h
        · have hu := hq _ hmem
          have hes : ∀ e ∈ lookupD al u [], e ∈ neighbours al0 u := by
            intro e he
            rw [hal u] at he
            exact he
          obtain ⟨h1, h2⟩ := relaxEdges_unreached al0 s d u k (lookupD al u [])
            { st with pq := pq' } hes hu hno (fun p hp => hq p (hsub p hp)) hd
          exact ih (touch al u []) _
            (fun x => by rw [lookupD_touch]; exact hal x) h1 h2 h

/-- A destination that has an adjacency entry and is joined to the source by no walk is
never relaxed, whatever the weights: the search returns the empty path and the sentinel. -/
theorem dijkstra_unreachable (g : MetroGraph) (s d : String)
    (hd : hasKey g.adjacencyList d = true) (hsd : s ≠ d)
    (hno : ∀ c, ¬ Walk g.adjacencyList s d c) :
    ∃ N g', ∀ fuel, N ≤ fuel → dijkstra fuel g s d = some (g', ([], 2147483647)) := by
  have hrange : ∀ v, INT_MIN ≤
      distOf ⟨assign (initDistance g.adjacencyList) s 0, [], [(0, s)]⟩ v := by
    intro v
    simp only [distOf, lookupD_assign, lookupD_initDistance]
    unfold INT_MIN INT_MAX
    split
    · omega
    · split <;> omega
  obtain ⟨r, hr⟩ := mainLoop_terminates d
    (potential (targets g.adjacencyList)
      ⟨assign (initDistance g.adjacencyList) s 0, [], [(0, s)]⟩).toNat g.adjacencyList
    ⟨assign (initDistance g.adjacencyList) s 0, [], [(0, s)]⟩ hrange (Int.self_le_toNat _)
  have hd0 : distOf ⟨assign (initDistance g.adjacencyList) s 0, [], [(0, s)]⟩ d = INT_MAX := by
    simp [distOf, lookupD_assign, lookupD_initDistance, hsd, hd]
  have hfin := mainLoop_unreached g.adjacencyList s d _ g.adjacencyList _ (fun _ => rfl) hno
    (by
      intro p hp
      simp only [List.mem_singleton] at hp
      subst hp
      exact ⟨0, Walk.nil⟩) hd0 r hr
  refine ⟨(potential (targets g.adjacencyList)
      ⟨assign (initDistance g.adjacencyList) s 0, [], [(0, s)]⟩).toNat + 1,
    { g with adjacencyList := r.1 }, ?_⟩
  intro fuel hfuel
  have h1 := mainLoop_mono d _ fuel _ _ _ hfuel hr
  have hfin' : lookupD r.2.distance d 0 = INT_MAX := hfin
  simp [dijkstra, h1, hfin']
  rfl

/-! ## Symmetry of loaded graphs -/

theorem adjacent_symm (al : List (String × List Edge)) (hsym : Symmetric al) (a b : String)
    (h : Adjacent al a b) : Adjacent al b a := by
  obtain ⟨e, he, hto⟩ := h
  obtain ⟨e', he', hto', _⟩ := hsym a e he
  rw [hto] at he'
  exact ⟨e', he', hto'⟩

theorem minOf_mem_le (l : List Int) (hl : l ≠ []) : minOf l ∈ l ∧ ∀ x ∈ l, minOf l ≤ x := by
  induction l with
  | nil => exact absurd rfl hl
  | cons a t ih =>
    cases t with
    | nil => simp [minOf]
    | cons b t' =>
      obtain ⟨h1, h2⟩ := ih (by simp)
      rw [minOf]
      constructor
      · rcases min_choice a (minOf (b :: t')) with h | h
        · rw [h]; simp
        · rw [h]
          exact List.mem_cons_of_mem _ h1
      · intro x hx
        simp only [List.mem_cons] at hx
        rcases hx with rfl | hx
        · exact min_le_left _ _
        · exact le_trans (min_le_right _ _) (h2 x (by simpa using hx))

theorem minOf_congr (l1 l2 : List Int) (h : ∀ x, x ∈ l1 ↔ x ∈ l2) : minOf l1 = minOf l2 := by
  by_cases h1 : l1 = []
  · subst h1
    have h2 : l2 = [] := by
      cases l2 with
      | nil => rfl
      | cons a t => exact absurd ((h a).mpr (by simp)) (by simp)
    rw [h2]
  · obtain ⟨hm, hle⟩ := minOf_mem_le l1 h1
    exact (minOf_eq l2 (minOf l1) ((h _).mp hm) (fun x hx => hle x ((h x).mpr hx))).symm

theorem minWeight_symm (al : List (String × List Edge)) (hsym : Symmetric al) (a b : String) :
    minWeight al a b = minWeight al b a := by
  unfold minWeight
  apply minOf_congr
  intro x
  simp only [List.mem_map, List.mem_filter, decide_eq_true_eq]
  constructor
  · rintro ⟨e, ⟨he, hto⟩, hx⟩
    obtain ⟨e', he', hto', hd'⟩ := hsym a e he
    rw [hto] at he'
    exact ⟨e', ⟨he', hto'⟩, by rw [hd', hx]⟩
  · rintro ⟨e, ⟨he, hto⟩, hx⟩
    obtain ⟨e', he', hto', hd'⟩ := hsym b e he
    rw [hto] at he'
    exact ⟨e', ⟨he', hto'⟩, by rw [hd', hx]⟩

theorem pathCost_reverse (al : List (String × List Edge)) (hsym : Symmetric al)
    (p : List String) : pathCost al p.reverse = pathCost al p := by
  induction p with
  | nil => rfl
  | cons a t ih =>
    cases t with
    | nil => rfl
    | cons b t' =>
      have hlast : (b :: t').reverse.getLast? = some b := by
        rw [List.getLast?_reverse]
        rfl
      rw [List.reverse_cons, pathCost_snoc al _ b a hlast, ih, pathCost,
        minWeight_symm al hsym b a]
      omega

theorem chain_reverse (al : List (String × List Edge)) (hsym : Symmetric al)
    (p : List String) (h : List.Chain' (Adjacent al) p) :
    List.Chain' (Adjacent al) p.reverse := by
  rw [List.chain'_reverse]
  exact h.imp (fun a b hab => adjacent_symm al hsym a b hab)

/-! ## Station table and line queries -/

theorem findKey_eq {β : Type} (m : List (String × β)) (k : String) (dflt : β) :
    findKey m k = if hasKey m k then some (lookupD m k dflt) else none := by
  induction m with
  | nil => simp [findKey, hasKey]
  | cons hd t ih =>
    obtain ⟨a, b⟩ := hd
    by_cases h : a = k
    · simp [findKey, hasKey, lookupD, h]
    · simp [findKey, hasKey, lookupD, h, ih]

theorem findKey_assign_same {β : Type} (m : List (String × β)) (k : String) (v : β) :
    findKey (assign m k v) k = some v := by
  rw [findKey_eq _ _ v, hasKey_assign, lookupD_assign_same]
  simp

theorem getMetroLines_of_key (g : MetroGraph) (n : String)
    (h : hasKey g.stations n = true) :
    getMetroLines g n = .ok (lookupD g.stations n Station.blank).metroLines := by
  simp [getMetroLines, findKey_eq g.stations n Station.blank, h]

theorem getMetroLines_of_not_key (g : MetroGraph) (n : String)
    (h : hasKey g.stations n = false) : getMetroLines g n = .error .out_of_range := by
  simp [getMetroLines, findKey_eq g.stations n Station.blank, h]

theorem getMetroLines_addStation (g : MetroGraph) (n : String) (la lo : Rat)
    (L : List String) : getMetroLines (addStation g n la lo L) n = .ok L := by
  simp [getMetroLines, addStation, findKey_assign_same]

theorem getCommonLines_of_keys (g : MetroGraph) (a b : String)
    (ha : hasKey g.stations a = true) (hb : hasKey g.stations b = true) :
    getCommonLines g a b
      = (g, set_intersection (lookupD g.stations a Station.blank).metroLines
          (lookupD g.stations b Station.blank).metroLines) := by
  simp [getCommonLines, touch_of_hasKey, ha, hb]

theorem changeScan_marker (first : String) (others currentLines : List String)
    (h : ∃ line ∈ currentLines, line ∉ first :: others) :
    changeScan (first :: others) currentLines = .ok [" [Change to ", first, " Line]"] := by
  induction currentLines with
  | nil =>
    obtain ⟨line, hl, _⟩ := h
    simp at hl
  | cons c rest ih =>
    by_cases hc : c ∉ first :: others
    · simp only [changeScan, hc, not_false_eq_true, if_true]
    · obtain ⟨line, hl, hn⟩ := h
      simp only [List.mem_cons] at hl
      rcases hl with rfl | hl
      · exact absurd hn hc
      · simp only [changeScan, hc, if_false]
        exact ih ⟨line, hl, hn⟩

/-! ## Both directions of an edge -/

theorem count_addEdge (g : MetroGraph) (a b : String) (w : Int) (L : List String)
    (u : String) (e : Edge) :
    (neighbours (addEdge g a b w L).adjacencyList u).count e
      = (neighbours g.adjacencyList u).count e
        + (if a = u ∧ e = Edge.mk b w L then 1 else 0)
        + (if b = u ∧ e = Edge.mk a w L then 1 else 0) := by
  rw [neighbours_addEdge, List.count_append, List.count_append]
  congr 1
  · congr 1
    by_cases h1 : a = u
    · by_cases h2 : e = Edge.mk b w L
      · simp [h1, h2]
      · have h3 : ¬ Edge.mk b w L = e := fun h => h2 h.symm
        simp [h1, h2, List.count_cons, h3]
    · simp [h1]
  · by_cases h1 : b = u
    · by_cases h2 : e = Edge.mk a w L
      · simp [h1, h2]
      · have h3 : ¬ Edge.mk a w L = e := fun h => h2 h.symm
        simp [h1, h2, List.count_cons, h3]
    · simp [h1]

theorem count_symm_addEdge (g : MetroGraph) (a b : String) (w : Int) (L : List String)
    (hg : ∀ u v w' L', (neighbours g.adjacencyList u).count (Edge.mk v w' L')
      = (neighbours g.adjacencyList v).count (Edge.mk u w' L')) :
    ∀ u v w' L', (neighbours (addEdge g a b w L).adjacencyList u).count (Edge.mk v w' L')
      = (neighbours (addEdge g a b w L).adjacencyList v).count (Edge.mk u w' L') := by
  intro u v w' L'
  rw [count_addEdge, count_addEdge, hg u v w' L']
  have e1 : (a = u ∧ Edge.mk v w' L' = Edge.mk b w L)
      ↔ (b = v ∧ Edge.mk u w' L' = Edge.mk a w L) := by
    simp only [Edge.mk.injEq]
    constructor
    · rintro ⟨h1, h2, h3, h4⟩
      exact ⟨h2.symm, h1.symm, h3, h4⟩
    · rintro ⟨h1, h2, h3, h4⟩
      exact ⟨h2.symm, h1.symm, h3, h4⟩
  have e2 : (b = u ∧ Edge.mk v w' L' = Edge.mk a w L)
      ↔ (a = v ∧ Edge.mk u w' L' = Edge.mk b w L) := by
    simp only [Edge.mk.injEq]
    constructor
    · rintro ⟨h1, h2, h3, h4⟩
      exact ⟨h2.symm, h1.symm, h3, h4⟩
    · rintro ⟨h1, h2, h3, h4⟩
      exact ⟨h2.symm, h1.symm, h3, h4⟩
  simp only [e1, e2]
  omega

theorem foldl_count_symm (ops : List LoadOp) (g : MetroGraph)
    (hg : ∀ u v w' L', (neighbours g.adjacencyList u).count (Edge.mk v w' L')
      = (neighbours g.adjacencyList v).count (Edge.mk u w' L')) :
    ∀ u v w' L',
      (neighbours (ops.foldl LoadOp.apply g).adjacencyList u).count (Edge.mk v w' L')
        = (neighbours (ops.foldl LoadOp.apply g).adjacencyList v).count (Edge.mk u w' L') := by
  induction ops generalizing g with
  | nil => exact hg
  | cons op t ih =>
    simp only [List.foldl_cons]
    apply ih
    cases op with
    | station n la lo L => exact hg
    | edge a b w L => exact count_symm_addEdge g a b w L hg

theorem load_count_symm (ops : List LoadOp) (u v : String) (w : Int) (L : List String) :
    (neighbours (load ops).adjacencyList u).count (Edge.mk v w L)
      = (neighbours (load ops).adjacencyList v).count (Edge.mk u w L) :=
  foldl_count_symm ops MetroGraph.empty
    (by intro u v w' L'; simp [MetroGraph.empty, neighbours, lookupD]) u v w L

/-! ## `set_intersection` on ascending lists -/

theorem strLt_iff (a b : String) : strLt a b ↔ a < b := by
  unfold strLt
  exact String.lt_iff_toList_lt.symm

theorem strLt_irrefl (a : String) : ¬ strLt a a := by
  rw [strLt_iff]
  exact lt_irrefl a

theorem eq_of_not_strLt (a b : String) (h1 : ¬ strLt a b) (h2 : ¬ strLt b a) : a = b := by
  rw [strLt_iff] at h1 h2
  exact le_antisymm (not_lt.mp h2) (not_lt.mp h1)

theorem set_intersection_cons_cons (a : String) (as : List String) (b : String)
    (bs : List String) :
    set_intersection (a :: as) (b :: bs) =
      if strLt a b then set_intersection as (b :: bs)
      else if strLt b a then set_intersection (a :: as) bs
      else a :: set_intersection as bs := rfl

theorem set_intersection_nil_right (l : List String) : set_intersection l [] = [] := by
  cases l <;> rfl

/-- On ascending lists `set_intersection` returns exactly the common elements. -/
theorem mem_set_intersection (l1 l2 : List String) (h1 : Ascending l1) (h2 : Ascending l2)
    (x : String) : x ∈ set_intersection l1 l2 ↔ x ∈ l1 ∧ x ∈ l2 := by
  induction l1 generalizing l2 with
  | nil => simp [set_intersection]
  | cons a as iha =>
    have has : Ascending as := (List.pairwise_cons.mp h1).2
    induction l2 with
    | nil => simp [set_intersection_nil_right]
    | cons b bs ihb =>
      have hbs : Ascending bs := (List.pairwise_cons.mp h2).2
      rw [set_intersection_cons_cons]
      by_cases hab : strLt a b
      · simp only [hab, if_true]
        rw [iha (b :: bs) has h2]
        constructor
        · rintro ⟨hx1, hx2⟩
          exact ⟨List.mem_cons_of_mem _ hx1, hx2⟩
        · rintro ⟨hx1, hx2⟩
          refine ⟨?_, hx2⟩
          rcases List.mem_cons.mp hx1 with rfl | hx1
          · exfalso
            rcases List.mem_cons.mp hx2 with h | h
            · rw [h] at hab
              exact strLt_irrefl b hab
            · exact (List.pairwise_cons.mp h2).1 x h hab
          · exact hx1
      · by_cases hba : strLt b a
        · simp only [hab, hba, if_true, if_false]
          refine (ihb hbs).trans ?_
          constructor
          · rintro ⟨hx1, hx2⟩
            exact ⟨hx1, List.mem_cons_of_mem _ hx2⟩
          · rintro ⟨hx1, hx2⟩
            refine ⟨hx1, ?_⟩
            rcases List.mem_cons.mp hx2 with rfl | hx2
            · exfalso
              rcases List.mem_cons.mp hx1 with h | h
              · rw [h] at hba
                exact strLt_irrefl a hba
              · exact (List.pairwise_cons.mp h1).1 x h hba
            · exact hx2
        · simp only [hab, hba, if_false]
          have heq : a = b := eq_of_not_strLt a b hab hba
          subst heq
          clear ihb
          have key := iha bs has hbs
          simp only [List.mem_cons, key]
          tauto

/-! ## A source all of whose entries lead to the destination -/

theorem dijkstra_direct (g : MetroGraph) (a b : String) (fuel : Nat)
    (hab : a ≠ b) (ha : a ≠ "") (hb : b ≠ "")
    (hka : hasKey g.adjacencyList a = true) (hkb : hasKey g.adjacencyList b = true)
    (hto : ∀ e ∈ neighbours g.adjacencyList a,
      e.to_ = b ∧ 0 ≤ e.distance ∧ e.distance ≤ INT_MAX)
    (hlt : ∃ e ∈ neighbours g.adjacencyList a, e.distance < INT_MAX)
    (hfuel : 2 ≤ fuel) :
    dijkstra fuel g a b
      = some (g, ([a, b], minOf ((neighbours g.adjacencyList a).map Edge.distance))) := by
  obtain ⟨n, rfl⟩ : ∃ n, fuel = n + 2 := ⟨fuel - 2, by omega⟩
  have hpost := relaxEdges_spec a 0 (neighbours g.adjacencyList a)
    ⟨assign (initDistance g.adjacencyList) a 0, [], []⟩ (by
      intro e he
      obtain ⟨_, h1, h2⟩ := hto e he
      simp only [INT_MIN, INT_MAX] at *
      constructor <;> omega)
  generalize hst1 : relaxEdges a 0 (neighbours g.adjacencyList a)
    ⟨assign (initDistance g.adjacencyList) a 0, [], []⟩ = st1 at hpost
  have hd0 : distOf ⟨assign (initDistance g.adjacencyList) a 0, [], []⟩ b = INT_MAX := by
    simp [distOf, lookupD_assign_ne _ _ _ hab, lookupD_initDistance, hkb]
  obtain ⟨e0, he0, he0lt⟩ := hlt
  have hle : distOf st1 b ≤ 0 + e0.distance := by
    have := hpost.relaxed e0 he0
    rwa [(hto e0 he0).1] at this
  rcases hpost.change b with ⟨h1, _⟩ | ⟨_, hprev, hmem, e, he, _, hval⟩
  · exfalso
    rw [h1, hd0] at hle
    omega
  · have hmin : minOf ((neighbours g.adjacencyList a).map Edge.distance) = distOf st1 b := by
      apply minOf_eq
      · rw [hval]
        exact List.mem_map.2 ⟨e, he, by simp⟩
      · intro x hx
        obtain ⟨e', he', rfl⟩ := List.mem_map.1 hx
        have := hpost.relaxed e' he'
        rw [(hto e' he').1] at this
        omega
    have hne : lookupD st1.distance b 0 ≠ INT_MAX := by
      have : distOf st1 b < INT_MAX := by omega
      simp only [distOf] at this
      omega
    obtain ⟨pq', hloop⟩ : ∃ pq', mainLoop b (n + 2) g.adjacencyList
        ⟨assign (initDistance g.adjacencyList) a 0, [], [(0, a)]⟩
        = some (g.adjacencyList, { st1 with pq := pq' }) := by
      have hpop0 : popMin [((0 : Int), a)] = some ((0, a), []) := by
        simp [popMin, pqMin, pqErase]
      cases hp : popMin st1.pq with
      | none =>
        have := popMin_none _ hp
        rw [this] at hmem
        simp at hmem
      | some r =>
        obtain ⟨⟨k, u⟩, pq'⟩ := r
        have hu : u = b := by
          have hin := (popMin_spec _ _ _ hp).1
          rcases hpost.pushed _ hin with h | ⟨e', he', h, _⟩
          · simp at h
          · simp only at h
            rw [h, (hto e' he').1]
        refine ⟨pq', ?_⟩
        rw [mainLoop]
        simp only [hpop0, hab, if_false, lookupD_assign_same, gt_iff_lt, lt_self_iff_false]
        rw [touch_of_hasKey _ _ _ hka]
        have hst1' : relaxEdges a 0 (lookupD g.adjacencyList a [])
            { distance := assign (initDistance g.adjacencyList) a 0, previous := [],
              pq := [] } = st1 := hst1
        rw [hst1', mainLoop]
        simp only [hp, hu, if_true]
    have hwalk : walkBack a st1.previous (n + 2) b [] = some [b, a] := by
      rw [walkBack]
      simp only [hb, if_false, Ne.symm hab]
      rw [walkBack]
      have : lookupD st1.previous b "" = a := hprev
      simp [this, ha]
    simp only [dijkstra, hloop, hne, if_false, hwalk, hmin]
    simp [distOf]

theorem dijkstra_sentinel_edges (g : MetroGraph) (a b : String) (fuel : Nat)
    (hab : a ≠ b) (hka : hasKey g.adjacencyList a = true)
    (hkb : hasKey g.adjacencyList b = true)
    (hto : ∀ e ∈ neighbours g.adjacencyList a, e.to_ = b ∧ e.distance = INT_MAX)
    (hfuel : 2 ≤ fuel) :
    dijkstra fuel g a b = some (g, ([], 2147483647)) := by
  obtain ⟨n, rfl⟩ : ∃ n, fuel = n + 2 := ⟨fuel - 2, by omega⟩
  have hd0 : distOf ⟨assign (initDistance g.adjacencyList) a 0, [], []⟩ b = INT_MAX := by
    simp [distOf, lookupD_assign_ne _ _ _ hab, lookupD_initDistance, hkb]
  have hnoop := relaxEdges_noop a 0 (neighbours g.adjacencyList a)
    ⟨assign (initDistance g.adjacencyList) a 0, [], []⟩ (by
      intro e he
      obtain ⟨h1, h2⟩ := hto e he
      rw [h1, hd0, h2]
      decide)
  have hpop0 : popMin [((0 : Int), a)] = some ((0, a), []) := by
    simp [popMin, pqMin, pqErase]
  have hst1 : relaxEdges a 0 (lookupD g.adjacencyList a [])
      { distance := assign (initDistance g.adjacencyList) a 0, previous := [],
        pq := [] } = ⟨assign (initDistance g.adjacencyList) a 0, [], []⟩ := hnoop
  have hloop : mainLoop b (n + 2) g.adjacencyList
      ⟨assign (initDistance g.adjacencyList) a 0, [], [(0, a)]⟩
      = some (g.adjacencyList, ⟨assign (initDistance g.adjacencyList) a 0, [], []⟩) := by
    rw [mainLoop]
    simp only [hpop0, hab, if_false, lookupD_assign_same, gt_iff_lt, lt_self_iff_false]
    rw [touch_of_hasKey _ _ _ hka, hst1, mainLoop]
    simp [popMin]
  have hd1 : lookupD (assign (initDistance g.adjacencyList) a 0) b 0 = INT_MAX := hd0
  simp only [dijkstra, hloop, hd1, if_true]
  rfl

/-! ## Parallel edges between two stations -/

theorem foldl_joins (a b : String) (hab : a ≠ b) (ops : List LoadOp) (g : MetroGraph)
    (hops : ∀ op ∈ ops, LoadOp.joins a b op) :
    (neighbours (ops.foldl LoadOp.apply g).adjacencyList a).map Edge.distance
        = (neighbours g.adjacencyList a).map Edge.distance ++ opWeights ops ∧
      (∀ e ∈ neighbours (ops.foldl LoadOp.apply g).adjacencyList a,
        e ∈ neighbours g.adjacencyList a ∨ e.to_ = b) ∧
      (∀ x, hasKey g.adjacencyList x = true →
        hasKey (ops.foldl LoadOp.apply g).adjacencyList x = true) ∧
      (opWeights ops ≠ [] → hasKey (ops.foldl LoadOp.apply g).adjacencyList a = true ∧
        hasKey (ops.foldl LoadOp.apply g).adjacencyList b = true) := by
  induction ops generalizing g with
  | nil =>
    simp only [List.foldl_nil, opWeights, List.append_nil, ne_eq, not_true_eq_false,
      false_implies, and_true, true_and]
    exact ⟨fun e he => Or.inl he, fun x hx => hx⟩
  | cons op t ih =>
    have ht := ih (LoadOp.apply g op) (fun o ho => hops o (List.mem_cons_of_mem _ ho))
    have hop := hops op (List.mem_cons_self _ _)
    cases op with
    | station n la lo ls =>
      simpa only [List.foldl_cons, LoadOp.apply, addStation_adjacencyList, opWeights] using ht
    | edge x y w ls =>
      obtain ⟨h1, h2, h3, h4⟩ := ht
      have hba : b ≠ a := Ne.symm hab
      have hnb : neighbours (addEdge g x y w ls).adjacencyList a
          = neighbours g.adjacencyList a ++ [Edge.mk b w ls] := by
        rw [neighbours_addEdge]
        rcases hop with ⟨rfl, rfl⟩ | ⟨rfl, rfl⟩
        · simp [hba]
        · simp [hba]
      have hkx : ∀ z, hasKey g.adjacencyList z = true →
          hasKey (addEdge g x y w ls).adjacencyList z = true := by
        intro z hz
        rw [hasKey_addEdge, hz]
        simp
      have hka : hasKey (addEdge g x y w ls).adjacencyList a = true := by
        rw [hasKey_addEdge]
        rcases hop with ⟨rfl, rfl⟩ | ⟨rfl, rfl⟩ <;> simp
      have hkb : hasKey (addEdge g x y w ls).adjacencyList b = true := by
        rw [hasKey_addEdge]
        rcases hop with ⟨rfl, rfl⟩ | ⟨rfl, rfl⟩ <;> simp
      simp only [List.foldl_cons, LoadOp.apply, opWeights]
      simp only [LoadOp.apply] at h1 h2 h3 h4
      refine ⟨?_, ?_, ?_, ?_⟩
      · rw [h1, hnb]
        simp
      · intro e he
        rcases h2 e he with h | h
        · rw [hnb] at h
          rcases List.mem_append.1 h with h | h
          · exact Or.inl h
          · right
            simp only [List.mem_singleton] at h
            rw [h]
        · exact Or.inr h
      · intro z hz
        exact h3 z (hkx z hz)
      · intro _
        exact ⟨h3 a hka, h3 b hkb⟩

theorem opWeights_eq_filterMap (ops : List LoadOp) :
    opWeights ops = ops.filterMap (fun op =>
      match op with
      | .station _ _ _ _ => none
      | .edge _ _ w _ => some w) := by
  induction ops with
  | nil => rfl
  | cons op t ih =>
    cases op with
    | station n la lo ls => simpa [opWeights] using ih
    | edge x y w ls => simpa [opWeights] using ih

theorem opWeights_perm (ops ops' : List LoadOp) (h : ops'.Perm ops) :
    (opWeights ops').Perm (opWeights ops) := by
  rw [opWeights_eq_filterMap, opWeights_eq_filterMap]
  exact h.filterMap _

theorem parallel_edges (ops : List LoadOp) (a b : String) (fuel : Nat)
    (hab : a ≠ b) (ha : a ≠ "") (hb : b ≠ "")
    (hops : ∀ op ∈ ops, LoadOp.joins a b op) (hne : opWeights ops ≠ [])
    (hw : ∀ w ∈ opWeights ops, 0 ≤ w ∧ w ≤ 2147483647)
    (hmin : minOf (opWeights ops) < 2147483647) (hfuel : 2 ≤ fuel) :
    dijkstra fuel (load ops) a b = some (load ops, ([a, b], minOf (opWeights ops))) := by
  obtain ⟨h1, h2, _, h4⟩ := foldl_joins a b hab ops MetroGraph.empty hops
  have h1' : (neighbours (load ops).adjacencyList a).map Edge.distance = opWeights ops := by
    simpa [load, MetroGraph.empty, neighbours, lookupD] using h1
  have h2' : ∀ e ∈ neighbours (load ops).adjacencyList a, e.to_ = b := by
    intro e he
    rcases h2 e he with h | h
    · simp [MetroGraph.empty, neighbours, lookupD] at h
    · exact h
  obtain ⟨hka, hkb⟩ := h4 hne
  have hdir := dijkstra_direct (load ops) a b fuel hab ha hb hka hkb
    (by
      intro e he
      have hmem : e.distance ∈ opWeights ops := by
        rw [← h1']
        exact List.mem_map_of_mem _ he
      obtain ⟨h5, h6⟩ := hw _ hmem
      exact ⟨h2' e he, h5, by simpa [INT_MAX] using h6⟩)
    (by
      have hin := (minOf_mem_le (opWeights ops) hne).1
      rw [← h1'] at hin
      obtain ⟨e, he, hd⟩ := List.mem_map.1 hin
      refine ⟨e, he, ?_⟩
      rw [hd, h1']
      simpa [INT_MAX] using hmin)
    hfuel
  rw [hdir, h1']

/-! ## The annotation loop on registered stations -/

theorem getD_append_here (pre suf : List String) (a : String) :
    (pre ++ a :: suf).getD pre.length "" = a := by
  induction pre with
  | nil => rfl
  | cons x t ih => simpa using ih

theorem getD_append_next (pre suf : List String) (a b : String) :
    (pre ++ a :: b :: suf).getD (pre.length + 1) "" = b := by
  induction pre with
  | nil => rfl
  | cons x t ih => simpa using ih

theorem getLast?_append_cons (pre suf : List String) (a : String) :
    (pre ++ a :: suf).getLast? = (a :: suf).getLast? := by
  rw [List.getLast?_append]
  cases h : (a :: suf).getLast? with
  | none => simp at h
  | some x => rfl

theorem getMetroLines_ok (g : MetroGraph) (n : String) (L : List String)
    (h : getMetroLines g n = .ok L) :
    hasKey g.stations n = true ∧ (lookupD g.stations n Station.blank).metroLines = L := by
  by_cases hk : hasKey g.stations n = true
  · rw [getMetroLines_of_key g n hk] at h
    exact ⟨hk, by injection h⟩
  · have hk' : hasKey g.stations n = false := by simpa using hk
    rw [getMetroLines_of_not_key g n hk'] at h
    cases h

theorem annotateAt_segment (g : MetroGraph) (path : List String) (i : Nat) (a b : String)
    (La Lb : List String) (hi : i + 1 < path.length) (ha : path.getD i "" = a)
    (hb : path.getD (i + 1) "" = b) (hLa : getMetroLines g a = .ok La)
    (hLb : getMetroLines g b = .ok Lb) :
    annotateAt g path i =
      match set_intersection La Lb with
      | first :: _ => .ok (g, [a, " (", first, ")", " -> "])
      | [] =>
        match changeScan Lb La with
        | .error f => .error f
        | .ok marker => .ok (g, [a] ++ marker ++ [" -> "]) := by
  obtain ⟨hka, hla⟩ := getMetroLines_ok g a La hLa
  obtain ⟨hkb, hlb⟩ := getMetroLines_ok g b Lb hLb
  have hlt : i < path.length - 1 := by omega
  simp only [annotateAt, hlt, if_true, ha, hb, hLa, hLb,
    getCommonLines_of_keys g a b hka hkb, hla, hlb]

theorem annotateAt_last (g : MetroGraph) (path : List String) (i : Nat) (a first : String)
    (rest : List String) (hi : i + 1 = path.length) (ha : path.getD i "" = a)
    (hLa : getMetroLines g a = .ok (first :: rest)) :
    annotateAt g path i = .ok (g, [a, " (", first, ")"]) := by
  have hlt : ¬ i < path.length - 1 := by omega
  simp only [annotateAt, hlt, if_false, ha, hLa]

theorem annotateAt_label (g : MetroGraph) (path : List String) (i : Nat) (a b : String)
    (La Lb : List String) (hi : i + 1 < path.length) (ha : path.getD i "" = a)
    (hb : path.getD (i + 1) "" = b) (hLa : getMetroLines g a = .ok La)
    (hLb : getMetroLines g b = .ok Lb) (hane : La ≠ []) (hbne : Lb ≠ [])
    (haasc : Ascending La) (hbasc : Ascending Lb) :
    ∃ l : Label, annotateAt g path i = .ok (g, a :: l.text ++ [" -> "]) := by
  rw [annotateAt_segment g path i a b La Lb hi ha hb hLa hLb]
  cases hint : set_intersection La Lb with
  | cons f r => exact ⟨.line f, rfl⟩
  | nil =>
    obtain ⟨nf, others, rfl⟩ : ∃ nf others, Lb = nf :: others := by
      cases Lb with
      | nil => exact absurd rfl hbne
      | cons x t => exact ⟨x, t, rfl⟩
    obtain ⟨c, cs, rfl⟩ : ∃ c cs, La = c :: cs := by
      cases La with
      | nil => exact absurd rfl hane
      | cons x t => exact ⟨x, t, rfl⟩
    have hc : c ∉ nf :: others := by
      intro hc
      have := (mem_set_intersection _ _ haasc hbasc c).2 ⟨by simp, hc⟩
      rw [hint] at this
      simp at this
    simp only [changeScan_marker nf others (c :: cs) ⟨c, by simp, hc⟩]
    exact ⟨.change nf, rfl⟩

theorem annotateLoop_labels (g : MetroGraph) (path : List String)
    (hreg : ∀ x ∈ path, ∃ L, getMetroLines g x = .ok L ∧ L ≠ [] ∧ Ascending L) :
    ∀ (suf pre : List String), pre ++ suf = path →
      ∃ labels : List Label, labels.length = suf.length ∧
        (∀ x first rest, suf.getLast? = some x → getMetroLines g x = .ok (first :: rest) →
          labels.getLast? = some (Label.line first)) ∧
        annotateLoop path suf.length pre.length g = .ok (g, render (suf.zip labels)) := by
  intro suf
  induction suf with
  | nil =>
    intro pre _
    exact ⟨[], rfl, by simp, by simp [annotateLoop, render]⟩
  | cons a t ih =>
    intro pre hpath
    obtain ⟨La, hLa, hLane, hLaasc⟩ := hreg a (by rw [← hpath]; simp)
    have hga : path.getD pre.length "" = a := by
      rw [← hpath]
      exact getD_append_here pre t a
    obtain ⟨labels', hlen', hlast', hloop'⟩ := ih (pre ++ [a]) (by rw [← hpath]; simp)
    have hloop'' : annotateLoop path t.length (pre.length + 1) g
        = .ok (g, render (t.zip labels')) := by
      simpa using hloop'
    cases t with
    | nil =>
      obtain ⟨first, rest, rfl⟩ : ∃ first rest, La = first :: rest := by
        cases La with
        | nil => exact absurd rfl hLane
        | cons x t => exact ⟨x, t, rfl⟩
      have hat := annotateAt_last g path pre.length a first rest
        (by rw [← hpath]; simp) hga hLa
      refine ⟨[Label.line first], rfl, ?_, ?_⟩
      · intro x f r hx hgx
        simp only [List.getLast?_singleton, Option.some.injEq] at hx
        subst hx
        rw [hLa] at hgx
        injection hgx with h
        injection h with h1 h2
        rw [h1]
        rfl
      · simp [annotateLoop, hat, render, Label.text]
    | cons b t' =>
      obtain ⟨Lb, hLb, hLbne, hLbasc⟩ := hreg b (by rw [← hpath]; simp)
      have hgb : path.getD (pre.length + 1) "" = b := by
        rw [← hpath]
        exact getD_append_next pre t' a b
      obtain ⟨l, hl⟩ := annotateAt_label g path pre.length a b La Lb
        (by rw [← hpath]; simp) hga hgb hLa hLb hLane hLbne hLaasc hLbasc
      obtain ⟨l', ls', rfl⟩ : ∃ l' ls', labels' = l' :: ls' := by
        cases labels' with
        | nil => simp at hlen'
        | cons x t => exact ⟨x, t, rfl⟩
      refine ⟨l :: l' :: ls', by simpa using hlen', ?_, ?_⟩
      · intro x f r hx hgx
        have := hlast' x f r (by simpa using hx) hgx
        simpa using this
      · rw [List.length_cons, annotateLoop]
        simp only [hl, hloop'']
        simp only [List.zip_cons_cons, render, List.cons_append, List.append_assoc,
          List.singleton_append, List.nil_append]
        rfl

theorem annotate_labels (g : MetroGraph) (path : List String)
    (hreg : ∀ x ∈ path, ∃ L, getMetroLines g x = .ok L ∧ L ≠ [] ∧ Ascending L) :
    ∃ labels : List Label, labels.length = path.length ∧
      (∀ x first rest, path.getLast? = some x → getMetroLines g x = .ok (first :: rest) →
        labels.getLast? = some (Label.line first)) ∧
      annotate g path = .ok (g, render (path.zip labels)) := by
  simpa [annotate] using annotateLoop_labels g path hreg path [] rfl


theorem set_intersection_single_same (l : String) : set_intersection [l] [l] = [l] := by
  rw [set_intersection_cons_cons]
  simp only [strLt_irrefl, if_false]
  rfl

theorem set_intersection_single_ne (a b : String) (h : a ≠ b) :
    set_intersection [a] [b] = [] := by
  rw [set_intersection_cons_cons]
  by_cases h1 : strLt a b
  · simp only [h1, if_true]
    rfl
  · by_cases h2 : strLt b a
    · simp only [h1, h2, if_true, if_false]
      exact set_intersection_nil_right _
    · exact absurd (eq_of_not_strLt a b h1 h2) h

theorem annotate_same_line (g : MetroGraph) (a b l : String)
    (hLa : getMetroLines g a = .ok [l]) (hLb : getMetroLines g b = .ok [l]) :
    annotate g [a, b] = .ok (g, [a, " (", l, ")", " -> ", b, " (", l, ")"]) := by
  have hseg := annotateAt_segment g [a, b] 0 a b [l] [l] (by simp) rfl rfl hLa hLb
  have hlast := annotateAt_last g [a, b] 1 b l [] (by simp) rfl hLb
  rw [set_intersection_single_same] at hseg
  simp only [annotate, List.length_cons, List.length_nil, annotateLoop, hseg, hlast]
  rfl

/-! ## The graph of `main` -/

theorem foldl_calls_stations (w : String → Int)
    (calls : List (String × String × String × List String)) (g : MetroGraph) :
    ((calls.map (edgeCall w)).foldl LoadOp.apply g).stations = g.stations := by
  induction calls generalizing g with
  | nil => rfl
  | cons c t ih =>
    simp only [List.map_cons, List.foldl_cons]
    rw [ih]
    rfl

theorem neighbours_calls (w : String → Int)
    (calls : List (String × String × String × List String)) (g : MetroGraph) (u : String) :
    neighbours ((calls.map (edgeCall w)).foldl LoadOp.apply g).adjacencyList u
      = neighbours g.adjacencyList u ++ (callsAt calls u).map (entry w) := by
  induction calls generalizing g with
  | nil => simp [callsAt]
  | cons c t ih =>
    obtain ⟨a, b, v, ls⟩ := c
    simp only [List.map_cons, List.foldl_cons]
    rw [ih]
    simp only [edgeCall, LoadOp.apply, neighbours_addEdge, callsAt, List.map_append,
      List.append_assoc]
    by_cases h1 : a = u <;> by_cases h2 : b = u <;> simp [h1, h2, entry]

theorem hasKey_calls (w : String → Int)
    (calls : List (String × String × String × List String)) (g : MetroGraph) (u : String) :
    hasKey ((calls.map (edgeCall w)).foldl LoadOp.apply g).adjacencyList u
      = (hasKey g.adjacencyList u || callKeys calls u) := by
  induction calls generalizing g with
  | nil => simp [callKeys]
  | cons c t ih =>
    obtain ⟨a, b, v, ls⟩ := c
    simp only [List.map_cons, List.foldl_cons]
    rw [ih]
    simp only [edgeCall, LoadOp.apply, hasKey_addEdge, callKeys]
    cases hasKey g.adjacencyList u <;> cases callKeys t u <;>
      by_cases h1 : a = u <;> by_cases h2 : b = u <;> simp [h1, h2]

theorem load_append (l1 l2 : List LoadOp) :
    load (l1 ++ l2) = l2.foldl LoadOp.apply (load l1) := by
  simp only [load, List.foldl_append]

theorem opWeights_append (l1 l2 : List LoadOp) :
    opWeights (l1 ++ l2) = opWeights l1 ++ opWeights l2 := by
  rw [opWeights_eq_filterMap, opWeights_eq_filterMap, opWeights_eq_filterMap,
    List.filterMap_append]

theorem opWeights_calls (w : String → Int)
    (calls : List (String × String × String × List String)) :
    opWeights (calls.map (edgeCall w)) = calls.map (fun c => w c.2.2.1) := by
  induction calls with
  | nil => rfl
  | cons c t ih => simp [edgeCall, opWeights, ih]

theorem findKey_assign {β : Type} (m : List (String × β)) (k k' : String) (v : β) :
    findKey (assign m k v) k' = if k = k' then some v else findKey m k' := by
  induction m with
  | nil => simp [assign, findKey]
  | cons hd t ih =>
    obtain ⟨a, b⟩ := hd
    by_cases h1 : a = k
    · subst h1
      by_cases h2 : a = k' <;> simp [assign, findKey, h2]
    · by_cases h2 : a = k'
      · subst h2
        simp [assign, findKey, h1, Ne.symm h1]
      · simp [assign, findKey, h1, h2, ih]

theorem findKey_apply (g : MetroGraph) (op : LoadOp) (x : String) :
    findKey (LoadOp.apply g op).stations x
      = match LoadOp.record x op with
        | some st => some st
        | none => findKey g.stations x := by
  cases op with
  | station n la lo ls =>
    simp only [LoadOp.apply, addStation, LoadOp.record, findKey_assign, lookupD_assign_same]
    by_cases h : n = x <;> simp [h]
  | edge a b w ls => rfl

theorem findKey_foldl (ops : List LoadOp) (g : MetroGraph) (x : String) :
    findKey (ops.foldl LoadOp.apply g).stations x
      = match lastStation ops x with
        | some st => some st
        | none => findKey g.stations x := by
  induction ops generalizing g with
  | nil => rfl
  | cons op t ih =>
    simp only [List.foldl_cons, lastStation]
    rw [ih, findKey_apply]
    cases lastStation t x <;> rfl

theorem findKey_load (ops : List LoadOp) (x : String) :
    findKey (load ops).stations x = lastStation ops x := by
  rw [load, findKey_foldl]
  cases lastStation ops x <;> rfl

theorem hasKey_eq_isSome {β : Type} (m : List (String × β)) (k : String) :
    hasKey m k = (findKey m k).isSome := by
  induction m with
  | nil => rfl
  | cons hd t ih =>
    obtain ⟨a, b⟩ := hd
    by_cases h : a = k <;> simp [hasKey, findKey, h, ih]

theorem calculateDistance_of_keys (g : MetroGraph) (a b : String)
    (ha : hasKey g.stations a = true) (hb : hasKey g.stations b = true) :
    calculateDistance g a b = g := by
  simp only [calculateDistance, touch_of_hasKey _ _ _ ha, touch_of_hasKey _ _ _ hb]

theorem foldl_calculateDistance (ds : List (String × String × String)) (g : MetroGraph)
    (h : ∀ c ∈ ds, hasKey g.stations c.2.1 = true ∧ hasKey g.stations c.2.2 = true) :
    ds.foldl (fun g c => calculateDistance g c.2.1 c.2.2) g = g := by
  induction ds with
  | nil => rfl
  | cons c t ih =>
    obtain ⟨h1, h2⟩ := h c (List.mem_cons_self _ _)
    simp only [List.foldl_cons, calculateDistance_of_keys g _ _ h1 h2]
    exact ih (fun c' hc' => h c' (List.mem_cons_of_mem _ hc'))

set_option maxRecDepth 100000 in
theorem mainDistances_registered :
    mainDistances.all (fun c => (lastStation mainStations c.2.1).isSome
      && (lastStation mainStations c.2.2).isSome) = true := by
  decide!

theorem mainGraph_eq (w : String → Int) :
    mainGraph w = load (mainStations ++ mainEdges w) := by
  have h : mainDistances.foldl (fun g c => calculateDistance g c.2.1 c.2.2)
      (load mainStations) = load mainStations := by
    apply foldl_calculateDistance
    intro c hc
    have := List.all_eq_true.1 mainDistances_registered c hc
    simp only [Bool.and_eq_true] at this
    rw [hasKey_eq_isSome, hasKey_eq_isSome, findKey_load, findKey_load]
    exact this
  rw [mainGraph, h, load_append]

set_option maxRecDepth 100000 in
theorem mainStations_adjacencyList : (load mainStations).adjacencyList = [] := by
  decide!

set_option maxRecDepth 100000 in
theorem mainStations_opWeights : opWeights mainStations = [] := by
  decide!

set_option maxRecDepth 100000 in
theorem mainStations_oneLine : mainStations.all LoadOp.oneLine = true := by
  decide!

theorem main_stations (w : String → Int) :
    (mainGraph w).stations = (load mainStations).stations := by
  rw [mainGraph_eq, load_append, mainEdges, foldl_calls_stations]

theorem getMetroLines_load (ops : List LoadOp) (x : String) (L : List String)
    (h : (lastStation ops x).map Station.metroLines = some L) :
    getMetroLines (load ops) x = .ok L := by
  unfold getMetroLines
  rw [findKey_load]
  cases hl : lastStation ops x with
  | none => rw [hl] at h; cases h
  | some st =>
    rw [hl] at h
    simp only [Option.map_some', Option.some.injEq] at h
    simp [h]

theorem getMetroLines_load_none (ops : List LoadOp) (x : String)
    (h : lastStation ops x = none) :
    getMetroLines (load ops) x = .error .out_of_range := by
  unfold getMetroLines
  rw [findKey_load, h]

theorem getMetroLines_congr (g g' : MetroGraph) (h : g.stations = g'.stations) (x : String) :
    getMetroLines g x = getMetroLines g' x := by
  unfold getMetroLines
  rw [h]

theorem main_lines (w : String → Int) (x : String) (L : List String)
    (h : (lastStation mainStations x).map Station.metroLines = some L) :
    getMetroLines (mainGraph w) x = .ok L :=
  (getMetroLines_congr _ _ (main_stations w) x).trans (getMetroLines_load mainStations x L h)

theorem main_unregistered (w : String → Int) (x : String)
    (h : lastStation mainStations x = none) :
    getMetroLines (mainGraph w) x = .error .out_of_range :=
  (getMetroLines_congr _ _ (main_stations w) x).trans (getMetroLines_load_none mainStations x h)

theorem main_neighbours (w : String → Int) (u : String) :
    neighbours (mainGraph w).adjacencyList u = (callsAt mainEdgeCalls u).map (entry w) := by
  rw [mainGraph_eq, load_append, mainEdges, neighbours_calls, mainStations_adjacencyList]
  simp only [neighbours, lookupD, List.nil_append]

theorem main_hasKey (w : String → Int) (u : String) :
    hasKey (mainGraph w).adjacencyList u = callKeys mainEdgeCalls u := by
  rw [mainGraph_eq, load_append, mainEdges, hasKey_calls, mainStations_adjacencyList]
  simp only [hasKey, Bool.false_or]

theorem main_opWeights (w : String → Int) :
    opWeights (mainStations ++ mainEdges w) = mainEdgeCalls.map (fun c => w c.2.2.1) := by
  rw [opWeights_append, mainStations_opWeights, mainEdges, opWeights_calls, List.nil_append]

theorem main_totalWeight (w : String → Int) :
    totalWeight (mainGraph w).adjacencyList
      = 2 * (mainEdgeCalls.map (fun c => w c.2.2.1)).sum := by
  rw [mainGraph_eq, load_totalWeight, main_opWeights]

theorem main_nonNeg (w : String → Int) (hnn : ∀ v, 0 ≤ w v) :
    NonNeg (mainGraph w).adjacencyList := by
  rw [mainGraph_eq]
  apply load_nonNeg
  rw [main_opWeights]
  intro x hx
  obtain ⟨c, _, rfl⟩ := List.mem_map.1 hx
  exact hnn _

theorem main_closed (w : String → Int) : Closed (mainGraph w).adjacencyList := by
  rw [mainGraph_eq]
  exact load_closed _

theorem main_adjacent (w : String → Int) (a b : String) :
    Adjacent (mainGraph w).adjacencyList a b ↔ b ∈ mainNext a := by
  unfold Adjacent mainNext
  rw [main_neighbours]
  constructor
  · rintro ⟨e, he, rfl⟩
    obtain ⟨c, hc, rfl⟩ := List.mem_map.1 he
    exact List.mem_map.2 ⟨c, hc, rfl⟩
  · intro h
    obtain ⟨c, hc, rfl⟩ := List.mem_map.1 h
    exact ⟨entry w c, List.mem_map.2 ⟨c, hc, rfl⟩, rfl⟩

set_option maxRecDepth 100000 in
theorem main_callsAt_samaypur :
    callsAt mainEdgeCalls "Samaypur Badli"
      = [("Rohini Sector 18, 19", "a1", ["Yellow Line"]),
         ("Rohini Sector 18, 19", "a1", ["Yellow Line"])] := by
  decide!

theorem main_hasKey_stations (w : String → Int) (x : String) :
    hasKey (mainGraph w).stations x = (lastStation mainStations x).isSome := by
  rw [main_stations, hasKey_eq_isSome, findKey_load]

theorem main_entry (w : String → Int) (u : String) (c : String × String × List String)
    (h : c ∈ callsAt mainEdgeCalls u) :
    entry w c ∈ neighbours (mainGraph w).adjacencyList u := by
  rw [main_neighbours]
  exact List.mem_map_of_mem _ h

/-! ## Completion of the annotation loop -/

theorem changeScan_ok (first : String) (others currentLines : List String) :
    ∃ marker, changeScan (first :: others) currentLines = .ok marker := by
  induction currentLines with
  | nil => exact ⟨[], rfl⟩
  | cons c rest ih =>
    by_cases hc : c ∉ first :: others
    · exact ⟨[" [Change to ", first, " Line]"],
        by simp only [changeScan, hc, not_false_eq_true, if_true]⟩
    · obtain ⟨m, hm⟩ := ih
      exact ⟨m, by simp only [changeScan, hc, if_false, hm]⟩

theorem getMetroLines_error (g : MetroGraph) (x : String) (f : Fault)
    (h : getMetroLines g x = .error f) :
    f = .out_of_range ∧ hasKey g.stations x = false := by
  by_cases hk : hasKey g.stations x = true
  · rw [getMetroLines_of_key g x hk] at h
    cases h
  · have hk' : hasKey g.stations x = false := by simpa using hk
    rw [getMetroLines_of_not_key g x hk'] at h
    injection h with h
    exact ⟨h.symm, hk'⟩

theorem annotateAt_ok (g : MetroGraph) (path : List String) (i : Nat)
    (hreg : ∀ x ∈ path, ∃ L, getMetroLines g x = .ok L ∧ L ≠ []) (hi : i < path.length) :
    ∃ out, annotateAt g path i = .ok (g, out) := by
  have hmem : ∀ j, j < path.length → path.getD j "" ∈ path := by
    intro j hj
    rw [List.getD_eq_getElem _ _ hj]
    exact List.getElem_mem hj
  obtain ⟨La, hLa, hane⟩ := hreg _ (hmem i hi)
  by_cases hlast : i + 1 < path.length
  · obtain ⟨Lb, hLb, hbne⟩ := hreg _ (hmem (i + 1) hlast)
    rw [annotateAt_segment g path i _ _ La Lb hlast rfl rfl hLa hLb]
    cases set_intersection La Lb with
    | cons f r => exact ⟨_, rfl⟩
    | nil =>
      obtain ⟨nf, others, rfl⟩ : ∃ nf others, Lb = nf :: others := by
        cases Lb with
        | nil => exact absurd rfl hbne
        | cons x t => exact ⟨x, t, rfl⟩
      obtain ⟨m, hm⟩ := changeScan_ok nf others La
      simp only [hm]
      exact ⟨_, rfl⟩
  · obtain ⟨first, rest, rfl⟩ : ∃ first rest, La = first :: rest := by
      cases La with
      | nil => exact absurd rfl hane
      | cons x t => exact ⟨x, t, rfl⟩
    exact ⟨_, annotateAt_last g path i _ first rest (by omega) rfl hLa⟩

theorem annotateLoop_ok (g : MetroGraph) (path : List String)
    (hreg : ∀ x ∈ path, ∃ L, getMetroLines g x = .ok L ∧ L ≠ []) :
    ∀ (n i : Nat), i + n = path.length → ∃ out, annotateLoop path n i g = .ok (g, out) := by
  intro n
  induction n with
  | zero => intro i _; exact ⟨[], rfl⟩
  | succ n ih =>
    intro i hi
    obtain ⟨out1, h1⟩ := annotateAt_ok g path i hreg (by omega)
    obtain ⟨out2, h2⟩ := ih (i + 1) (by omega)
    exact ⟨out1 ++ out2, by simp only [annotateLoop, h1, h2]⟩

theorem annotate_ok (g : MetroGraph) (path : List String)
    (hreg : ∀ x ∈ path, ∃ L, getMetroLines g x = .ok L ∧ L ≠ []) :
    ∃ out, annotate g path = .ok (g, out) :=
  annotateLoop_ok g path hreg path.length 0 (by simp)

theorem annotateAt_unregistered (g : MetroGraph) (path : List String) (i : Nat)
    (h : hasKey g.stations (path.getD i "") = false ∨
      (i + 1 < path.length ∧ hasKey g.stations (path.getD (i + 1) "") = false)) :
    annotateAt g path i = .error .out_of_range := by
  by_cases hlast : i < path.length - 1
  · simp only [annotateAt, hlast, if_true]
    by_cases ha : hasKey g.stations (path.getD i "") = true
    · rcases h with h | ⟨_, h⟩
      · rw [ha] at h
        cases h
      · rw [getMetroLines_of_key g _ ha, getMetroLines_of_not_key g _ h]
    · have ha' : hasKey g.stations (path.getD i "") = false := by simpa using ha
      rw [getMetroLines_of_not_key g _ ha']
  · have h' : hasKey g.stations (path.getD i "") = false := by
      rcases h with h | ⟨h1, _⟩
      · exact h
      · omega
    simp only [annotateAt, hlast, if_false, getMetroLines_of_not_key g _ h']

theorem annotateLoop_unregistered (g : MetroGraph) (path : List String)
    (hne : ∀ x L, getMetroLines g x = .ok L → L ≠ []) :
    ∀ (n i : Nat), i + n = path.length →
      (∃ j, i ≤ j ∧ j < path.length ∧ hasKey g.stations (path.getD j "") = false) →
      annotateLoop path n i g = .error .out_of_range := by
  intro n
  induction n with
  | zero =>
    intro i hi ⟨j, h1, h2, _⟩
    omega
  | succ n ih =>
    intro i hi ⟨j, h1, h2, h3⟩
    by_cases hbad : hasKey g.stations (path.getD i "") = false ∨
        (i + 1 < path.length ∧ hasKey g.stations (path.getD (i + 1) "") = false)
    · simp only [annotateLoop, annotateAt_unregistered g path i hbad]
    · have hi0 : hasKey g.stations (path.getD i "") = true := by
        by_contra hc
        exact hbad (Or.inl (by simpa using hc))
      have hji : j ≠ i := by
        intro hj
        rw [hj, hi0] at h3
        cases h3
      have hnext : ∀ k, k < path.length → (k = i ∨ k = i + 1) →
          ∃ L, getMetroLines g (path.getD k "") = .ok L ∧ L ≠ [] := by
        intro k hk hki
        have hkk : hasKey g.stations (path.getD k "") = true := by
          rcases hki with rfl | rfl
          · exact hi0
          · by_contra hc
            exact hbad (Or.inr ⟨hk, by simpa using hc⟩)
        exact ⟨_, getMetroLines_of_key g _ hkk, hne _ _ (getMetroLines_of_key g _ hkk)⟩
      have hat : ∃ out, annotateAt g path i = .ok (g, out) := by
        obtain ⟨La, hLa, hane⟩ := hnext i (by omega) (Or.inl rfl)
        by_cases hlast : i + 1 < path.length
        · obtain ⟨Lb, hLb, hbne⟩ := hnext (i + 1) hlast (Or.inr rfl)
          rw [annotateAt_segment g path i _ _ La Lb hlast rfl rfl hLa hLb]
          cases set_intersection La Lb with
          | cons f r => exact ⟨_, rfl⟩
          | nil =>
            obtain ⟨nf, others, rfl⟩ : ∃ nf others, Lb = nf :: others := by
              cases Lb with
              | nil => exact absurd rfl hbne
              | cons x t => exact ⟨x, t, rfl⟩
            obtain ⟨m, hm⟩ := changeScan_ok nf others La
            simp only [hm]
            exact ⟨_, rfl⟩
        · obtain ⟨first, rest, rfl⟩ : ∃ first rest, La = first :: rest := by
            cases La with
            | nil => exact absurd rfl hane
            | cons x t => exact ⟨x, t, rfl⟩
          exact ⟨_, annotateAt_last g path i _ first rest (by omega) rfl hLa⟩
      obtain ⟨out, hout⟩ := hat
      have := ih (i + 1) (by omega) ⟨j, by omega, h2, h3⟩
      simp only [annotateLoop, hout, this]

theorem annotate_unregistered (g : MetroGraph) (path : List String)
    (hne : ∀ x L, getMetroLines g x = .ok L → L ≠ [])
    (h : ∃ x ∈ path, hasKey g.stations x = false) :
    annotate g path = .error .out_of_range := by
  obtain ⟨x, hx, hk⟩ := h
  obtain ⟨j, hj, hjx⟩ := List.getElem_of_mem hx
  apply annotateLoop_unregistered g path hne path.length 0 (by simp)
  refine ⟨j, by omega, hj, ?_⟩
  rw [List.getD_eq_getElem _ _ hj, hjx]
  exact hk

theorem dijkstra_stations (fuel : Nat) (g g' : MetroGraph) (s d : String)
    (r : List String × Int) (h : dijkstra fuel g s d = some (g', r)) :
    g'.stations = g.stations := by
  unfold dijkstra at h
  simp only at h
  split at h
  · cases h
  · split at h
    · injection h with h
      injection h with h1 _
      rw [← h1]
    · split at h
      · cases h
      · injection h with h
        injection h with h1 _
        rw [← h1]

/-! ## Exit of `main` -/

theorem lastStation_mem (ops : List LoadOp) (x : String) (st : Station)
    (h : lastStation ops x = some st) :
    LoadOp.station st.name st.latitude st.longitude st.metroLines ∈ ops := by
  induction ops with
  | nil => cases h
  | cons op t ih =>
    simp only [lastStation] at h
    cases hl : lastStation t x with
    | some st' =>
      rw [hl] at h
      simp only [Option.some.injEq] at h
      subst h
      exact List.mem_cons_of_mem _ (ih hl)
    | none =>
      rw [hl] at h
      cases op with
      | station n la lo ls =>
        simp only [LoadOp.record] at h
        by_cases hn : n = x
        · simp only [hn, if_true, Option.some.injEq] at h
          subst h
          simp [hn]
        · simp only [hn, if_false] at h
          cases h
      | edge a b w ls => cases h

theorem oneLine_nonempty (ops : List LoadOp) (hall : ops.all LoadOp.oneLine = true)
    (x : String) (L : List String) (h : getMetroLines (load ops) x = .ok L) : L ≠ [] := by
  unfold getMetroLines at h
  rw [findKey_load] at h
  cases hl : lastStation ops x with
  | none => rw [hl] at h; cases h
  | some st =>
    rw [hl] at h
    simp only [Except.ok.injEq] at h
    have hmem := lastStation_mem ops x st hl
    have hone := List.all_eq_true.1 hall _ hmem
    rw [← h]
    intro hnil
    rw [hnil] at hone
    simp [LoadOp.oneLine] at hone

theorem main_lines_nonempty (w : String → Int) (x : String) (L : List String)
    (h : getMetroLines (mainGraph w) x = .ok L) : L ≠ [] := by
  rw [getMetroLines_congr _ _ (main_stations w) x] at h
  exact oneLine_nonempty mainStations mainStations_oneLine x L h

theorem main_exit_ok (w : String → Int) (fuel : Nat) (s d : String) (g : MetroGraph)
    (path : List String) (dist : Int)
    (h : dijkstra fuel (mainGraph w) s d = some (g, (path, dist)))
    (hreg : ∀ x ∈ path, hasKey (mainGraph w).stations x = true) :
    main w fuel s d = some (Exit.code 0) := by
  have hst := dijkstra_stations fuel _ _ s d _ h
  have hc : ∀ x, getMetroLines g x = getMetroLines (mainGraph w) x :=
    getMetroLines_congr _ _ hst
  obtain ⟨out, hout⟩ := annotate_ok g path (by
    intro x hx
    have hk := getMetroLines_of_key (mainGraph w) x (hreg x hx)
    exact ⟨_, (hc x).trans hk, main_lines_nonempty w x _ hk⟩)
  simp only [main, h, hout]

theorem main_exit_fault (w : String → Int) (fuel : Nat) (s d : String) (g : MetroGraph)
    (path : List String) (dist : Int)
    (h : dijkstra fuel (mainGraph w) s d = some (g, (path, dist)))
    (hbad : ∃ x ∈ path, hasKey (mainGraph w).stations x = false) :
    main w fuel s d = some (Exit.terminated .out_of_range) := by
  have hst := dijkstra_stations fuel _ _ s d _ h
  have hc : ∀ x, getMetroLines g x = getMetroLines (mainGraph w) x :=
    getMetroLines_congr _ _ hst
  have hout := annotate_unregistered g path
    (fun x L hL => main_lines_nonempty w x L ((hc x).symm.trans hL))
    (by
      obtain ⟨x, hx, hk⟩ := hbad
      exact ⟨x, hx, by rw [hst]; exact hk⟩)
  simp only [main, h, hout]

theorem main_unknown_source (w : String → Int) (fuel : Nat) (s d : String)
    (hs : hasKey (mainGraph w).adjacencyList s = false)
    (hd : hasKey (mainGraph w).adjacencyList d = true) (hfuel : 2 ≤ fuel) :
    main w fuel s d = some (Exit.code 0) := by
  have hsd : s ≠ d := by
    intro h
    rw [h, hd] at hs
    cases hs
  exact main_exit_ok w fuel s d _ [] _
    (dijkstra_absent_source (mainGraph w) s d fuel hs hd hsd hfuel)
    (by intro x hx; cases hx)

theorem main_unknown_destination (w : String → Int) (s d : String)
    (hd : hasKey (mainGraph w).adjacencyList d = false)
    (hr : hasKey (mainGraph w).stations d = false) (hsd : s ≠ d) (hne : d ≠ "") :
    ∃ N, ∀ fuel, N ≤ fuel → main w fuel s d = some (Exit.terminated .out_of_range) := by
  obtain ⟨N, g', hN⟩ := dijkstra_absent_destination (mainGraph w) s d (main_closed w) hd hsd hne
  refine ⟨N, fun fuel hfuel => ?_⟩
  exact main_exit_fault w fuel s d g' [d] 0 (hN fuel hfuel) ⟨d, by simp, hr⟩

theorem main_same_station (w : String → Int) (fuel : Nat) (s : String)
    (hr : hasKey (mainGraph w).stations s = true) (hfuel : 1 ≤ fuel) :
    main w fuel s s = some (Exit.code 0) := by
  obtain ⟨n, rfl⟩ : ∃ n, fuel = n + 1 := ⟨fuel - 1, by omega⟩
  refine main_exit_ok w (n + 1) s s _ _ _ (dijkstra_self n (mainGraph w) s) ?_
  intro x hx
  by_cases h : s = ""
  · simp [h] at hx
  · simp only [h, if_false, List.mem_singleton] at hx
    rw [hx]
    exact hr

/-! ## `set_intersection` on arbitrary lists -/

theorem strLt_asymm (a b : String) (h : strLt a b) : ¬ strLt b a := by
  rw [strLt_iff] at h ⊢
  exact lt_asymm h

theorem set_intersection_sub (l1 l2 : List String) :
    (∀ x ∈ set_intersection l1 l2, x ∈ l1 ∧ x ∈ l2) ∧
      (set_intersection l1 l2).Sublist l1 := by
  induction l1 generalizing l2 with
  | nil => simp [set_intersection]
  | cons a as iha =>
    induction l2 with
    | nil => simp [set_intersection_nil_right]
    | cons b bs ihb =>
      rw [set_intersection_cons_cons]
      by_cases hab : strLt a b
      · simp only [hab, if_true]
        obtain ⟨h1, h2⟩ := iha (b :: bs)
        exact ⟨fun x hx => ⟨List.mem_cons_of_mem _ (h1 x hx).1, (h1 x hx).2⟩,
          h2.trans (List.sublist_cons_self _ _)⟩
      · by_cases hba : strLt b a
        · simp only [hab, hba, if_true, if_false]
          obtain ⟨h1, h2⟩ := ihb
          exact ⟨fun x hx => ⟨(h1 x hx).1, List.mem_cons_of_mem _ (h1 x hx).2⟩, h2⟩
        · simp only [hab, hba, if_false]
          have heq : a = b := eq_of_not_strLt a b hab hba
          subst heq
          obtain ⟨h1, h2⟩ := iha bs
          refine ⟨?_, h2.cons₂ a⟩
          intro x hx
          rcases List.mem_cons.mp hx with rfl | hx
          · exact ⟨List.mem_cons_self _ _, List.mem_cons_self _ _⟩
          · exact ⟨List.mem_cons_of_mem _ (h1 x hx).1, List.mem_cons_of_mem _ (h1 x hx).2⟩

theorem set_intersection_comm (l1 l2 : List String) :
    set_intersection l1 l2 = set_intersection l2 l1 := by
  induction l1 generalizing l2 with
  | nil =>
    rw [set_intersection_nil_right]
    rfl
  | cons a as iha =>
    induction l2 with
    | nil =>
      rw [set_intersection_nil_right]
      rfl
    | cons b bs ihb =>
      rw [set_intersection_cons_cons, set_intersection_cons_cons]
      by_cases hab : strLt a b
      · simp only [hab, if_true, strLt_asymm a b hab, if_false]
        exact iha (b :: bs)
      · by_cases hba : strLt b a
        · simp only [hab, hba, if_true, if_false]
          exact ihb
        · simp only [hab, hba, if_false]
          rw [eq_of_not_strLt a b hab hba, iha bs]

theorem set_intersection_self (l : List String) : set_intersection l l = l := by
  induction l with
  | nil => rfl
  | cons a as ih =>
    rw [set_intersection_cons_cons]
    simp only [strLt_irrefl, if_false, ih]

theorem findKey_assign_ne {β : Type} (m : List (String × β)) (k k' : String) (v : β)
    (h : k ≠ k') : findKey (assign m k v) k' = findKey m k' := by
  rw [findKey_assign]
  simp [h]

/-! ## Routes and line changes on the graph of `main` -/

theorem walk_of_chain (al : List (String × List Edge)) (p : List String) (s : String)
    (h : List.Chain (Adjacent al) s p) :
    ∃ c, Walk al s ((s :: p).getLast (List.cons_ne_nil _ _)) c := by
  induction p generalizing s with
  | nil => exact ⟨0, Walk.nil⟩
  | cons b t ih =>
    obtain ⟨hab, ht⟩ := List.chain_cons.1 h
    obtain ⟨c, hc⟩ := ih b ht
    obtain ⟨e, he, hto⟩ := hab
    have h1 : Walk al s b (0 + e.distance) := hto ▸ Walk.snoc e Walk.nil he
    refine ⟨0 + e.distance + c, ?_⟩
    have := walk_trans al s b _ _ _ h1 hc
    simpa [List.getLast_cons] using this

theorem main_walk (w : String → Int) (s : String) (p : List String)
    (h : List.Chain (fun a b => b ∈ mainNext a) s p) :
    ∃ c, Walk (mainGraph w).adjacencyList s ((s :: p).getLast (List.cons_ne_nil _ _)) c :=
  walk_of_chain _ p s (List.Chain.imp (fun a b hab => (main_adjacent w a b).2 hab) h)

theorem oneLine_single (ops : List LoadOp) (hall : ops.all LoadOp.oneLine = true)
    (x : String) (L : List String) (h : getMetroLines (load ops) x = .ok L) :
    ∃ l, L = [l] := by
  unfold getMetroLines at h
  rw [findKey_load] at h
  cases hl : lastStation ops x with
  | none => rw [hl] at h; cases h
  | some st =>
    rw [hl] at h
    simp only [Except.ok.injEq] at h
    have hmem := lastStation_mem ops x st hl
    have hone := List.all_eq_true.1 hall _ hmem
    rw [← h]
    cases hm : st.metroLines with
    | nil => rw [hm] at hone; simp [LoadOp.oneLine] at hone
    | cons l t =>
      cases t with
      | nil => exact ⟨l, rfl⟩
      | cons l2 t2 => rw [hm] at hone; simp [LoadOp.oneLine] at hone

theorem main_lines_single (w : String → Int) (x : String) (L : List String)
    (h : getMetroLines (mainGraph w) x = .ok L) : ∃ l, L = [l] := by
  rw [getMetroLines_congr _ _ (main_stations w) x] at h
  exact oneLine_single mainStations mainStations_oneLine x L h

theorem annotateAt_head (g : MetroGraph) (a b : String) (rest : List String) (la lb : String)
    (hLa : getMetroLines g a = .ok [la]) (hLb : getMetroLines g b = .ok [lb]) :
    annotateAt g (a :: b :: rest) 0
      = if la = lb then .ok (g, [a, " (", la, ")", " -> "])
        else .ok (g, [a, " [Change to ", lb, " Line]", " -> "]) := by
  rw [annotateAt_segment g (a :: b :: rest) 0 a b [la] [lb] (by simp) rfl rfl hLa hLb]
  by_cases h : la = lb
  · subst h
    simp only [set_intersection_single_same, if_true]
  · simp only [set_intersection_single_ne la lb h, h, if_false]
    rw [changeScan_marker lb [] [la] ⟨la, by simp, by simpa using h⟩]
    rfl

theorem annotateAt_cons (g : MetroGraph) (a : String) (q : List String) (i : Nat) :
    annotateAt g (a :: q) (i + 1) = annotateAt g q i := by
  have hc : (i + 1 < (a :: q).length - 1) = (i < q.length - 1) := by
    simp only [List.length_cons, Nat.add_sub_cancel, eq_iff_iff]
    omega
  simp only [annotateAt, List.getD_cons_succ, hc]

theorem segment_cases (g : MetroGraph)
    (hsing : ∀ x L, getMetroLines g x = .ok L → ∃ l, L = [l])
    (a b : String) (rest : List String) :
    (∃ l, getMetroLines g a = .ok [l] ∧ getMetroLines g b = .ok [l] ∧
        annotateAt g (a :: b :: rest) 0 = .ok (g, [a, " (", l, ")", " -> "])) ∨
      annotateAt g (a :: b :: rest) 0 = .error .out_of_range ∨
      ∃ l, annotateAt g (a :: b :: rest) 0 = .ok (g, [a, " [Change to ", l, " Line]", " -> "]) := by
  by_cases hka : hasKey g.stations a = true
  · by_cases hkb : hasKey g.stations b = true
    · obtain ⟨la, hla⟩ := hsing a _ (getMetroLines_of_key g a hka)
      obtain ⟨lb, hlb⟩ := hsing b _ (getMetroLines_of_key g b hkb)
      have hLa : getMetroLines g a = .ok [la] := by rw [← hla]; exact getMetroLines_of_key g a hka
      have hLb : getMetroLines g b = .ok [lb] := by rw [← hlb]; exact getMetroLines_of_key g b hkb
      have hh := annotateAt_head g a b rest la lb hLa hLb
      by_cases h : la = lb
      · subst h
        simp only [if_true] at hh
        exact Or.inl ⟨la, hLa, hLb, hh⟩
      · simp only [h, if_false] at hh
        exact Or.inr (Or.inr ⟨lb, hh⟩)
    · refine Or.inr (Or.inl ?_)
      exact annotateAt_unregistered g (a :: b :: rest) 0
        (Or.inr ⟨by simp, by simpa using hkb⟩)
  · refine Or.inr (Or.inl ?_)
    exact annotateAt_unregistered g (a :: b :: rest) 0 (Or.inl (by simpa using hka))

theorem change_before (g : MetroGraph)
    (hsing : ∀ x L, getMetroLines g x = .ok L → ∃ l, L = [l]) (target : String) :
    ∀ (p : List String) (a : String), getMetroLines g a ≠ getMetroLines g target →
      target ∈ a :: p →
      ∃ i, i + 1 < (a :: p).length ∧ (a :: p).getD i "" ≠ target ∧
        (∀ j, j < i → ∃ c, annotateAt g (a :: p) j
          = .ok (g, [(a :: p).getD j "", " (", c, ")", " -> "])) ∧
        (annotateAt g (a :: p) i = .error .out_of_range ∨
          ∃ l, annotateAt g (a :: p) i
            = .ok (g, [(a :: p).getD i "", " [Change to ", l, " Line]", " -> "])) := by
  intro p
  induction p with
  | nil =>
    intro a hne hmem
    simp only [List.mem_singleton] at hmem
    rw [hmem] at hne
    exact absurd rfl hne
  | cons b rest ih =>
    intro a hne hmem
    have hat : a ≠ target := by
      intro h
      rw [h] at hne
      exact hne rfl
    have hmem' : target ∈ b :: rest := by
      rcases List.mem_cons.1 hmem with h | h
      · exact absurd h.symm hat
      · exact h
    rcases segment_cases g hsing a b rest with ⟨l, hLa, hLb, hok⟩ | hbad
    · have hne' : getMetroLines g b ≠ getMetroLines g target := by
        rw [hLb, ← hLa]
        exact hne
      obtain ⟨i, hi, hti, hlab, hbad⟩ := ih b hne' hmem'
      refine ⟨i + 1, by simpa using hi, by simpa using hti, ?_, ?_⟩
      · intro j hj
        cases j with
        | zero => exact ⟨l, hok⟩
        | succ j =>
          obtain ⟨c, hc⟩ := hlab j (by omega)
          exact ⟨c, by rw [annotateAt_cons]; simpa using hc⟩
      · rw [annotateAt_cons]
        simpa using hbad
    · refine ⟨0, by simp, by simpa using hat, ?_, ?_⟩
      · intro j hj
        omega
      · simpa using hbad

set_option maxRecDepth 100000 in
theorem main_next_kashmere :
    mainNext "Kashmere Gate"
      = ["Civil Lines", "Civil Lines", "Chandni Chowk", "Chandni Chowk", "Shastri Park",
         "Shastri Park", "Tis Hazari", "Tis Hazari", "Lal Qila", "Lal Qila"] := by
  decide!

theorem chain_of_routeOk (p : List String) (a : String) (h : routeOk a p = true) :
    List.Chain (fun a b => b ∈ mainNext a) a p := by
  induction p generalizing a with
  | nil => exact List.Chain.nil
  | cons b t ih =>
    simp only [routeOk, Bool.and_eq_true, decide_eq_true_eq] at h
    exact List.Chain.cons h.1 (ih b h.2)

set_option maxRecDepth 100000 in
theorem main_route_secretariat : routeOk "Kashmere Gate" routeToSecretariat = true := by
  decide!

set_option maxRecDepth 100000 in
theorem main_route_huda : routeOk "Dilshad Garden" routeToHuda = true := by
  decide!

set_option maxRecDepth 100000 in
theorem main_no_empty_name : callKeys mainEdgeCalls "" = false := by
  decide!

theorem main_planner (w : String → Int) (hnn : ∀ v, 0 ≤ w v)
    (htot : totalWeight (mainGraph w).adjacencyList < 2147483648)
    (s d : String) (c0 : Int) (hs : s ≠ d) (hw : Walk (mainGraph w).adjacencyList s d c0) :
    ∃ N path dist,
      (∀ fuel, N ≤ fuel →
        dijkstra fuel (mainGraph w) s d = some (mainGraph w, (path, dist))) ∧
      GoodPath (mainGraph w).adjacencyList s d dist path ∧
      (∀ c, Walk (mainGraph w).adjacencyList s d c → dist ≤ c) := by
  have hcl := main_closed w
  have htot' : totalWeight (mainGraph w).adjacencyList < INT_MAX := by
    rw [main_totalWeight] at htot ⊢
    simp only [INT_MAX]
    omega
  have hks := walk_hasKey_source _ s d c0 hw hs
  have hkd := walk_hasKey_target _ hcl s d c0 hw hs
  obtain ⟨N, path, dist, hN, hcase⟩ :=
    dijkstra_core (mainGraph w) s d (main_nonNeg w hnn) hcl htot' hks hkd
  rcases hcase with ⟨_, _, hno⟩ | ⟨_, _, hopt, p, t, _, hgood, hsame, hkeys⟩
  · exact absurd hw (hno c0)
  · have hnoempty : "" ∉ p := by
      intro hmem
      have := hkeys "" hmem
      rw [main_hasKey, main_no_empty_name] at this
      cases this
    rw [← hsame hnoempty] at hgood
    exact ⟨N, path, dist, hN, hgood, hopt⟩

theorem annotateAt_head_same (g : MetroGraph) (a b : String) (rest : List String)
    (l : String) (hLa : getMetroLines g a = .ok [l]) (hLb : getMetroLines g b = .ok [l]) :
    annotateAt g (a :: b :: rest) 0 = .ok (g, [a, " (", l, ")", " -> "]) := by
  rw [annotateAt_head g a b rest l l hLa hLb]
  simp only [if_true]

theorem annotateAt_head_change (g : MetroGraph) (a b : String) (rest : List String)
    (la lb : String) (hLa : getMetroLines g a = .ok [la])
    (hLb : getMetroLines g b = .ok [lb]) (h : la ≠ lb) :
    annotateAt g (a :: b :: rest) 0 = .ok (g, [a, " [Change to ", lb, " Line]", " -> "]) := by
  rw [annotateAt_head g a b rest la lb hLa hLb]
  simp only [h, if_false]

/-! ## The reconstructed path has no repetition -/

theorem walkBack_acc (s : String) (prev : List (String × String)) (n : Nat) (cur : String)
    (acc : List String) :
    walkBack s prev n cur acc = (walkBack s prev n cur []).map (fun c => acc ++ c) := by
  induction n generalizing cur acc with
  | zero => rfl
  | succ n ih =>
    rw [walkBack, walkBack]
    by_cases h1 : cur = ""
    · simp [h1]
    · by_cases h2 : cur = s
      · subst h2
        simp [h1]
      · simp only [h1, h2, if_false]
        rw [ih _ (acc ++ [cur]), ih _ ([] ++ [cur])]
        cases walkBack s prev n (lookupD prev cur "") [] with
        | none => rfl
        | some c => simp

theorem walkBack_unfold (s : String) (prev : List (String × String)) (n : Nat)
    (cur : String) (c : List String) (h : walkBack s prev (n + 1) cur [] = some c) :
    (cur = "" ∧ c = []) ∨ (cur ≠ "" ∧ cur = s ∧ c = [cur]) ∨
      (cur ≠ "" ∧ cur ≠ s ∧ ∃ c', walkBack s prev n (lookupD prev cur "") [] = some c' ∧
        c = cur :: c') := by
  rw [walkBack] at h
  by_cases h1 : cur = ""
  · simp only [h1, if_true, Option.some.injEq] at h
    exact Or.inl ⟨h1, h.symm⟩
  · by_cases h2 : cur = s
    · subst h2
      simp only [h1, if_true, if_false, List.nil_append, Option.some.injEq] at h
      exact Or.inr (Or.inl ⟨h1, rfl, h.symm⟩)
    · simp only [h1, h2, if_false] at h
      rw [walkBack_acc] at h
      cases hc : walkBack s prev n (lookupD prev cur "") [] with
      | none => rw [hc] at h; cases h
      | some c' =>
        rw [hc] at h
        simp only [Option.map_some', List.nil_append, List.singleton_append,
          Option.some.injEq] at h
        exact Or.inr (Or.inr ⟨h1, h2, c', rfl, h.symm⟩)

theorem walkBack_suffix (s : String) (prev : List (String × String)) :
    ∀ (n : Nat) (cur : String) (c : List String), walkBack s prev n cur [] = some c →
      ∀ x ∈ c, ∃ m c', walkBack s prev m x [] = some c' ∧ c'.length ≤ c.length := by
  intro n
  induction n with
  | zero => intro cur c h; cases h
  | succ n ih =>
    intro cur c h x hx
    rcases walkBack_unfold s prev n cur c h with ⟨_, rfl⟩ | ⟨_, _, rfl⟩ | ⟨_, _, c', hc', rfl⟩
    · cases hx
    · simp only [List.mem_singleton] at hx
      subst hx
      exact ⟨n + 1, _, h, le_refl _⟩
    · rcases List.mem_cons.1 hx with rfl | hx
      · exact ⟨n + 1, _, h, le_refl _⟩
      · obtain ⟨m, c'', h1, h2⟩ := ih _ c' hc' x hx
        exact ⟨m, c'', h1, by simp only [List.length_cons]; omega⟩

theorem walkBack_nodup (s : String) (prev : List (String × String)) :
    ∀ (n : Nat) (cur : String) (c : List String), walkBack s prev n cur [] = some c →
      c.Nodup := by
  intro n
  induction n with
  | zero => intro cur c h; cases h
  | succ n ih =>
    intro cur c h
    rcases walkBack_unfold s prev n cur c h with ⟨_, rfl⟩ | ⟨_, _, rfl⟩ | ⟨_, _, c', hc', rfl⟩
    · exact List.nodup_nil
    · exact List.nodup_singleton _
    · refine List.nodup_cons.2 ⟨?_, ih _ c' hc'⟩
      intro hmem
      obtain ⟨m, c'', h1, h2⟩ := walkBack_suffix s prev n _ c' hc' cur hmem
      have e1 := walkBack_mono s prev m (max m (n + 1)) cur [] c'' (le_max_left _ _) h1
      have e2 := walkBack_mono s prev (n + 1) (max m (n + 1)) cur [] _ (le_max_right _ _) h
      rw [e1] at e2
      simp only [Option.some.injEq] at e2
      rw [e2] at h2
      simp only [List.length_cons] at h2
      omega

theorem dijkstra_nodup (fuel : Nat) (g g' : MetroGraph) (s d : String) (path : List String)
    (dist : Int) (h : dijkstra fuel g s d = some (g', (path, dist))) : path.Nodup := by
  unfold dijkstra at h
  simp only at h
  split at h
  · cases h
  · split at h
    · injection h with h
      injection h with _ h2
      injection h2 with h3 _
      rw [← h3]
      exact List.nodup_nil
    · split at h
      · cases h
      · rename_i c hc
        injection h with h
        injection h with _ h2
        injection h2 with h3 _
        rw [← h3]
        exact List.nodup_reverse.2 (walkBack_nodup _ _ _ _ _ hc)

/-! ## Termination of `dijkstra` on loaded graphs -/

theorem dijkstra_empty_destination (g : MetroGraph) (s : String) :
    ∃ N, ∀ fuel, N ≤ fuel → ∃ r, dijkstra fuel g s "" = some r := by
  have hrange : ∀ v, INT_MIN ≤
      distOf ⟨assign (initDistance g.adjacencyList) s 0, [], [(0, s)]⟩ v := by
    intro v
    simp only [distOf, lookupD_assign, lookupD_initDistance]
    unfold INT_MIN INT_MAX
    split
    · omega
    · split <;> omega
  obtain ⟨r, hr⟩ := mainLoop_terminates ""
    (potential (targets g.adjacencyList)
      ⟨assign (initDistance g.adjacencyList) s 0, [], [(0, s)]⟩).toNat g.adjacencyList
    ⟨assign (initDistance g.adjacencyList) s 0, [], [(0, s)]⟩ hrange (Int.self_le_toNat _)
  refine ⟨(potential (targets g.adjacencyList)
      ⟨assign (initDistance g.adjacencyList) s 0, [], [(0, s)]⟩).toNat + 1, ?_⟩
  intro fuel hfuel
  have h1 := mainLoop_mono "" _ fuel _ _ _ hfuel hr
  obtain ⟨m, rfl⟩ : ∃ m, fuel = m + 1 := ⟨fuel - 1, by omega⟩
  have hwb : walkBack s r.2.previous (m + 1) "" [] = some [] := by
    rw [walkBack]
    simp
  by_cases hsent : lookupD r.2.distance "" 0 = INT_MAX
  · refine ⟨({ g with adjacencyList := r.1 }, ([], INT_MAX)), ?_⟩
    simp only [dijkstra, h1, hsent, if_true]
  · refine ⟨({ g with adjacencyList := r.1 }, ([], lookupD r.2.distance "" 0)), ?_⟩
    simp only [dijkstra, h1, hsent, if_false, hwb, List.reverse_nil]

theorem dijkstra_total (ops : List LoadOp) (s d : String)
    (hnn : NonNeg (load ops).adjacencyList)
    (htot : totalWeight (load ops).adjacencyList < 2147483648) :
    ∃ N, ∀ fuel, N ≤ fuel → ∃ r, dijkstra fuel (load ops) s d = some r := by
  by_cases hsd : s = d
  · subst hsd
    refine ⟨1, fun fuel hfuel => ?_⟩
    obtain ⟨m, rfl⟩ : ∃ m, fuel = m + 1 := ⟨fuel - 1, by omega⟩
    exact ⟨_, dijkstra_self m (load ops) s⟩
  · by_cases hd : hasKey (load ops).adjacencyList d = true
    · by_cases hs : hasKey (load ops).adjacencyList s = true
      · obtain ⟨N, path, dist, hN, _⟩ := dijkstra_core (load ops) s d hnn (load_closed ops)
          (load_total_lt ops htot) hs hd
        exact ⟨N, fun fuel hfuel => ⟨_, hN fuel hfuel⟩⟩
      · refine ⟨2, fun fuel hfuel => ⟨_, dijkstra_absent_source (load ops) s d fuel
          (by simpa using hs) hd hsd hfuel⟩⟩
    · by_cases hne : d = ""
      · subst hne
        exact dijkstra_empty_destination (load ops) s
      · obtain ⟨N, g', hN⟩ := dijkstra_absent_destination (load ops) s d (load_closed ops)
          (by simpa using hd) hsd hne
        exact ⟨N, fun fuel hfuel => ⟨_, hN fuel hfuel⟩⟩

theorem walkBack_two_cycle (s : String) (prev : List (String × String)) (x y : String)
    (hxy : lookupD prev x "" = y) (hyx : lookupD prev y "" = x)
    (hx : x ≠ "") (hy : y ≠ "") (hxs : x ≠ s) (hys : y ≠ s) :
    ∀ (n : Nat) (acc : List String),
      walkBack s prev n x acc = none ∧ walkBack s prev n y acc = none := by
  intro n
  induction n with
  | zero => intro acc; exact ⟨rfl, rfl⟩
  | succ n ih =>
    intro acc
    constructor
    · rw [walkBack]
      simp only [hx, hxs, if_false, hxy]
      exact (ih _).2
    · rw [walkBack]
      simp only [hy, hys, if_false, hyx]
      exact (ih _).1

/-! ## The sums formed by the relaxation loop -/

theorem mainLoopSums_mono (d : String) (n m : Nat) (al : List (String × List Edge))
    (st : Search) (sums : List Int) (hnm : n ≤ m)
    (h : mainLoopSums d n al st = some sums) : mainLoopSums d m al st = some sums := by
  induction n generalizing m al st sums with
  | zero => cases h
  | succ n ih =>
    obtain ⟨m', rfl⟩ : ∃ m', m = m' + 1 := ⟨m - 1, by omega⟩
    rw [mainLoopSums] at h ⊢
    split
    · rename_i hp
      simpa only [hp] using h
    · rename_i k u pq' hpop
      simp only [hpop] at h
      by_cases hud : u = d
      · simpa only [hud, if_true] using h
      · simp only [hud, if_false] at h ⊢
        by_cases hstale : k > lookupD st.distance u 0
        · simp only [hstale, if_true] at h ⊢
          exact ih m' _ _ _ (by omega) h
        · simp only [hstale, if_false] at h ⊢
          cases hrec : mainLoopSums d n (touch al u [])
              (relaxEdges u k (lookupD al u []) { st with pq := pq' }) with
          | none => rw [hrec] at h; cases h
          | some rest =>
            rw [hrec] at h
            rw [ih m' _ _ _ (by omega) hrec]
            exact h

theorem expand_bounds (al : List (String × List Edge)) (s d : String) (st : Search)
    (S : List String) (k : Int) (u : String) (pq' : List (Int × String))
    (hnn : NonNeg al) (hinv : Inv al s d st S)
    (hpop : popMin st.pq = some ((k, u), pq')) (hfresh : ¬ k > distOf st u) :
    ∀ e ∈ neighbours al u, 0 ≤ k + e.distance ∧ k + e.distance ≤ totalWeight al := by
  obtain ⟨hmem, _, _, _, _⟩ := popMin_spec _ _ _ hpop
  have hku : distOf st u = k := by
    have := (hinv.pqLow _ hmem).1
    simp only at this
    omega
  have hkfin : k < INT_MAX := (hinv.pqLow _ hmem).2
  have hk0 : 0 ≤ k ∧ k ≤ weightOf al S := by
    rcases hinv.bnd u with h | h
    · omega
    · rw [hku] at h
      exact h
  intro e he
  have h1 := nonNeg_neighbours al hnn u e he
  by_cases huS : u ∈ S
  · have h2 := hinv.safe u huS e he
    rw [hku] at h2
    exact ⟨by omega, h2⟩
  · have h2 := le_sumWeights (neighbours al u)
      (fun e' he' => nonNeg_neighbours al hnn u e' he') e he
    have h3 := weightOf_cons al hnn S u huS
    have h4 := weightOf_le_total al hnn (u :: S)
    exact ⟨by omega, by omega⟩

theorem mainLoopSums_inv (al : List (String × List Edge)) (s d : String)
    (hnn : NonNeg al) (hcl : Closed al) (htot : totalWeight al < INT_MAX)
    (n : Nat) (st : Search) (S : List String) (hinv : Inv al s d st S)
    (r : List (String × List Edge) × Search) (h : mainLoop d n al st = some r) :
    ∃ sums, mainLoopSums d n al st = some sums ∧
      ∀ x ∈ sums, 0 ≤ x ∧ x ≤ totalWeight al := by
  induction n generalizing st S with
  | zero => simp [mainLoop] at h
  | succ n ih =>
    rw [mainLoop] at h
    rw [mainLoopSums]
    cases hpop : popMin st.pq with
    | none => exact ⟨[], rfl, by simp⟩
    | some top =>
      obtain ⟨⟨k, u⟩, pq'⟩ := top
      rw [hpop] at h
      obtain ⟨hmem, _, _, _, _⟩ := popMin_spec _ _ _ hpop
      by_cases hud : u = d
      · exact ⟨[], by simp only [hud, if_true], by simp⟩
      · simp only [hud, if_false] at h ⊢
        by_cases hstale : k > lookupD st.distance u 0
        · simp only [hstale, if_true] at h ⊢
          exact ih _ S (inv_drop al s d st S k u pq' hinv hpop (Or.inl hstale)) h
        · simp only [hstale, if_false] at h ⊢
          have hfresh : ¬ k > distOf st u := hstale
          have hb := expand_bounds al s d st S k u pq' hnn hinv hpop hfresh
          have hkey : hasKey al u = true := hinv.pqKey _ hmem
          rw [touch_of_hasKey al u [] hkey] at h ⊢
          have hrec : ∃ sums,
              mainLoopSums d n al (relaxEdges u k (lookupD al u []) { st with pq := pq' })
                = some sums ∧ ∀ x ∈ sums, 0 ≤ x ∧ x ≤ totalWeight al := by
            by_cases huS : u ∈ S
            · have hku : distOf st u = k := by
                have := (hinv.pqLow _ hmem).1
                simp only at this
                omega
              have hnoop : relaxEdges u k (lookupD al u []) { st with pq := pq' }
                  = { st with pq := pq' } := by
                apply relaxEdges_noop
                intro e he
                have h1 := hb e he
                have h2 := hinv.relaxed u huS e he
                have hw : wrap32 (k + e.distance) = k + e.distance := by
                  apply wrap32_eq
                  · unfold INT_MIN; omega
                  · omega
                rw [hw]
                have h5 : distOf { st with pq := pq' } e.to_ = distOf st e.to_ := rfl
                rw [h5]
                omega
              rw [hnoop] at h ⊢
              exact ih _ S (inv_drop al s d st S k u pq' hinv hpop (Or.inr huS)) h
            · exact ih _ (u :: S)
                (inv_expand al s d st S k u pq' hnn hcl htot hinv hpop hfresh huS hud) h
          obtain ⟨rest, hrest, hbound⟩ := hrec
          refine ⟨(lookupD al u []).map (fun e => k + e.distance) ++ rest,
            by simp only [hrest, Option.map_some'], ?_⟩
          intro x hx
          rcases List.mem_append.1 hx with hx | hx
          · obtain ⟨e, he, rfl⟩ := List.mem_map.1 hx
            exact hb e he
          · exact hbound x hx

theorem dijkstraSums_absent_source (g : MetroGraph) (s d : String) (fuel : Nat)
    (hs : hasKey g.adjacencyList s = false) (hfuel : 2 ≤ fuel) :
    dijkstraSums fuel g s d = some [] := by
  obtain ⟨n, rfl⟩ : ∃ n, fuel = n + 2 := ⟨fuel - 2, by omega⟩
  have hpop0 : popMin [((0 : Int), s)] = some ((0, s), []) := by
    simp [popMin, pqMin, pqErase]
  have hnil : lookupD g.adjacencyList s [] = [] := lookupD_of_not_hasKey _ _ _ hs
  unfold dijkstraSums
  rw [mainLoopSums]
  simp only [hpop0]
  by_cases hsd : s = d
  · simp only [hsd, if_true]
  · simp only [hsd, if_false, lookupD_assign_same, gt_iff_lt, lt_self_iff_false, hnil,
      relaxEdges, List.map_nil, List.nil_append]
    rw [mainLoopSums]
    simp [popMin]

/-! ## The haversine formula over the reals -/

theorem haversineA_symm (lat1 lon1 lat2 lon2 : ℝ) :
    haversineA lat1 lon1 lat2 lon2 = haversineA lat2 lon2 lat1 lon1 := by
  unfold haversineA
  have h1 : (toRadians lat1 - toRadians lat2) / 2 = -((toRadians lat2 - toRadians lat1) / 2) := by
    ring
  have h2 : (toRadians lon1 - toRadians lon2) / 2 = -((toRadians lon2 - toRadians lon1) / 2) := by
    ring
  rw [h1, h2, Real.sin_neg, Real.sin_neg]
  ring

theorem haversine_symm (lat1 lon1 lat2 lon2 : ℝ) :
    haversine lat1 lon1 lat2 lon2 = haversine lat2 lon2 lat1 lon1 := by
  unfold haversine
  rw [haversineA_symm]

theorem toRadians_sub (x y : ℝ) : toRadians x - toRadians y = (x - y) * Real.pi / 180 := by
  unfold toRadians
  ring

theorem haversineA_le_zero_iff (lat1 lon1 lat2 lon2 : ℝ)
    (h1 : -90 < lat1 ∧ lat1 < 90) (h2 : -90 < lat2 ∧ lat2 < 90)
    (hlon : -360 < lon2 - lon1 ∧ lon2 - lon1 < 360) :
    haversineA lat1 lon1 lat2 lon2 ≤ 0 ↔ lat1 = lat2 ∧ lon1 = lon2 := by
  have hpi := Real.pi_pos
  have hc1 : 0 < Real.cos (toRadians lat1) := by
    apply Real.cos_pos_of_mem_Ioo
    unfold toRadians
    constructor <;> nlinarith [h1.1, h1.2]
  have hc2 : 0 < Real.cos (toRadians lat2) := by
    apply Real.cos_pos_of_mem_Ioo
    unfold toRadians
    constructor <;> nlinarith [h2.1, h2.2]
  have hs1 : Real.sin ((toRadians lat2 - toRadians lat1) / 2) = 0 ↔ lat1 = lat2 := by
    rw [Real.sin_eq_zero_iff_of_lt_of_lt, toRadians_sub]
    · constructor
      · intro h
        have : (lat2 - lat1) * Real.pi = 0 := by linarith
        rcases mul_eq_zero.1 this with h' | h'
        · linarith
        · exact absurd h' (ne_of_gt hpi)
      · intro h
        rw [h]
        ring
    · rw [toRadians_sub]
      nlinarith [h1.1, h1.2, h2.1, h2.2]
    · rw [toRadians_sub]
      nlinarith [h1.1, h1.2, h2.1, h2.2]
  have hs2 : Real.sin ((toRadians lon2 - toRadians lon1) / 2) = 0 ↔ lon1 = lon2 := by
    rw [Real.sin_eq_zero_iff_of_lt_of_lt, toRadians_sub]
    · constructor
      · intro h
        have : (lon2 - lon1) * Real.pi = 0 := by linarith
        rcases mul_eq_zero.1 this with h' | h'
        · linarith
        · exact absurd h' (ne_of_gt hpi)
      · intro h
        rw [h]
        ring
    · rw [toRadians_sub]
      nlinarith [hlon.1, hlon.2]
    · rw [toRadians_sub]
      nlinarith [hlon.1, hlon.2]
  unfold haversineA
  rw [← hs1, ← hs2]
  have hcc : 0 < Real.cos (toRadians lat1) * Real.cos (toRadians lat2) := mul_pos hc1 hc2
  constructor
  · intro h
    have hsq1 := mul_self_nonneg (Real.sin ((toRadians lat2 - toRadians lat1) / 2))
    have hsq2 := mul_self_nonneg (Real.sin ((toRadians lon2 - toRadians lon1) / 2))
    have hprod : 0 ≤ Real.cos (toRadians lat1) * Real.cos (toRadians lat2)
        * (Real.sin ((toRadians lon2 - toRadians lon1) / 2)
          * Real.sin ((toRadians lon2 - toRadians lon1) / 2)) :=
      mul_nonneg (le_of_lt hcc) hsq2
    have e1 : Real.sin ((toRadians lat2 - toRadians lat1) / 2)
        * Real.sin ((toRadians lat2 - toRadians lat1) / 2) = 0 := by nlinarith
    have e2 : Real.cos (toRadians lat1) * Real.cos (toRadians lat2)
        * (Real.sin ((toRadians lon2 - toRadians lon1) / 2)
          * Real.sin ((toRadians lon2 - toRadians lon1) / 2)) = 0 := by nlinarith
    refine ⟨mul_self_eq_zero.1 e1, ?_⟩
    rcases mul_eq_zero.1 e2 with h' | h'
    · exact absurd h' (ne_of_gt hcc)
    · exact mul_self_eq_zero.1 h'
  · rintro ⟨e1, e2⟩
    rw [e1, e2]
    simp

/-- The quantity `a` lies between 0 and 1 for all real coordinates, so both square roots
of `calculateDistance` are taken of non-negative reals. -/
theorem haversineA_mem (lat1 lon1 lat2 lon2 : ℝ) :
    0 ≤ haversineA lat1 lon1 lat2 lon2 ∧ haversineA lat1 lon1 lat2 lon2 ≤ 1 := by
  have key : haversineA lat1 lon1 lat2 lon2
      = (1 - (Real.cos (toRadians lat1) * Real.cos (toRadians lat2)
            * Real.cos (toRadians lon2 - toRadians lon1)
          + Real.sin (toRadians lat1) * Real.sin (toRadians lat2))) / 2 := by
    unfold haversineA
    have t1 : 2 * ((toRadians lat2 - toRadians lat1) / 2) = toRadians lat2 - toRadians lat1 := by
      ring
    have t2 : 2 * ((toRadians lon2 - toRadians lon1) / 2) = toRadians lon2 - toRadians lon1 := by
      ring
    have e1 := Real.sin_sq_eq_half_sub ((toRadians lat2 - toRadians lat1) / 2)
    have e2 := Real.sin_sq_eq_half_sub ((toRadians lon2 - toRadians lon1) / 2)
    rw [t1, Real.cos_sub] at e1
    rw [t2] at e2
    rw [pow_two] at e1 e2
    rw [e1]
    have e3 : Real.cos (toRadians lat1) * Real.cos (toRadians lat2)
        * Real.sin ((toRadians lon2 - toRadians lon1) / 2)
        * Real.sin ((toRadians lon2 - toRadians lon1) / 2)
        = Real.cos (toRadians lat1) * Real.cos (toRadians lat2)
        * (Real.sin ((toRadians lon2 - toRadians lon1) / 2)
          * Real.sin ((toRadians lon2 - toRadians lon1) / 2)) := by ring
    rw [e3, e2]
    ring
  rw [key]
  have p1 := Real.sin_sq_add_cos_sq (toRadians lat1)
  have p2 := Real.sin_sq_add_cos_sq (toRadians lat2)
  have hl1 := Real.neg_one_le_cos (toRadians lon2 - toRadians lon1)
  have hl2 := Real.cos_le_one (toRadians lon2 - toRadians lon1)
  generalize Real.cos (toRadians lat1) = c1 at *
  generalize Real.cos (toRadians lat2) = c2 at *
  generalize Real.sin (toRadians lat1) = s1 at *
  generalize Real.sin (toRadians lat2) = s2 at *
  generalize Real.cos (toRadians lon2 - toRadians lon1) = cl at *
  have habs : |c1 * c2 * cl| ≤ |c1 * c2| := by
    rw [abs_mul]
    have : |cl| ≤ 1 := abs_le.2 ⟨hl1, hl2⟩
    exact mul_le_of_le_one_right (abs_nonneg _) this
  have hcc : |c1 * c2| + |s1 * s2| ≤ 1 := by
    rw [abs_mul, abs_mul]
    have q1 : |c1| ^ 2 = c1 ^ 2 := sq_abs c1
    have q2 : |c2| ^ 2 = c2 ^ 2 := sq_abs c2
    have q3 : |s1| ^ 2 = s1 ^ 2 := sq_abs s1
    have q4 : |s2| ^ 2 = s2 ^ 2 := sq_abs s2
    nlinarith [sq_nonneg (|c1| - |c2|), sq_nonneg (|s1| - |s2|)]
  have hD : |c1 * c2 * cl + s1 * s2| ≤ 1 :=
    le_trans (abs_add _ _) (by linarith)
  obtain ⟨hD1, hD2⟩ := abs_le.1 hD
  constructor <;> linarith

theorem calculateDistanceKm_eq (g : MetroGraph) (A B : String) :
    calculateDistanceKm g A B
      = haversine ((lookupD g.stations A Station.blank).latitude : ℝ)
          ((lookupD g.stations A Station.blank).longitude : ℝ)
          ((lookupD g.stations B Station.blank).latitude : ℝ)
          ((lookupD g.stations B Station.blank).longitude : ℝ) := by
  simp only [calculateDistanceKm, lookupD_touch]

theorem relaxEdges_pq_mem (u : String) (k : Int) (es : List Edge) (st : Search) :
    ∀ p ∈ (relaxEdges u k es st).pq, p ∈ st.pq ∨ ∃ e ∈ es, p.2 = e.to_ := by
  induction es generalizing st with
  | nil => exact fun p hp => Or.inl hp
  | cons e rest ih =>
    intro p hp
    rw [relaxEdges_cons] at hp
    split at hp
    · rcases ih _ p hp with h | ⟨e', he', h⟩
      · rw [pq_relaxStep] at h
        rcases List.mem_cons.1 h with h | h
        · exact Or.inr ⟨e, by simp, by rw [h]⟩
        · exact Or.inl h
      · exact Or.inr ⟨e', by simp [he'], h⟩
    · rcases ih _ p hp with h | ⟨e', he', h⟩
      · exact Or.inl h
      · exact Or.inr ⟨e', by simp [he'], h⟩

/-- While the destination is never extracted, the loop with the early exit and the loop
without it are the same computation. -/
theorem mainLoop_eq_full (d : String) (n : Nat) (al : List (String × List Edge)) (st : Search)
    (hq : ∀ p ∈ st.pq, p.2 ≠ d) (ht : d ∉ targets al) :
    mainLoop d n al st = mainLoopFull n al st := by
  induction n generalizing al st with
  | zero => rfl
  | succ n ih =>
    rw [mainLoop, mainLoopFull]
    cases hpop : popMin st.pq with
    | none => rfl
    | some x =>
      obtain ⟨⟨k, u⟩, pq'⟩ := x
      obtain ⟨hmem, _, hsub, _, _⟩ := popMin_spec _ _ _ hpop
      have hud : ¬ u = d := hq _ hmem
      simp only [hud, if_false]
      split
      · exact ih al _ (fun p hp => hq p (hsub p hp)) ht
      · apply ih
        · intro p hp
          rcases relaxEdges_pq_mem u k _ _ p hp with h | ⟨e, he, h⟩
          · exact hq p (hsub p h)
          · rw [h]
            intro heq
            exact ht (heq ▸ mem_targets al u e he)
        · rw [targets_touch]
          exact ht

/-- Relaxing the edges of a station popped with its current distance leaves the distance
and the predecessor of that station and of every settled station as they are. -/
theorem expand_fix (al : List (String × List Edge)) (s d : String) (st : Search)
    (S : List String) (k : Int) (u : String) (pq' : List (Int × String))
    (hnn : NonNeg al) (hinv : Inv al s d st S) (hpop : popMin st.pq = some ((k, u), pq'))
    (hfresh : ¬ k > distOf st u) (huS : u ∉ S) (htot : totalWeight al < INT_MAX) :
    ∀ v, v ∈ u :: S →
      distOf (relaxEdges u k (neighbours al u) { st with pq := pq' }) v = distOf st v ∧
      prevOf (relaxEdges u k (neighbours al u) { st with pq := pq' }) v = prevOf st v := by
  obtain ⟨hmem, hmin, hsub, hne, _⟩ := popMin_spec _ _ _ hpop
  have hku : distOf st u = k := by
    have := (hinv.pqLow _ hmem).1
    simp only at this
    omega
  have hkfin : k < INT_MAX := (hinv.pqLow _ hmem).2
  have hk0 : 0 ≤ k ∧ k ≤ weightOf al S := by
    rcases hinv.bnd u with h | h
    · omega
    · rw [hku] at h
      exact h
  have hW : ∀ e ∈ neighbours al u, 0 ≤ e.distance ∧
      k + e.distance ≤ weightOf al (u :: S) := by
    intro e he
    have h1 := nonNeg_neighbours al hnn u e he
    have h2 := le_sumWeights (neighbours al u) (fun e' he' => nonNeg_neighbours al hnn u e' he')
      e he
    have h3 := weightOf_cons al hnn S u huS
    exact ⟨h1, by omega⟩
  have hWt := weightOf_le_total al hnn (u :: S)
  have hsafe : ∀ e ∈ neighbours al u, INT_MIN ≤ k + e.distance ∧ k + e.distance ≤ INT_MAX := by
    intro e he
    have := hW e he
    unfold INT_MIN
    omega
  have R := relaxEdges_spec u k (neighbours al u) { st with pq := pq' } hsafe
  have hbaseD : ∀ v, distOf { st with pq := pq' } v = distOf st v := fun _ => rfl
  intro v hv
  rcases R.change v with h | ⟨hlt, _, _, e, he, _, hval⟩
  · exact h
  · exfalso
    have hw := (hW e he).1
    rw [hbaseD] at hlt
    simp only [List.mem_cons] at hv
    rcases hv with rfl | hv
    · omega
    · have := hinv.mono v hv _ hmem
      simp only at this
      omega

/-- Along the main loop the settled stations keep their distance and predecessor. -/
theorem mainLoop_fix (al : List (String × List Edge)) (s d : String)
    (hnn : NonNeg al) (hcl : Closed al) (htot : totalWeight al < INT_MAX)
    (n : Nat) (st : Search) (S : List String) (hinv : Inv al s d st S)
    (r : List (String × List Edge) × Search) (h : mainLoop d n al st = some r) :
    ∀ x ∈ S, distOf r.2 x = distOf st x ∧ prevOf r.2 x = prevOf st x := by
  induction n generalizing st S with
  | zero => simp [mainLoop] at h
  | succ n ih =>
    rw [mainLoop] at h
    split at h
    · simp only [Option.some.injEq] at h
      subst h
      exact fun _ _ => ⟨rfl, rfl⟩
    · rename_i k u pq' hpop
      obtain ⟨hmem, hmin, _, _, _⟩ := popMin_spec _ _ _ hpop
      split at h
      · simp only [Option.some.injEq] at h
        subst h
        exact fun _ _ => ⟨rfl, rfl⟩
      · rename_i hud
        split at h
        · rename_i hstale
          exact fun x hx => ih { st with pq := pq' } S
            (inv_drop al s d st S k u pq' hinv hpop (Or.inl hstale)) h x hx
        · rename_i hfresh
          have hkey : hasKey al u = true := hinv.pqKey _ hmem
          rw [touch_of_hasKey al u [] hkey] at h
          by_cases huS : u ∈ S
          · have hku : distOf st u = k := by
              have := (hinv.pqLow _ hmem).1
              have hf : ¬ k > distOf st u := hfresh
              simp only at this
              omega
            have hkfin : k < INT_MAX := (hinv.pqLow _ hmem).2
            have hnoop : relaxEdges u k (lookupD al u []) { st with pq := pq' }
                = { st with pq := pq' } := by
              apply relaxEdges_noop
              intro e he
              have h1 := hinv.safe u huS e he
              have h2 := hinv.relaxed u huS e he
              have h3 := nonNeg_neighbours al hnn u e he
              have h4 : 0 ≤ distOf st u := by
                rcases hinv.bnd u with hb | hb
                · omega
                · exact hb.1
              have hw : wrap32 (k + e.distance) = k + e.distance := by
                apply wrap32_eq
                · unfold INT_MIN; omega
                · omega
              rw [hw]
              have h5 : distOf { st with pq := pq' } e.to_ = distOf st e.to_ := rfl
              rw [h5]
              omega
            rw [hnoop] at h
            exact fun x hx => ih { st with pq := pq' } S
              (inv_drop al s d st S k u pq' hinv hpop (Or.inr huS)) h x hx
          · intro x hx
            have h1 := ih _ (u :: S)
              (inv_expand al s d st S k u pq' hnn hcl htot hinv hpop hfresh huS hud) h x
              (by simp [hx])
            have h2 := expand_fix al s d st S k u pq' hnn hinv hpop hfresh huS htot x
              (by simp [hx])
            exact ⟨h1.1.trans h2.1, h1.2.trans h2.2⟩

/-- The invariant does not depend on the destination beyond `d ∉ S`. -/
theorem inv_fresh (al : List (String × List Edge)) (s d d' : String) (st : Search)
    (S : List String) (hinv : Inv al s d st S) (hd' : hasKey al d' = false) :
    Inv al s d' st S := by
  refine ⟨hinv.src, ?_, hinv.pqKey, hinv.pqLow, hinv.mono, hinv.bnd, hinv.front, hinv.relaxed,
    hinv.safe, hinv.tree, hinv.chain, hinv.settled⟩
  intro h
  have := (hinv.settled d' h).1
  rw [hd'] at this
  simp at this

/-- The predecessor chain of a reached destination runs through settled stations. -/
theorem inv_chain_dest (al : List (String × List Edge)) (s d : String) (st : Search)
    (S : List String) (hinv : Inv al s d st S) (hd : hasKey al d = true)
    (hne : distOf st d ≠ INT_MAX) :
    ∃ p, PrevPath (prevOf st) s d p ∧ ∀ y ∈ p, y ∈ S ∨ y = d := by
  by_cases hds : d = s
  · subst hds
    exact ⟨[d], PrevPath.base, by simp⟩
  · obtain ⟨h1, _⟩ := hinv.tree d hd hne hds
    obtain ⟨p, hp, hpS⟩ := hinv.chain _ h1
    refine ⟨p ++ [d], PrevPath.step hds hp, ?_⟩
    intro y hy
    simp only [List.mem_append, List.mem_singleton] at hy
    rcases hy with hy | hy
    · exact Or.inl (hpS y hy)
    · exact Or.inr hy

/-- The backward walk only reads `previous` along the chain it follows. -/
theorem walkBack_congr (prev prev' : List (String × String)) (s x : String) (p : List String)
    (hp : PrevPath (fun v => lookupD prev v "") s x p)
    (heq : ∀ y ∈ p, lookupD prev' y "" = lookupD prev y "") :
    ∀ (n : Nat) (acc : List String), walkBack s prev' n x acc = walkBack s prev n x acc := by
  induction hp with
  | base =>
    intro n acc
    cases n with
    | zero => rfl
    | succ m =>
      rw [walkBack, walkBack]
      by_cases h1 : s = ""
      · simp [h1]
      · simp [h1]
  | @step v p' hv _ ih =>
    intro n acc
    cases n with
    | zero => rfl
    | succ m =>
      rw [walkBack, walkBack]
      by_cases h1 : v = ""
      · simp [h1]
      · simp only [h1, hv, if_false]
        rw [heq v (by simp)]
        exact ih (fun y hy => heq y (by simp [hy])) m _

theorem exists_fresh_key (al : List (String × List Edge)) : ∃ d : String, hasKey al d = false := by
  obtain ⟨d, hd⟩ := Infinite.exists_not_mem_finset (al.map Prod.fst).toFinset
  refine ⟨d, ?_⟩
  by_contra hc
  have hk : hasKey al d = true := by simpa using hc
  apply hd
  simp only [List.mem_toFinset, List.mem_map]
  clear hd hc
  induction al with
  | nil => simp [hasKey] at hk
  | cons hd t ih =>
    by_cases h1 : hd.1 = d
    · exact ⟨hd, by simp, h1⟩
    · simp only [hasKey, h1, if_false] at hk
      obtain ⟨p, hp, hpd⟩ := ih hk
      exact ⟨p, by simp [hp], hpd⟩

/-- The run with the early exit is an initial part of the run without it: the latter
reaches the state `stb` in which the former leaves the loop. -/
theorem mainLoop_prefix (al : List (String × List Edge)) (s d : String)
    (hnn : NonNeg al) (hcl : Closed al) (htot : totalWeight al < INT_MAX)
    (n : Nat) (st : Search) (S : List String) (hinv : Inv al s d st S)
    (r : List (String × List Edge) × Search) (h : mainLoop d n al st = some r) :
    ∃ m stb S', m < n ∧ Inv al s d stb S' ∧ r.1 = al ∧
      r.2.distance = stb.distance ∧ r.2.previous = stb.previous ∧
      (∀ F, mainLoopFull (F + m) al st = mainLoopFull F al stb) ∧
      (stb.pq = [] ∨ ∃ k pq', popMin stb.pq = some ((k, d), pq')) := by
  induction n generalizing st S with
  | zero => simp [mainLoop] at h
  | succ n ih =>
    rw [mainLoop] at h
    split at h
    · rename_i hp
      simp only [Option.some.injEq] at h
      subst h
      exact ⟨0, st, S, Nat.succ_pos _, hinv, rfl, rfl, rfl, fun F => rfl,
        Or.inl (popMin_none _ hp)⟩
    · rename_i k u pq' hpop
      obtain ⟨hmem, hmin, _, _, _⟩ := popMin_spec _ _ _ hpop
      split at h
      · rename_i hud
        simp only [Option.some.injEq] at h
        subst h
        subst hud
        exact ⟨0, st, S, Nat.succ_pos _, hinv, rfl, rfl, rfl, fun F => rfl,
          Or.inr ⟨k, pq', hpop⟩⟩
      · rename_i hud
        split at h
        · rename_i hstale
          obtain ⟨m, stb, S', hm, hinv', h1, h2, h3, h4, h5⟩ := ih { st with pq := pq' } S
            (inv_drop al s d st S k u pq' hinv hpop (Or.inl hstale)) h
          refine ⟨m + 1, stb, S', by omega, hinv', h1, h2, h3, ?_, h5⟩
          intro F
          rw [← h4 F]
          show mainLoopFull (F + m + 1) al st = _
          rw [mainLoopFull]
          simp only [hpop, hstale, if_true]
        · rename_i hfresh
          have hkey : hasKey al u = true := hinv.pqKey _ hmem
          rw [touch_of_hasKey al u [] hkey] at h
          by_cases huS : u ∈ S
          · have hku : distOf st u = k := by
              have := (hinv.pqLow _ hmem).1
              have hf : ¬ k > distOf st u := hfresh
              simp only at this
              omega
            have hkfin : k < INT_MAX := (hinv.pqLow _ hmem).2
            have hnoop : relaxEdges u k (lookupD al u []) { st with pq := pq' }
                = { st with pq := pq' } := by
              apply relaxEdges_noop
              intro e he
              have h1 := hinv.safe u huS e he
              have h2 := hinv.relaxed u huS e he
              have h3 := nonNeg_neighbours al hnn u e he
              have h4 : 0 ≤ distOf st u := by
                rcases hinv.bnd u with hb | hb
                · omega
                · exact hb.1
              have hw : wrap32 (k + e.distance) = k + e.distance := by
                apply wrap32_eq
                · unfold INT_MIN; omega
                · omega
              rw [hw]
              have h5 : distOf { st with pq := pq' } e.to_ = distOf st e.to_ := rfl
              rw [h5]
              omega
            rw [hnoop] at h
            obtain ⟨m, stb, S', hm, hinv', h1, h2, h3, h4, h5⟩ := ih { st with pq := pq' } S
              (inv_drop al s d st S k u pq' hinv hpop (Or.inr huS)) h
            refine ⟨m + 1, stb, S', by omega, hinv', h1, h2, h3, ?_, h5⟩
            intro F
            rw [← h4 F]
            show mainLoopFull (F + m + 1) al st = _
            rw [mainLoopFull]
            simp only [hpop, hfresh, if_false]
            rw [touch_of_hasKey al u [] hkey, hnoop]
          · obtain ⟨m, stb, S', hm, hinv', h1, h2, h3, h4, h5⟩ := ih _ (u :: S)
              (inv_expand al s d st S k u pq' hnn hcl htot hinv hpop hfresh huS hud) h
            refine ⟨m + 1, stb, S', by omega, hinv', h1, h2, h3, ?_, h5⟩
            intro F
            rw [← h4 F]
            show mainLoopFull (F + m + 1) al st = _
            rw [mainLoopFull]
            simp only [hpop, hfresh, if_false]
            rw [touch_of_hasKey al u [] hkey]
            rfl

/-- Between two stations with adjacency entries, on a closed graph with non-negative
weights whose sum is below `INT_MAX`, the search without the early exit returns what
`dijkstra` returns. -/
theorem dijkstraFull_core (g : MetroGraph) (s d : String)
    (hnn : NonNeg g.adjacencyList) (hcl : Closed g.adjacencyList)
    (htot : totalWeight g.adjacencyList < INT_MAX)
    (hs : hasKey g.adjacencyList s = true) (hd : hasKey g.adjacencyList d = true) :
    ∃ N, ∀ fuel, N ≤ fuel →
      ∃ r, dijkstra fuel g s d = some r ∧ dijkstraFull fuel g s d = some r := by
  obtain ⟨N1, path, dist, hN1, _⟩ := dijkstra_core g s d hnn hcl htot hs hd
  obtain ⟨al, stations⟩ := g
  simp only at hnn hcl htot hs hd
  obtain ⟨d', hd'⟩ := exists_fresh_key al
  have hinit := inv_init al s d hnn hs
  have hrange : ∀ v, INT_MIN ≤ distOf ⟨assign (initDistance al) s 0, [], [(0, s)]⟩ v := by
    intro v
    simp only [distOf, lookupD_assign, lookupD_initDistance]
    unfold INT_MIN INT_MAX
    split
    · omega
    · split <;> omega
  obtain ⟨rf, hrf⟩ := mainLoop_terminates d'
    (potential (targets al) ⟨assign (initDistance al) s 0, [], [(0, s)]⟩).toNat al
    ⟨assign (initDistance al) s 0, [], [(0, s)]⟩ hrange (Int.self_le_toNat _)
  have hbridge : ∀ (n : Nat) (st : Search) (S : List String), Inv al s d' st S →
      mainLoop d' n al st = mainLoopFull n al st := by
    intro n st S hi
    apply mainLoop_eq_full d' n al st _ (not_mem_targets al hcl d' hd')
    intro p hp heq
    have := hi.pqKey p hp
    rw [heq, hd'] at this
    simp at this
  refine ⟨max N1 ((potential (targets al)
    ⟨assign (initDistance al) s 0, [], [(0, s)]⟩).toNat + 1), fun fuel hfuel => ?_⟩
  have hE := hN1 fuel (le_trans (le_max_left _ _) hfuel)
  refine ⟨_, hE, ?_⟩
  have hF : mainLoopFull fuel al ⟨assign (initDistance al) s 0, [], [(0, s)]⟩ = some rf := by
    rw [← hbridge fuel _ [] (inv_fresh al s d d' _ [] hinit hd')]
    exact mainLoop_mono d' _ fuel _ _ _ (le_trans (le_max_right _ _) hfuel) hrf
  rw [← hE]
  cases hml : mainLoop d fuel al ⟨assign (initDistance al) s 0, [], [(0, s)]⟩ with
  | none =>
    exfalso
    simp [dijkstra, hml] at hE
  | some re =>
    obtain ⟨m, stb, S', hm, hinv', h1, h2, h3, h4, h5⟩ :=
      mainLoop_prefix al s d hnn hcl htot fuel _ [] hinit re hml
    have hinvF := inv_fresh al s d d' stb S' hinv' hd'
    have hM : mainLoop d' (fuel - m) al stb = some rf := by
      rw [hbridge _ _ S' hinvF, ← h4 (fuel - m), Nat.sub_add_cancel (le_of_lt hm)]
      exact hF
    have hal : rf.1 = al := (mainLoop_inv al s d' hnn hcl htot _ _ S' hinvF rf hM).1
    have hX : ∀ x, x ∈ S' ∨ x = d →
        distOf rf.2 x = distOf stb x ∧ prevOf rf.2 x = prevOf stb x := by
      obtain ⟨F, hFm⟩ : ∃ F, fuel - m = F + 1 := ⟨fuel - m - 1, by omega⟩
      rw [hFm, mainLoop] at hM
      rcases h5 with hq | ⟨k, pq', hpop⟩
      · rw [hq] at hM
        simp only [popMin, Option.some.injEq] at hM
        subst hM
        exact fun _ _ => ⟨rfl, rfl⟩
      · obtain ⟨hmem, hmin, _, _, _⟩ := popMin_spec _ _ _ hpop
        have hdd : ¬ d = d' := by
          intro heq
          rw [heq, hd'] at hd
          simp at hd
        have hfresh : ¬ k > lookupD stb.distance d 0 := by
          have hle : distOf stb d ≤ k := (hinv'.pqLow _ hmem).1
          have hlt : k < INT_MAX := (hinv'.pqLow _ hmem).2
          have hge : k ≤ distOf stb d :=
            hmin _ (hinv'.front d hinv'.notDest hd (by omega))
          unfold distOf at hge
          omega
        simp only [hpop, hdd, hfresh, if_false] at hM
        rw [touch_of_hasKey al d [] hd] at hM
        have hexp := inv_expand al s d' stb S' k d pq' hnn hcl htot hinvF hpop hfresh
          hinv'.notDest hdd
        have hfix1 := expand_fix al s d' stb S' k d pq' hnn hinvF hpop hfresh
          hinv'.notDest htot
        have hfix2 := mainLoop_fix al s d' hnn hcl htot F _ (d :: S') hexp rf hM
        intro x hx
        have hx' : x ∈ d :: S' := by
          rcases hx with hx | hx
          · simp [hx]
          · simp [hx]
        exact ⟨(hfix2 x hx').1.trans (hfix1 x hx').1, (hfix2 x hx').2.trans (hfix1 x hx').2⟩
    obtain ⟨alf, stf⟩ := rf
    obtain ⟨ale, ste⟩ := re
    simp only at h1 h2 h3 hal hX
    rw [h1] at hml
    rw [hal] at hF
    have hdist : lookupD stf.distance d 0 = lookupD ste.distance d 0 := by
      rw [h2]
      exact (hX d (Or.inr rfl)).1
    unfold dijkstra dijkstraFull
    simp only [hF, hml, hdist]
    by_cases hmax : lookupD ste.distance d 0 = INT_MAX
    · simp only [hmax, if_true]
    · simp only [hmax, if_false]
      have hne : distOf stb d ≠ INT_MAX := by
        rw [h2] at hmax
        exact hmax
      obtain ⟨p, hp, hpS⟩ := inv_chain_dest al s d stb S' hinv' hd hne
      have hwb := walkBack_congr stb.previous stf.previous s d p hp
        (fun y hy => (hX y (hpS y hy)).2) fuel []
      rw [hwb, h3]

theorem mainLoopFull_succ (n : Nat) (al : List (String × List Edge))
    (st : Search) (r : List (String × List Edge) × Search)
    (h : mainLoopFull n al st = some r) :
    mainLoopFull (n + 1) al st = some r := by
  induction n generalizing al st with
  | zero => simp [mainLoopFull] at h
  | succ n ih =>
    rw [mainLoopFull] at h
    rw [mainLoopFull]
    split
    · rename_i hp
      rw [hp] at h
      simpa using h
    · rename_i dist u pq' hp
      rw [hp] at h
      simp only at h
      split
      · rename_i hs
        simp only [hs, if_true] at h
        exact ih _ _ h
      · rename_i hs
        simp only [hs, if_false] at h
        exact ih _ _ h

theorem mainLoopFull_mono (n m : Nat) (al : List (String × List Edge))
    (st : Search) (r : List (String × List Edge) × Search) (hnm : n ≤ m)
    (h : mainLoopFull n al st = some r) :
    mainLoopFull m al st = some r := by
  induction hnm with
  | refl => exact h
  | step _ ih => exact mainLoopFull_succ _ _ _ _ ih

theorem dijkstraFull_mono (n m : Nat) (g : MetroGraph) (s d : String)
    (r : MetroGraph × (List String × Int)) (hnm : n ≤ m) (h : dijkstraFull n g s d = some r) :
    dijkstraFull m g s d = some r := by
  unfold dijkstraFull at h ⊢
  simp only at h ⊢
  cases hml : mainLoopFull n g.adjacencyList
      ⟨assign (initDistance g.adjacencyList) s 0, [], [(0, s)]⟩ with
  | none => simp [hml] at h
  | some res =>
    obtain ⟨al, st⟩ := res
    rw [hml] at h
    rw [mainLoopFull_mono n m _ _ _ hnm hml]
    simp only at h ⊢
    by_cases hmax : lookupD st.distance d 0 = INT_MAX
    · simpa [hmax] using h
    · simp only [hmax, if_false] at h ⊢
      cases hwb : walkBack s st.previous n d [] with
      | none => simp [hwb] at h
      | some path =>
        rw [hwb] at h
        rw [walkBack_mono s st.previous n m d [] path hnm hwb]
        exact h

/-- A source without adjacency entry: both loops end after one relaxation round, in the
same state. -/
theorem mainLoop_absent_source (al : List (String × List Edge)) (s d : String) (k : Nat)
    (hs : hasKey al s = false) (hsd : s ≠ d) :
    mainLoop d (k + 2) al ⟨assign (initDistance al) s 0, [], [(0, s)]⟩
      = some (assign al s [], ⟨assign (initDistance al) s 0, [], []⟩) := by
  have h0 : lookupD (assign (initDistance al) s 0) s 0 = 0 := lookupD_assign_same _ _ _ _
  have h1 : lookupD al s [] = [] := lookupD_of_not_hasKey _ _ _ hs
  have h3 : touch al s [] = assign al s [] := by simp [touch, hs]
  rw [mainLoop]
  simp only [popMin, pqMin, pqErase, if_true, hsd, if_false, h0, gt_iff_lt, lt_self_iff_false,
    h1, relaxEdges, h3]
  rw [mainLoop]
  simp [popMin]

theorem mainLoopFull_absent_source (al : List (String × List Edge)) (s : String) (k : Nat)
    (hs : hasKey al s = false) :
    mainLoopFull (k + 2) al ⟨assign (initDistance al) s 0, [], [(0, s)]⟩
      = some (assign al s [], ⟨assign (initDistance al) s 0, [], []⟩) := by
  have h0 : lookupD (assign (initDistance al) s 0) s 0 = 0 := lookupD_assign_same _ _ _ _
  have h1 : lookupD al s [] = [] := lookupD_of_not_hasKey _ _ _ hs
  have h3 : touch al s [] = assign al s [] := by simp [touch, hs]
  rw [mainLoopFull]
  simp only [popMin, pqMin, pqErase, if_true, if_false, h0, gt_iff_lt, lt_self_iff_false,
    h1, relaxEdges, h3]
  rw [mainLoopFull]
  simp [popMin]

/-- On a graph built by load calls with non-negative weights whose adjacency entries total
less than 2^31, `dijkstra` returns for all names, and the search without the early exit
returns the same path and the same distance. -/
theorem dijkstraFull_agrees (ops : List LoadOp) (s d : String)
    (hnn : NonNeg (load ops).adjacencyList)
    (htot : totalWeight (load ops).adjacencyList < 2147483648) :
    ∃ N, ∀ fuel, N ≤ fuel → ∃ r r', dijkstra fuel (load ops) s d = some r ∧
      dijkstraFull fuel (load ops) s d = some r' ∧ r'.2 = r.2 := by
  obtain ⟨N0, hN0⟩ := dijkstra_total ops s d hnn htot
  by_cases hs : hasKey (load ops).adjacencyList s = true
  · by_cases hd : hasKey (load ops).adjacencyList d = true
    · obtain ⟨N, hN⟩ := dijkstraFull_core (load ops) s d hnn (load_closed ops)
        (load_total_lt ops htot) hs hd
      refine ⟨N, fun fuel hfuel => ?_⟩
      obtain ⟨r, h1, h2⟩ := hN fuel hfuel
      exact ⟨r, r, h1, h2, rfl⟩
    · have hd' : hasKey (load ops).adjacencyList d = false := by simpa using hd
      have hsd : s ≠ d := by
        intro heq
        rw [heq] at hs
        exact hd hs
      refine ⟨N0, fun fuel hfuel => ?_⟩
      obtain ⟨r, hr⟩ := hN0 fuel hfuel
      refine ⟨r, r, hr, ?_, rfl⟩
      rw [← hr]
      have hb := mainLoop_eq_full d fuel (load ops).adjacencyList
        ⟨assign (initDistance (load ops).adjacencyList) s 0, [], [(0, s)]⟩
        (by
          intro p hp
          simp only [List.mem_singleton] at hp
          subst hp
          exact hsd)
        (not_mem_targets _ (load_closed ops) d hd')
      unfold dijkstra dijkstraFull
      simp only [hb]
  · have hs' : hasKey (load ops).adjacencyList s = false := by simpa using hs
    refine ⟨max N0 2, fun fuel hfuel => ?_⟩
    obtain ⟨r, hr⟩ := hN0 fuel (le_trans (le_max_left _ _) hfuel)
    obtain ⟨k, rfl⟩ : ∃ k, fuel = k + 2 :=
      ⟨fuel - 2, by have := le_trans (le_max_right _ _) hfuel; omega⟩
    by_cases hsd : s = d
    · subst hsd
      have h0 : lookupD (assign (initDistance (load ops).adjacencyList) s 0) s 0 = 0 :=
        lookupD_assign_same _ _ _ _
      refine ⟨_, ({ load ops with adjacencyList := assign (load ops).adjacencyList s [] },
        (if s = "" then [] else [s], 0)), dijkstra_self (k + 1) (load ops) s, ?_, rfl⟩
      unfold dijkstraFull
      simp only [mainLoopFull_absent_source _ s k hs', h0]
      by_cases h1 : s = ""
      · subst h1
        simp [INT_MAX, walkBack]
      · simp [INT_MAX, walkBack, h1]
    · refine ⟨r, r, hr, ?_, rfl⟩
      rw [← hr]
      unfold dijkstra dijkstraFull
      simp only [mainLoop_absent_source _ s d k hs' hsd, mainLoopFull_absent_source _ s k hs']

/-- The value of `calculateDistance` is at most half the circumference of the sphere. -/
theorem haversine_le (lat1 lon1 lat2 lon2 : ℝ) :
    haversine lat1 lon1 lat2 lon2 ≤ 6371 * Real.pi := by
  unfold haversine
  have h : Complex.arg ⟨Real.sqrt (1 - haversineA lat1 lon1 lat2 lon2),
      Real.sqrt (haversineA lat1 lon1 lat2 lon2)⟩ ≤ Real.pi / 2 :=
    Complex.arg_le_pi_div_two_iff.2 (Or.inl (Real.sqrt_nonneg _))
  have h6 : (6371.0 : ℝ) = 6371 := by norm_num
  rw [h6]
  nlinarith [Real.pi_pos]

/-- Truncated to an `int`, the value of `calculateDistance` is far below the sentinel
2147483647. -/
theorem haversine_lt_sentinel (lat1 lon1 lat2 lon2 : ℝ) :
    haversine lat1 lon1 lat2 lon2 < 20016 := by
  have h := haversine_le lat1 lon1 lat2 lon2
  have hpi : Real.pi < 3.1416 := Real.pi_lt_d4
  nlinarith

/-! ## Edges between registered stations -/

theorem foldl_registered (ops : List LoadOp) (g : MetroGraph)
    (hsub : ∀ u, hasKey g.adjacencyList u = true → hasKey g.stations u = true)
    (hreg : edgesRegistered g ops = true) :
    ∀ u, hasKey (ops.foldl LoadOp.apply g).adjacencyList u = true →
      hasKey (ops.foldl LoadOp.apply g).stations u = true := by
  induction ops generalizing g with
  | nil => exact hsub
  | cons op t ih =>
    cases op with
    | station n la lo ls =>
      simp only [edgesRegistered] at hreg
      simp only [List.foldl_cons, LoadOp.apply]
      apply ih _ _ hreg
      intro u hu
      rw [addStation_adjacencyList] at hu
      have := hsub u hu
      simp [addStation, hasKey_assign, this]
    | edge a b w ls =>
      simp only [edgesRegistered, Bool.and_eq_true] at hreg
      obtain ⟨⟨ha, hb⟩, hrest⟩ := hreg
      simp only [List.foldl_cons, LoadOp.apply]
      apply ih _ _ hrest
      intro u hu
      rw [hasKey_addEdge] at hu
      simp only [Bool.or_eq_true, decide_eq_true_eq] at hu
      show hasKey g.stations u = true
      rcases hu with h | h | h
      · rw [← h]
        exact hb
      · rw [← h]
        exact ha
      · exact hsub u h

/-- The direct edge of `main` between "Samaypur Badli" and "Rohini Sector 18, 19": the
search returns the two stations with the weight `a1`, and both are labelled
"Yellow Line". -/
theorem main_first_segment (w : String → Int) (fuel : Nat) (h0 : 0 ≤ w "a1")
    (h1 : w "a1" < 2147483647) (hfuel : 2 ≤ fuel) :
    dijkstra fuel (mainGraph w) "Samaypur Badli" "Rohini Sector 18, 19"
      = some (mainGraph w, (["Samaypur Badli", "Rohini Sector 18, 19"], w "a1")) ∧
    annotate (mainGraph w) ["Samaypur Badli", "Rohini Sector 18, 19"]
      = .ok (mainGraph w, ["Samaypur Badli", " (", "Yellow Line", ")", " -> ",
          "Rohini Sector 18, 19", " (", "Yellow Line", ")"]) := by
  have hnb : neighbours (mainGraph w).adjacencyList "Samaypur Badli"
      = [⟨"Rohini Sector 18, 19", w "a1", ["Yellow Line"]⟩,
         ⟨"Rohini Sector 18, 19", w "a1", ["Yellow Line"]⟩] := by
    rw [main_neighbours, main_callsAt_samaypur]
    rfl
  have hL1 : getMetroLines (mainGraph w) "Samaypur Badli" = .ok ["Yellow Line"] :=
    main_lines w _ _ (by decide!)
  have hL2 : getMetroLines (mainGraph w) "Rohini Sector 18, 19" = .ok ["Yellow Line"] :=
    main_lines w _ _ (by decide!)
  constructor
  · have h := dijkstra_direct (mainGraph w) "Samaypur Badli" "Rohini Sector 18, 19" fuel
      (by decide) (by decide) (by decide)
      (by rw [main_hasKey]; decide!) (by rw [main_hasKey]; decide!)
      (by
        intro e he
        rw [hnb] at he
        simp only [List.mem_cons, List.mem_singleton, List.not_mem_nil, or_false,
          or_self] at he
        subst he
        exact ⟨rfl, h0, by simp only [INT_MAX]; omega⟩)
      ⟨⟨"Rohini Sector 18, 19", w "a1", ["Yellow Line"]⟩, by rw [hnb]; simp,
        by simp only [INT_MAX]; omega⟩
      hfuel
    rw [h, hnb]
    simp [minOf]
  · exact annotate_same_line (mainGraph w) _ _ _ hL1 hL2

/-! ## Claims about the planner -/

/-- C1, as stated, fails: with `addEdge` weights `2^30` and `1` (non-negative, total
below `2^31`) the search from "s" to "d" returns the distance `-1073741823`, which is the
weight of no walk; the addition `2^30 + 2^30` made when relaxing the edge back to "s"
leaves the 32-bit range. -/
theorem C1_counterexample :
    (∀ w ∈ opWeights overflowOps, 0 ≤ w) ∧ (opWeights overflowOps).sum < 2147483648 ∧
    Walk (load overflowOps).adjacencyList "s" "d" 1073741825 ∧
    (∀ fuel, 6 ≤ fuel → dijkstra fuel (load overflowOps) "s" "d"
      = some (load overflowOps, (["s", "a", "d"], -1073741823))) ∧
    ¬ Walk (load overflowOps).adjacencyList "s" "d" (-1073741823) := by
  refine ⟨by decide, by decide, ?_, ?_, ?_⟩
  · have h1 : Walk (load overflowOps).adjacencyList "s" "a" (0 + 1073741824) :=
      Walk.snoc (Edge.mk "a" 1073741824 []) Walk.nil (by decide)
    exact Walk.snoc (Edge.mk "d" 1 []) h1 (by decide)
  · intro fuel hfuel
    exact dijkstra_mono 6 fuel _ _ _ _ hfuel (by decide)
  · intro hw
    have := walk_nonneg _ (load_nonNeg overflowOps (by decide)) _ _ _ hw
    omega

/-- C1 (amended): for every graph built by load calls with non-negative weights whose
stored adjacency weights (each `addEdge` weight counted once per direction) total below
`2^31`, and all `s`, `d` joined by a walk, `dijkstra(s, d)` returns, given enough fuel,
a distance that is the weight of a walk from `s` to `d` and is at most the weight of
every walk from `s` to `d`. -/
theorem C1_distance_minimal (ops : List LoadOp) (s d : String) (c0 : Int)
    (hnn : ∀ w ∈ opWeights ops, 0 ≤ w)
    (htot : totalWeight (load ops).adjacencyList < 2147483648)
    (hw : Walk (load ops).adjacencyList s d c0) :
    ∃ N path dist,
      (∀ fuel, N ≤ fuel → dijkstra fuel (load ops) s d = some (load ops, (path, dist))) ∧
      Walk (load ops).adjacencyList s d dist ∧
      ∀ c, Walk (load ops).adjacencyList s d c → dist ≤ c := by
  obtain ⟨N, path, dist, hrun, _, _, hwalk, hmin, _, _⟩ :=
    planner_reachable ops s d c0 (load_nonNeg ops hnn) htot hw
  exact ⟨N, path, dist, hrun, hwalk, hmin⟩

/-- Instance of C1 (amended) on a three-station line. -/
theorem C1_witness :
    (∀ w ∈ opWeights lineOps, 0 ≤ w) ∧
    totalWeight (load lineOps).adjacencyList < 2147483648 ∧
    Walk (load lineOps).adjacencyList "Samaypur Badli" "Haiderpur Badli Mor" 4 ∧
    ∃ N path dist,
      (∀ fuel, N ≤ fuel → dijkstra fuel (load lineOps) "Samaypur Badli" "Haiderpur Badli Mor"
        = some (load lineOps, (path, dist))) ∧
      Walk (load lineOps).adjacencyList "Samaypur Badli" "Haiderpur Badli Mor" dist ∧
      ∀ c, Walk (load lineOps).adjacencyList "Samaypur Badli" "Haiderpur Badli Mor" c →
        dist ≤ c := by
  have hw : Walk (load lineOps).adjacencyList "Samaypur Badli" "Haiderpur Badli Mor" 4 := by
    have h1 : Walk (load lineOps).adjacencyList "Samaypur Badli" "Rohini Sector 18, 19"
        (0 + 1) :=
      Walk.snoc (Edge.mk "Rohini Sector 18, 19" 1 ["Yellow Line"]) Walk.nil (by decide)
    exact Walk.snoc (Edge.mk "Haiderpur Badli Mor" 3 ["Yellow Line"]) h1 (by decide)
  exact ⟨by decide, by decide, hw,
    C1_distance_minimal lineOps "Samaypur Badli" "Haiderpur Badli Mor" 4 (by decide)
      (by decide) hw⟩

/-- C2, as stated, fails in two ways, neither involving overflow.  (1) With edges
a-b of weight 1073741823 and b-c of weight 1073741824 the only walk from "a" to "c" has
weight `INT_MAX`, the test `new_dist < distance[v]` rejects it, and the returned path is
empty.  (2) With edges a-"" and ""-b the backward walk stops at the empty name and the
returned path is `["b"]`, which does not start at "a". -/
theorem C2_counterexample :
    (NonNeg (load sentinelOps).adjacencyList ∧
      Walk (load sentinelOps).adjacencyList "a" "c" 2147483647 ∧
      ∀ fuel, 3 ≤ fuel → dijkstra fuel (load sentinelOps) "a" "c"
        = some (load sentinelOps, ([], 2147483647))) ∧
    (NonNeg (load emptyNameOps).adjacencyList ∧
      Walk (load emptyNameOps).adjacencyList "a" "b" 2 ∧
      (∀ fuel, 4 ≤ fuel → dijkstra fuel (load emptyNameOps) "a" "b"
        = some (load emptyNameOps, (["b"], 2))) ∧
      (["b"] : List String).head? ≠ some "a") := by
  refine ⟨⟨load_nonNeg sentinelOps (by decide), ?_, ?_⟩,
    ⟨load_nonNeg emptyNameOps (by decide), ?_, ?_, by decide⟩⟩
  · have h1 : Walk (load sentinelOps).adjacencyList "a" "b" (0 + 1073741823) :=
      Walk.snoc (Edge.mk "b" 1073741823 []) Walk.nil (by decide)
    exact Walk.snoc (Edge.mk "c" 1073741824 []) h1 (by decide)
  · intro fuel hfuel
    exact dijkstra_mono 3 fuel _ _ _ _ hfuel (by decide)
  · have h1 : Walk (load emptyNameOps).adjacencyList "a" "" (0 + 1) :=
      Walk.snoc (Edge.mk "" 1 []) Walk.nil (by decide)
    exact Walk.snoc (Edge.mk "b" 1 []) h1 (by decide)
  · intro fuel hfuel
    exact dijkstra_mono 4 fuel _ _ _ _ hfuel (by decide)

/-- C2 (amended): for every loaded graph with non-negative weights whose stored
adjacency weights total below `2^31` and in which no station name is empty, and for every
non-empty source `s` and destination `d` joined by a walk, the path returned by
`dijkstra(s, d)` is non-empty, starts at `s`, ends at `d`, and each consecutive pair is
joined by an adjacency entry. -/
theorem C2_path_valid (ops : List LoadOp) (s d : String) (c0 : Int)
    (hnn : NonNeg (load ops).adjacencyList)
    (htot : totalWeight (load ops).adjacencyList < 2147483648)
    (hs : s ≠ "") (hnames : hasKey (load ops).adjacencyList "" = false)
    (hw : Walk (load ops).adjacencyList s d c0) :
    ∃ N path dist,
      (∀ fuel, N ≤ fuel → dijkstra fuel (load ops) s d = some (load ops, (path, dist))) ∧
      path ≠ [] ∧ path.head? = some s ∧ path.getLast? = some d ∧
      List.Chain' (Adjacent (load ops).adjacencyList) path := by
  obtain ⟨N, path, dist, hrun, _, _, _, _, _, hgood⟩ :=
    planner_reachable ops s d c0 hnn htot hw
  have hg := hgood hs hnames
  refine ⟨N, path, dist, hrun, ?_, hg.head, hg.last, hg.chain⟩
  intro h0
  have := hg.head
  rw [h0] at this
  simp at this

/-- Instance of C2 (amended) on a three-station line. -/
theorem C2_witness :
    NonNeg (load lineOps).adjacencyList ∧
    totalWeight (load lineOps).adjacencyList < 2147483648 ∧
    "Samaypur Badli" ≠ "" ∧ hasKey (load lineOps).adjacencyList "" = false ∧
    Walk (load lineOps).adjacencyList "Samaypur Badli" "Rohini Sector 18, 19" 1 ∧
    ∃ N path dist,
      (∀ fuel, N ≤ fuel → dijkstra fuel (load lineOps) "Samaypur Badli" "Rohini Sector 18, 19"
        = some (load lineOps, (path, dist))) ∧
      path ≠ [] ∧ path.head? = some "Samaypur Badli" ∧
      path.getLast? = some "Rohini Sector 18, 19" ∧
      List.Chain' (Adjacent (load lineOps).adjacencyList) path := by
  have hw : Walk (load lineOps).adjacencyList "Samaypur Badli" "Rohini Sector 18, 19" 1 :=
    Walk.snoc (Edge.mk "Rohini Sector 18, 19" 1 ["Yellow Line"]) Walk.nil (by decide)
  exact ⟨load_nonNeg lineOps (by decide), by decide, by decide, by decide, hw,
    C2_path_valid lineOps "Samaypur Badli" "Rohini Sector 18, 19" 1
      (load_nonNeg lineOps (by decide)) (by decide) (by decide) (by decide) hw⟩

/-- C3, as stated, fails: with edges x-"" of weight 2 and ""-y of weight 3 (total of the
stored weights 10) the search from "x" to "y" returns distance 5 with the path `["y"]`,
whose consecutive pairs sum to 0. -/
theorem C3_counterexample :
    NonNeg (load emptyHubOps).adjacencyList ∧
    totalWeight (load emptyHubOps).adjacencyList < 2147483648 ∧
    Walk (load emptyHubOps).adjacencyList "x" "y" 5 ∧
    (∀ fuel, 4 ≤ fuel → dijkstra fuel (load emptyHubOps) "x" "y"
      = some (load emptyHubOps, (["y"], 5))) ∧
    pathCost (load emptyHubOps).adjacencyList ["y"] ≠ 5 := by
  refine ⟨load_nonNeg emptyHubOps (by decide), by decide, ?_, ?_, by decide⟩
  · have h1 : Walk (load emptyHubOps).adjacencyList "x" "" (0 + 2) :=
      Walk.snoc (Edge.mk "" 2 []) Walk.nil (by decide)
    exact Walk.snoc (Edge.mk "y" 3 []) h1 (by decide)
  · intro fuel hfuel
    exact dijkstra_mono 4 fuel _ _ _ _ hfuel (by decide)

/-- C3 (amended): for every loaded graph with non-negative weights whose stored
adjacency weights total below `2^31` and in which no station name is empty, and for every
non-empty `s` and every `d` joined to it by a walk, the distance returned by
`dijkstra(s, d)` equals the sum, over the consecutive pairs of the returned path, of the
smallest weight among the adjacency entries from the first to the second station. -/
theorem C3_distance_is_path_cost (ops : List LoadOp) (s d : String) (c0 : Int)
    (hnn : NonNeg (load ops).adjacencyList)
    (htot : totalWeight (load ops).adjacencyList < 2147483648)
    (hs : s ≠ "") (hnames : hasKey (load ops).adjacencyList "" = false)
    (hw : Walk (load ops).adjacencyList s d c0) :
    ∃ N path dist,
      (∀ fuel, N ≤ fuel → dijkstra fuel (load ops) s d = some (load ops, (path, dist))) ∧
      dist = pathCost (load ops).adjacencyList path := by
  obtain ⟨N, path, dist, hrun, _, _, _, _, _, hgood⟩ :=
    planner_reachable ops s d c0 hnn htot hw
  exact ⟨N, path, dist, hrun, (hgood hs hnames).cost.symm⟩

/-- Instance of C3 (amended) on a three-station line. -/
theorem C3_witness :
    NonNeg (load lineOps).adjacencyList ∧
    totalWeight (load lineOps).adjacencyList < 2147483648 ∧
    "Rohini Sector 18, 19" ≠ "" ∧ hasKey (load lineOps).adjacencyList "" = false ∧
    Walk (load lineOps).adjacencyList "Rohini Sector 18, 19" "Haiderpur Badli Mor" 3 ∧
    ∃ N path dist,
      (∀ fuel, N ≤ fuel →
        dijkstra fuel (load lineOps) "Rohini Sector 18, 19" "Haiderpur Badli Mor"
          = some (load lineOps, (path, dist))) ∧
      dist = pathCost (load lineOps).adjacencyList path := by
  have hw : Walk (load lineOps).adjacencyList "Rohini Sector 18, 19" "Haiderpur Badli Mor" 3 :=
    Walk.snoc (Edge.mk "Haiderpur Badli Mor" 3 ["Yellow Line"]) Walk.nil (by decide)
  exact ⟨load_nonNeg lineOps (by decide), by decide, by decide, by decide, hw,
    C3_distance_is_path_cost lineOps "Rohini Sector 18, 19" "Haiderpur Badli Mor" 3
      (load_nonNeg lineOps (by decide)) (by decide) (by decide) (by decide) hw⟩

/-- C4, as stated, fails for the empty station name: `dijkstra("", "")` returns the empty
path (with distance 0), not the one-element path `[""]`, because the backward walk is
guarded by `!at.empty()`. -/
theorem C4_counterexample :
    (∀ fuel, 1 ≤ fuel → dijkstra fuel MetroGraph.empty "" ""
      = some (MetroGraph.empty, ([], 0))) ∧
    ([] : List String) ≠ [""] := by
  refine ⟨?_, by decide⟩
  intro fuel hfuel
  obtain ⟨k, rfl⟩ : ∃ k, fuel = k + 1 := ⟨fuel - 1, by omega⟩
  simpa using dijkstra_self k MetroGraph.empty ""

/-- C4 (amended): for every graph and every non-empty station name `s`, `dijkstra(s, s)`
returns the one-element path `[s]` and distance 0, the graph is unchanged, and
`calculateFare` of that distance is 10. -/
theorem C4_self_route (g : MetroGraph) (s : String) (fuel : Nat) (hs : s ≠ "")
    (hfuel : 1 ≤ fuel) :
    dijkstra fuel g s s = some (g, ([s], 0)) ∧ calculateFare 0 = 10 := by
  obtain ⟨k, rfl⟩ : ∃ k, fuel = k + 1 := ⟨fuel - 1, by omega⟩
  refine ⟨?_, by decide⟩
  simpa [hs] using dijkstra_self k g s

/-- Instance of C4 (amended): the seed scenario for "Samaypur Badli". -/
theorem C4_witness :
    "Samaypur Badli" ≠ "" ∧ 1 ≤ 1 ∧
    dijkstra 1 (load lineOps) "Samaypur Badli" "Samaypur Badli"
      = some (load lineOps, (["Samaypur Badli"], 0)) ∧ calculateFare 0 = 10 :=
  ⟨by decide, by decide,
    C4_self_route (load lineOps) "Samaypur Badli" 1 (by decide) (by decide)⟩

/-- C5 at its failing input: "Dilshad Garden" and "Jhilmil" are registered and distinct,
the weights are non-negative, no walk joins them because "Jhilmil" has no edge, and
`dijkstra` returns the path `["Jhilmil"]` with distance 0 instead of the empty path with
the sentinel `2147483647`. -/
theorem C5_registered_without_edge :
    hasKey (load isolatedOps).stations "Dilshad Garden" = true ∧
    hasKey (load isolatedOps).stations "Jhilmil" = true ∧
    NonNeg (load isolatedOps).adjacencyList ∧
    (∀ c, ¬ Walk (load isolatedOps).adjacencyList "Dilshad Garden" "Jhilmil" c) ∧
    (∀ fuel, 4 ≤ fuel → dijkstra fuel (load isolatedOps) "Dilshad Garden" "Jhilmil"
      = some (load isolatedOps, (["Jhilmil"], 0))) := by
  refine ⟨by decide, by decide, load_nonNeg isolatedOps (by decide), ?_, ?_⟩
  · intro c
    exact walk_absent_target _ (load_closed isolatedOps) _ _ (by decide) (by decide) c
  · intro fuel hfuel
    exact dijkstra_mono 4 fuel _ _ _ _ hfuel (by rfl)

/-- C6 at its failing input: "NoSuchStation" has neither a station record nor an adjacency
entry, and `dijkstra("Samaypur Badli", "NoSuchStation")` returns the path
`["NoSuchStation"]` with distance 0 instead of the empty path with the sentinel. -/
theorem C6_absent_destination :
    hasKey (load lineOps).stations "NoSuchStation" = false ∧
    hasKey (load lineOps).adjacencyList "NoSuchStation" = false ∧
    (∀ fuel, 5 ≤ fuel → dijkstra fuel (load lineOps) "Samaypur Badli" "NoSuchStation"
      = some (load lineOps, (["NoSuchStation"], 0))) := by
  refine ⟨by decide, by decide, ?_⟩
  intro fuel hfuel
  exact dijkstra_mono 5 fuel _ _ _ _ hfuel (by decide)

/-- C7: for every graph, every source `s` without adjacency entry and every destination
`d ≠ s` that has one, `dijkstra(s, d)` finishes within two loop iterations, treats the
neighbour list of `s` as empty (the lookup `adjacencyList[s]` creates an empty entry for
`s`), and returns the empty path with the sentinel distance `2147483647`. -/
theorem C7_absent_source (g : MetroGraph) (s d : String) (fuel : Nat)
    (hs : hasKey g.adjacencyList s = false) (hd : hasKey g.adjacencyList d = true)
    (hsd : s ≠ d) (hfuel : 2 ≤ fuel) :
    dijkstra fuel g s d
      = some ({ g with adjacencyList := assign g.adjacencyList s [] }, ([], 2147483647)) :=
  dijkstra_absent_source g s d fuel hs hd hsd hfuel

/-- Instance of C7: an unknown source on a three-station line. -/
theorem C7_witness :
    hasKey (load lineOps).adjacencyList "NoSuchStation" = false ∧
    hasKey (load lineOps).adjacencyList "Samaypur Badli" = true ∧
    "NoSuchStation" ≠ "Samaypur Badli" ∧ 2 ≤ 2 ∧
    dijkstra 2 (load lineOps) "NoSuchStation" "Samaypur Badli"
      = some ({ load lineOps with
                adjacencyList := assign (load lineOps).adjacencyList "NoSuchStation" [] },
              ([], 2147483647)) :=
  ⟨by decide, by decide, by decide, by decide,
    C7_absent_source (load lineOps) "NoSuchStation" "Samaypur Badli" 2 (by decide) (by decide)
      (by decide) (by decide)⟩

/-- C8, as stated, fails in two ways.  (1) With `addEdge` weights 0 and `2^30` the
search from "a" to "c" returns `1073741824` while the search from "c" to "a" returns
`-1073741824`: relaxing the edge back to "c" adds `2^30 + 2^30`, which leaves the 32-bit
range.  (2) When one name has no adjacency entry the two directions differ: towards the
unknown name the distance is 0, from it the distance is the sentinel. -/
theorem C8_counterexample :
    ((∀ w ∈ opWeights asymOps, 0 ≤ w) ∧
      (∀ fuel, 8 ≤ fuel → dijkstra fuel (load asymOps) "a" "c"
        = some (load asymOps, (["a", "b", "c"], 1073741824))) ∧
      (∀ fuel, 8 ≤ fuel → dijkstra fuel (load asymOps) "c" "a"
        = some (load asymOps, (["c", "b", "a"], -1073741824)))) ∧
    ((∀ w ∈ opWeights lineOps, 0 ≤ w) ∧
      (∀ fuel, 8 ≤ fuel →
        (dijkstra fuel (load lineOps) "Samaypur Badli" "NoSuchStation").map (fun r => r.2.2)
          = some 0) ∧
      (∀ fuel, 8 ≤ fuel →
        (dijkstra fuel (load lineOps) "NoSuchStation" "Samaypur Badli").map (fun r => r.2.2)
          = some 2147483647)) := by
  refine ⟨⟨by decide, ?_, ?_⟩, ⟨by decide, ?_, ?_⟩⟩
  · intro fuel hfuel
    exact dijkstra_mono 8 fuel _ _ _ _ hfuel (by decide)
  · intro fuel hfuel
    exact dijkstra_mono 8 fuel _ _ _ _ hfuel (by decide)
  · intro fuel hfuel
    have h : dijkstra 8 (load lineOps) "Samaypur Badli" "NoSuchStation"
        = some (load lineOps, (["NoSuchStation"], 0)) := by decide
    rw [dijkstra_mono 8 fuel _ _ _ _ hfuel h]
    rfl
  · intro fuel hfuel
    have h := dijkstra_absent_source (load lineOps) "NoSuchStation" "Samaypur Badli" fuel
      (by decide) (by decide) (by decide) (by omega)
    rw [h]
    rfl

/-- C8 (amended): for every loaded graph with non-negative `addEdge` weights whose stored
adjacency weights total below `2^31`, and for all `s` and `d` that both have an adjacency
entry, `dijkstra(s, d)` and `dijkstra(d, s)` return the same distance (the sentinel in
both directions when no walk joins them). -/
theorem C8_distance_symmetric (ops : List LoadOp) (s d : String)
    (hnn : ∀ w ∈ opWeights ops, 0 ≤ w)
    (htot : totalWeight (load ops).adjacencyList < 2147483648)
    (hs : hasKey (load ops).adjacencyList s = true)
    (hd : hasKey (load ops).adjacencyList d = true) :
    ∃ N p1 p2 dist, ∀ fuel, N ≤ fuel →
      dijkstra fuel (load ops) s d = some (load ops, (p1, dist)) ∧
      dijkstra fuel (load ops) d s = some (load ops, (p2, dist)) := by
  have hn := load_nonNeg ops hnn
  have hsym := load_symmetric ops
  obtain ⟨N1, p1, d1, hrun1, hres1⟩ := planner_keys ops s d hn htot hs hd
  obtain ⟨N2, p2, d2, hrun2, hres2⟩ := planner_keys ops d s hn htot hd hs
  have heq : d1 = d2 := by
    rcases hres1 with ⟨h1, _, hno1⟩ | ⟨hlt1, hw1, hmin1⟩
    · rcases hres2 with ⟨h2, _, _⟩ | ⟨_, hw2, _⟩
      · rw [h1, h2]
      · exact absurd (walk_symm _ hsym _ _ _ hw2) (hno1 d2)
    · rcases hres2 with ⟨_, _, hno2⟩ | ⟨_, hw2, hmin2⟩
      · exact absurd (walk_symm _ hsym _ _ _ hw1) (hno2 d1)
      · have a1 := hmin1 d2 (walk_symm _ hsym _ _ _ hw2)
        have a2 := hmin2 d1 (walk_symm _ hsym _ _ _ hw1)
        omega
  subst heq
  refine ⟨max N1 N2, p1, p2, d1, ?_⟩
  intro fuel hfuel
  exact ⟨hrun1 fuel (le_trans (le_max_left _ _) hfuel),
    hrun2 fuel (le_trans (le_max_right _ _) hfuel)⟩

/-- Instance of C8 (amended) on a three-station line. -/
theorem C8_witness :
    (∀ w ∈ opWeights lineOps, 0 ≤ w) ∧
    totalWeight (load lineOps).adjacencyList < 2147483648 ∧
    hasKey (load lineOps).adjacencyList "Samaypur Badli" = true ∧
    hasKey (load lineOps).adjacencyList "Haiderpur Badli Mor" = true ∧
    ∃ N p1 p2 dist, ∀ fuel, N ≤ fuel →
      dijkstra fuel (load lineOps) "Samaypur Badli" "Haiderpur Badli Mor"
        = some (load lineOps, (p1, dist)) ∧
      dijkstra fuel (load lineOps) "Haiderpur Badli Mor" "Samaypur Badli"
        = some (load lineOps, (p2, dist)) :=
  ⟨by decide, by decide, by decide, by decide,
    C8_distance_symmetric lineOps "Samaypur Badli" "Haiderpur Badli Mor" (by decide)
      (by decide) (by decide) (by decide)⟩

/-- C9, as stated, fails in two ways.  (1) With the single edge p-q of weight `INT_MAX`
the search from "p" to "q" returns the empty path, whose reverse does not start at "q".
(2) With edges m-"" and ""-n the search from "m" to "n" returns `["n"]`, whose reverse
does not end at "m". -/
theorem C9_counterexample :
    ((∀ w ∈ opWeights maxEdgeOps, 0 ≤ w) ∧
      Walk (load maxEdgeOps).adjacencyList "p" "q" 2147483647 ∧
      (∀ fuel, 4 ≤ fuel → dijkstra fuel (load maxEdgeOps) "p" "q"
        = some (load maxEdgeOps, ([], 2147483647))) ∧
      ([] : List String).reverse.head? ≠ some "q") ∧
    ((∀ w ∈ opWeights emptyMidOps, 0 ≤ w) ∧
      Walk (load emptyMidOps).adjacencyList "m" "n" 2 ∧
      (∀ fuel, 4 ≤ fuel → dijkstra fuel (load emptyMidOps) "m" "n"
        = some (load emptyMidOps, (["n"], 2))) ∧
      (["n"] : List String).reverse.getLast? ≠ some "m") := by
  refine ⟨⟨by decide, ?_, ?_, by decide⟩, ⟨by decide, ?_, ?_, by decide⟩⟩
  · exact Walk.snoc (Edge.mk "q" 2147483647 []) Walk.nil (by decide)
  · intro fuel hfuel
    exact dijkstra_mono 4 fuel _ _ _ _ hfuel (by decide)
  · have h1 : Walk (load emptyMidOps).adjacencyList "m" "" (0 + 1) :=
      Walk.snoc (Edge.mk "" 1 []) Walk.nil (by decide)
    exact Walk.snoc (Edge.mk "n" 1 []) h1 (by decide)
  · intro fuel hfuel
    exact dijkstra_mono 4 fuel _ _ _ _ hfuel (by decide)

/-- C9 (amended): for every loaded graph with non-negative `addEdge` weights whose stored
adjacency weights total below `2^31` and in which no station name is empty, and for every
non-empty `s` and every `d` joined to it by a walk, the reverse of the path returned by
`dijkstra(s, d)` starts at `d`, ends at `s`, has each consecutive pair joined by an
adjacency entry, and its weight (the sum of the smallest connecting weights) equals the
distance returned by `dijkstra(d, s)`. -/
theorem C9_reverse_path (ops : List LoadOp) (s d : String) (c0 : Int)
    (hnn : ∀ w ∈ opWeights ops, 0 ≤ w)
    (htot : totalWeight (load ops).adjacencyList < 2147483648)
    (hs : s ≠ "") (hnames : hasKey (load ops).adjacencyList "" = false)
    (hw : Walk (load ops).adjacencyList s d c0) :
    ∃ N path dist path' dist',
      (∀ fuel, N ≤ fuel →
        dijkstra fuel (load ops) s d = some (load ops, (path, dist)) ∧
        dijkstra fuel (load ops) d s = some (load ops, (path', dist'))) ∧
      path.reverse.head? = some d ∧ path.reverse.getLast? = some s ∧
      List.Chain' (Adjacent (load ops).adjacencyList) path.reverse ∧
      pathCost (load ops).adjacencyList path.reverse = dist' := by
  have hn := load_nonNeg ops hnn
  have hsym := load_symmetric ops
  obtain ⟨N1, path, d1, hrun1, _, _, hw1, hmin1, _, hgood⟩ :=
    planner_reachable ops s d c0 hn htot hw
  obtain ⟨N2, path', d2, hrun2, _, _, hw2, hmin2, _, _⟩ :=
    planner_reachable ops d s c0 hn htot (walk_symm _ hsym _ _ _ hw)
  have hg := hgood hs hnames
  have heq : d1 = d2 := by
    have a1 := hmin1 d2 (walk_symm _ hsym _ _ _ hw2)
    have a2 := hmin2 d1 (walk_symm _ hsym _ _ _ hw1)
    omega
  refine ⟨max N1 N2, path, d1, path', d2, ?_, ?_, ?_, chain_reverse _ hsym _ hg.chain, ?_⟩
  · intro fuel hfuel
    exact ⟨hrun1 fuel (le_trans (le_max_left _ _) hfuel),
      hrun2 fuel (le_trans (le_max_right _ _) hfuel)⟩
  · rw [List.head?_reverse]
    exact hg.last
  · rw [List.getLast?_reverse]
    exact hg.head
  · rw [pathCost_reverse _ hsym, hg.cost, heq]

/-- Instance of C9 (amended) on a three-station line. -/
theorem C9_witness :
    (∀ w ∈ opWeights lineOps, 0 ≤ w) ∧
    totalWeight (load lineOps).adjacencyList < 2147483648 ∧
    "Samaypur Badli" ≠ "" ∧ hasKey (load lineOps).adjacencyList "" = false ∧
    Walk (load lineOps).adjacencyList "Samaypur Badli" "Rohini Sector 18, 19" 1 ∧
    ∃ N path dist path' dist',
      (∀ fuel, N ≤ fuel →
        dijkstra fuel (load lineOps) "Samaypur Badli" "Rohini Sector 18, 19"
          = some (load lineOps, (path, dist)) ∧
        dijkstra fuel (load lineOps) "Rohini Sector 18, 19" "Samaypur Badli"
          = some (load lineOps, (path', dist'))) ∧
      path.reverse.head? = some "Rohini Sector 18, 19" ∧
      path.reverse.getLast? = some "Samaypur Badli" ∧
      List.Chain' (Adjacent (load lineOps).adjacencyList) path.reverse ∧
      pathCost (load lineOps).adjacencyList path.reverse = dist' := by
  have hw : Walk (load lineOps).adjacencyList "Samaypur Badli" "Rohini Sector 18, 19" 1 :=
    Walk.snoc (Edge.mk "Rohini Sector 18, 19" 1 ["Yellow Line"]) Walk.nil (by decide)
  exact ⟨by decide, by decide, by decide, by decide, hw,
    C9_reverse_path lineOps "Samaypur Badli" "Rohini Sector 18, 19" 1 (by decide) (by decide)
      (by decide) (by decide) hw⟩

/-- C10, as stated, fails: with `addEdge` weights `2^30` and `1` the search from "u" to
"w" returns the path `["u", "v", "w"]` with distance `-1073741823`, while the searches
from "u" to "v" and from "v" to "w" return `1073741824` and `1`. -/
theorem C10_counterexample :
    NonNeg (load wrapOps).adjacencyList ∧
    Walk (load wrapOps).adjacencyList "u" "w" 1073741825 ∧
    (∀ fuel, 8 ≤ fuel → dijkstra fuel (load wrapOps) "u" "w"
      = some (load wrapOps, (["u", "v", "w"], -1073741823))) ∧
    (∀ fuel, 8 ≤ fuel → dijkstra fuel (load wrapOps) "u" "v"
      = some (load wrapOps, (["u", "v"], 1073741824))) ∧
    (∀ fuel, 8 ≤ fuel → dijkstra fuel (load wrapOps) "v" "w"
      = some (load wrapOps, (["v", "w"], 1))) ∧
    "v" ∈ ["u", "v", "w"] ∧ (-1073741823 : Int) ≠ 1073741824 + 1 := by
  refine ⟨load_nonNeg wrapOps (by decide), ?_, ?_, ?_, ?_, by decide, by decide⟩
  · have h1 : Walk (load wrapOps).adjacencyList "u" "v" (0 + 1073741824) :=
      Walk.snoc (Edge.mk "v" 1073741824 []) Walk.nil (by decide)
    exact Walk.snoc (Edge.mk "w" 1 []) h1 (by decide)
  · intro fuel hfuel
    exact dijkstra_mono 8 fuel _ _ _ _ hfuel (by decide)
  · intro fuel hfuel
    exact dijkstra_mono 8 fuel _ _ _ _ hfuel (by decide)
  · intro fuel hfuel
    exact dijkstra_mono 8 fuel _ _ _ _ hfuel (by decide)

/-- C10 (amended): for every loaded graph with non-negative weights whose stored
adjacency weights total below `2^31`, all `s` and `d` joined by a walk, and every station
`x` on the path returned by `dijkstra(s, d)`, the distance of `dijkstra(s, d)` equals the
distance of `dijkstra(s, x)` plus the distance of `dijkstra(x, d)`. -/
theorem C10_split_at_station (ops : List LoadOp) (s d : String) (c0 : Int)
    (hnn : NonNeg (load ops).adjacencyList)
    (htot : totalWeight (load ops).adjacencyList < 2147483648)
    (hw : Walk (load ops).adjacencyList s d c0) :
    ∃ N path dist,
      (∀ fuel, N ≤ fuel → dijkstra fuel (load ops) s d = some (load ops, (path, dist))) ∧
      ∀ x ∈ path, ∃ M p1 d1 p2 d2,
        (∀ fuel, M ≤ fuel →
          dijkstra fuel (load ops) s x = some (load ops, (p1, d1)) ∧
          dijkstra fuel (load ops) x d = some (load ops, (p2, d2))) ∧
        dist = d1 + d2 := by
  obtain ⟨N, path, dist, hrun, _, _, _, hmin, hsplit, _⟩ :=
    planner_reachable ops s d c0 hnn htot hw
  refine ⟨N, path, dist, hrun, ?_⟩
  intro x hx
  obtain ⟨a, b, hwa, hwb, hab⟩ := hsplit x hx
  obtain ⟨N1, p1, d1, hrun1, _, _, hw1, hmin1, _, _⟩ := planner_reachable ops s x a hnn htot hwa
  obtain ⟨N2, p2, d2, hrun2, _, _, hw2, hmin2, _, _⟩ := planner_reachable ops x d b hnn htot hwb
  refine ⟨max N1 N2, p1, d1, p2, d2, ?_, ?_⟩
  · intro fuel hfuel
    exact ⟨hrun1 fuel (le_trans (le_max_left _ _) hfuel),
      hrun2 fuel (le_trans (le_max_right _ _) hfuel)⟩
  · have a1 := hmin1 a hwa
    have a2 := hmin2 b hwb
    have a3 := hmin (d1 + d2) (walk_trans _ _ _ _ _ _ hw1 hw2)
    omega

/-- Instance of C10 (amended) on a three-station line. -/
theorem C10_witness :
    NonNeg (load lineOps).adjacencyList ∧
    totalWeight (load lineOps).adjacencyList < 2147483648 ∧
    Walk (load lineOps).adjacencyList "Samaypur Badli" "Haiderpur Badli Mor" 4 ∧
    ∃ N path dist,
      (∀ fuel, N ≤ fuel → dijkstra fuel (load lineOps) "Samaypur Badli" "Haiderpur Badli Mor"
        = some (load lineOps, (path, dist))) ∧
      ∀ x ∈ path, ∃ M p1 d1 p2 d2,
        (∀ fuel, M ≤ fuel →
          dijkstra fuel (load lineOps) "Samaypur Badli" x = some (load lineOps, (p1, d1)) ∧
          dijkstra fuel (load lineOps) x "Haiderpur Badli Mor"
            = some (load lineOps, (p2, d2))) ∧
        dist = d1 + d2 := by
  have hw : Walk (load lineOps).adjacencyList "Samaypur Badli" "Haiderpur Badli Mor" 4 := by
    have h1 : Walk (load lineOps).adjacencyList "Samaypur Badli" "Rohini Sector 18, 19"
        (0 + 1) :=
      Walk.snoc (Edge.mk "Rohini Sector 18, 19" 1 ["Yellow Line"]) Walk.nil (by decide)
    exact Walk.snoc (Edge.mk "Haiderpur Badli Mor" 3 ["Yellow Line"]) h1 (by decide)
  exact ⟨load_nonNeg lineOps (by decide), by decide, hw,
    C10_split_at_station lineOps "Samaypur Badli" "Haiderpur Badli Mor" 4
      (load_nonNeg lineOps (by decide)) (by decide) hw⟩

/-! ## Claims about the fare, the load operations and the line queries -/

/-- C11: for every integer `d`, `calculateFare(d)` is 10 if `d ≤ 2`, 20 if `2 < d ≤ 5`,
30 if `5 < d ≤ 12`, 40 if `12 < d ≤ 21`, 50 if `21 < d ≤ 32` and 60 if `d > 32`; the
boundary values 2, 5, 12, 21, 32 belong to the lower band and 3, 6, 13, 22, 33 to the
upper one. -/
theorem C11_fare_bands (d : Int) :
    ((d ≤ 2 ∧ calculateFare d = 10) ∨ (2 < d ∧ d ≤ 5 ∧ calculateFare d = 20) ∨
     (5 < d ∧ d ≤ 12 ∧ calculateFare d = 30) ∨ (12 < d ∧ d ≤ 21 ∧ calculateFare d = 40) ∨
     (21 < d ∧ d ≤ 32 ∧ calculateFare d = 50) ∨ (32 < d ∧ calculateFare d = 60)) ∧
    calculateFare 2 = 10 ∧ calculateFare 3 = 20 ∧ calculateFare 5 = 20 ∧
    calculateFare 6 = 30 ∧ calculateFare 12 = 30 ∧ calculateFare 13 = 40 ∧
    calculateFare 21 = 40 ∧ calculateFare 22 = 50 ∧ calculateFare 32 = 50 ∧
    calculateFare 33 = 60 := by
  refine ⟨?_, by decide, by decide, by decide, by decide, by decide, by decide, by decide,
    by decide, by decide, by decide⟩
  unfold calculateFare
  split_ifs <;> omega

/-- C12: `calculateFare` is defined on every integer and is monotone non-decreasing: for
all `d1 ≤ d2`, `calculateFare(d1) ≤ calculateFare(d2)`. -/
theorem C12_fare_monotone (d1 d2 : Int) (h : d1 ≤ d2) :
    calculateFare d1 ≤ calculateFare d2 := by
  unfold calculateFare
  split_ifs <;> omega

/-- Instance of C12 between a negative distance and the largest `int`. -/
theorem C12_witness :
    (-5 : Int) ≤ 2147483647 ∧ calculateFare (-5) ≤ calculateFare 2147483647 :=
  ⟨by decide, C12_fare_monotone (-5) 2147483647 (by decide)⟩

/-- C13: for every graph and all `a`, `b`, `w`, `L`, after `addEdge(a, b, w, L)` the
adjacency list of `a` contains the entry `(b, w, L)` and that of `b` contains `(a, w, L)`;
and in every graph built by load calls the number of entries `(v, w, L)` under `u`
equals the number of entries `(u, w, L)` under `v`, for all `u` and `v` (distinct or
not). -/
theorem C13_both_directions (g : MetroGraph) (a b : String) (w : Int) (L : List String)
    (ops : List LoadOp) (u v : String) (w' : Int) (L' : List String) :
    (Edge.mk b w L ∈ neighbours (addEdge g a b w L).adjacencyList a ∧
      Edge.mk a w L ∈ neighbours (addEdge g a b w L).adjacencyList b) ∧
    (neighbours (load ops).adjacencyList u).count (Edge.mk v w' L')
      = (neighbours (load ops).adjacencyList v).count (Edge.mk u w' L') := by
  refine ⟨⟨?_, ?_⟩, load_count_symm ops u v w' L'⟩
  · rw [neighbours_addEdge]
    simp
  · rw [neighbours_addEdge]
    simp

/-- C14: `addStation` does not extend the line list of a registered station, it replaces
it. "Kashmere Gate" is registered with `{"Yellow Line"}` (line 198 of `main`) and then
again with `{"Red Line"}` (line 240); afterwards `getMetroLines("Kashmere Gate")` is
`{"Red Line"}`, which does not contain "Yellow Line". On the graph of `main`, which
registers the station a third time with `{"Violet Line"}` (line 255), the list is
`{"Violet Line"}` alone, whatever the weights. -/
theorem C14_lines_overwritten :
    getMetroLines (load kashmereOps) "Kashmere Gate" = .ok ["Yellow Line"] ∧
    getMetroLines (addStation (load kashmereOps) "Kashmere Gate" 28.667856 77.228885
      ["Red Line"]) "Kashmere Gate" = .ok ["Red Line"] ∧
    "Yellow Line" ∉ ["Red Line"] ∧
    ∀ w : String → Int, getMetroLines (mainGraph w) "Kashmere Gate" = .ok ["Violet Line"] := by
  refine ⟨by decide, by decide, by decide, fun w => main_lines w _ _ (by decide!)⟩

/-- C15: for every graph and every name `n`, `getMetroLines(n)` returns the line list
stored for `n` when `n` is a key of the station table, and it fails, with
`out_of_range`, if and only if `n` is not a key of the station table. -/
theorem C15_getMetroLines (g : MetroGraph) (n : String) :
    getMetroLines g n
        = (if hasKey g.stations n = true
           then .ok (lookupD g.stations n Station.blank).metroLines
           else .error .out_of_range) ∧
    ((∃ f, getMetroLines g n = .error f) ↔ hasKey g.stations n = false) := by
  by_cases h : hasKey g.stations n = true
  · rw [getMetroLines_of_key g n h]
    simp [h]
  · have h0 : hasKey g.stations n = false := by simpa using h
    rw [getMetroLines_of_not_key g n h0]
    simp [h0]

/-- C16 at its failing input: "Rajiv Chowk" is registered with
`{"Yellow Line", "Blue Line"}` and "Mandi House" with `{"Blue Line"}`; "Blue Line" occurs
in both line lists, and `getCommonLines` returns the empty list, because
`set_intersection` reads "Yellow Line" first and skips "Blue Line" of the second list. -/
theorem C16_unsorted_lines :
    getMetroLines (load interchangeOps) "Rajiv Chowk" = .ok ["Yellow Line", "Blue Line"] ∧
    getMetroLines (load interchangeOps) "Mandi House" = .ok ["Blue Line"] ∧
    "Blue Line" ∈ ["Yellow Line", "Blue Line"] ∧ "Blue Line" ∈ ["Blue Line"] ∧
    (getCommonLines (load interchangeOps) "Rajiv Chowk" "Mandi House").2 = [] := by
  refine ⟨by decide, by decide, by decide, by decide, by decide⟩

/-- C17 at its failing input: "NoSuchStation" is not a key of the station table, and
`getCommonLines("NoSuchStation", "Jhilmil")` does not fail: it returns the empty list and
leaves "NoSuchStation" registered with an empty record, so that a later
`getMetroLines("NoSuchStation")` succeeds. -/
theorem C17_unknown_station :
    hasKey (load isolatedOps).stations "NoSuchStation" = false ∧
    (getCommonLines (load isolatedOps) "NoSuchStation" "Jhilmil").2 = [] ∧
    hasKey (getCommonLines (load isolatedOps) "NoSuchStation" "Jhilmil").1.stations
      "NoSuchStation" = true ∧
    getMetroLines (getCommonLines (load isolatedOps) "NoSuchStation" "Jhilmil").1
      "NoSuchStation" = .ok [] := by
  refine ⟨by decide, by decide, by decide, by decide⟩

/-- C18: for every graph, every path and every index `i` with `i + 1 < length` such that
`path[i]` and `path[i+1]` are registered, if `getCommonLines(path[i], path[i+1])` is
non-empty with first element `c`, then iteration `i` of the annotation loop writes
`path[i]`, the label `" (" c ")"` and the arrow, with no change marker, and leaves the
graph unchanged. -/
theorem C18_common_line_label (g : MetroGraph) (path : List String) (i : Nat)
    (c : String) (cs : List String) (hi : i + 1 < path.length)
    (h1 : hasKey g.stations (path.getD i "") = true)
    (h2 : hasKey g.stations (path.getD (i + 1) "") = true)
    (hc : (getCommonLines g (path.getD i "") (path.getD (i + 1) "")).2 = c :: cs) :
    annotateAt g path i = .ok (g, [path.getD i "", " (", c, ")", " -> "]) := by
  have hlt : i < path.length - 1 := by omega
  have hg : (getCommonLines g (path.getD i "") (path.getD (i + 1) "")).1 = g := by
    rw [getCommonLines_of_keys g _ _ h1 h2]
  unfold annotateAt
  simp only [hlt, if_true, getMetroLines_of_key g _ h1, getMetroLines_of_key g _ h2, hc, hg]

/-- Instance of C18: two neighbouring stations of the Yellow Line. -/
theorem C18_witness :
    0 + 1 < ["Samaypur Badli", "Rohini Sector 18, 19"].length ∧
    hasKey (load yellowOps).stations "Samaypur Badli" = true ∧
    hasKey (load yellowOps).stations "Rohini Sector 18, 19" = true ∧
    (getCommonLines (load yellowOps) "Samaypur Badli" "Rohini Sector 18, 19").2
      = ["Yellow Line"] ∧
    annotateAt (load yellowOps) ["Samaypur Badli", "Rohini Sector 18, 19"] 0
      = .ok (load yellowOps, ["Samaypur Badli", " (", "Yellow Line", ")", " -> "]) :=
  ⟨by decide, by decide, by decide, by decide,
    C18_common_line_label (load yellowOps) ["Samaypur Badli", "Rohini Sector 18, 19"] 0
      "Yellow Line" [] (by decide) (by decide) (by decide) (by decide)⟩

/-- C19, as stated, fails: "Yamuna Bank" is registered with an empty line list and
"Indraprastha" with `{"Blue Line"}`; `getCommonLines` of the two is empty, and the
iteration writes the station name and the arrow only, with no change marker, because the
loop over the lines of "Yamuna Bank" has nothing to test. -/
theorem C19_counterexample :
    hasKey (load noLineOps).stations "Yamuna Bank" = true ∧
    hasKey (load noLineOps).stations "Indraprastha" = true ∧
    (getCommonLines (load noLineOps) "Yamuna Bank" "Indraprastha").2 = [] ∧
    getMetroLines (load noLineOps) "Indraprastha" = .ok ["Blue Line"] ∧
    (annotateAt (load noLineOps) ["Yamuna Bank", "Indraprastha"] 0).map Prod.snd
      = .ok ["Yamuna Bank", " -> "] := by
  refine ⟨by decide, by decide, by decide, by decide, by decide⟩

/-- C19 (amended): for every graph, every path and every index `i` with
`i + 1 < length` such that `path[i]` and `path[i+1]` are registered, if
`getCommonLines(path[i], path[i+1])` is empty, the line list of `path[i+1]` is non-empty
and some line of `path[i]` does not occur in it, then iteration `i` of the annotation
loop writes exactly one change marker, between `path[i]` and the arrow, and the line it
names is the first element of `getMetroLines(path[i+1])`. -/
theorem C19_line_change (g : MetroGraph) (path : List String) (i : Nat)
    (currentLines others : List String) (first : String) (hi : i + 1 < path.length)
    (h1 : getMetroLines g (path.getD i "") = .ok currentLines)
    (h2 : getMetroLines g (path.getD (i + 1) "") = .ok (first :: others))
    (hc : (getCommonLines g (path.getD i "") (path.getD (i + 1) "")).2 = [])
    (hline : ∃ line ∈ currentLines, line ∉ first :: others) :
    annotateAt g path i
      = .ok (g, [path.getD i "", " [Change to ", first, " Line]", " -> "]) := by
  have hlt : i < path.length - 1 := by omega
  have k1 : hasKey g.stations (path.getD i "") = true := by
    by_contra hk
    have h0 : hasKey g.stations (path.getD i "") = false := by simpa using hk
    rw [getMetroLines_of_not_key g _ h0] at h1
    cases h1
  have k2 : hasKey g.stations (path.getD (i + 1) "") = true := by
    by_contra hk
    have h0 : hasKey g.stations (path.getD (i + 1) "") = false := by simpa using hk
    rw [getMetroLines_of_not_key g _ h0] at h2
    cases h2
  have hg : (getCommonLines g (path.getD i "") (path.getD (i + 1) "")).1 = g := by
    rw [getCommonLines_of_keys g _ _ k1 k2]
  unfold annotateAt
  simp only [hlt, if_true, h1, h2, hc, hg, changeScan_marker first others currentLines hline]
  rfl

/-- Instance of C19 (amended): from the Red Line to the Yellow Line. -/
theorem C19_witness :
    0 + 1 < ["Shastri Park", "Chandni Chowk"].length ∧
    getMetroLines (load transferOps) "Shastri Park" = .ok ["Red Line"] ∧
    getMetroLines (load transferOps) "Chandni Chowk" = .ok ["Yellow Line"] ∧
    (getCommonLines (load transferOps) "Shastri Park" "Chandni Chowk").2 = [] ∧
    (∃ line ∈ ["Red Line"], line ∉ ["Yellow Line"]) ∧
    annotateAt (load transferOps) ["Shastri Park", "Chandni Chowk"] 0
      = .ok (load transferOps,
          ["Shastri Park", " [Change to ", "Yellow Line", " Line]", " -> "]) :=
  ⟨by decide, by decide, by decide, by decide, ⟨"Red Line", by decide, by decide⟩,
    C19_line_change (load transferOps) ["Shastri Park", "Chandni Chowk"] 0 ["Red Line"] []
      "Yellow Line" (by decide) (by decide) (by decide) (by decide)
      ⟨"Red Line", by decide, by decide⟩⟩

/-- C20 at its failing input: between "Shastri Park" (Red Line) and "Chandni Chowk"
(Yellow Line) the loop reports a change to "Yellow Line" and writes the operands
`" [Change to "`, `"Yellow Line"`, `" Line]"`, that is the text
`" [Change to Yellow Line Line]"`, not `"[Change to Yellow Line]"`. -/
theorem C20_marker_text :
    (annotateAt (load transferOps) ["Shastri Park", "Chandni Chowk"] 0).map Prod.snd
      = .ok ["Shastri Park", " [Change to ", "Yellow Line", " Line]", " -> "] ∧
    String.join [" [Change to ", "Yellow Line", " Line]"] = " [Change to Yellow Line Line]" ∧
    " [Change to Yellow Line Line]" ≠ " " ++ ("[Change to " ++ "Yellow Line" ++ "]") := by
  refine ⟨by decide, by decide, by decide⟩

/-! ## Claims about repeated queries, the annotation loop and the data of `main` -/

/-- C23 at its failing input: on the three-station line,
`dijkstra("Samaypur Badli", "NoSuchStation")` returns the path `["NoSuchStation"]` with
distance 0; the query `dijkstra("NoSuchStation", "Samaypur Badli")` then leaves a graph,
reached without any `addStation` or `addEdge` call, on which the same call
`dijkstra("Samaypur Badli", "NoSuchStation")` returns the empty path with distance
2147483647. -/
theorem C23_repeated_query :
    (∀ fuel, 5 ≤ fuel → dijkstra fuel (load lineOps) "Samaypur Badli" "NoSuchStation"
      = some (load lineOps, (["NoSuchStation"], 0))) ∧
    (∀ fuel, 5 ≤ fuel → dijkstra fuel (load lineOps) "NoSuchStation" "Samaypur Badli"
      = some ({ load lineOps with
          adjacencyList := assign (load lineOps).adjacencyList "NoSuchStation" [] },
        ([], 2147483647))) ∧
    (∀ fuel, 5 ≤ fuel →
      dijkstra fuel { load lineOps with
          adjacencyList := assign (load lineOps).adjacencyList "NoSuchStation" [] }
        "Samaypur Badli" "NoSuchStation"
      = some ({ load lineOps with
          adjacencyList := assign (load lineOps).adjacencyList "NoSuchStation" [] },
        ([], 2147483647))) := by
  refine ⟨?_, ?_, ?_⟩
  · intro fuel hfuel
    exact dijkstra_mono 5 fuel _ _ _ _ hfuel (by decide)
  · intro fuel hfuel
    exact dijkstra_mono 5 fuel _ _ _ _ hfuel (by decide)
  · intro fuel hfuel
    exact dijkstra_mono 5 fuel _ _ _ _ hfuel (by decide)

/-- C24 at its failing input: "NoSuchStation" is not a key of the adjacency list of the
three-station line, and after `dijkstra("NoSuchStation", "Samaypur Badli")` the adjacency
list has the additional key "NoSuchStation". -/
theorem C24_source_inserted :
    (load lineOps).adjacencyList.map Prod.fst
      = ["Samaypur Badli", "Rohini Sector 18, 19", "Haiderpur Badli Mor"] ∧
    (∀ fuel, 2 ≤ fuel →
      (dijkstra fuel (load lineOps) "NoSuchStation" "Samaypur Badli").map
          (fun r => r.1.adjacencyList.map Prod.fst)
        = some ["Samaypur Badli", "Rohini Sector 18, 19", "Haiderpur Badli Mor",
            "NoSuchStation"]) := by
  refine ⟨by decide, ?_⟩
  intro fuel hfuel
  rw [dijkstra_absent_source (load lineOps) "NoSuchStation" "Samaypur Badli" fuel
    (by decide) (by decide) (by decide) hfuel]
  decide

/-- C25 at its failing input: "NoSuchStation" is not registered and
`getMetroLines("NoSuchStation")` fails; after `getCommonLines("NoSuchStation", "Jhilmil")`
the station table has the additional key "NoSuchStation" and
`getMetroLines("NoSuchStation")` returns the empty list. -/
theorem C25_station_inserted :
    (load isolatedOps).stations.map Prod.fst
      = ["Dilshad Garden", "Jhilmil", "Mansarovar Park"] ∧
    getMetroLines (load isolatedOps) "NoSuchStation" = .error .out_of_range ∧
    (getCommonLines (load isolatedOps) "NoSuchStation" "Jhilmil").1.stations.map Prod.fst
      = ["Dilshad Garden", "Jhilmil", "Mansarovar Park", "NoSuchStation"] ∧
    getMetroLines (getCommonLines (load isolatedOps) "NoSuchStation" "Jhilmil").1
      "NoSuchStation" = .ok [] := by
  refine ⟨by decide, by decide, by decide, by decide⟩

/-- C27 as stated fails for an empty station name and for the weight 2147483647: after the
single call `addEdge("", "b", 1)`, `dijkstra("", "b")` returns the path `["b"]`, not
`["", "b"]`; after the single call `addEdge("p", "q", 2147483647)`, `dijkstra("p", "q")`
returns the empty path. -/
theorem C27_counterexample :
    (∀ fuel, 3 ≤ fuel →
      dijkstra fuel (load emptySourceOps) "" "b" = some (load emptySourceOps, (["b"], 1))) ∧
    (∀ fuel, 3 ≤ fuel →
      dijkstra fuel (load maxEdgeOps) "p" "q"
        = some (load maxEdgeOps, ([], 2147483647))) := by
  refine ⟨?_, ?_⟩
  · intro fuel hfuel
    exact dijkstra_mono 3 fuel _ _ _ _ hfuel (by decide)
  · intro fuel hfuel
    exact dijkstra_mono 3 fuel _ _ _ _ hfuel (by decide)

/-- C27, amended: when every `addEdge` call of the load sequence joins the distinct,
non-empty names `a` and `b` (in either order), there is at least one such call, the weights
are non-negative `int` values and the smallest is below 2147483647, `dijkstra(a, b)`
returns the path `[a, b]` with the smallest weight as distance; the smallest weight is one
of the weights and at most each of them, and the result is the same for every reordering
of the calls. -/
theorem C27_parallel_edges (ops : List LoadOp) (a b : String) (fuel : Nat)
    (hab : a ≠ b) (ha : a ≠ "") (hb : b ≠ "")
    (hops : ∀ op ∈ ops, LoadOp.joins a b op) (hne : opWeights ops ≠ [])
    (hw : ∀ w ∈ opWeights ops, 0 ≤ w ∧ w ≤ 2147483647)
    (hmin : minOf (opWeights ops) < 2147483647) (hfuel : 2 ≤ fuel) :
    dijkstra fuel (load ops) a b = some (load ops, ([a, b], minOf (opWeights ops))) ∧
    minOf (opWeights ops) ∈ opWeights ops ∧
    (∀ x ∈ opWeights ops, minOf (opWeights ops) ≤ x) ∧
    (∀ ops', ops'.Perm ops →
      dijkstra fuel (load ops') a b
        = some (load ops', ([a, b], minOf (opWeights ops)))) := by
  refine ⟨parallel_edges ops a b fuel hab ha hb hops hne hw hmin hfuel,
    (minOf_mem_le _ hne).1, (minOf_mem_le _ hne).2, ?_⟩
  intro ops' hperm
  have hp := opWeights_perm ops ops' hperm
  have hmem : ∀ x, x ∈ opWeights ops' ↔ x ∈ opWeights ops := fun x => hp.mem_iff
  have hmin' : minOf (opWeights ops') = minOf (opWeights ops) := minOf_congr _ _ hmem
  have hne' : opWeights ops' ≠ [] := by
    intro h
    apply hne
    have := hp.length_eq
    rw [h] at this
    exact List.length_eq_zero.1 this.symm
  have := parallel_edges ops' a b fuel hab ha hb
    (fun op hop => hops op (hperm.mem_iff.1 hop)) hne'
    (fun w hw' => hw w ((hmem w).1 hw')) (by rw [hmin']; exact hmin) hfuel
  rw [this, hmin']

/-- C27, amended, at three calls between "a" and "b" with weights 5, 3 and 7. -/
theorem C27_witness :
    minOf (opWeights parallelOps) = 3 ∧
    dijkstra 2 (load parallelOps) "a" "b"
      = some (load parallelOps, (["a", "b"], minOf (opWeights parallelOps))) :=
  ⟨by decide,
    (C27_parallel_edges parallelOps "a" "b" 2 (by decide) (by decide) (by decide)
      (by decide) (by decide) (by decide) (by decide) (by decide)).1⟩

/-- C21 as stated fails although the last station "Indraprastha" resp. "Rajiv Chowk" is
registered with a non-empty line list: on the path `["NoSuchStation", "Indraprastha"]` the
loop is left by `out_of_range` before any label is printed; on
`["Yamuna Bank", "Indraprastha"]`, where "Yamuna Bank" has an empty line list, and on
`["Mandi House", "Rajiv Chowk"]`, where the line list of "Rajiv Chowk" is not ascending,
the only segment gets no label, so two stations yield one label. -/
theorem C21_counterexample :
    getMetroLines (load noLineOps) "Indraprastha" = .ok ["Blue Line"] ∧
    (annotate (load noLineOps) ["NoSuchStation", "Indraprastha"]).map Prod.snd
      = .error .out_of_range ∧
    (annotate (load noLineOps) ["Yamuna Bank", "Indraprastha"]).map Prod.snd
      = .ok ["Yamuna Bank", " -> ", "Indraprastha", " (", "Blue Line", ")"] ∧
    getMetroLines (load interchangeOps) "Mandi House" = .ok ["Blue Line"] ∧
    getMetroLines (load interchangeOps) "Rajiv Chowk" = .ok ["Yellow Line", "Blue Line"] ∧
    (annotate (load interchangeOps) ["Mandi House", "Rajiv Chowk"]).map Prod.snd
      = .ok ["Mandi House", " -> ", "Rajiv Chowk", " (", "Yellow Line", ")"] := by
  refine ⟨by decide, by decide, by decide, by decide, by decide, by decide⟩

/-- C21, amended: when every station of a path ending in `last` is registered with a
non-empty line list in ascending order, the annotation loop completes without changing the
graph and prints each station followed by exactly one label (a line or a change marker),
with " -> " between consecutive stations; the number of labels is the number of stations
and the last label is the first element of `getMetroLines(last)`. -/
theorem C21_labels (g : MetroGraph) (path : List String) (last : String)
    (hlast : path.getLast? = some last)
    (hreg : ∀ x ∈ path, ∃ L, getMetroLines g x = .ok L ∧ L ≠ [] ∧ Ascending L) :
    ∃ first rest labels, getMetroLines g last = .ok (first :: rest) ∧
      labels.length = path.length ∧ labels.getLast? = some (Label.line first) ∧
      annotate g path = .ok (g, render (path.zip labels)) := by
  obtain ⟨L, hL, hne, _⟩ := hreg last (List.mem_of_getLast?_eq_some hlast)
  obtain ⟨first, rest, rfl⟩ : ∃ first rest, L = first :: rest := by
    cases L with
    | nil => exact absurd rfl hne
    | cons x t => exact ⟨x, t, rfl⟩
  obtain ⟨labels, hlen, hl, hout⟩ := annotate_labels g path hreg
  exact ⟨first, rest, labels, hL, hlen, hl last first rest hlast hL, hout⟩

/-- C21, amended, on the path from "Shastri Park" (Red Line) to "Chandni Chowk" (Yellow
Line). -/
theorem C21_witness :
    ∃ first rest labels, getMetroLines (load transferOps) "Chandni Chowk" = .ok (first :: rest) ∧
      labels.length = ["Shastri Park", "Chandni Chowk"].length ∧
      labels.getLast? = some (Label.line first) ∧
      annotate (load transferOps) ["Shastri Park", "Chandni Chowk"]
        = .ok (load transferOps, render (["Shastri Park", "Chandni Chowk"].zip labels)) :=
  C21_labels (load transferOps) ["Shastri Park", "Chandni Chowk"] "Chandni Chowk" rfl (by
    intro x hx
    simp only [List.mem_cons, List.mem_singleton, List.not_mem_nil, or_false] at hx
    rcases hx with rfl | rfl
    · exact ⟨["Red Line"], by decide, by decide, by simp [Ascending]⟩
    · exact ⟨["Yellow Line"], by decide, by decide, by simp [Ascending]⟩)

/-- C30: on the graph of `main`, whatever the other weights are, when the weight `a1` of the
edge between "Samaypur Badli" and "Rohini Sector 18, 19" is non-negative and below
2147483647 (it is the `int` cast of a haversine distance, which is below 20016, see
`haversine_lt_sentinel`), `dijkstra("Samaypur Badli", "Rohini Sector 18, 19")` returns the
path of these two stations with distance `a1` and leaves the graph unchanged, and the
annotation loop prints both stations with the label "Yellow Line" and no change marker. -/
theorem C30_first_segment (w : String → Int) (fuel : Nat) (h0 : 0 ≤ w "a1")
    (h1 : w "a1" < 2147483647) (hfuel : 2 ≤ fuel) :
    dijkstra fuel (mainGraph w) "Samaypur Badli" "Rohini Sector 18, 19"
      = some (mainGraph w, (["Samaypur Badli", "Rohini Sector 18, 19"], w "a1")) ∧
    annotate (mainGraph w) ["Samaypur Badli", "Rohini Sector 18, 19"]
      = .ok (mainGraph w, ["Samaypur Badli", " (", "Yellow Line", ")", " -> ",
          "Rohini Sector 18, 19", " (", "Yellow Line", ")"]) :=
  main_first_segment w fuel h0 h1 hfuel

/-- C30 at weight 1 for every distance variable. -/
theorem C30_witness :
    dijkstra 2 (mainGraph unitWeights) "Samaypur Badli" "Rohini Sector 18, 19"
      = some (mainGraph unitWeights, (["Samaypur Badli", "Rohini Sector 18, 19"],
          unitWeights "a1")) ∧
    annotate (mainGraph unitWeights) ["Samaypur Badli", "Rohini Sector 18, 19"]
      = .ok (mainGraph unitWeights, ["Samaypur Badli", " (", "Yellow Line", ")", " -> ",
          "Rohini Sector 18, 19", " (", "Yellow Line", ")"]) :=
  C30_first_segment unitWeights 2 (by decide) (by decide) (by decide)

/-- C22 as stated fails, because `addEdge` never consults the station table: after the two
`addEdge` calls of the three-station line, "Samaypur Badli" has an entry to
"Rohini Sector 18, 19" while neither name is a key of the station table; and on the graph
of `main`, for every choice of the weights, "Green Park" has an entry to "Safdarjung" (line
987), a name that no `addStation` call registers. -/
theorem C22_counterexample :
    ((⟨"Rohini Sector 18, 19", 1, ["Yellow Line"]⟩ : Edge)
        ∈ neighbours (load lineOps).adjacencyList "Samaypur Badli" ∧
      hasKey (load lineOps).stations "Samaypur Badli" = false ∧
      hasKey (load lineOps).stations "Rohini Sector 18, 19" = false) ∧
    (∀ w : String → Int,
      (⟨"Safdarjung", w "e18", ["Pink Line"]⟩ : Edge)
        ∈ neighbours (mainGraph w).adjacencyList "Green Park" ∧
      hasKey (mainGraph w).stations "Green Park" = true ∧
      hasKey (mainGraph w).stations "Safdarjung" = false ∧
      getMetroLines (mainGraph w) "Safdarjung" = .error .out_of_range) := by
  refine ⟨⟨by decide, by decide, by decide⟩, ?_⟩
  intro w
  refine ⟨?_, ?_, ?_, ?_⟩
  · exact main_entry w "Green Park" ("Safdarjung", "e18", ["Pink Line"]) (by decide!)
  · rw [main_hasKey_stations]
    decide!
  · rw [main_hasKey_stations]
    decide!
  · exact main_unregistered w _ (by decide!)

/-- C22, amended: in every graph reached from the empty graph by `addStation` and `addEdge`
calls in which every `addEdge` call names two stations registered before it, every
adjacency entry joins two names that are both keys of the station table. -/
theorem C22_entries_join_registered (ops : List LoadOp)
    (hreg : edgesRegistered MetroGraph.empty ops = true) (u : String) (e : Edge)
    (h : e ∈ neighbours (load ops).adjacencyList u) :
    hasKey (load ops).stations u = true ∧ hasKey (load ops).stations e.to_ = true := by
  have hinv := foldl_registered ops MetroGraph.empty
    (by intro u hu; simp [MetroGraph.empty, hasKey] at hu) hreg
  refine ⟨hinv u (hasKey_of_mem_lookupD _ _ _ h), ?_⟩
  obtain ⟨p, hp, _, he⟩ := mem_of_mem_lookupD _ _ _ h
  exact hinv e.to_ (load_closed ops p hp e he)

/-- C22, amended, at the entry from "Dilshad Garden" to "Mansarovar Park" of a sequence of
three `addStation` calls followed by one `addEdge` call. -/
theorem C22_witness :
    hasKey (load isolatedOps).stations "Dilshad Garden" = true ∧
      hasKey (load isolatedOps).stations
        (⟨"Mansarovar Park", 2, ["Red Line"]⟩ : Edge).to_ = true :=
  C22_entries_join_registered isolatedOps (by decide) "Dilshad Garden"
    ⟨"Mansarovar Park", 2, ["Red Line"]⟩ (by decide)

/-- C39: when every station of a path is a key of the station table with a non-empty line
list, `getMetroLines` succeeds with a non-empty list for each of them, every iteration of
the annotation loop completes without a fault (no `out_of_range`, no index into an empty
list) and leaves the graph unchanged, and so does the whole loop. -/
theorem C39_annotation_completes (g : MetroGraph) (path : List String)
    (hreg : ∀ x ∈ path, hasKey g.stations x = true ∧
      (lookupD g.stations x Station.blank).metroLines ≠ []) :
    (∀ x ∈ path, ∃ L, getMetroLines g x = .ok L ∧ L ≠ []) ∧
    (∀ i, i < path.length → ∃ out, annotateAt g path i = .ok (g, out)) ∧
    ∃ out, annotate g path = .ok (g, out) := by
  have h : ∀ x ∈ path, ∃ L, getMetroLines g x = .ok L ∧ L ≠ [] := by
    intro x hx
    obtain ⟨hk, hl⟩ := hreg x hx
    exact ⟨_, getMetroLines_of_key g x hk, hl⟩
  exact ⟨h, fun i hi => annotateAt_ok g path i h hi, annotate_ok g path h⟩

/-- C39 on the path from "Rajiv Chowk" (line list not in ascending order) to
"Mandi House". -/
theorem C39_witness :
    (∀ x ∈ ["Rajiv Chowk", "Mandi House"],
      ∃ L, getMetroLines (load interchangeOps) x = .ok L ∧ L ≠ []) ∧
    (∀ i, i < ["Rajiv Chowk", "Mandi House"].length →
      ∃ out, annotateAt (load interchangeOps) ["Rajiv Chowk", "Mandi House"] i
        = .ok (load interchangeOps, out)) ∧
    ∃ out, annotate (load interchangeOps) ["Rajiv Chowk", "Mandi House"]
      = .ok (load interchangeOps, out) :=
  C39_annotation_completes (load interchangeOps) ["Rajiv Chowk", "Mandi House"] (by
    intro x hx
    simp only [List.mem_cons, List.mem_singleton, List.not_mem_nil, or_false] at hx
    rcases hx with rfl | rfl
    · exact ⟨by decide, by decide⟩
    · exact ⟨by decide, by decide⟩)

/-- C26 as stated fails for an unknown source: "NoSuchStation" has neither a station record
nor an adjacency entry on the graph of `main`, whatever the weights, and with the
destination "Samaypur Badli" the program ends with `return 0`. -/
theorem C26_counterexample :
    (∀ w : String → Int, getMetroLines (mainGraph w) "NoSuchStation" = .error .out_of_range ∧
      hasKey (mainGraph w).adjacencyList "NoSuchStation" = false ∧
      getMetroLines (mainGraph w) "Samaypur Badli" = .ok ["Yellow Line"]) ∧
    (∀ (w : String → Int) (fuel : Nat), 2 ≤ fuel →
      main w fuel "NoSuchStation" "Samaypur Badli" = some (Exit.code 0)) := by
  have h1 : ∀ w : String → Int, hasKey (mainGraph w).adjacencyList "NoSuchStation" = false := by
    intro w
    rw [main_hasKey]
    decide!
  have h2 : ∀ w : String → Int, hasKey (mainGraph w).adjacencyList "Samaypur Badli" = true := by
    intro w
    rw [main_hasKey]
    decide!
  refine ⟨fun w => ⟨main_unregistered w _ (by decide!), h1 w, main_lines w _ _ (by decide!)⟩, ?_⟩
  intro w fuel hfuel
  exact main_unknown_source w fuel _ _ (h1 w) (h2 w) hfuel

/-- C26, amended: `main` has no error status of its own, its only `return` is `return 0`.
For the path that `dijkstra` returns, the program ends with `return 0` when every station
on it has a station record; with non-negative weights whose adjacency entries total less
than 2^31, `dijkstra` does return a path for all names. So the program returns 0 when source
and destination are the same registered station, and it also returns 0 when the source has
no adjacency entry and the destination has one: the path is empty and nothing is
annotated. -/
theorem C26_exit_status (w : String → Int) (s d : String) :
    (∀ fuel g path dist, dijkstra fuel (mainGraph w) s d = some (g, (path, dist)) →
      (∀ x ∈ path, hasKey (mainGraph w).stations x = true) →
        main w fuel s d = some (Exit.code 0)) ∧
    ((∀ v, 0 ≤ w v) → totalWeight (mainGraph w).adjacencyList < 2147483648 →
      ∃ N, ∀ fuel, N ≤ fuel → ∃ g path dist,
        dijkstra fuel (mainGraph w) s d = some (g, (path, dist)) ∧
        ((∀ x ∈ path, hasKey (mainGraph w).stations x = true) →
          main w fuel s d = some (Exit.code 0))) ∧
    (s = d → hasKey (mainGraph w).stations s = true →
      ∀ fuel, 1 ≤ fuel → main w fuel s d = some (Exit.code 0)) ∧
    (hasKey (mainGraph w).adjacencyList s = false →
      hasKey (mainGraph w).adjacencyList d = true →
      ∀ fuel, 2 ≤ fuel → main w fuel s d = some (Exit.code 0)) := by
  refine ⟨?_, ?_, ?_, ?_⟩
  · intro fuel g path dist h hreg
    exact main_exit_ok w fuel s d g path dist h hreg
  · intro hnn htot
    have hnn' := main_nonNeg w hnn
    have htotal := dijkstra_total (mainStations ++ mainEdges w) s d
    rw [← mainGraph_eq w] at htotal
    obtain ⟨N, hN⟩ := htotal hnn' htot
    refine ⟨N, fun fuel hfuel => ?_⟩
    obtain ⟨⟨g, path, dist⟩, hr⟩ := hN fuel hfuel
    exact ⟨g, path, dist, hr, main_exit_ok w fuel s d g path dist hr⟩
  · intro hsd hr fuel hfuel
    subst hsd
    exact main_same_station w fuel s hr hfuel
  · intro hs hd fuel hfuel
    exact main_unknown_source w fuel s d hs hd hfuel

/-- C26, amended, for the registered stations "Samaypur Badli" and "Rohini Sector 18, 19"
at weight 1 for every distance variable: the returned path is these two stations, both
have a station record, and the program ends with `return 0`. -/
theorem C26_witness :
    main unitWeights 2 "Samaypur Badli" "Rohini Sector 18, 19" = some (Exit.code 0) :=
  (C26_exit_status unitWeights "Samaypur Badli" "Rohini Sector 18, 19").1 2
    (mainGraph unitWeights) ["Samaypur Badli", "Rohini Sector 18, 19"] (unitWeights "a1")
    (main_first_segment unitWeights 2 (by decide) (by decide) (by decide)).1
    (by
      intro x hx
      simp only [List.mem_cons, List.mem_singleton, List.not_mem_nil, or_false] at hx
      rcases hx with rfl | rfl
      · rw [main_hasKey_stations]
        decide!
      · rw [main_hasKey_stations]
        decide!)

/-- C37: for registered stations `a` and `b` with line lists `La` and `Lb` in any order,
`getCommonLines(a, b)` leaves the graph unchanged, every name it returns occurs in `La`
and in `Lb`, and the returned list is a subsequence of `La`. -/
theorem C37_common_lines_sound (g : MetroGraph) (a b : String) (La Lb : List String)
    (ha : getMetroLines g a = .ok La) (hb : getMetroLines g b = .ok Lb) :
    (getCommonLines g a b).1 = g ∧
    (∀ x ∈ (getCommonLines g a b).2, x ∈ La ∧ x ∈ Lb) ∧
    (getCommonLines g a b).2.Sublist La := by
  obtain ⟨hka, hla⟩ := getMetroLines_ok g a La ha
  obtain ⟨hkb, hlb⟩ := getMetroLines_ok g b Lb hb
  rw [getCommonLines_of_keys g a b hka hkb, hla, hlb]
  exact ⟨rfl, (set_intersection_sub La Lb).1, (set_intersection_sub La Lb).2⟩

/-- C37 at "Rajiv Chowk", whose line list is not in ascending order, and "Mandi House". -/
theorem C37_witness :
    (getCommonLines (load interchangeOps) "Rajiv Chowk" "Mandi House").1
      = load interchangeOps ∧
    (∀ x ∈ (getCommonLines (load interchangeOps) "Rajiv Chowk" "Mandi House").2,
      x ∈ ["Yellow Line", "Blue Line"] ∧ x ∈ ["Blue Line"]) ∧
    (getCommonLines (load interchangeOps) "Rajiv Chowk" "Mandi House").2.Sublist
      ["Yellow Line", "Blue Line"] :=
  C37_common_lines_sound (load interchangeOps) "Rajiv Chowk" "Mandi House"
    ["Yellow Line", "Blue Line"] ["Blue Line"] (by decide) (by decide)

/-- C38: for registered stations `a` and `b` with line lists `La` and `Lb` (in ascending
order without duplicates, or in any other order), `getCommonLines(a, b)` and
`getCommonLines(b, a)` return the same list, and `getCommonLines(a, a)` returns `La`. -/
theorem C38_common_lines_symmetric (g : MetroGraph) (a b : String) (La Lb : List String)
    (ha : getMetroLines g a = .ok La) (hb : getMetroLines g b = .ok Lb) :
    (getCommonLines g a b).2 = (getCommonLines g b a).2 ∧
    (getCommonLines g a a).2 = La := by
  obtain ⟨hka, hla⟩ := getMetroLines_ok g a La ha
  obtain ⟨hkb, hlb⟩ := getMetroLines_ok g b Lb hb
  rw [getCommonLines_of_keys g a b hka hkb, getCommonLines_of_keys g b a hkb hka,
    getCommonLines_of_keys g a a hka hka, hla, hlb]
  exact ⟨set_intersection_comm La Lb, set_intersection_self La⟩

/-- C38 at "Shastri Park" (Red Line) and "Chandni Chowk" (Yellow Line). -/
theorem C38_witness :
    (getCommonLines (load transferOps) "Shastri Park" "Chandni Chowk").2
      = (getCommonLines (load transferOps) "Chandni Chowk" "Shastri Park").2 ∧
    (getCommonLines (load transferOps) "Shastri Park" "Shastri Park").2 = ["Red Line"] :=
  C38_common_lines_symmetric (load transferOps) "Shastri Park" "Chandni Chowk"
    ["Red Line"] ["Yellow Line"] (by decide) (by decide)

/-- C40: `addEdge(a, b, w, L)` leaves the station table unchanged, leaves the adjacency
entry of every name other than `a` and `b` as it was (present or absent), and appends one
entry each to those of `a` and `b`; `addStation(n, ...)` leaves the adjacency list unchanged
and leaves the record of every name other than `n` as it was. -/
theorem C40_load_frame (g : MetroGraph) :
    (∀ (a b : String) (w : Int) (L : List String),
      (addEdge g a b w L).stations = g.stations ∧
      (∀ x, x ≠ a → x ≠ b →
        findKey (addEdge g a b w L).adjacencyList x = findKey g.adjacencyList x) ∧
      (∀ x, neighbours (addEdge g a b w L).adjacencyList x
        = neighbours g.adjacencyList x ++ (if a = x then [Edge.mk b w L] else [])
            ++ (if b = x then [Edge.mk a w L] else []))) ∧
    (∀ (n : String) (la lo : Rat) (L : List String),
      (addStation g n la lo L).adjacencyList = g.adjacencyList ∧
      (∀ x, x ≠ n → findKey (addStation g n la lo L).stations x = findKey g.stations x)) := by
  refine ⟨fun a b w L => ⟨rfl, ?_, neighbours_addEdge g a b w L⟩, fun n la lo L => ⟨rfl, ?_⟩⟩
  · intro x hxa hxb
    simp only [addEdge]
    rw [findKey_assign_ne _ _ _ _ (Ne.symm hxb), findKey_assign_ne _ _ _ _ (Ne.symm hxa)]
  · intro x hxn
    simp only [addStation]
    rw [findKey_assign_ne _ _ _ _ (Ne.symm hxn), findKey_assign_ne _ _ _ _ (Ne.symm hxn)]

/-- C29 at its failing inputs, which are all weight assignments: on the graph of `main`
with non-negative weights whose adjacency entries total less than 2^31, the last
registrations leave "Kashmere Gate" and "Central Secretariat" with the line list
`["Violet Line"]` only; `dijkstra("Kashmere Gate", "Central Secretariat")` returns a path
that starts with "Kashmere Gate" followed by one of its five neighbours, and for its first
segment the annotation loop prints either the label "Violet Line" (next station "Lal
Qila") or a change marker, never the label "Yellow Line". -/
theorem C29_first_segment (w : String → Int) (hnn : ∀ v, 0 ≤ w v)
    (htot : totalWeight (mainGraph w).adjacencyList < 2147483648) :
    getMetroLines (mainGraph w) "Kashmere Gate" = .ok ["Violet Line"] ∧
    getMetroLines (mainGraph w) "Central Secretariat" = .ok ["Violet Line"] ∧
    ∃ N x rest dist,
      (∀ fuel, N ≤ fuel →
        dijkstra fuel (mainGraph w) "Kashmere Gate" "Central Secretariat"
          = some (mainGraph w, ("Kashmere Gate" :: x :: rest, dist))) ∧
      x ∈ ["Civil Lines", "Chandni Chowk", "Shastri Park", "Tis Hazari", "Lal Qila"] ∧
      ((x = "Lal Qila" ∧ annotateAt (mainGraph w) ("Kashmere Gate" :: x :: rest) 0
          = .ok (mainGraph w, ["Kashmere Gate", " (", "Violet Line", ")", " -> "])) ∨
        ∃ l, l ∈ ["Yellow Line", "Red Line", "Pink Line"] ∧
          annotateAt (mainGraph w) ("Kashmere Gate" :: x :: rest) 0
            = .ok (mainGraph w, ["Kashmere Gate", " [Change to ", l, " Line]", " -> "])) := by
  have hKG : getMetroLines (mainGraph w) "Kashmere Gate" = .ok ["Violet Line"] :=
    main_lines w _ _ (by decide!)
  have hCS : getMetroLines (mainGraph w) "Central Secretariat" = .ok ["Violet Line"] :=
    main_lines w _ _ (by decide!)
  refine ⟨hKG, hCS, ?_⟩
  obtain ⟨c0, hw⟩ := main_walk w "Kashmere Gate" routeToSecretariat
    (chain_of_routeOk _ _ main_route_secretariat)
  obtain ⟨N, path, dist, hN, hgood, _⟩ := main_planner w hnn htot
    "Kashmere Gate" "Central Secretariat" c0 (by decide) hw
  obtain ⟨p1, hp1⟩ : ∃ p1, path = "Kashmere Gate" :: p1 := by
    have := hgood.head
    cases path with
    | nil => cases this
    | cons a t =>
      simp only [List.head?_cons, Option.some.injEq] at this
      exact ⟨t, by rw [this]⟩
  obtain ⟨x, rest, hp2⟩ : ∃ x rest, p1 = x :: rest := by
    cases p1 with
    | nil =>
      have := hgood.last
      rw [hp1] at this
      simp only [List.getLast?_singleton, Option.some.injEq] at this
      exact absurd this (by decide)
    | cons a t => exact ⟨a, t, rfl⟩
  subst hp2
  subst hp1
  have hadj : x ∈ mainNext "Kashmere Gate" := by
    have := hgood.chain
    simp only [List.chain'_cons] at this
    exact (main_adjacent w _ _).1 this.1
  rw [main_next_kashmere] at hadj
  refine ⟨N, x, rest, dist, hN, ?_, ?_⟩
  · simp only [List.mem_cons, List.mem_singleton, List.not_mem_nil, or_false] at hadj
    rcases hadj with h | h | h | h | h | h | h | h | h | h <;> subst h <;> decide
  · simp only [List.mem_cons, List.mem_singleton, List.not_mem_nil, or_false] at hadj
    have hCL : getMetroLines (mainGraph w) "Civil Lines" = .ok ["Yellow Line"] :=
      main_lines w _ _ (by decide!)
    have hCC : getMetroLines (mainGraph w) "Chandni Chowk" = .ok ["Yellow Line"] :=
      main_lines w _ _ (by decide!)
    have hSP : getMetroLines (mainGraph w) "Shastri Park" = .ok ["Red Line"] :=
      main_lines w _ _ (by decide!)
    have hTH : getMetroLines (mainGraph w) "Tis Hazari" = .ok ["Pink Line"] :=
      main_lines w _ _ (by decide!)
    have hLQ : getMetroLines (mainGraph w) "Lal Qila" = .ok ["Violet Line"] :=
      main_lines w _ _ (by decide!)
    rcases hadj with h | h | h | h | h | h | h | h | h | h <;> subst h
    · exact Or.inr ⟨"Yellow Line", by simp,
        annotateAt_head_change _ _ _ rest _ _ hKG hCL (by decide)⟩
    · exact Or.inr ⟨"Yellow Line", by simp,
        annotateAt_head_change _ _ _ rest _ _ hKG hCL (by decide)⟩
    · exact Or.inr ⟨"Yellow Line", by simp,
        annotateAt_head_change _ _ _ rest _ _ hKG hCC (by decide)⟩
    · exact Or.inr ⟨"Yellow Line", by simp,
        annotateAt_head_change _ _ _ rest _ _ hKG hCC (by decide)⟩
    · exact Or.inr ⟨"Red Line", by simp,
        annotateAt_head_change _ _ _ rest _ _ hKG hSP (by decide)⟩
    · exact Or.inr ⟨"Red Line", by simp,
        annotateAt_head_change _ _ _ rest _ _ hKG hSP (by decide)⟩
    · exact Or.inr ⟨"Pink Line", by simp,
        annotateAt_head_change _ _ _ rest _ _ hKG hTH (by decide)⟩
    · exact Or.inr ⟨"Pink Line", by simp,
        annotateAt_head_change _ _ _ rest _ _ hKG hTH (by decide)⟩
    · exact Or.inl ⟨rfl, annotateAt_head_same _ _ _ rest _ hKG hLQ⟩
    · exact Or.inl ⟨rfl, annotateAt_head_same _ _ _ rest _ hKG hLQ⟩

/-- C29 at weight 1 for every distance variable. -/
theorem C29_witness :
    getMetroLines (mainGraph unitWeights) "Kashmere Gate" = .ok ["Violet Line"] ∧
    getMetroLines (mainGraph unitWeights) "Central Secretariat" = .ok ["Violet Line"] ∧
    ∃ N x rest dist,
      (∀ fuel, N ≤ fuel →
        dijkstra fuel (mainGraph unitWeights) "Kashmere Gate" "Central Secretariat"
          = some (mainGraph unitWeights, ("Kashmere Gate" :: x :: rest, dist))) ∧
      x ∈ ["Civil Lines", "Chandni Chowk", "Shastri Park", "Tis Hazari", "Lal Qila"] ∧
      ((x = "Lal Qila" ∧ annotateAt (mainGraph unitWeights) ("Kashmere Gate" :: x :: rest) 0
          = .ok (mainGraph unitWeights, ["Kashmere Gate", " (", "Violet Line", ")", " -> "])) ∨
        ∃ l, l ∈ ["Yellow Line", "Red Line", "Pink Line"] ∧
          annotateAt (mainGraph unitWeights) ("Kashmere Gate" :: x :: rest) 0
            = .ok (mainGraph unitWeights,
                ["Kashmere Gate", " [Change to ", l, " Line]", " -> "])) :=
  C29_first_segment unitWeights (fun _ => by simp [unitWeights])
    (by rw [main_totalWeight]; decide!)

/-- C28 at its failing inputs, which are all weight assignments: on the graph of `main`
with non-negative weights whose adjacency entries total less than 2^31, the last
registration leaves "Kashmere Gate" with the line list `["Violet Line"]` only, while
"Dilshad Garden" has `["Red Line"]`. `dijkstra("Dilshad Garden", "HUDA City Centre")`
returns a path from the one to the other, and if "Kashmere Gate" is on it, then at some
station before "Kashmere Gate" the annotation loop, after printing line labels only,
either prints a change marker or is left by `out_of_range`: the change reported at
"Kashmere Gate" is never the only one. -/
theorem C28_change_before_kashmere_gate (w : String → Int) (hnn : ∀ v, 0 ≤ w v)
    (htot : totalWeight (mainGraph w).adjacencyList < 2147483648) :
    getMetroLines (mainGraph w) "Dilshad Garden" = .ok ["Red Line"] ∧
    getMetroLines (mainGraph w) "Kashmere Gate" = .ok ["Violet Line"] ∧
    ∃ N path dist,
      (∀ fuel, N ≤ fuel →
        dijkstra fuel (mainGraph w) "Dilshad Garden" "HUDA City Centre"
          = some (mainGraph w, (path, dist))) ∧
      path.head? = some "Dilshad Garden" ∧ path.getLast? = some "HUDA City Centre" ∧
      ("Kashmere Gate" ∈ path →
        ∃ i, i + 1 < path.length ∧ path.getD i "" ≠ "Kashmere Gate" ∧
          (∀ j, j < i → ∃ c, annotateAt (mainGraph w) path j
            = .ok (mainGraph w, [path.getD j "", " (", c, ")", " -> "])) ∧
          (annotateAt (mainGraph w) path i = .error .out_of_range ∨
            ∃ l, annotateAt (mainGraph w) path i
              = .ok (mainGraph w, [path.getD i "", " [Change to ", l, " Line]", " -> "]))) := by
  have hDG : getMetroLines (mainGraph w) "Dilshad Garden" = .ok ["Red Line"] :=
    main_lines w _ _ (by decide!)
  have hKG : getMetroLines (mainGraph w) "Kashmere Gate" = .ok ["Violet Line"] :=
    main_lines w _ _ (by decide!)
  refine ⟨hDG, hKG, ?_⟩
  obtain ⟨c0, hw⟩ := main_walk w "Dilshad Garden" routeToHuda
    (chain_of_routeOk _ _ main_route_huda)
  obtain ⟨N, path, dist, hN, hgood, _⟩ := main_planner w hnn htot
    "Dilshad Garden" "HUDA City Centre" c0 (by decide) hw
  refine ⟨N, path, dist, hN, hgood.head, hgood.last, ?_⟩
  obtain ⟨p1, hp1⟩ : ∃ p1, path = "Dilshad Garden" :: p1 := by
    have := hgood.head
    cases path with
    | nil => cases this
    | cons a t =>
      simp only [List.head?_cons, Option.some.injEq] at this
      exact ⟨t, by rw [this]⟩
  subst hp1
  intro hmem
  exact change_before (mainGraph w) (main_lines_single w) "Kashmere Gate" p1 "Dilshad Garden"
    (by rw [hDG, hKG]; decide) hmem

/-- C28 at weight 1 for every distance variable. -/
theorem C28_witness :
    getMetroLines (mainGraph unitWeights) "Dilshad Garden" = .ok ["Red Line"] ∧
    getMetroLines (mainGraph unitWeights) "Kashmere Gate" = .ok ["Violet Line"] ∧
    ∃ N path dist,
      (∀ fuel, N ≤ fuel →
        dijkstra fuel (mainGraph unitWeights) "Dilshad Garden" "HUDA City Centre"
          = some (mainGraph unitWeights, (path, dist))) ∧
      path.head? = some "Dilshad Garden" ∧ path.getLast? = some "HUDA City Centre" ∧
      ("Kashmere Gate" ∈ path →
        ∃ i, i + 1 < path.length ∧ path.getD i "" ≠ "Kashmere Gate" ∧
          (∀ j, j < i → ∃ c, annotateAt (mainGraph unitWeights) path j
            = .ok (mainGraph unitWeights, [path.getD j "", " (", c, ")", " -> "])) ∧
          (annotateAt (mainGraph unitWeights) path i = .error .out_of_range ∨
            ∃ l, annotateAt (mainGraph unitWeights) path i
              = .ok (mainGraph unitWeights,
                  [path.getD i "", " [Change to ", l, " Line]", " -> "]))) :=
  C28_change_before_kashmere_gate unitWeights (fun _ => by simp [unitWeights])
    (by rw [main_totalWeight]; decide!)

/-- C35: the path that `dijkstra(s, d)` returns contains no station twice, on every graph
and whatever the weights are (zero weights and self-loops included), because the
reconstruction follows `previous` and stops at the source or at an empty name; and when the
weights are non-negative and those of the adjacency entries total less than 2^31, a path
is returned. -/
theorem C35_path_no_repeats (ops : List LoadOp) (s d : String) :
    (∀ fuel g' path dist, dijkstra fuel (load ops) s d = some (g', (path, dist)) →
      path.Nodup) ∧
    (NonNeg (load ops).adjacencyList →
      totalWeight (load ops).adjacencyList < 2147483648 →
      ∃ N, ∀ fuel, N ≤ fuel → ∃ g' path dist,
        dijkstra fuel (load ops) s d = some (g', (path, dist)) ∧ path.Nodup) := by
  refine ⟨fun fuel g' path dist h => dijkstra_nodup fuel _ g' s d path dist h, ?_⟩
  intro hnn htot
  obtain ⟨N, hN⟩ := dijkstra_total ops s d hnn htot
  refine ⟨N, fun fuel hfuel => ?_⟩
  obtain ⟨⟨g', path, dist⟩, hr⟩ := hN fuel hfuel
  exact ⟨g', path, dist, hr, dijkstra_nodup fuel _ g' s d path dist hr⟩

/-- C35 on three zero-weight edges, one of them a self-loop. -/
theorem C35_witness :
    dijkstra 6 (load zeroLoopOps) "a" "c" = some (load zeroLoopOps, (["a", "b", "c"], 0)) ∧
    ["a", "b", "c"].Nodup :=
  ⟨by decide, (C35_path_no_repeats zeroLoopOps "a" "c").1 6 (load zeroLoopOps)
    ["a", "b", "c"] 0 (by decide)⟩

/-- C34 as stated fails when the bound is read for the weights passed to `addEdge`: the
three calls with weights 2^30, 0 and 0 total 2^30, yet `dijkstra("c", "d")` never returns.
The sum 2^30 + 2^30 wraps around, the main loop ends with `previous["a"] = "b"` and
`previous["b"] = "a"`, and the backward walk from "d" runs through "b" and "a" for ever. -/
theorem C34_counterexample :
    (opWeights cycleOps).sum = 1073741824 ∧ (∀ w ∈ opWeights cycleOps, 0 ≤ w) ∧
    (∀ fuel, dijkstra fuel (load cycleOps) "c" "d" = none) := by
  refine ⟨by decide, by decide, ?_⟩
  intro fuel
  have hfacts : (mainLoop "d" 8 (load cycleOps).adjacencyList
      ⟨assign (initDistance (load cycleOps).adjacencyList) "c" 0, [], [(0, "c")]⟩).map
        (fun r => (lookupD r.2.previous "d" "", lookupD r.2.previous "b" "",
          lookupD r.2.previous "a" "", lookupD r.2.distance "d" 0))
      = some ("b", "a", "b", -1073741824) := by
    decide
  cases hloop : mainLoop "d" 8 (load cycleOps).adjacencyList
      ⟨assign (initDistance (load cycleOps).adjacencyList) "c" 0, [], [(0, "c")]⟩ with
  | none => rw [hloop] at hfacts; cases hfacts
  | some r =>
    rw [hloop] at hfacts
    simp only [Option.map_some', Option.some.injEq, Prod.mk.injEq] at hfacts
    obtain ⟨hd, hb, ha, hdist⟩ := hfacts
    have hcyc := walkBack_two_cycle "c" r.2.previous "b" "a" hb ha
      (by decide) (by decide) (by decide) (by decide)
    have hnever : ∀ n, walkBack "c" r.2.previous n "d" [] = none := by
      intro n
      cases n with
      | zero => rfl
      | succ n =>
        rw [walkBack]
        simp only [hd, if_false, show ("d" : String) ≠ "" by decide,
          show ("d" : String) ≠ "c" by decide]
        exact (hcyc n _).1
    cases hres : dijkstra fuel (load cycleOps) "c" "d" with
    | none => rfl
    | some res =>
      exfalso
      have hbig := dijkstra_mono fuel (max fuel 8) _ _ _ res (le_max_left _ _) hres
      have hl := mainLoop_mono "d" 8 (max fuel 8) _ _ _ (le_max_right _ _) hloop
      have hne : ¬ lookupD r.2.distance "d" 0 = INT_MAX := by
        rw [hdist]
        decide
      simp only [dijkstra, hl, hne, if_false, hnever] at hbig
      cases hbig

/-- C34, amended: on every graph built by `addStation` and `addEdge` calls whose weights are
non-negative and whose adjacency entries (each `addEdge` weight stored twice) total less
than 2^31, `dijkstra(s, d)` returns for all names `s` and `d`, with or without adjacency
entries: both the main loop and the backward walk over `previous` end. -/
theorem C34_dijkstra_terminates (ops : List LoadOp) (s d : String)
    (hnn : NonNeg (load ops).adjacencyList)
    (htot : totalWeight (load ops).adjacencyList < 2147483648) :
    ∃ N, ∀ fuel, N ≤ fuel → ∃ r, dijkstra fuel (load ops) s d = some r :=
  dijkstra_total ops s d hnn htot

/-- C34, amended, on three zero-weight edges, one of them a self-loop. -/
theorem C34_witness :
    ∃ N, ∀ fuel, N ≤ fuel → ∃ r, dijkstra fuel (load zeroLoopOps) "c" "a" = some r :=
  C34_dijkstra_terminates zeroLoopOps "c" "a"
    (load_nonNeg zeroLoopOps (by decide)) (by rw [load_totalWeight]; decide)

/-- C36: on a graph built by `addStation` and `addEdge` calls whose weights are non-negative
and whose adjacency entries total less than 2^31, every sum `dist + weight` that
`dijkstra(s, d)` forms lies in the range of a 32-bit signed `int`, so the stored `new_dist`
is the exact sum, for all names `s` and `d`; and when some walk joins `s` to `d`, the
returned distance is below 2147483647. -/
theorem C36_no_overflow (ops : List LoadOp) (s d : String)
    (hnn : NonNeg (load ops).adjacencyList)
    (htot : totalWeight (load ops).adjacencyList < 2147483648) :
    (∃ N, ∀ fuel, N ≤ fuel → ∃ sums, dijkstraSums fuel (load ops) s d = some sums ∧
      ∀ x ∈ sums, -2147483648 ≤ x ∧ x ≤ 2147483647 ∧ wrap32 x = x) ∧
    (∀ c, Walk (load ops).adjacencyList s d c →
      ∃ N path dist,
        (∀ fuel, N ≤ fuel →
          dijkstra fuel (load ops) s d = some (load ops, (path, dist))) ∧
        dist < 2147483647) := by
  have htot' := load_total_lt ops htot
  constructor
  · by_cases hs : hasKey (load ops).adjacencyList s = true
    · have hrange : ∀ v, INT_MIN ≤ distOf
          ⟨assign (initDistance (load ops).adjacencyList) s 0, [], [(0, s)]⟩ v := by
        intro v
        simp only [distOf, lookupD_assign, lookupD_initDistance]
        unfold INT_MIN INT_MAX
        split
        · omega
        · split <;> omega
      obtain ⟨r, hr⟩ := mainLoop_terminates d
        (potential (targets (load ops).adjacencyList)
          ⟨assign (initDistance (load ops).adjacencyList) s 0, [], [(0, s)]⟩).toNat
        (load ops).adjacencyList
        ⟨assign (initDistance (load ops).adjacencyList) s 0, [], [(0, s)]⟩ hrange
        (Int.self_le_toNat _)
      obtain ⟨sums, hsums, hbound⟩ := mainLoopSums_inv (load ops).adjacencyList s d hnn
        (load_closed ops) htot' _ _ [] (inv_init _ s d hnn hs) r hr
      refine ⟨(potential (targets (load ops).adjacencyList)
        ⟨assign (initDistance (load ops).adjacencyList) s 0, [], [(0, s)]⟩).toNat + 1, ?_⟩
      intro fuel hfuel
      refine ⟨sums, mainLoopSums_mono d _ fuel _ _ _ hfuel hsums, ?_⟩
      intro x hx
      obtain ⟨h0, h1⟩ := hbound x hx
      simp only [INT_MAX] at htot'
      refine ⟨by omega, by omega, wrap32_eq x ?_ ?_⟩
      · unfold INT_MIN; omega
      · unfold INT_MAX; omega
    · refine ⟨2, fun fuel hfuel => ⟨[], dijkstraSums_absent_source (load ops) s d fuel
        (by simpa using hs) hfuel, by simp⟩⟩
  · intro c hw
    obtain ⟨N, path, dist, hN, _, hlt, _⟩ := planner_reachable ops s d c hnn htot hw
    exact ⟨N, path, dist, hN, by simpa [INT_MAX] using hlt⟩

/-- C36 on the three-station line, from "Samaypur Badli" to "Haiderpur Badli Mor". -/
theorem C36_witness :
    (∃ N, ∀ fuel, N ≤ fuel → ∃ sums,
      dijkstraSums fuel (load lineOps) "Samaypur Badli" "Haiderpur Badli Mor" = some sums ∧
      ∀ x ∈ sums, -2147483648 ≤ x ∧ x ≤ 2147483647 ∧ wrap32 x = x) ∧
    (∀ c, Walk (load lineOps).adjacencyList "Samaypur Badli" "Haiderpur Badli Mor" c →
      ∃ N path dist,
        (∀ fuel, N ≤ fuel →
          dijkstra fuel (load lineOps) "Samaypur Badli" "Haiderpur Badli Mor"
            = some (load lineOps, (path, dist))) ∧
        dist < 2147483647) :=
  C36_no_overflow lineOps "Samaypur Badli" "Haiderpur Badli Mor"
    (load_nonNeg lineOps (by decide)) (by rw [load_totalWeight]; decide)

/-- C31: for all stations `A` and `B` of any graph, registered or not, the value that
`calculateDistance(A, B)` computes equals the one that `calculateDistance(B, A)` computes
(haversine formula with radius 6371.0, read over the reals). -/
theorem C31_distance_symmetric (g : MetroGraph) (A B : String) :
    calculateDistanceKm g A B = calculateDistanceKm g B A := by
  rw [calculateDistanceKm_eq, calculateDistanceKm_eq]
  exact haversine_symm _ _ _ _

/-- C33 as stated fails when a sum of weights overflows: after one `addEdge("a", "b", 2^30)`
call (non-negative weight, adjacency entries totalling 2^31) `dijkstra("a", "b")` returns
the path a, b with distance 1073741824, while the variant that keeps extracting relaxes the
edge back from "b", whose sum 2^30 + 2^30 wraps around, and returns the same path with
distance -1073741824. -/
theorem C33_counterexample :
    NonNeg (load halfOps).adjacencyList ∧
    totalWeight (load halfOps).adjacencyList = 2147483648 ∧
    (∀ fuel, 2 ≤ fuel → dijkstra fuel (load halfOps) "a" "b"
      = some (load halfOps, (["a", "b"], 1073741824))) ∧
    (∀ fuel, 5 ≤ fuel → dijkstraFull fuel (load halfOps) "a" "b"
      = some (load halfOps, (["a", "b"], -1073741824))) :=
  ⟨load_nonNeg halfOps (by decide), by rw [load_totalWeight]; decide,
    fun fuel hfuel => dijkstra_mono 2 fuel _ _ _ _ hfuel (by decide),
    fun fuel hfuel => dijkstraFull_mono 5 fuel _ _ _ _ hfuel (by decide)⟩

/-- C33, amended: on every graph built by `addStation` and `addEdge` calls whose weights are
non-negative and whose adjacency entries (each `addEdge` weight stored twice) total less
than 2^31, for all names `s` and `d`, `dijkstra(s, d)` as written returns, and the variant
that keeps extracting until the priority queue is empty returns the same path and the same
distance. -/
theorem C33_early_exit (ops : List LoadOp) (s d : String)
    (hnn : NonNeg (load ops).adjacencyList)
    (htot : totalWeight (load ops).adjacencyList < 2147483648) :
    ∃ N, ∀ fuel, N ≤ fuel → ∃ r r', dijkstra fuel (load ops) s d = some r ∧
      dijkstraFull fuel (load ops) s d = some r' ∧ r'.2 = r.2 :=
  dijkstraFull_agrees ops s d hnn htot

/-- C33, amended, on the three-station line, from "Samaypur Badli" to the middle station
"Rohini Sector 18, 19": the variant goes on to extract "Haiderpur Badli Mor". -/
theorem C33_witness :
    ∃ N, ∀ fuel, N ≤ fuel → ∃ r r',
      dijkstra fuel (load lineOps) "Samaypur Badli" "Rohini Sector 18, 19" = some r ∧
      dijkstraFull fuel (load lineOps) "Samaypur Badli" "Rohini Sector 18, 19" = some r' ∧
      r'.2 = r.2 :=
  C33_early_exit lineOps "Samaypur Badli" "Rohini Sector 18, 19"
    (load_nonNeg lineOps (by decide)) (by rw [load_totalWeight]; decide)

end DelhiMetro
